import Mathlib

/-!
Checked-pointer runtime, graph evaluator and graph lifter.

A shallow embedding of

* `src/runtime/checked_ptr.h`, `src/runtime/checked_ptr.c` (tagged values, `Eval`, the `ck_*` primitives),
* `src/runtime/heap_gen.h`, `src/runtime/heap_gen.c` (`Obj`, `Heap`, `Env`, `heap_get_obj`, `heap_get_field`),
* `src/programs/kernels.c` (the six kernels),
* `src/checker/graph_eval.c` (`env_lookup`, `eval_node`, `graph_eval`),
* `src/llvm_pass/GuardedGraphPass.cpp` (`GraphBuilder`, the lifting loop of `GuardedGraphPass::run`).

Conventions.

* A C `int` is a Lean `Int`.  Right shift by one of a signed word is the arithmetic shift
  (`v / 2`, rounding down), `v & 1` is `v % 2`; the only place where 32-bit overflow can occur is
  the left shift in `VAL_INT` / `VAL_PTR`, which goes through `wrap32`.
* C truth values: an `int` used as a condition is true iff it is nonzero.
* `eval_node` threads the `memo` / `seen` scratch arrays explicitly and recurses on a fuel
  argument; `eval_node_progress` shows that fuel above `num_nodes` is always enough.
-/

namespace Deref

/-! ## Definitions -/

/-- Error codes, enum Err of checked_ptr.h: OK=0, ERR_NULL=1, ERR_INVALID=2, ERR_TYPE=3,
ERR_MISSING_FIELD=4. -/
inductive Err where
  | OK
  | ERR_NULL
  | ERR_INVALID
  | ERR_TYPE
  | ERR_MISSING_FIELD
deriving DecidableEq, Repr

/-- Numeric value of an error code, as printed by the driver. -/
def Err.code : Err → Int
  | .OK => 0
  | .ERR_NULL => 1
  | .ERR_INVALID => 2
  | .ERR_TYPE => 3
  | .ERR_MISSING_FIELD => 4

/-- Result record, struct Eval of checked_ptr.h: ok is 1 for ok and 0 for error, err is the error
code when ok is 0, value is the tagged word. -/
structure Eval where
  ok : Int
  err : Err
  value : Int
deriving DecidableEq, Repr

/-- Two's-complement reduction of an integer to a signed 32-bit word. -/
def wrap32 (x : Int) : Int := (x + 2147483648) % 4294967296 - 2147483648

/-- Macro VAL_INT: ((x) << 1) | 1.  The shifted word is even, so or-ing 1 adds 1. -/
def VAL_INT (x : Int) : Int := wrap32 (x * 2) + 1

/-- Macro VAL_PTR: (addr) << 1. -/
def VAL_PTR (addr : Int) : Int := wrap32 (addr * 2)

/-- Macro VAL_NULL. -/
def VAL_NULL : Int := 0

/-- Macro VAL_IS_INT: ((v) & 1) != 0. -/
def VAL_IS_INT (v : Int) : Bool := v % 2 != 0

/-- Macro VAL_IS_PTR: ((v) != 0) && (((v) & 1) == 0). -/
def VAL_IS_PTR (v : Int) : Bool := v != 0 && v % 2 == 0

/-- Macro VAL_INT_VALUE: (v) >> 1, arithmetic shift. -/
def VAL_INT_VALUE (v : Int) : Int := v / 2

/-- Macro VAL_PTR_ADDR: (v) >> 1, arithmetic shift. -/
def VAL_PTR_ADDR (v : Int) : Int := v / 2

/-- Constant FIELD_DEREF of heap_gen.h. -/
def FIELD_DEREF : Int := 0

/-- Constant FIELD_F of heap_gen.h. -/
def FIELD_F : Int := 1

/-- Constant FIELD_G of heap_gen.h. -/
def FIELD_G : Int := 2

/-- Constant MAX_FIELDS of heap_gen.h. -/
abbrev MAX_FIELDS : Nat := 3

/-- Object record, struct Obj of heap_gen.h: three presence flags and three tagged words. -/
structure Obj where
  has_field : Fin MAX_FIELDS → Int
  value : Fin MAX_FIELDS → Int

/-- Heap, struct Heap of heap_gen.h.  heap_create allocates exactly num_objs objects, so the
object count is the length of the object table. -/
structure Heap where
  objs : List Obj

/-- Field num_objs of struct Heap. -/
def Heap.num_objs (heap : Heap) : Int := heap.objs.length

/-- Environment, struct Env of heap_gen.h. -/
structure Env where
  p : Int
  q : Int
deriving DecidableEq, Repr

/-- Function heap_get_obj of heap_gen.c: the object at a 1-based address, or NULL (none). -/
def heap_get_obj (heap : Heap) (addr : Int) : Option Obj :=
  if addr ≤ 0 ∨ addr > heap.num_objs then none
  else heap.objs[(addr - 1).toNat]?

/-- Function heap_get_field of heap_gen.c: none when it returns 0, some of the word written to
out_value when it returns 1. -/
def heap_get_field (obj : Obj) (field : Int) : Option Int :=
  if h : field < 0 ∨ field ≥ MAX_FIELDS then none
  else
    let i : Fin MAX_FIELDS := ⟨field.toNat, by simp only [MAX_FIELDS] at h ⊢; omega⟩
    if obj.has_field i = 0 then none
    else some (obj.value i)

/-- Static function eval_ok of checked_ptr.c. -/
def eval_ok (tagged : Int) : Eval := { ok := 1, err := Err.OK, value := tagged }

/-- Static function eval_err of checked_ptr.c. -/
def eval_err (err : Err) : Eval := { ok := 0, err := err, value := 0 }

/-- Function ck_input of checked_ptr.c; the name is ignored. -/
def ck_input (_name : String) (tagged : Int) : Eval := eval_ok tagged

/-- Function ck_const_int of checked_ptr.c. -/
def ck_const_int (value : Int) : Eval := eval_ok (VAL_INT value)

/-- Function ck_const_null of checked_ptr.c. -/
def ck_const_null : Eval := eval_ok VAL_NULL

/-- Function ck_guard_nonnull of checked_ptr.c. -/
def ck_guard_nonnull (v : Eval) : Eval :=
  if v.ok = 0 then v
  else if VAL_IS_INT v.value then eval_err Err.ERR_TYPE
  else eval_ok (VAL_INT (if v.value ≠ 0 then 1 else 0))

/-- Function ck_guard_eq of checked_ptr.c. -/
def ck_guard_eq (a b : Eval) : Eval :=
  if a.ok = 0 then a
  else if b.ok = 0 then b
  else eval_ok (VAL_INT (if a.value = b.value then 1 else 0))

/-- Function ck_select of checked_ptr.c. -/
def ck_select (cond then_v else_v : Eval) : Eval :=
  if cond.ok = 0 then cond
  else if !VAL_IS_INT cond.value then eval_err Err.ERR_TYPE
  else if VAL_INT_VALUE cond.value ≠ 0 then then_v
  else else_v

/-- Function ck_add of checked_ptr.c. -/
def ck_add (a b : Eval) : Eval :=
  if a.ok = 0 then a
  else if b.ok = 0 then b
  else if !VAL_IS_INT a.value || !VAL_IS_INT b.value then eval_err Err.ERR_TYPE
  else eval_ok (VAL_INT (VAL_INT_VALUE a.value + VAL_INT_VALUE b.value))

/-- Static function load_field of checked_ptr.c. -/
def load_field (heap : Heap) (ptr : Eval) (field : Int) (require_int : Bool) : Eval :=
  if ptr.ok = 0 then ptr
  else if VAL_IS_INT ptr.value then eval_err Err.ERR_TYPE
  else if ptr.value = VAL_NULL then eval_err Err.ERR_NULL
  else
    match heap_get_obj heap (VAL_PTR_ADDR ptr.value) with
    | none => eval_err Err.ERR_INVALID
    | some obj =>
      match heap_get_field obj field with
      | none => eval_err Err.ERR_MISSING_FIELD
      | some value =>
        if require_int && !VAL_IS_INT value then eval_err Err.ERR_TYPE
        else eval_ok value

/-- Function ck_load_ptr of checked_ptr.c. -/
def ck_load_ptr (heap : Heap) (ptr : Eval) : Eval := load_field heap ptr FIELD_DEREF false

/-- Function ck_load_int of checked_ptr.c. -/
def ck_load_int (heap : Heap) (ptr : Eval) : Eval := load_field heap ptr FIELD_DEREF true

/-- Function ck_getfield of checked_ptr.c. -/
def ck_getfield (heap : Heap) (ptr : Eval) (field : Int) : Eval := load_field heap ptr field false

/-- Function ck_getfield_int of checked_ptr.c. -/
def ck_getfield_int (heap : Heap) (ptr : Eval) (field : Int) : Eval :=
  load_field heap ptr field true

/-! ### The six kernels (`src/programs/kernels.c`) -/

/-- Kernel triple_deref of kernels.c. -/
def triple_deref (heap : Heap) (p _q : Int) : Eval :=
  let vp := ck_input "p" p
  let v1 := ck_load_ptr heap vp
  let v2 := ck_load_ptr heap v1
  let v3 := ck_load_ptr heap v2
  v3

/-- Kernel field_chain of kernels.c. -/
def field_chain (heap : Heap) (p _q : Int) : Eval :=
  let vp := ck_input "p" p
  let v1 := ck_getfield heap vp FIELD_F
  let v2 := ck_getfield heap v1 FIELD_G
  v2

/-- Kernel guarded_chain of kernels.c. -/
def guarded_chain (heap : Heap) (p _q : Int) : Eval :=
  let vp := ck_input "p" p
  let cond := ck_guard_nonnull vp
  let then_v := ck_load_ptr heap (ck_load_ptr heap vp)
  let else_v := ck_const_int 0
  ck_select cond then_v else_v

/-- Kernel alias_branch of kernels.c. -/
def alias_branch (heap : Heap) (p q : Int) : Eval :=
  let vp := ck_input "p" p
  let vq := ck_input "q" q
  let cond := ck_guard_eq vp vq
  let then_v := ck_load_ptr heap vp
  let else_v := ck_load_ptr heap vq
  ck_select cond then_v else_v

/-- Kernel mixed_fields of kernels.c. -/
def mixed_fields (heap : Heap) (p _q : Int) : Eval :=
  let vp := ck_input "p" p
  let pf := ck_getfield heap vp FIELD_F
  let cond := ck_guard_nonnull pf
  let then_v := ck_getfield heap pf FIELD_G
  let else_v := ck_const_int 0
  ck_select cond then_v else_v

/-- Kernel add_two of kernels.c. -/
def add_two (heap : Heap) (p q : Int) : Eval :=
  let vp := ck_input "p" p
  let vq := ck_input "q" q
  let lp := ck_load_ptr heap vp
  let lq := ck_load_ptr heap vq
  ck_add lp lq

/-! ### Graph evaluator (`src/checker/graph_eval.c`) -/

/-- Graph node, struct Node of graph_eval.c (and of GuardedGraphPass.cpp).  The default values are
the zero-filled record: absent attributes are 0 and absent strings are empty. -/
structure Node where
  id : Int := 0
  kind : String := ""
  name : String := ""
  x : Int := 0
  y : Int := 0
  field : Int := 0
  value : Int := 0
  cond : Int := 0
  then_id : Int := 0
  else_id : Int := 0
deriving DecidableEq, Repr

/-- Graph, struct Graph of graph_eval.c.  The node table is read only at indices 1..num_nodes;
entries never written by the loader are zero-filled nodes. -/
structure Graph where
  num_nodes : Int
  nodes : Int → Node
  output : Int

/-- Static function env_lookup of graph_eval.c. -/
def env_lookup (env : Env) (name : String) : Int :=
  if name = "p" then env.p
  else if name = "q" then env.q
  else VAL_NULL

/-- Scratch state of one graph_eval call: the memo and seen arrays (indexed by node id, read and
written only at indices 1..num_nodes).  The field bodies is instrumentation that is not in the C
code: it counts how many times the body of eval_node past the seen test has been entered; no
result depends on it. -/
structure EvalState where
  memo : Int → Eval
  seen : Int → Bool
  bodies : Nat

/-- Scratch state right after the two calloc calls of graph_eval: every memo slot is the
all-zero Eval (ok = 0, err = 0 = OK, value = 0) and nothing is seen. -/
def EvalState.init : EvalState :=
  { memo := fun _ => { ok := 0, err := Err.OK, value := 0 }, seen := fun _ => false, bodies := 0 }

/-- Statement seen[id] = 1 of eval_node (together with the instrumentation counter). -/
def EvalState.mark (st : EvalState) (id : Int) : EvalState :=
  { st with seen := fun i => if i = id then true else st.seen i, bodies := st.bodies + 1 }

/-- Statement memo[id] = r of eval_node. -/
def EvalState.store (st : EvalState) (id : Int) (r : Eval) : EvalState :=
  { st with memo := fun i => if i = id then r else st.memo i }

/-- Statements memo[id] = r; return memo[id] of eval_node. -/
def EvalState.ret (st : EvalState) (id : Int) (r : Eval) : Option (Eval × EvalState) :=
  some (r, st.store id r)

/-- Static function eval_node of graph_eval.c, with the scratch state threaded through and a
fuel argument bounding the recursion depth (none means out of fuel).  C leaves the order in which
the arguments of one call are evaluated unspecified; the operands are taken left to right, as
the specification states. -/
def eval_node (graph : Graph) (heap : Heap) (env : Env) :
    Nat → Int → EvalState → Option (Eval × EvalState)
  | 0, _, _ => none
  | fuel + 1, id, st =>
    if id ≤ 0 ∨ id > graph.num_nodes then
      some ({ ok := 0, err := Err.ERR_INVALID, value := 0 }, st)
    else if st.seen id then
      some (st.memo id, st)
    else
      let st := st.mark id
      let node := graph.nodes id
      if node.kind = "input" then
        st.ret id (ck_input node.name (env_lookup env node.name))
      else if node.kind = "const_int" then
        st.ret id (ck_const_int node.value)
      else if node.kind = "const_null" then
        st.ret id ck_const_null
      else if node.kind = "is_nonnull" then
        (eval_node graph heap env fuel node.x st).bind fun r =>
        r.2.ret id (ck_guard_nonnull r.1)
      else if node.kind = "guard_ptr" then
        (eval_node graph heap env fuel node.x st).bind fun r =>
        let v := r.1
        if v.ok = 0 then r.2.ret id v
        else if VAL_IS_INT v.value then r.2.ret id { ok := 0, err := Err.ERR_TYPE, value := 0 }
        else r.2.ret id v
      else if node.kind = "guard_nonnull" then
        (eval_node graph heap env fuel node.x st).bind fun r =>
        let v := r.1
        if v.ok = 0 then r.2.ret id v
        else if VAL_IS_INT v.value then r.2.ret id { ok := 0, err := Err.ERR_TYPE, value := 0 }
        else if v.value = VAL_NULL then r.2.ret id { ok := 0, err := Err.ERR_NULL, value := 0 }
        else r.2.ret id v
      else if node.kind = "guard_eq" then
        (eval_node graph heap env fuel node.x st).bind fun a =>
        (eval_node graph heap env fuel node.y a.2).bind fun b =>
        b.2.ret id (ck_guard_eq a.1 b.1)
      else if node.kind = "load_ptr" then
        (eval_node graph heap env fuel node.x st).bind fun r =>
        r.2.ret id (ck_load_ptr heap r.1)
      else if node.kind = "load_int" then
        (eval_node graph heap env fuel node.x st).bind fun r =>
        r.2.ret id (ck_load_int heap r.1)
      else if node.kind = "getfield" then
        (eval_node graph heap env fuel node.x st).bind fun r =>
        r.2.ret id (ck_getfield heap r.1 node.field)
      else if node.kind = "getfield_int" then
        (eval_node graph heap env fuel node.x st).bind fun r =>
        r.2.ret id (ck_getfield_int heap r.1 node.field)
      else if node.kind = "select" then
        (eval_node graph heap env fuel node.cond st).bind fun c =>
        (eval_node graph heap env fuel node.then_id c.2).bind fun t =>
        (eval_node graph heap env fuel node.else_id t.2).bind fun e =>
        e.2.ret id (ck_select c.1 t.1 e.1)
      else if node.kind = "add" then
        (eval_node graph heap env fuel node.x st).bind fun a =>
        (eval_node graph heap env fuel node.y a.2).bind fun b =>
        b.2.ret id (ck_add a.1 b.1)
      else
        st.ret id { ok := 0, err := Err.ERR_INVALID, value := 0 }

/-- Function graph_eval of graph_eval.c with the final scratch state kept, for a given fuel.  The
graph pointer is never NULL here and the two allocations are taken to succeed. -/
def graph_eval_run (fuel : Nat) (graph : Graph) (heap : Heap) (env : Env) :
    Option (Eval × EvalState) :=
  if graph.output ≤ 0 then
    some ({ ok := 0, err := Err.ERR_INVALID, value := 0 }, EvalState.init)
  else
    eval_node graph heap env fuel graph.output EvalState.init

/-- Function graph_eval of graph_eval.c.  The recursion is given num_nodes + 1 units of fuel,
which eval_node_progress shows is always enough. -/
def graph_eval (graph : Graph) (heap : Heap) (env : Env) : Option Eval :=
  (graph_eval_run (graph.num_nodes.toNat + 1) graph heap env).map Prod.fst


/-! ### Evaluation without memoization -/

/-- Plain recursive evaluation of a node: the body of eval_node with the memo and seen arrays
removed, so that every operand is recomputed on each use.  The fuel bounds the recursion depth
(none means out of fuel). -/
def eval_node_plain (graph : Graph) (heap : Heap) (env : Env) : Nat → Int → Option Eval
  | 0, _ => none
  | fuel + 1, id =>
    if id ≤ 0 ∨ id > graph.num_nodes then
      some { ok := 0, err := Err.ERR_INVALID, value := 0 }
    else
      let node := graph.nodes id
      if node.kind = "input" then
        some (ck_input node.name (env_lookup env node.name))
      else if node.kind = "const_int" then
        some (ck_const_int node.value)
      else if node.kind = "const_null" then
        some ck_const_null
      else if node.kind = "is_nonnull" then
        (eval_node_plain graph heap env fuel node.x).bind fun v =>
        some (ck_guard_nonnull v)
      else if node.kind = "guard_ptr" then
        (eval_node_plain graph heap env fuel node.x).bind fun v =>
        if v.ok = 0 then some v
        else if VAL_IS_INT v.value then some { ok := 0, err := Err.ERR_TYPE, value := 0 }
        else some v
      else if node.kind = "guard_nonnull" then
        (eval_node_plain graph heap env fuel node.x).bind fun v =>
        if v.ok = 0 then some v
        else if VAL_IS_INT v.value then some { ok := 0, err := Err.ERR_TYPE, value := 0 }
        else if v.value = VAL_NULL then some { ok := 0, err := Err.ERR_NULL, value := 0 }
        else some v
      else if node.kind = "guard_eq" then
        (eval_node_plain graph heap env fuel node.x).bind fun a =>
        (eval_node_plain graph heap env fuel node.y).bind fun b =>
        some (ck_guard_eq a b)
      else if node.kind = "load_ptr" then
        (eval_node_plain graph heap env fuel node.x).bind fun v =>
        some (ck_load_ptr heap v)
      else if node.kind = "load_int" then
        (eval_node_plain graph heap env fuel node.x).bind fun v =>
        some (ck_load_int heap v)
      else if node.kind = "getfield" then
        (eval_node_plain graph heap env fuel node.x).bind fun v =>
        some (ck_getfield heap v node.field)
      else if node.kind = "getfield_int" then
        (eval_node_plain graph heap env fuel node.x).bind fun v =>
        some (ck_getfield_int heap v node.field)
      else if node.kind = "select" then
        (eval_node_plain graph heap env fuel node.cond).bind fun c =>
        (eval_node_plain graph heap env fuel node.then_id).bind fun t =>
        (eval_node_plain graph heap env fuel node.else_id).bind fun e =>
        some (ck_select c t e)
      else if node.kind = "add" then
        (eval_node_plain graph heap env fuel node.x).bind fun a =>
        (eval_node_plain graph heap env fuel node.y).bind fun b =>
        some (ck_add a b)
      else
        some { ok := 0, err := Err.ERR_INVALID, value := 0 }

/-- Evaluation of a whole graph without memoization: graph_eval with eval_node replaced by
eval_node_plain. -/
def graph_eval_plain (fuel : Nat) (graph : Graph) (heap : Heap) (env : Env) : Option Eval :=
  if graph.output ≤ 0 then
    some { ok := 0, err := Err.ERR_INVALID, value := 0 }
  else
    eval_node_plain graph heap env fuel graph.output

/-- Operand ids that eval_node reads for a node, in evaluation order, by kind. -/
def node_operands (n : Node) : List Int :=
  if n.kind = "input" then []
  else if n.kind = "const_int" then []
  else if n.kind = "const_null" then []
  else if n.kind = "is_nonnull" then [n.x]
  else if n.kind = "guard_ptr" then [n.x]
  else if n.kind = "guard_nonnull" then [n.x]
  else if n.kind = "guard_eq" then [n.x, n.y]
  else if n.kind = "load_ptr" then [n.x]
  else if n.kind = "load_int" then [n.x]
  else if n.kind = "getfield" then [n.x]
  else if n.kind = "getfield_int" then [n.x]
  else if n.kind = "select" then [n.cond, n.then_id, n.else_id]
  else if n.kind = "add" then [n.x, n.y]
  else []

/-- Value of a guard_ptr node as a function of its operand's Eval (graph_eval.c lines 425-433). -/
def guard_ptr_node (v : Eval) : Eval :=
  if v.ok = 0 then v
  else if VAL_IS_INT v.value then { ok := 0, err := Err.ERR_TYPE, value := 0 }
  else v

/-- Value of a guard_nonnull node as a function of its operand's Eval (graph_eval.c lines
434-444). -/
def guard_nonnull_node (v : Eval) : Eval :=
  if v.ok = 0 then v
  else if VAL_IS_INT v.value then { ok := 0, err := Err.ERR_TYPE, value := 0 }
  else if v.value = VAL_NULL then { ok := 0, err := Err.ERR_NULL, value := 0 }
  else v

/-- The all-zero Eval that calloc leaves in a memo slot. -/
def zero_eval : Eval := { ok := 0, err := Err.OK, value := 0 }

/-- Value that eval_node stores for a node, as a function of the Evals of its operands (listed
as in node_operands). -/
def node_combine (heap : Heap) (env : Env) (n : Node) (vals : List Eval) : Eval :=
  if n.kind = "input" then ck_input n.name (env_lookup env n.name)
  else if n.kind = "const_int" then ck_const_int n.value
  else if n.kind = "const_null" then ck_const_null
  else if n.kind = "is_nonnull" then ck_guard_nonnull (vals.getD 0 zero_eval)
  else if n.kind = "guard_ptr" then guard_ptr_node (vals.getD 0 zero_eval)
  else if n.kind = "guard_nonnull" then guard_nonnull_node (vals.getD 0 zero_eval)
  else if n.kind = "guard_eq" then ck_guard_eq (vals.getD 0 zero_eval) (vals.getD 1 zero_eval)
  else if n.kind = "load_ptr" then ck_load_ptr heap (vals.getD 0 zero_eval)
  else if n.kind = "load_int" then ck_load_int heap (vals.getD 0 zero_eval)
  else if n.kind = "getfield" then ck_getfield heap (vals.getD 0 zero_eval) n.field
  else if n.kind = "getfield_int" then ck_getfield_int heap (vals.getD 0 zero_eval) n.field
  else if n.kind = "select" then
    ck_select (vals.getD 0 zero_eval) (vals.getD 1 zero_eval) (vals.getD 2 zero_eval)
  else if n.kind = "add" then ck_add (vals.getD 0 zero_eval) (vals.getD 1 zero_eval)
  else { ok := 0, err := Err.ERR_INVALID, value := 0 }

/-- Left-to-right evaluation of a list of operand ids with a state-passing evaluator. -/
def eval_ops (ev : Int → EvalState → Option (Eval × EvalState)) :
    List Int → EvalState → Option (List Eval × EvalState)
  | [], st => some ([], st)
  | o :: os, st =>
    (ev o st).bind fun r =>
    (eval_ops ev os r.2).bind fun rs =>
    some (r.1 :: rs.1, rs.2)

/-- Evaluation of a list of operand ids with a stateless evaluator. -/
def eval_ops_plain (ev : Int → Option Eval) : List Int → Option (List Eval)
  | [] => some []
  | o :: os =>
    (ev o).bind fun r =>
    (eval_ops_plain ev os).bind fun rs =>
    some (r :: rs)

/-- Node ids inside the table: 1..num_nodes. -/
def in_range (graph : Graph) (id : Int) : Prop := 1 ≤ id ∧ id ≤ graph.num_nodes

/-- Edge of the graph: o is an in-range operand of the in-range node i. -/
def Edge (graph : Graph) (i o : Int) : Prop :=
  in_range graph i ∧ o ∈ node_operands (graph.nodes i) ∧ in_range graph o

/-- Node ids reachable from the output node along edges. -/
inductive Reachable (graph : Graph) : Int → Prop
  | output : Reachable graph graph.output
  | step {i o : Int} : Reachable graph i → Edge graph i o → Reachable graph o

/-- The part of the graph reachable from the output has no cycle. -/
def Acyclic (graph : Graph) : Prop :=
  ∀ i, Reachable graph i → ¬ Relation.TransGen (Edge graph) i i

/-- Number of node ids in 1..num_nodes not yet marked seen. -/
def unseen_count (graph : Graph) (st : EvalState) : Nat :=
  ((Finset.Icc 1 graph.num_nodes).filter (fun i => st.seen i = false)).card


/-! ### Graph lifter, seen call by call (`src/llvm_pass/GuardedGraphPass.cpp`)

The pass walks the instructions of a kernel; that walk is modelled further down (`run_instr`).
This section is the pass as it acts on a kernel given by the straight-line sequence of its
checked-runtime calls in source order, each Eval operand named by the index of the earlier call
that produced it, and each constant argument (the value of `ck_const_int`, the field index, the
input name) given as the constant.  It is what the pass does when its alloca / store / memcpy /
load tracking leads every operand to the call that produced it; `kernel_of` gives this sequence
for a function that keeps its Evals in local bindings, and `kernel_of_spec` shows that on such a
function the pass emits the nodes of this section.  On other functions it does not. -/

/-- Kernel parameter handed to ck_input as its tagged argument. -/
inductive Param where
  | p
  | q
deriving DecidableEq, Repr

/-- One checked-runtime call of a straight-line kernel; Nat operands are indices of earlier
calls. -/
inductive Call where
  | ck_input (name : String) (tagged : Param)
  | ck_const_int (value : Int)
  | ck_const_null
  | ck_guard_nonnull (v : Nat)
  | ck_guard_eq (a b : Nat)
  | ck_select (cond then_v else_v : Nat)
  | ck_add (a b : Nat)
  | ck_load_ptr (ptr : Nat)
  | ck_load_int (ptr : Nat)
  | ck_getfield (ptr : Nat) (field : Int)
  | ck_getfield_int (ptr : Nat) (field : Int)
deriving DecidableEq, Repr

/-- Straight-line kernel: its calls in source order and the index of the call whose result is
returned. -/
structure Kernel where
  calls : List Call
  ret : Nat

/-- Value of the kernel parameter named by a Param. -/
def param_value (p q : Int) : Param → Int
  | .p => p
  | .q => q

/-- Execution of one call of a kernel on the results of the earlier calls (none if an operand
index does not name an earlier call). -/
def exec_call (heap : Heap) (p q : Int) (vals : List Eval) : Call → Option Eval
  | .ck_input name tagged => some (ck_input name (param_value p q tagged))
  | .ck_const_int value => some (ck_const_int value)
  | .ck_const_null => some ck_const_null
  | .ck_guard_nonnull v => (vals[v]?).bind fun v => some (ck_guard_nonnull v)
  | .ck_guard_eq a b => (vals[a]?).bind fun a => (vals[b]?).bind fun b => some (ck_guard_eq a b)
  | .ck_select c t e =>
    (vals[c]?).bind fun c => (vals[t]?).bind fun t => (vals[e]?).bind fun e =>
    some (ck_select c t e)
  | .ck_add a b => (vals[a]?).bind fun a => (vals[b]?).bind fun b => some (ck_add a b)
  | .ck_load_ptr ptr => (vals[ptr]?).bind fun v => some (ck_load_ptr heap v)
  | .ck_load_int ptr => (vals[ptr]?).bind fun v => some (ck_load_int heap v)
  | .ck_getfield ptr field => (vals[ptr]?).bind fun v => some (ck_getfield heap v field)
  | .ck_getfield_int ptr field => (vals[ptr]?).bind fun v => some (ck_getfield_int heap v field)

/-- Execution of the calls of a kernel in order, accumulating their results. -/
def run_calls (heap : Heap) (p q : Int) : List Call → List Eval → Option (List Eval)
  | [], vals => some vals
  | c :: cs, vals =>
    (exec_call heap p q vals c).bind fun r => run_calls heap p q cs (vals ++ [r])

/-- Direct execution of a straight-line kernel on a heap and the two parameters. -/
def run_kernel (k : Kernel) (heap : Heap) (p q : Int) : Option Eval :=
  (run_calls heap p q k.calls []).bind fun vals => vals[k.ret]?

/-- Operand discipline of one call at position n: every Eval operand names an earlier call, and
ck_input on the name p (q) is fed the parameter p (q). -/
def Call.wf (n : Nat) : Call → Bool
  | .ck_input name tagged => (name == "p" && tagged == Param.p) || (name == "q" && tagged == Param.q)
  | .ck_const_int _ => true
  | .ck_const_null => true
  | .ck_guard_nonnull v => decide (v < n)
  | .ck_guard_eq a b => decide (a < n) && decide (b < n)
  | .ck_select c t e => decide (c < n) && decide (t < n) && decide (e < n)
  | .ck_add a b => decide (a < n) && decide (b < n)
  | .ck_load_ptr ptr => decide (ptr < n)
  | .ck_load_int ptr => decide (ptr < n)
  | .ck_getfield ptr _ => decide (ptr < n)
  | .ck_getfield_int ptr _ => decide (ptr < n)

/-- Operand discipline of a call sequence whose first call is at position n. -/
def calls_wf : Nat → List Call → Bool
  | _, [] => true
  | n, c :: cs => c.wf n && calls_wf (n + 1) cs

/-- Well-formed straight-line kernel: operand discipline, and the returned value is the result
of one of the calls. -/
def Kernel.wf (k : Kernel) : Bool := calls_wf 0 k.calls && decide (k.ret < k.calls.length)

/-- Builder, struct GraphBuilder of GuardedGraphPass.cpp; the std::map inputNodes is an
association list. -/
structure GraphBuilder where
  nextId : Int := 1
  nodes : List Node := []
  inputNodes : List (String × Int) := []

/-- Method GraphBuilder::addNode. -/
def GraphBuilder.addNode (b : GraphBuilder) (n : Node) : GraphBuilder × Int :=
  let node := { n with id := b.nextId }
  ({ b with nextId := b.nextId + 1, nodes := b.nodes ++ [node] }, node.id)

/-- Method GraphBuilder::getOrAddInput. -/
def GraphBuilder.getOrAddInput (b : GraphBuilder) (name : String) : GraphBuilder × Int :=
  match b.inputNodes.lookup name with
  | some id => (b, id)
  | none =>
    let r := b.addNode { kind := "input", name := name }
    ({ r.1 with inputNodes := (name, r.2) :: r.1.inputNodes }, r.2)

/-- Lambda addGuardedPtr of GuardedGraphPass::run. -/
def addGuardedPtr (b : GraphBuilder) (ptrNodeId : Int) : GraphBuilder × Int :=
  let r1 := b.addNode { kind := "guard_ptr", x := ptrNodeId }
  r1.1.addNode { kind := "guard_nonnull", x := r1.2 }

/-- Lookup of a call in valueToNode, here the list of node ids of the calls processed so far; 0
when the call is not mapped.  It is the last step of the lambda resolveNode of
GuardedGraphPass::run; the lambda with its alloca tracking is RunState.resolveNode. -/
def resolveNode (valueToNode : List Int) (v : Nat) : Int := valueToNode.getD v 0

/-- State of the lifting loop: the builder and the map valueToNode. -/
structure LiftState where
  builder : GraphBuilder := {}
  valueToNode : List Int := []

/-- Tail of the loop body: if (makeNode) { id = builder.addNode(n); valueToNode[CI] = id; }. -/
def LiftState.emit (s : LiftState) (b : GraphBuilder) (n : Node) : LiftState :=
  let r := b.addNode n
  { builder := r.1, valueToNode := s.valueToNode ++ [r.2] }

/-- Body of the instruction loop of GuardedGraphPass::run for one checked-runtime call whose
operands are named by the calls that produced them; run_instr is the loop body on the
instruction itself. -/
def lift_call (s : LiftState) : Call → LiftState
  | .ck_input name _ =>
    let r := s.builder.getOrAddInput name
    { builder := r.1, valueToNode := s.valueToNode ++ [r.2] }
  | .ck_const_int value => s.emit s.builder { kind := "const_int", value := value }
  | .ck_const_null => s.emit s.builder { kind := "const_null" }
  | .ck_guard_nonnull v => s.emit s.builder { kind := "is_nonnull", x := resolveNode s.valueToNode v }
  | .ck_guard_eq a b =>
    s.emit s.builder
      { kind := "guard_eq", x := resolveNode s.valueToNode a, y := resolveNode s.valueToNode b }
  | .ck_load_ptr ptr =>
    let g := addGuardedPtr s.builder (resolveNode s.valueToNode ptr)
    s.emit g.1 { kind := "load_ptr", x := g.2, field := 0 }
  | .ck_load_int ptr =>
    let g := addGuardedPtr s.builder (resolveNode s.valueToNode ptr)
    s.emit g.1 { kind := "load_int", x := g.2, field := 0 }
  | .ck_getfield ptr field =>
    let g := addGuardedPtr s.builder (resolveNode s.valueToNode ptr)
    s.emit g.1 { kind := "getfield", x := g.2, field := field }
  | .ck_getfield_int ptr field =>
    let g := addGuardedPtr s.builder (resolveNode s.valueToNode ptr)
    s.emit g.1 { kind := "getfield_int", x := g.2, field := field }
  | .ck_select c t e =>
    s.emit s.builder
      { kind := "select", cond := resolveNode s.valueToNode c,
        then_id := resolveNode s.valueToNode t, else_id := resolveNode s.valueToNode e }
  | .ck_add a b =>
    s.emit s.builder
      { kind := "add", x := resolveNode s.valueToNode a, y := resolveNode s.valueToNode b }

/-- Effect of parse_nodes_array on one node record (graph_eval.c lines 309-314): a record with
id > 0 is stored at nodes[id] and num_nodes is raised to id. -/
def store_node (g : Graph) (n : Node) : Graph :=
  if n.id > 0 then
    { g with
      nodes := fun i => if i = n.id then n else g.nodes i
      num_nodes := if n.id > g.num_nodes then n.id else g.num_nodes }
  else g

/-- Graph that graph_load_json builds from the document the pass writes for a node list and an
output id: the records are stored in order into a zero-filled table.  The text of the document
itself is not modelled here; kind and name strings are stored whole (the loader's buffers hold 23
and 31 characters, more than any kind or parameter name needs). -/
def load_graph (nodes : List Node) (output : Int) : Graph :=
  nodes.foldl store_node { num_nodes := 0, nodes := fun _ => {}, output := output }

/-- Lifting of a kernel given by its calls: the loop of lift_call over them, the output id of
the returned call, and the result loaded by the evaluator. -/
def lift_kernel (k : Kernel) : Graph :=
  let s := k.calls.foldl lift_call {}
  load_graph s.builder.nodes (resolveNode s.valueToNode k.ret)

/-- Node list the pass emits for a kernel. -/
def lift_nodes (k : Kernel) : List Node := (k.calls.foldl lift_call {}).builder.nodes

/-- Call sequence of triple_deref. -/
def triple_deref_kernel : Kernel :=
  { calls := [.ck_input "p" .p, .ck_load_ptr 0, .ck_load_ptr 1, .ck_load_ptr 2], ret := 3 }

/-- Call sequence of field_chain. -/
def field_chain_kernel : Kernel :=
  { calls := [.ck_input "p" .p, .ck_getfield 0 FIELD_F, .ck_getfield 1 FIELD_G], ret := 2 }

/-- Call sequence of guarded_chain; the inner ck_load_ptr runs before the outer one. -/
def guarded_chain_kernel : Kernel :=
  { calls := [.ck_input "p" .p, .ck_guard_nonnull 0, .ck_load_ptr 0, .ck_load_ptr 2,
      .ck_const_int 0, .ck_select 1 3 4], ret := 5 }

/-- Call sequence of alias_branch. -/
def alias_branch_kernel : Kernel :=
  { calls := [.ck_input "p" .p, .ck_input "q" .q, .ck_guard_eq 0 1, .ck_load_ptr 0,
      .ck_load_ptr 1, .ck_select 2 3 4], ret := 5 }

/-- Call sequence of mixed_fields. -/
def mixed_fields_kernel : Kernel :=
  { calls := [.ck_input "p" .p, .ck_getfield 0 FIELD_F, .ck_guard_nonnull 1,
      .ck_getfield 1 FIELD_G, .ck_const_int 0, .ck_select 2 3 4], ret := 5 }

/-- Call sequence of add_two. -/
def add_two_kernel : Kernel :=
  { calls := [.ck_input "p" .p, .ck_input "q" .q, .ck_load_ptr 0, .ck_load_ptr 1, .ck_add 2 3],
    ret := 4 }

/-- Error priority of a load as the specification words it: an upstream error is returned
unchanged; then Type for an integer word, Null for the null word, Invalid when the address
(the word shifted right by one) is outside 1..N, MissingField when the slot has no presence flag,
and otherwise Ok of the stored word. -/
def load_priority_spec (heap : Heap) (v : Eval) (f : Fin MAX_FIELDS) : Eval :=
  if v.ok = 0 then v
  else if v.value % 2 = 1 then eval_err Err.ERR_TYPE
  else if v.value = 0 then eval_err Err.ERR_NULL
  else if v.value / 2 < 1 ∨ (heap.objs.length : Int) < v.value / 2 then eval_err Err.ERR_INVALID
  else
    match heap.objs[(v.value / 2).toNat - 1]? with
    | none => eval_err Err.ERR_INVALID
    | some obj =>
      if obj.has_field f = 0 then eval_err Err.ERR_MISSING_FIELD
      else eval_ok (obj.value f)

/-- Relation between the scratch state before and after a call of eval_node: seen marks are
kept, the number of unseen ids does not grow, and every body entered has marked one unseen id. -/
def Progress (graph : Graph) (st st' : EvalState) : Prop :=
  (∀ i, st.seen i = true → st'.seen i = true) ∧
  unseen_count graph st' ≤ unseen_count graph st ∧
  st'.bodies + unseen_count graph st' = st.bodies + unseen_count graph st

/-- The plain evaluation of node id returns r for some fuel. -/
def Den (graph : Graph) (heap : Heap) (env : Env) (id : Int) (r : Eval) : Prop :=
  ∃ k, eval_node_plain graph heap env k id = some r

/-- Memo invariant at plain fuel k: every in-range id marked seen either holds its plain value
in its memo slot, or is a node whose plain evaluation does not finish within fuel k (a node whose
body is still running). -/
def MemoInv (graph : Graph) (heap : Heap) (env : Env) (k : Nat) (st : EvalState) : Prop :=
  ∀ a, in_range graph a → st.seen a = true →
    Den graph heap env a (st.memo a) ∨ eval_node_plain graph heap env k a = none

/-- Frame of a call of eval_node: ids already seen keep their mark and memo slot, and every
in-range id newly marked holds its plain value. -/
def Frame (graph : Graph) (heap : Heap) (env : Env) (st st' : EvalState) : Prop :=
  (∀ a, st.seen a = true → st'.seen a = true ∧ st'.memo a = st.memo a) ∧
  (∀ a, in_range graph a → st.seen a = false → st'.seen a = true →
    Den graph heap env a (st'.memo a))

/-- Example graph with a shared subexpression: node 5 adds the load of node 4 to itself. -/
def shared_graph : Graph :=
  { num_nodes := 5
    nodes := fun i =>
      if i = 1 then { id := 1, kind := "input", name := "p" }
      else if i = 2 then { id := 2, kind := "guard_ptr", x := 1 }
      else if i = 3 then { id := 3, kind := "guard_nonnull", x := 2 }
      else if i = 4 then { id := 4, kind := "load_ptr", x := 3 }
      else if i = 5 then { id := 5, kind := "add", x := 4, y := 4 }
      else {}
    output := 5 }

/-- Example heap with one object whose FIELD_DEREF slot holds Int(3) (word 7). -/
def one_int_heap : Heap :=
  { objs := [{ has_field := fun i => if i = 0 then 1 else 0,
               value := fun i => if i = 0 then 7 else 0 }] }

/-- A graph contains a node list: every listed node sits at its own id, inside the table. -/
def Contains (graph : Graph) (ns : List Node) : Prop :=
  ∀ n ∈ ns, in_range graph n.id ∧ graph.nodes n.id = n

/-- Builder invariant of the lifting loop: ids are handed out consecutively from 1, and every
entry of inputNodes points at an input node of that name. -/
def BuilderInv (b : GraphBuilder) : Prop :=
  b.nextId = (b.nodes.length : Int) + 1 ∧
  (∀ (j : Nat) (n : Node), b.nodes[j]? = some n → n.id = (j : Int) + 1) ∧
  (∀ (name : String) (id : Int), b.inputNodes.lookup name = some id →
    ∃ n ∈ b.nodes, n.id = id ∧ n.kind = "input" ∧ n.name = name)

/-- Value invariant of the lifting loop: in every graph containing the nodes emitted so far, the
node mapped to the j-th call evaluates (plainly) to the j-th result of the kernel. -/
def ValueInv (heap : Heap) (p q : Int) (ns : List Node) (vt : List Int) (vals : List Eval) :
    Prop :=
  vt.length = vals.length ∧
  ∀ (graph : Graph), Contains graph ns → ∀ (j : Nat) (v : Eval), vals[j]? = some v →
    in_range graph (vt.getD j 0) ∧ Den graph heap { p := p, q := q } (vt.getD j 0) v

/-- Node record with its id field replaced, as in the first line of GraphBuilder::addNode. -/
def set_id (n : Node) (id : Int) : Node := { n with id := id }

/-- Node list section 4.5 prescribes for triple_deref. -/
def triple_deref_nodes : List Node :=
  [{ id := 1, kind := "input", name := "p" },
   { id := 2, kind := "guard_ptr", x := 1 },
   { id := 3, kind := "guard_nonnull", x := 2 },
   { id := 4, kind := "load_ptr", x := 3 },
   { id := 5, kind := "guard_ptr", x := 4 },
   { id := 6, kind := "guard_nonnull", x := 5 },
   { id := 7, kind := "load_ptr", x := 6 },
   { id := 8, kind := "guard_ptr", x := 7 },
   { id := 9, kind := "guard_nonnull", x := 8 },
   { id := 10, kind := "load_ptr", x := 9 }]

/-- Graph of triple_deref as loaded by the evaluator; output is node 10. -/
def triple_deref_graph : Graph := load_graph triple_deref_nodes 10

/-- Node list section 4.5 prescribes for field_chain. -/
def field_chain_nodes : List Node :=
  [{ id := 1, kind := "input", name := "p" },
   { id := 2, kind := "guard_ptr", x := 1 },
   { id := 3, kind := "guard_nonnull", x := 2 },
   { id := 4, kind := "getfield", x := 3, field := 1 },
   { id := 5, kind := "guard_ptr", x := 4 },
   { id := 6, kind := "guard_nonnull", x := 5 },
   { id := 7, kind := "getfield", x := 6, field := 2 }]

/-- Graph of field_chain as loaded by the evaluator; output is node 7. -/
def field_chain_graph : Graph := load_graph field_chain_nodes 7

/-- Node list section 4.5 prescribes for guarded_chain. -/
def guarded_chain_nodes : List Node :=
  [{ id := 1, kind := "input", name := "p" },
   { id := 2, kind := "is_nonnull", x := 1 },
   { id := 3, kind := "guard_ptr", x := 1 },
   { id := 4, kind := "guard_nonnull", x := 3 },
   { id := 5, kind := "load_ptr", x := 4 },
   { id := 6, kind := "guard_ptr", x := 5 },
   { id := 7, kind := "guard_nonnull", x := 6 },
   { id := 8, kind := "load_ptr", x := 7 },
   { id := 9, kind := "const_int", value := 0 },
   { id := 10, kind := "select", cond := 2, then_id := 8, else_id := 9 }]

/-- Graph of guarded_chain as loaded by the evaluator; output is node 10. -/
def guarded_chain_graph : Graph := load_graph guarded_chain_nodes 10

/-- Node list section 4.5 prescribes for alias_branch. -/
def alias_branch_nodes : List Node :=
  [{ id := 1, kind := "input", name := "p" },
   { id := 2, kind := "input", name := "q" },
   { id := 3, kind := "guard_eq", x := 1, y := 2 },
   { id := 4, kind := "guard_ptr", x := 1 },
   { id := 5, kind := "guard_nonnull", x := 4 },
   { id := 6, kind := "load_ptr", x := 5 },
   { id := 7, kind := "guard_ptr", x := 2 },
   { id := 8, kind := "guard_nonnull", x := 7 },
   { id := 9, kind := "load_ptr", x := 8 },
   { id := 10, kind := "select", cond := 3, then_id := 6, else_id := 9 }]

/-- Graph of alias_branch as loaded by the evaluator; output is node 10. -/
def alias_branch_graph : Graph := load_graph alias_branch_nodes 10

/-- Node list section 4.5 prescribes for mixed_fields. -/
def mixed_fields_nodes : List Node :=
  [{ id := 1, kind := "input", name := "p" },
   { id := 2, kind := "guard_ptr", x := 1 },
   { id := 3, kind := "guard_nonnull", x := 2 },
   { id := 4, kind := "getfield", x := 3, field := 1 },
   { id := 5, kind := "is_nonnull", x := 4 },
   { id := 6, kind := "guard_ptr", x := 4 },
   { id := 7, kind := "guard_nonnull", x := 6 },
   { id := 8, kind := "getfield", x := 7, field := 2 },
   { id := 9, kind := "const_int", value := 0 },
   { id := 10, kind := "select", cond := 5, then_id := 8, else_id := 9 }]

/-- Graph of mixed_fields as loaded by the evaluator; output is node 10. -/
def mixed_fields_graph : Graph := load_graph mixed_fields_nodes 10

/-- Node list section 4.5 prescribes for add_two. -/
def add_two_nodes : List Node :=
  [{ id := 1, kind := "input", name := "p" },
   { id := 2, kind := "input", name := "q" },
   { id := 3, kind := "guard_ptr", x := 1 },
   { id := 4, kind := "guard_nonnull", x := 3 },
   { id := 5, kind := "load_ptr", x := 4 },
   { id := 6, kind := "guard_ptr", x := 2 },
   { id := 7, kind := "guard_nonnull", x := 6 },
   { id := 8, kind := "load_ptr", x := 7 },
   { id := 9, kind := "add", x := 5, y := 8 }]

/-- Graph of add_two as loaded by the evaluator; output is node 9. -/
def add_two_graph : Graph := load_graph add_two_nodes 9

/-- Cyclic example graph: a single guard_ptr node whose operand is itself. -/
def self_loop_graph : Graph := load_graph [{ id := 1, kind := "guard_ptr", x := 1 }] 1

/-- Heap with no object. -/
def empty_heap : Heap := { objs := [] }

/-- Example graph: a select whose condition is Null. -/
def select_null_graph : Graph :=
  load_graph
    [{ id := 1, kind := "const_null" },
     { id := 2, kind := "const_int", value := 3 },
     { id := 3, kind := "const_int", value := 4 },
     { id := 4, kind := "select", cond := 1, then_id := 2, else_id := 3 }] 4

/-- Example graph: a select on Int(0) whose then branch is a load through Null. -/
def select_untaken_graph : Graph :=
  load_graph
    [{ id := 1, kind := "const_int", value := 0 },
     { id := 2, kind := "const_null" },
     { id := 3, kind := "load_ptr", x := 2 },
     { id := 4, kind := "const_int", value := 5 },
     { id := 5, kind := "select", cond := 1, then_id := 3, else_id := 4 }] 5

/-- Predicate is_null of the specification: the word is VAL_NULL (the code writes the test as
a comparison with VAL_NULL or with 0). -/
def is_null (v : Int) : Bool := v == VAL_NULL

/-- Two's-complement reduction of an integer to the signed 31-bit payload of a tagged integer. -/
def wrap31 (x : Int) : Int := (x + 1073741824) % 2147483648 - 1073741824

/-- The thirteen node kinds eval_node knows, in the order of its strcmp chain. -/
def valid_kinds : List String :=
  ["input", "const_int", "const_null", "is_nonnull", "guard_ptr", "guard_nonnull", "guard_eq",
   "load_ptr", "load_int", "getfield", "getfield_int", "select", "add"]

/-- Example heap: object 1 has FIELD_DEREF present and holding Null; object 2 has FIELD_DEREF
absent although its stored word is 6. -/
def null_and_absent_heap : Heap :=
  { objs := [{ has_field := fun i => if i = 0 then 1 else 0, value := fun _ => 0 },
             { has_field := fun _ => 0, value := fun i => if i = 0 then 6 else 0 }] }

/-- Example of a malformed graph: node 1 has an unknown kind, node 2 is never defined, node 3
is an is_nonnull whose operand id 7 is outside the table; the output id is a parameter. -/
def gap_graph (output : Int) : Graph :=
  load_graph [{ id := 1, kind := "frobnicate" }, { id := 3, kind := "is_nonnull", x := 7 }] output

/-- Example graph: an input node feeding an is_nonnull, a guard_ptr and a guard_nonnull node. -/
def guards_graph : Graph :=
  load_graph
    [{ id := 1, kind := "input", name := "p" },
     { id := 2, kind := "is_nonnull", x := 1 },
     { id := 3, kind := "guard_ptr", x := 1 },
     { id := 4, kind := "guard_nonnull", x := 1 }] 4

/-- Function heap_create of heap_gen.c: num_objs objects with every presence flag and stored
word 0.  The two calloc calls are taken to succeed for a count >= 0; a negative count converts
to a huge size_t, calloc fails and heap_create returns NULL (none). -/
def heap_create (num_objs : Int) : Option Heap :=
  if num_objs < 0 then none
  else some { objs := List.replicate num_objs.toNat { has_field := fun _ => 0, value := fun _ => 0 } }

/-- Assignment o->has_field[f] = 1 on an object. -/
def Obj.set_present (o : Obj) (f : Fin MAX_FIELDS) : Obj :=
  { o with has_field := fun i => if i = f then 1 else o.has_field i }

/-- Assignment o->value[f] = w on an object. -/
def Obj.set_value (o : Obj) (f : Fin MAX_FIELDS) (w : Int) : Obj :=
  { o with value := fun i => if i = f then w else o.value i }

/-- Write through the pointer heap_get_obj returns: the object at addr is replaced by g applied
to it; nothing happens when heap_get_obj returns NULL. -/
def Heap.update (heap : Heap) (addr : Int) (g : Obj → Obj) : Heap :=
  match heap_get_obj heap addr with
  | none => heap
  | some o => { objs := heap.objs.set (addr - 1).toNat (g o) }

/-- Static function build_good_heap of bench_triple_deref_ssa.c: four objects, FIELD_DEREF of
object k holding Ptr(k+1) for k = 1..3 and Int(7) for object 4. -/
def build_good_heap : Option Heap :=
  (heap_create 4).map fun heap =>
    let heap := heap.update 1 (fun o => o.set_present 0)
    let heap := heap.update 2 (fun o => o.set_present 0)
    let heap := heap.update 3 (fun o => o.set_present 0)
    let heap := heap.update 4 (fun o => o.set_present 0)
    let heap := heap.update 1 (fun o => o.set_value 0 (VAL_PTR 2))
    let heap := heap.update 2 (fun o => o.set_value 0 (VAL_PTR 3))
    let heap := heap.update 3 (fun o => o.set_value 0 (VAL_PTR 4))
    let heap := heap.update 4 (fun o => o.set_value 0 (VAL_INT 7))
    heap

/-- The chain heap of build_good_heap with object 2's FIELD_DEREF set to Null (scenario 2 of the
specification). -/
def build_null_hop_heap : Option Heap :=
  build_good_heap.map fun heap => heap.update 2 (fun o => o.set_value 0 VAL_NULL)

/-- A word is a pointer that addresses the object o of the heap. -/
def addresses (heap : Heap) (w : Int) (o : Obj) : Prop :=
  VAL_IS_PTR w = true ∧ heap_get_obj heap (VAL_PTR_ADDR w) = some o

/-- The word w validly loads: it is a pointer addressing an object of the heap whose FIELD_DEREF
slot is present; the result is the word stored there. -/
def valid_deref (heap : Heap) (w : Int) : Option Int :=
  if VAL_IS_PTR w then
    (heap_get_obj heap (VAL_PTR_ADDR w)).bind fun o => heap_get_field o FIELD_DEREF
  else none

/-- Example graph with three input nodes named p, q and r, and one with the empty name. -/
def inputs_graph (output : Int) : Graph :=
  load_graph
    [{ id := 1, kind := "input", name := "p" },
     { id := 2, kind := "input", name := "q" },
     { id := 3, kind := "input", name := "r" },
     { id := 4, kind := "input" }] output

/-- Well-formed Eval: ok = 1 with err = OK, or ok = 0 with err one of Null, Invalid, Type,
MissingField and value = 0. -/
def Eval.wf (e : Eval) : Prop :=
  (e.ok = 1 ∧ e.err = Err.OK) ∨
  (e.ok = 0 ∧
    (e.err = Err.ERR_NULL ∨ e.err = Err.ERR_INVALID ∨ e.err = Err.ERR_TYPE ∨
      e.err = Err.ERR_MISSING_FIELD) ∧
    e.value = 0)

instance (e : Eval) : Decidable e.wf := by
  unfold Eval.wf
  infer_instance

/-- Eval operands of a call: the indices of the calls whose results it consumes. -/
def Call.operands : Call → List Nat
  | .ck_input _ _ => []
  | .ck_const_int _ => []
  | .ck_const_null => []
  | .ck_guard_nonnull v => [v]
  | .ck_guard_eq a b => [a, b]
  | .ck_select c t e => [c, t, e]
  | .ck_add a b => [a, b]
  | .ck_load_ptr ptr => [ptr]
  | .ck_load_int ptr => [ptr]
  | .ck_getfield ptr _ => [ptr]
  | .ck_getfield_int ptr _ => [ptr]

/-- Node list in emission order: the j-th node has id j + 1 and every operand id its kind uses
is at least 1 and smaller than its own id. -/
def NodesInv (ns : List Node) : Prop :=
  ∀ (j : Nat) (n : Node), ns[j]? = some n →
    n.id = (j : Int) + 1 ∧ ∀ o ∈ node_operands n, 1 ≤ o ∧ o < n.id

/-- Structural invariant of the lifting loop: the builder invariant, the node-list invariant, and
every id in valueToNode is the id of an emitted node. -/
def StructInv (s : LiftState) : Prop :=
  BuilderInv s.builder ∧ NodesInv s.builder.nodes ∧
  ∀ v ∈ s.valueToNode, 1 ≤ v ∧ v ≤ (s.builder.nodes.length : Int)

/-- Function eval_node of graph_eval.c with the order of the nested eval_node calls of one node
left open, as C leaves the order in which the arguments of a call are evaluated: order id st
lists the operand positions (0 for the first argument) in the order in which they are evaluated
when node id is entered in state st.  The primitive receives the results by position. -/
def eval_node_ord (order : Int → EvalState → List Nat) (graph : Graph) (heap : Heap) (env : Env) :
    Nat → Int → EvalState → Option (Eval × EvalState)
  | 0, _, _ => none
  | fuel + 1, id, st =>
    if id ≤ 0 ∨ id > graph.num_nodes then
      some ({ ok := 0, err := Err.ERR_INVALID, value := 0 }, st)
    else if st.seen id then
      some (st.memo id, st)
    else
      (eval_ops (eval_node_ord order graph heap env fuel)
        ((order id st).map fun i => (node_operands (graph.nodes id)).getD i 0)
        (st.mark id)).bind fun r =>
      r.2.ret id (node_combine heap env (graph.nodes id)
        ((List.range (node_operands (graph.nodes id)).length).map fun i =>
          r.1.getD ((order id st).indexOf i) zero_eval))

/-- Function graph_eval of graph_eval.c over eval_node_ord. -/
def graph_eval_ord (order : Int → EvalState → List Nat) (graph : Graph) (heap : Heap)
    (env : Env) : Option Eval :=
  if graph.output ≤ 0 then
    some { ok := 0, err := Err.ERR_INVALID, value := 0 }
  else
    (eval_node_ord order graph heap env (graph.num_nodes.toNat + 1) graph.output
      EvalState.init).map Prod.fst

/-- An operand order evaluates every operand of a node exactly once: each list of positions is a
permutation of the positions of the node's operands. -/
def OperandOrder (graph : Graph) (order : Int → EvalState → List Nat) : Prop :=
  ∀ (id : Int) (st : EvalState),
    List.Perm (order id st) (List.range (node_operands (graph.nodes id)).length)

/-- Operands taken left to right. -/
def left_to_right (graph : Graph) : Int → EvalState → List Nat :=
  fun id _ => List.range (node_operands (graph.nodes id)).length

/-- Operands taken right to left. -/
def right_to_left (graph : Graph) : Int → EvalState → List Nat :=
  fun id _ => (List.range (node_operands (graph.nodes id)).length).reverse

/-- Example graph whose add node has two failing operands: the load of node 3 and the integer
load of node 4. -/
def order_graph : Graph :=
  { num_nodes := 6
    nodes := fun i =>
      if i = 1 then { id := 1, kind := "input", name := "p" }
      else if i = 2 then { id := 2, kind := "input", name := "q" }
      else if i = 3 then { id := 3, kind := "load_ptr", x := 1 }
      else if i = 4 then { id := 4, kind := "load_int", x := 2 }
      else if i = 5 then { id := 5, kind := "add", x := 3, y := 4 }
      else if i = 6 then { id := 6, kind := "select", cond := 5, then_id := 4, else_id := 3 }
      else {}
    output := 6 }

/-- Pointer operand of a load, store or memcpy as the pass sees it once casts are stripped: an
alloca, a getelementptr whose base is an alloca, or any other pointer. -/
inductive IRPtr where
  | alloca (a : Nat)
  | gep (a : Nat)
  | other
deriving DecidableEq, Repr

/-- Value operand as resolveNode sees it once casts are stripped: the i-th checked-runtime call
(the only keys valueToNode ever receives), a load instruction with its pointer operand, or any
other value. -/
inductive IRValue where
  | call (i : Nat)
  | load (ptr : IRPtr)
  | other
deriving DecidableEq, Repr

/-- Static function getAlloca of GuardedGraphPass.cpp: stripGEP, then dyn_cast to an alloca. -/
def getAlloca : IRPtr → Option Nat
  | .alloca a => some a
  | .gep a => some a
  | .other => none

/-- The two maps of GuardedGraphPass::run that resolveNode reads; the DenseMap allocaToNode is an
association list whose newest entry for a key wins. -/
structure PassState where
  valueToNode : List Int := []
  allocaToNode : List (Nat × Int) := []

/-- Lambda resolveNode of GuardedGraphPass::run on both maps (lines 151-166): a load from a
mapped alloca resolves to the alloca's node, then valueToNode is consulted, and 0 is returned for
a value in neither map. -/
def PassState.resolveNode (s : PassState) : IRValue → Int
  | .load ptr =>
    match (getAlloca ptr).bind fun ai => s.allocaToNode.lookup ai with
    | some id => id
    | none => 0
  | .call i => Deref.resolveNode s.valueToNode i
  | .other => 0

/-- Store handler of GuardedGraphPass::run (lines 268-277): the pointer operand must be an alloca
itself, and the map changes only if the stored value resolves to a nonzero id. -/
def handle_store (s : PassState) (val : IRValue) (ptr : IRPtr) : PassState :=
  match ptr with
  | .alloca ai =>
    if s.resolveNode val ≠ 0 then
      { s with allocaToNode := (ai, s.resolveNode val) :: s.allocaToNode }
    else s
  | _ => s

/-- Handler of llvm.memcpy calls in GuardedGraphPass::run (lines 248-257): the destination takes
the node of the source if both are allocas and the source is mapped. -/
def handle_memcpy (s : PassState) (dst src : IRPtr) : PassState :=
  match getAlloca dst, getAlloca src with
  | some d, some sr =>
    match s.allocaToNode.lookup sr with
    | some id => { s with allocaToNode := (d, id) :: s.allocaToNode }
    | none => s
  | _, _ => s

/-- A chain of block copies: src is copied to the first destination, that one to the second, and
so on. -/
def copy_chain : PassState → Nat → List Nat → PassState
  | s, _, [] => s
  | s, src, d :: ds => copy_chain (handle_memcpy s (.alloca d) (.alloca src)) d ds

/-- State after the first call (node 1) has been stored into alloca 0. -/
def bound_state : PassState :=
  handle_store { valueToNode := [1], allocaToNode := [] } (.call 0) (.alloca 0)

/-- Heap whose k-th object has only its FIELD_DEREF slot present, holding the k-th word of the
list. -/
def heap_of_words (ws : List Int) : Heap :=
  { objs := ws.map fun w =>
      { has_field := fun i => if i = 0 then 1 else 0, value := fun i => if i = 0 then w else 0 } }

/-! ### Trial generator (`src/runtime/heap_gen.c`)

An unsigned word is a natural number below 2^32; the state of an Rng is such a word. -/

/-- Function rng_seed of heap_gen.c: the state it leaves. -/
def rng_seed (seed : Nat) : Nat := if seed ≠ 0 then seed else 1

/-- Function rng_next of heap_gen.c (xorshift32): the word it returns, which is also the state
it leaves.  Left shifts are reduced modulo 2^32. -/
def rng_next (state : Nat) : Nat :=
  let x := state
  let x := x ^^^ ((x <<< 13) % 4294967296)
  let x := x ^^^ (x >>> 17)
  let x := x ^^^ ((x <<< 5) % 4294967296)
  x

/-- Function rng_range of heap_gen.c: the value returned and the state left; none when the span
converts to the unsigned word 0, where the remainder is undefined. -/
def rng_range (state : Nat) (lo hi : Int) : Option (Int × Nat) :=
  let v := rng_next state
  let span : Int := hi - lo + 1
  let uspan : Nat := (span % 4294967296).toNat
  if uspan = 0 then none
  else some (lo + wrap32 ((v % uspan : Nat) : Int), v)

/-- Function rng_chance of heap_gen.c: the truth value returned and the state left. -/
def rng_chance (state : Nat) (percent : Int) : Bool × Nat :=
  (decide (wrap32 ((rng_next state % 100 : Nat) : Int) < percent), rng_next state)

/-- Body of the inner loop of heap_randomize of heap_gen.c for one field of one object: the
object and the generator state it leaves.  The field index is one of the three slots; num_objs
is the object count of the heap. -/
def randomize_field (num_objs : Int) (obj : Obj) (field : Fin MAX_FIELDS) (state : Nat) :
    Option (Obj × Nat) :=
  let obj := obj.set_present field
  let make_ptr := rng_chance state (if (field.val : Int) = FIELD_DEREF then 70 else 50)
  if make_ptr.1 then
    let make_null := rng_chance make_ptr.2 10
    if make_null.1 then some (obj.set_value field VAL_NULL, make_null.2)
    else
      (rng_range make_null.2 1 num_objs).map fun addr =>
        (obj.set_value field (VAL_PTR addr.1), addr.2)
  else
    (rng_range make_ptr.2 0 9).map fun k => (obj.set_value field (VAL_INT k.1), k.2)

/-- Inner loop of heap_randomize over the listed fields of one object. -/
def randomize_obj (num_objs : Int) : Obj → List (Fin MAX_FIELDS) → Nat → Option (Obj × Nat)
  | obj, [], state => some (obj, state)
  | obj, f :: fs, state =>
    (randomize_field num_objs obj f state).bind fun r => randomize_obj num_objs r.1 fs r.2

/-- Outer loop of heap_randomize over the objects of the heap. -/
def randomize_objs (num_objs : Int) (fields : List (Fin MAX_FIELDS)) :
    List Obj → Nat → Option (List Obj × Nat)
  | [], state => some ([], state)
  | o :: os, state =>
    (randomize_obj num_objs o fields state).bind fun r =>
    (randomize_objs num_objs fields os r.2).map fun t => (r.1 :: t.1, t.2)

/-- Function heap_randomize of heap_gen.c on a heap and a generator state (neither pointer is
NULL): the heap and the state it leaves. -/
def heap_randomize (heap : Heap) (fields : List (Fin MAX_FIELDS)) (state : Nat) :
    Option (Heap × Nat) :=
  (randomize_objs heap.num_objs fields heap.objs state).map fun r => ({ objs := r.1 }, r.2)

/-- One of the two branches of env_randomize of heap_gen.c (they differ only in the variable
assigned): the word chosen for a variable and the state left. -/
def env_random_word (num_objs : Int) (state : Nat) (use : Int) : Option (Int × Nat) :=
  if use ≠ 0 then
    let c := rng_chance state 10
    if c.1 then some (VAL_NULL, c.2)
    else (rng_range c.2 1 num_objs).map fun addr => (VAL_PTR addr.1, addr.2)
  else some (VAL_NULL, state)

/-- Function env_randomize of heap_gen.c: the environment and the state it leaves. -/
def env_randomize (num_objs : Int) (state : Nat) (use_p use_q : Int) : Option (Env × Nat) :=
  (env_random_word num_objs state use_p).bind fun p =>
  (env_random_word num_objs p.2 use_q).map fun q => ({ p := p.1, q := q.1 }, q.2)

/-- A word is Null or a pointer whose address lies in 1..num_objs. -/
def null_or_valid_ptr (num_objs : Int) (w : Int) : Prop :=
  w = VAL_NULL ∨
  (VAL_IS_PTR w = true ∧ 1 ≤ VAL_PTR_ADDR w ∧ VAL_PTR_ADDR w ≤ num_objs)

/-- A word a generated trial may hold: Null, Int(k) with 0 <= k <= 9, or a pointer whose address
lies in 1..num_objs. -/
def valid_trial_word (num_objs : Int) (w : Int) : Prop :=
  null_or_valid_ptr num_objs w ∨ ∃ k : Int, 0 ≤ k ∧ k ≤ 9 ∧ w = VAL_INT k

instance (num_objs w : Int) : Decidable (null_or_valid_ptr num_objs w) := by
  unfold null_or_valid_ptr
  infer_instance

/-! ### Graph documents (parser of `graph_eval.c`, writer of `GuardedGraphPass.cpp`)

A text is the list of the characters of a C string, from the current position up to, and not
including, the terminating NUL; a pointer into the buffer is the text that starts there. -/

/-- Function isspace of the C library in the C locale. -/
def isspace (c : Char) : Bool :=
  c = ' ' || c = '\t' || c = '\n' || c = Char.ofNat 11 || c = Char.ofNat 12 || c = '\r'

/-- Function isdigit of the C library. -/
def isdigit (c : Char) : Bool := decide (48 ≤ c.toNat) && decide (c.toNat ≤ 57)

/-- Static function skip_ws of graph_eval.c. -/
def skip_ws : List Char → List Char
  | [] => []
  | c :: cs => if isspace c then skip_ws cs else c :: cs

/-- Enum TokenKind of graph_eval.c. -/
inductive TokenKind where
  | TK_EOF
  | TK_LBRACE
  | TK_RBRACE
  | TK_LBRACKET
  | TK_RBRACKET
  | TK_COLON
  | TK_COMMA
  | TK_STRING
  | TK_NUMBER
  | TK_TRUE
  | TK_FALSE
  | TK_NULL
deriving DecidableEq, Repr

/-- Struct Token of graph_eval.c; start is the text beginning at the pointer start. -/
structure Token where
  kind : TokenKind
  start : List Char
  len : Nat
  num : Int
deriving DecidableEq, Repr

/-- Digits read by strtol in base 10: the accumulated value and the text after the digits. -/
def strtol_digits : List Char → Nat → Nat × List Char
  | [], acc => (acc, [])
  | c :: cs, acc =>
    if isdigit c then strtol_digits cs (acc * 10 + (c.toNat - 48)) else (acc, c :: cs)

/-- Function strtol of the C library in base 10 with a 64-bit long: the value, clamped to the
range of long, and the text at endp; with no digit to convert the value is 0 and endp is the
argument. -/
def strtol (s : List Char) : Int × List Char :=
  let t := skip_ws s
  let u := if t.head? = some '-' ∨ t.head? = some '+' then t.tail else t
  if (u.head?.map isdigit) = some true then
    let r := strtol_digits u 0
    let v : Int := if t.head? = some '-' then -(r.1 : Int) else (r.1 : Int)
    (max (-9223372036854775808) (min v 9223372036854775807), r.2)
  else (0, s)

/-- Comparison strncmp(s, lit, n) == 0 with n the length of the literal. -/
def strncmp_eq (s lit : List Char) : Bool := s.take lit.length == lit

/-- Static function next_token of graph_eval.c: the token and the new position. -/
def next_token (p : List Char) : Token × List Char :=
  let s := skip_ws p
  match s with
  | [] => ({ kind := .TK_EOF, start := s, len := 1, num := 0 }, s)
  | c :: rest =>
    if c = '\x7b' then ({ kind := .TK_LBRACE, start := s, len := 1, num := 0 }, rest)
    else if c = '\x7d' then ({ kind := .TK_RBRACE, start := s, len := 1, num := 0 }, rest)
    else if c = '[' then ({ kind := .TK_LBRACKET, start := s, len := 1, num := 0 }, rest)
    else if c = ']' then ({ kind := .TK_RBRACKET, start := s, len := 1, num := 0 }, rest)
    else if c = ':' then ({ kind := .TK_COLON, start := s, len := 1, num := 0 }, rest)
    else if c = ',' then ({ kind := .TK_COMMA, start := s, len := 1, num := 0 }, rest)
    else if c = '\x22' then
      ({ kind := .TK_STRING, start := rest,
         len := (rest.takeWhile fun d => d ≠ '\x22').length, num := 0 },
        (rest.dropWhile fun d => d ≠ '\x22').tail)
    else if c = '-' ∨ isdigit c = true then
      ({ kind := .TK_NUMBER, start := s, len := s.length - (strtol s).2.length,
         num := (strtol s).1 }, (strtol s).2)
    else if strncmp_eq s ['t', 'r', 'u', 'e'] then
      ({ kind := .TK_TRUE, start := s, len := 4, num := 0 }, s.drop 4)
    else if strncmp_eq s ['f', 'a', 'l', 's', 'e'] then
      ({ kind := .TK_FALSE, start := s, len := 5, num := 0 }, s.drop 5)
    else if strncmp_eq s ['n', 'u', 'l', 'l'] then
      ({ kind := .TK_NULL, start := s, len := 4, num := 0 }, s.drop 4)
    else ({ kind := .TK_EOF, start := s, len := 1, num := 0 }, s)

/-- Static function token_is of graph_eval.c. -/
def token_is (t : Token) (kind : TokenKind) : Bool := t.kind = kind

/-- Static function token_equals of graph_eval.c. -/
def token_equals (t : Token) (s : List Char) : Bool :=
  t.kind = .TK_STRING && t.len = s.length && strncmp_eq t.start s

/-- Static function parse_expect of graph_eval.c: it reads one token, whatever its kind. -/
def parse_expect (p : List Char) (_kind : TokenKind) : List Char := (next_token p).2

mutual

/-- Static function parse_skip_object of graph_eval.c; none when the fuel runs out. -/
def parse_skip_object : Nat → List Char → Option (List Char)
  | 0, _ => none
  | fuel + 1, p =>
    let t := next_token p
    if !token_is t.1 .TK_LBRACE then some t.2
    else parse_skip_object_loop fuel t.2

/-- The for loop of parse_skip_object, one iteration per unit of fuel. -/
def parse_skip_object_loop : Nat → List Char → Option (List Char)
  | 0, _ => none
  | fuel + 1, p =>
    let t := next_token p
    if token_is t.1 .TK_RBRACE || token_is t.1 .TK_EOF then some t.2
    else
      (parse_skip_value fuel (parse_expect t.2 .TK_COLON)).bind fun p =>
      let t := next_token p
      if token_is t.1 .TK_RBRACE || token_is t.1 .TK_EOF then some t.2
      else parse_skip_object_loop fuel t.2

/-- Static function parse_skip_array of graph_eval.c; none when the fuel runs out. -/
def parse_skip_array : Nat → List Char → Option (List Char)
  | 0, _ => none
  | fuel + 1, p =>
    let t := next_token p
    if !token_is t.1 .TK_LBRACKET then some t.2
    else parse_skip_array_loop fuel t.2

/-- The for loop of parse_skip_array: each element is read as a token and the position is then
set back to the start of that token before parse_skip_value is called. -/
def parse_skip_array_loop : Nat → List Char → Option (List Char)
  | 0, _ => none
  | fuel + 1, p =>
    let t := next_token (skip_ws p)
    if token_is t.1 .TK_RBRACKET || token_is t.1 .TK_EOF then some t.2
    else
      (parse_skip_value fuel t.1.start).bind fun p =>
      let t := next_token p
      if token_is t.1 .TK_RBRACKET || token_is t.1 .TK_EOF then some t.2
      else parse_skip_array_loop fuel t.2

/-- Static function parse_skip_value of graph_eval.c; none when the fuel runs out. -/
def parse_skip_value : Nat → List Char → Option (List Char)
  | 0, _ => none
  | fuel + 1, p =>
    let t := next_token p
    if token_is t.1 .TK_LBRACE then parse_skip_object fuel t.1.start
    else if token_is t.1 .TK_LBRACKET then parse_skip_array fuel t.1.start
    else some t.2

end

/-- Conversion (int) of the long that strtol returned. -/
def long_to_int (v : Int) : Int := wrap32 v

/-- Copy of a string token into a char buffer of the given size: at most size - 1 characters of
the token, then the terminating NUL. -/
def copy_token (t : Token) (size : Nat) : String := String.mk (t.start.take (min t.len (size - 1)))

/-- One pass of the if chain in the key loop of parse_nodes_array (lines 244-301): the value that
follows the key is read into the node record when the key is known and the value has the
expected kind, and skipped otherwise. -/
def parse_node_key (fuel : Nat) (key : Token) (p : List Char) (node : Node) :
    Option (List Char × Node) :=
  let v := next_token p
  if token_equals key ['i', 'd'] then
    some (v.2, if v.1.kind = .TK_NUMBER then { node with id := long_to_int v.1.num } else node)
  else if token_equals key ['k', 'i', 'n', 'd'] then
    some (v.2, if v.1.kind = .TK_STRING then { node with kind := copy_token v.1 24 } else node)
  else if token_equals key ['n', 'a', 'm', 'e'] then
    some (v.2, if v.1.kind = .TK_STRING then { node with name := copy_token v.1 32 } else node)
  else if token_equals key ['x'] then
    some (v.2, if v.1.kind = .TK_NUMBER then { node with x := long_to_int v.1.num } else node)
  else if token_equals key ['y'] then
    some (v.2, if v.1.kind = .TK_NUMBER then { node with y := long_to_int v.1.num } else node)
  else if token_equals key ['f', 'i', 'e', 'l', 'd'] then
    some (v.2, if v.1.kind = .TK_NUMBER then { node with field := long_to_int v.1.num } else node)
  else if token_equals key ['v', 'a', 'l', 'u', 'e'] then
    some (v.2, if v.1.kind = .TK_NUMBER then { node with value := long_to_int v.1.num } else node)
  else if token_equals key ['c', 'o', 'n', 'd'] then
    some (v.2, if v.1.kind = .TK_NUMBER then { node with cond := long_to_int v.1.num } else node)
  else if token_equals key ['t', 'h', 'e', 'n'] then
    some (v.2,
      if v.1.kind = .TK_NUMBER then { node with then_id := long_to_int v.1.num } else node)
  else if token_equals key ['e', 'l', 's', 'e'] then
    some (v.2,
      if v.1.kind = .TK_NUMBER then { node with else_id := long_to_int v.1.num } else node)
  else (parse_skip_value fuel p).map fun q => (q, node)

/-- Key loop of parse_nodes_array (lines 238-307) for one node record, entered after the opening
brace: the position after the record and the record read. -/
def parse_node_keys : Nat → List Char → Node → Option (List Char × Node)
  | 0, _, _ => none
  | fuel + 1, p, node =>
    let key := next_token p
    if token_is key.1 .TK_RBRACE || token_is key.1 .TK_EOF then some (key.2, node)
    else
      (parse_node_key fuel key.1 (parse_expect key.2 .TK_COLON) node).bind fun r =>
      let t := next_token r.1
      if token_is t.1 .TK_RBRACE || token_is t.1 .TK_EOF then some (t.2, r.2)
      else parse_node_keys fuel t.2 r.2

/-- Outer loop of parse_nodes_array (lines 227-320), entered after the opening bracket; the
record read is stored as store_node describes (ensure_capacity is taken to succeed). -/
def parse_nodes_loop : Nat → List Char → Graph → Option (List Char × Graph)
  | 0, _, _ => none
  | fuel + 1, p, graph =>
    let t := next_token p
    if token_is t.1 .TK_RBRACKET || token_is t.1 .TK_EOF then some (t.2, graph)
    else if !token_is t.1 .TK_LBRACE then some (t.2, graph)
    else
      (parse_node_keys fuel t.2 {}).bind fun r =>
      let t := next_token r.1
      if token_is t.1 .TK_RBRACKET || token_is t.1 .TK_EOF then some (t.2, store_node graph r.2)
      else parse_nodes_loop fuel t.2 (store_node graph r.2)

/-- Static function parse_nodes_array of graph_eval.c. -/
def parse_nodes_array (fuel : Nat) (p : List Char) (graph : Graph) :
    Option (List Char × Graph) :=
  let t := next_token p
  if !token_is t.1 .TK_LBRACKET then some (t.2, graph)
  else parse_nodes_loop fuel t.2 graph

/-- Key loop of graph_load_json (lines 362-382), entered after the opening brace. -/
def graph_load_keys : Nat → List Char → Graph → Option Graph
  | 0, _, _ => none
  | fuel + 1, p, graph =>
    let key := next_token p
    if token_is key.1 .TK_RBRACE || token_is key.1 .TK_EOF then some graph
    else
      let q := parse_expect key.2 .TK_COLON
      let r : Option (List Char × Graph) :=
        if token_equals key.1 ['n', 'o', 'd', 'e', 's'] then parse_nodes_array fuel q graph
        else if token_equals key.1 ['o', 'u', 't', 'p', 'u', 't'] then
          let v := next_token q
          some (v.2,
            if v.1.kind = .TK_NUMBER then { graph with output := long_to_int v.1.num }
            else graph)
        else (parse_skip_value fuel q).map fun q' => (q', graph)
      r.bind fun r =>
      let t := next_token r.1
      if token_is t.1 .TK_RBRACE || token_is t.1 .TK_EOF then some r.2
      else graph_load_keys fuel t.2 r.2

/-- Function graph_load_json of graph_eval.c on the contents of the file (the file opens and the
allocations succeed): the buffer is the contents up to the first NUL; the result is none when the
parser does not return within the fuel, some none when it returns NULL, and the graph
otherwise.  Each loop iteration and each nested call takes one unit of fuel. -/
def graph_load_json (file : List Char) : Option (Option Graph) :=
  let buf := file.takeWhile fun c => c ≠ Char.ofNat 0
  let t := next_token buf
  if !token_is t.1 .TK_LBRACE then some none
  else
    (graph_load_keys (4 * buf.length + 4) t.2
      { num_nodes := 0, nodes := fun _ => {}, output := 0 }).map some

/-- Decimal digits of a natural number, most significant first, pushed in front of acc. -/
def print_nat_digits : Nat → Nat → List Char → List Char
  | 0, _, acc => acc
  | fuel + 1, n, acc =>
    if n / 10 = 0 then Char.ofNat (48 + n % 10) :: acc
    else print_nat_digits fuel (n / 10) (Char.ofNat (48 + n % 10) :: acc)

/-- Text that the stream operator of raw_ostream writes for an int. -/
def print_int (i : Int) : List Char :=
  if i < 0 then '-' :: print_nat_digits (i.natAbs + 1) i.natAbs []
  else print_nat_digits (i.natAbs + 1) i.natAbs []

/-- Text of an optional numeric attribute of a node record: a comma, the quoted key, a colon
and the number. -/
def write_attr (key : List Char) (v : Int) : List Char :=
  [',', '\x22'] ++ key ++ ['\x22', ':'] ++ print_int v

/-- Text that the writer of GuardedGraphPass::run emits for one node, up to and including the
closing brace (lines 328-353). -/
def write_node (n : Node) : List Char :=
  "    \x7b\"id\":".toList ++ print_int n.id ++ ",\"kind\":\"".toList ++ n.kind.toList ++
    ['\x22'] ++
    (if n.name ≠ "" then ",\"name\":\"".toList ++ n.name.toList ++ ['\x22'] else []) ++
    (if n.x ≠ 0 then write_attr ['x'] n.x else []) ++
    (if n.y ≠ 0 then write_attr ['y'] n.y else []) ++
    (if n.field ≠ 0 then write_attr ['f', 'i', 'e', 'l', 'd'] n.field else []) ++
    (if n.value ≠ 0 ∨ n.kind = "const_int" then write_attr ['v', 'a', 'l', 'u', 'e'] n.value
      else []) ++
    (if n.cond ≠ 0 then write_attr ['c', 'o', 'n', 'd'] n.cond else []) ++
    (if n.then_id ≠ 0 then write_attr ['t', 'h', 'e', 'n'] n.then_id else []) ++
    (if n.else_id ≠ 0 then write_attr ['e', 'l', 's', 'e'] n.else_id else []) ++
    ['\x7d']

/-- Loop over builder.nodes of the writer (lines 326-358): a comma after every node but the
last, and a newline after each. -/
def write_nodes : List Node → List Char
  | [] => []
  | [n] => write_node n ++ ['\n']
  | n :: m :: rest => write_node n ++ [',', '\n'] ++ write_nodes (m :: rest)

/-- Edges that the writer collects for one node (lines 304-321). -/
def node_edges (n : Node) : List (Int × Int) :=
  if n.kind = "guard_ptr" ∨ n.kind = "guard_nonnull" ∨ n.kind = "is_nonnull" then [(n.x, n.id)]
  else if n.kind = "guard_eq" then [(n.x, n.id), (n.y, n.id)]
  else if n.kind = "load_ptr" ∨ n.kind = "load_int" ∨ n.kind = "getfield" ∨
      n.kind = "getfield_int" then [(n.x, n.id)]
  else if n.kind = "select" then [(n.cond, n.id), (n.then_id, n.id), (n.else_id, n.id)]
  else if n.kind = "add" then [(n.x, n.id), (n.y, n.id)]
  else []

/-- Text of one edge. -/
def write_edge (e : Int × Int) : List Char :=
  ['['] ++ print_int e.1 ++ [','] ++ print_int e.2 ++ [']']

/-- Loop over the edges of the writer (lines 361-366): a comma after every edge but the last. -/
def write_edges : List (Int × Int) → List Char
  | [] => []
  | [e] => write_edge e
  | e :: f :: rest => write_edge e ++ [','] ++ write_edges (f :: rest)

/-- Document that GuardedGraphPass::run writes for a function name, a node list and an output
id (lines 323-369). -/
def write_graph (function : String) (nodes : List Node) (outputId : Int) : List Char :=
  "\x7b\n".toList ++ "  \"function\": \"".toList ++ function.toList ++ "\",\n".toList ++
    "  \"nodes\": [\n".toList ++ write_nodes nodes ++ "  ],\n".toList ++
    "  \"edges\": [".toList ++ write_edges (nodes.flatMap node_edges) ++ "],\n".toList ++
    "  \"output\": ".toList ++ print_int outputId ++ "\n".toList ++ "\x7d\n".toList

/-- Summary of a loaded graph that can be compared: num_nodes, output and the first k node
records. -/
def graph_summary (k : Nat) (g : Graph) : Int × Int × List Node :=
  (g.num_nodes, g.output, (List.range k).map fun i => g.nodes ((i : Int) + 1))

/-- A C int: a value in the range of a 32-bit signed word. -/
def is_int32 (v : Int) : Prop := -2147483648 ≤ v ∧ v ≤ 2147483647

instance (v : Int) : Decidable (is_int32 v) := by
  unfold is_int32
  infer_instance

/-- The text does not continue a number: it is empty or starts with a character that is not a
digit. -/
def no_digit_head (t : List Char) : Prop := ∀ c ∈ t.head?, isdigit c = false

/-- Effect of a key followed by a number on a node record, by key: the numeric attributes take
the number, any other key leaves the record as it is. -/
def node_set (k : List Char) (v : Int) (node : Node) : Node :=
  if k = ['i', 'd'] then { node with id := long_to_int v }
  else if k = ['k', 'i', 'n', 'd'] then node
  else if k = ['n', 'a', 'm', 'e'] then node
  else if k = ['x'] then { node with x := long_to_int v }
  else if k = ['y'] then { node with y := long_to_int v }
  else if k = ['f', 'i', 'e', 'l', 'd'] then { node with field := long_to_int v }
  else if k = ['v', 'a', 'l', 'u', 'e'] then { node with value := long_to_int v }
  else if k = ['c', 'o', 'n', 'd'] then { node with cond := long_to_int v }
  else if k = ['t', 'h', 'e', 'n'] then { node with then_id := long_to_int v }
  else if k = ['e', 'l', 's', 'e'] then { node with else_id := long_to_int v }
  else node

/-- Second half of an iteration of the key loop of parse_nodes_array: the token after a value
ends the record or leads to the next key. -/
def node_keys_tail (fuel : Nat) (p : List Char) (node : Node) : Option (List Char × Node) :=
  let t := next_token p
  if token_is t.1 .TK_RBRACE || token_is t.1 .TK_EOF then some (t.2, node)
  else parse_node_keys fuel t.2 node

/-- From the position T, right after a value inside a node record, the key loop of
parse_nodes_array returns R for every fuel from F on. -/
def KeysTo (F : Nat) (T : List Char) (node : Node) (R : List Char × Node) : Prop :=
  ∀ f, F ≤ f → node_keys_tail f T node = some R

/-- Static function isKernelName of GuardedGraphPass.cpp: the functions the pass writes a
document for. -/
def isKernelName (name : String) : Bool :=
  name == "triple_deref" || name == "graph_walk" || name == "field_chain" ||
    name == "guarded_chain" || name == "alias_branch" || name == "mixed_fields" ||
    name == "add_two"

/-- A node record as the builder of the pass holds it: the kind is one of the valid kinds, the
name has no double quote and no NUL character and fewer than 32 characters, and the numeric
members are C ints. -/
def persistable (n : Node) : Prop :=
  n.kind ∈ valid_kinds ∧
  (∀ c ∈ n.name.toList, c ≠ '\x22' ∧ c ≠ Char.ofNat 0) ∧ n.name.length < 32 ∧
  is_int32 n.id ∧ is_int32 n.x ∧ is_int32 n.y ∧ is_int32 n.field ∧ is_int32 n.value ∧
  is_int32 n.cond ∧ is_int32 n.then_id ∧ is_int32 n.else_id

/-- No character of the text is the NUL character, where a C string ends. -/
def no_nul (l : List Char) : Prop := ∀ c ∈ l, c ≠ Char.ofNat 0

instance (l : List Char) : Decidable (no_nul l) := by
  unfold no_nul
  infer_instance

instance (n : Node) : Decidable (persistable n) := by
  unfold persistable
  infer_instance

/-- Document with one const_null node and output 1, with a piece of text put in front of the
top-level keys and another in front of the keys of the node. -/
def null_document (top node : String) : List Char :=
  ("\x7b" ++ top ++ "\"nodes\":[\x7b" ++ node ++
    "\"id\":1,\"kind\":\"const_null\"\x7d],\"output\":1\x7d").toList

/-- Document with one node of a kind the evaluator does not know, and output 1. -/
def mystery_document : List Char :=
  "\x7b\"nodes\":[\x7b\"id\":1,\"kind\":\"mystery\"\x7d],\"output\":1\x7d".toList

/-- Node list with an input whose name holds a NUL character between two letters. -/
def nul_name_nodes : List Node :=
  [{ id := 1, kind := "input", name := String.mk ['a', Char.ofNat 0, 'b'] }]

/-! ### The pass on the instructions of a kernel (`GuardedGraphPass::run`)

The pass does not see calls whose operands are earlier calls: it walks the instructions of a
function and resolves each Eval operand through the maps valueToNode and allocaToNode.  A
function is modelled here by what the pass inspects once casts are stripped: the calls with
their callee name and argument list, the loads and stores with their pointer operand, and the
returned value.  An Eval travels as two consecutive arguments of a call (the pass reads
arguments 0, 2, 4 of ck_select and argument 1 of the loads); the first of the two stands for the
Eval.  The function has one basic block. -/

/-- Pointer operand of an instruction: an alloca, a getelementptr into an alloca together with
the element it selects (0 for the start of the alloca), or any other pointer. -/
inductive Pointer where
  | alloca (a : Nat)
  | gep (a : Nat) (index : Nat)
  | other
deriving DecidableEq, Repr

/-- The pointer as stripGEP leaves it: the element selected by a getelementptr is dropped. -/
def stripGEP : Pointer → IRPtr
  | .alloca a => .alloca a
  | .gep a _ => .gep a
  | .other => .other

/-- Operand of an instruction once casts are stripped: the result of the i-th instruction of
the function, an integer constant, a constant string, one of the int parameters p and q, a
pointer, or anything else (the heap parameter, an undefined value). -/
inductive Operand where
  | inst (i : Nat)
  | const_int (v : Int)
  | const_string (s : String)
  | param (x : Param)
  | pointer (ptr : Pointer)
  | other
deriving DecidableEq, Repr

/-- Instruction as the loop of GuardedGraphPass::run tells them apart: a call with its callee
name (none for an indirect call) and its arguments, a load, a store, or any other instruction. -/
inductive Instr where
  | call (callee : Option String) (args : List Operand)
  | load (ptr : Pointer)
  | store (val : Operand) (ptr : Pointer)
  | other
deriving DecidableEq, Repr

/-- Static function getConstString of GuardedGraphPass.cpp: the characters of a constant string
without the terminating NUL, and the word input for any other operand. -/
def getConstString : Operand → String
  | .const_string s => s
  | _ => "input"

/-- Static function getConstInt of GuardedGraphPass.cpp, as the value left in out: the constant
converted to int, or the previous value of out when the operand is not an integer constant. -/
def getConstInt (v : Operand) (out : Int) : Int :=
  match v with
  | .const_int c => wrap32 c
  | _ => out

/-- State of GuardedGraphPass::run: the builder and the two DenseMaps, as association lists
whose newest entry for a key wins; valueToNode is keyed by the position of the call
instruction. -/
structure RunState where
  builder : GraphBuilder := {}
  valueToNode : List (Nat × Int) := []
  allocaToNode : List (Nat × Int) := []

/-- Lambda resolveNode of GuardedGraphPass::run (lines 151-166): a load whose pointer operand
leads to a mapped alloca resolves to the node of that alloca; any other value is looked up in
valueToNode, which holds call instructions only; 0 when nothing is found. -/
def RunState.resolveNode (body : List Instr) (s : RunState) : Operand → Int
  | .inst i =>
    match body[i]? with
    | some (.load ptr) =>
      match (getAlloca (stripGEP ptr)).bind fun ai => s.allocaToNode.lookup ai with
      | some id => id
      | none => (s.valueToNode.lookup i).getD 0
    | _ => (s.valueToNode.lookup i).getD 0
  | _ => 0

/-- Lambda resolveEvalArg of GuardedGraphPass::run (lines 168-173). -/
def RunState.resolveEvalArg (body : List Instr) (s : RunState) (args : List Operand)
    (idx : Nat) : Int :=
  match args[idx]? with
  | none => 0
  | some v => s.resolveNode body v

/-- Tail of the loop body for the call at position i:
if (makeNode) { id = builder.addNode(n); valueToNode[CI] = id; }. -/
def RunState.emit (s : RunState) (i : Nat) (b : GraphBuilder) (n : Node) : RunState :=
  let r := b.addNode n
  { s with builder := r.1, valueToNode := (i, r.2) :: s.valueToNode }

/-- The alloca a pointer argument of llvm.memcpy leads to: getAlloca of the argument. -/
def arg_alloca (args : List Operand) (idx : Nat) : Option Nat :=
  match args[idx]? with
  | some (.pointer ptr) => getAlloca (stripGEP ptr)
  | _ => none

/-- Body of the instruction loop of GuardedGraphPass::run (lines 189-279) for the instruction
at position i. -/
def run_instr (body : List Instr) (s : RunState) (i : Nat) : Instr → RunState
  | .call none _ => s
  | .call (some name) args =>
    if name = "ck_input" then
      let r := s.builder.getOrAddInput (getConstString (args.getD 0 .other))
      { s with builder := r.1, valueToNode := (i, r.2) :: s.valueToNode }
    else if name = "ck_const_int" then
      s.emit i s.builder { kind := "const_int", value := getConstInt (args.getD 0 .other) 0 }
    else if name = "ck_const_null" then s.emit i s.builder { kind := "const_null" }
    else if name = "ck_guard_nonnull" then
      s.emit i s.builder { kind := "is_nonnull", x := s.resolveEvalArg body args 0 }
    else if name = "ck_guard_eq" then
      s.emit i s.builder
        { kind := "guard_eq", x := s.resolveEvalArg body args 0,
          y := s.resolveEvalArg body args 2 }
    else if name = "ck_load_ptr" then
      let g := addGuardedPtr s.builder (s.resolveEvalArg body args 1)
      s.emit i g.1 { kind := "load_ptr", x := g.2, field := 0 }
    else if name = "ck_load_int" then
      let g := addGuardedPtr s.builder (s.resolveEvalArg body args 1)
      s.emit i g.1 { kind := "load_int", x := g.2, field := 0 }
    else if name = "ck_getfield" then
      let g := addGuardedPtr s.builder (s.resolveEvalArg body args 1)
      s.emit i g.1 { kind := "getfield", x := g.2, field := getConstInt (args.getD 3 .other) 0 }
    else if name = "ck_getfield_int" then
      let g := addGuardedPtr s.builder (s.resolveEvalArg body args 1)
      s.emit i g.1
        { kind := "getfield_int", x := g.2, field := getConstInt (args.getD 3 .other) 0 }
    else if name = "ck_select" then
      s.emit i s.builder
        { kind := "select", cond := s.resolveEvalArg body args 0,
          then_id := s.resolveEvalArg body args 2, else_id := s.resolveEvalArg body args 4 }
    else if name = "ck_add" then
      s.emit i s.builder
        { kind := "add", x := s.resolveEvalArg body args 0, y := s.resolveEvalArg body args 2 }
    else if "llvm.memcpy".toList.isPrefixOf name.toList then
      match arg_alloca args 0, arg_alloca args 1 with
      | some dst, some src =>
        match s.allocaToNode.lookup src with
        | some id => { s with allocaToNode := (dst, id) :: s.allocaToNode }
        | none => s
      | _, _ => s
    else s
  | .store val ptr =>
    match ptr with
    | .alloca ai =>
      if s.resolveNode body val ≠ 0 then
        { s with allocaToNode := (ai, s.resolveNode body val) :: s.allocaToNode }
      else s
    | _ => s
  | _ => s

/-- What an instruction result or a memory cell holds: an Eval, an int, the address of a cell
(an alloca and an element in it), or nothing the kernel may use. -/
inductive Val where
  | eval (e : Eval)
  | int (v : Int)
  | ptr (c : Nat × Nat)
  | unset
deriving DecidableEq, Repr

/-- The cell a pointer designates: the alloca and the element in it. -/
def Pointer.cell : Pointer → Option (Nat × Nat)
  | .alloca a => some (a, 0)
  | .gep a index => some (a, index)
  | .other => none

/-- Machine state of a running kernel: the results of the instructions executed so far, and the
cells of the allocas written so far (the newest entry for a cell wins). -/
structure Machine where
  results : List Val := []
  memory : List ((Nat × Nat) × Val) := []

/-- Value of an operand in a machine state. -/
def Machine.value (p q : Int) (m : Machine) : Operand → Val
  | .inst i => m.results.getD i .unset
  | .const_int v => .int v
  | .param x => .int (param_value p q x)
  | .pointer ptr =>
    match ptr.cell with
    | some c => .ptr c
    | none => .unset
  | _ => .unset

/-- The Eval passed at an argument position, if there is one. -/
def Machine.eval_arg (p q : Int) (m : Machine) (args : List Operand) (idx : Nat) :
    Option Eval :=
  match args[idx]? with
  | some v =>
    match m.value p q v with
    | .eval e => some e
    | _ => none
  | none => none

/-- The int passed at an argument position, if there is one. -/
def Machine.int_arg (p q : Int) (m : Machine) (args : List Operand) (idx : Nat) : Option Int :=
  match args[idx]? with
  | some v =>
    match m.value p q v with
    | .int i => some i
    | _ => none
  | none => none

/-- The cell whose address is passed at an argument position, if there is one. -/
def Machine.cell_arg (p q : Int) (m : Machine) (args : List Operand) (idx : Nat) :
    Option (Nat × Nat) :=
  match args[idx]? with
  | some v =>
    match m.value p q v with
    | .ptr c => some c
    | _ => none
  | none => none

/-- The string constant passed at an argument position, the empty string if there is none. -/
def string_arg (args : List Operand) (idx : Nat) : String :=
  match args[idx]? with
  | some (.const_string s) => s
  | _ => ""

/-- The machine after an instruction with the given result. -/
def Machine.push (m : Machine) (v : Val) : Machine := { m with results := m.results ++ [v] }

/-- Execution of one instruction: a call of a checked-runtime primitive applies the function of
checked_ptr.c to its arguments, llvm.memcpy copies the source cell to the destination cell, a
load reads a cell and a store writes one.  There is no result (none) when a primitive is not
handed an Eval or an int where it takes one, when a pointer designates no cell, and for a call
of anything else. -/
def exec_instr (heap : Heap) (p q : Int) (m : Machine) : Instr → Option Machine
  | .call none _ => none
  | .call (some name) args =>
    if name = "ck_input" then
      (m.int_arg p q args 1).map fun t =>
      m.push (.eval (ck_input (string_arg args 0) t))
    else if name = "ck_const_int" then
      (m.int_arg p q args 0).map fun v => m.push (.eval (ck_const_int v))
    else if name = "ck_const_null" then some (m.push (.eval ck_const_null))
    else if name = "ck_guard_nonnull" then
      (m.eval_arg p q args 0).map fun v => m.push (.eval (ck_guard_nonnull v))
    else if name = "ck_guard_eq" then
      (m.eval_arg p q args 0).bind fun a => (m.eval_arg p q args 2).map fun b =>
      m.push (.eval (ck_guard_eq a b))
    else if name = "ck_load_ptr" then
      (m.eval_arg p q args 1).map fun v => m.push (.eval (ck_load_ptr heap v))
    else if name = "ck_load_int" then
      (m.eval_arg p q args 1).map fun v => m.push (.eval (ck_load_int heap v))
    else if name = "ck_getfield" then
      (m.eval_arg p q args 1).bind fun v => (m.int_arg p q args 3).map fun f =>
      m.push (.eval (ck_getfield heap v f))
    else if name = "ck_getfield_int" then
      (m.eval_arg p q args 1).bind fun v => (m.int_arg p q args 3).map fun f =>
      m.push (.eval (ck_getfield_int heap v f))
    else if name = "ck_select" then
      (m.eval_arg p q args 0).bind fun c => (m.eval_arg p q args 2).bind fun t =>
      (m.eval_arg p q args 4).map fun e => m.push (.eval (ck_select c t e))
    else if name = "ck_add" then
      (m.eval_arg p q args 0).bind fun a => (m.eval_arg p q args 2).map fun b =>
      m.push (.eval (ck_add a b))
    else if "llvm.memcpy".toList.isPrefixOf name.toList then
      (m.cell_arg p q args 0).bind fun dst => (m.cell_arg p q args 1).map fun src =>
      { results := m.results ++ [.unset],
        memory := (dst, (m.memory.lookup src).getD .unset) :: m.memory }
    else none
  | .load ptr =>
    some (m.push (match ptr.cell with
      | some c => (m.memory.lookup c).getD .unset
      | none => .unset))
  | .store val ptr =>
    ptr.cell.map fun c =>
    { results := m.results ++ [.unset], memory := (c, m.value p q val) :: m.memory }
  | .other => some (m.push .unset)

/-- What the analysis knows of a value: the Eval returned by the c-th checked-runtime call, one
of the int parameters, or nothing. -/
inductive AbsVal where
  | call (c : Nat)
  | param (x : Param)
  | unknown
deriving DecidableEq, Repr

/-- State of the analysis: what each instruction result holds, what each binding holds (the
newest entry wins), and the checked-runtime calls met so far. -/
structure Bindings where
  results : List AbsVal := []
  cells : List (Nat × AbsVal) := []
  calls : List Call := []

/-- The binding a pointer reads or writes as a whole: the alloca itself or element 0 of it. -/
def Pointer.binding : Pointer → Option Nat
  | .alloca a => some a
  | .gep a 0 => some a
  | _ => none

/-- What the analysis knows of an operand. -/
def Bindings.value (A : Bindings) : Operand → AbsVal
  | .inst i => A.results.getD i .unknown
  | .param x => .param x
  | _ => .unknown

/-- The call whose Eval an operand carries, when the operand is the result of a call
instruction, or the result of a load from a binding that held the Eval of that call at the load
and holds it now. -/
def Bindings.eval_use (body : List Instr) (A : Bindings) : Operand → Option Nat
  | .inst i =>
    match body[i]?, A.results[i]? with
    | some (.call _ _), some (.call c) => some c
    | some (.load ptr), some (.call c) =>
      match ptr.binding with
      | some a => if A.cells.lookup a = some (.call c) then some c else none
      | none => none
    | _, _ => none
  | _ => none

/-- The call whose Eval is passed at an argument position. -/
def Bindings.eval_at (body : List Instr) (A : Bindings) (args : List Operand) (idx : Nat) :
    Option Nat :=
  (args[idx]?).bind (A.eval_use body)

/-- The int constant at an argument position, if it is one that fits an int. -/
def const_at (args : List Operand) (idx : Nat) : Option Int :=
  match args[idx]? with
  | some (.const_int v) => if is_int32 v then some v else none
  | _ => none

/-- The binding a pointer argument of llvm.memcpy designates as a whole. -/
def binding_at (args : List Operand) (idx : Nat) : Option Nat :=
  match args[idx]? with
  | some (.pointer ptr) => ptr.binding
  | _ => none

/-- The checked-runtime call a call instruction stands for: every Eval operand is named by the
call that produced it, ck_input is handed a constant name and the parameter of that name, and
ck_const_int and the field accesses are handed integer constants. -/
def Bindings.call_of (body : List Instr) (A : Bindings) (name : String) (args : List Operand) :
    Option Call :=
  if name = "ck_input" then
    match args[0]?, (args[1]?).map A.value with
    | some (Operand.const_string s), some (AbsVal.param x) =>
      if (Call.ck_input s x).wf 0 then some (.ck_input s x) else none
    | _, _ => none
  else if name = "ck_const_int" then (const_at args 0).map .ck_const_int
  else if name = "ck_const_null" then some .ck_const_null
  else if name = "ck_guard_nonnull" then (A.eval_at body args 0).map .ck_guard_nonnull
  else if name = "ck_guard_eq" then
    (A.eval_at body args 0).bind fun a => (A.eval_at body args 2).map fun b => .ck_guard_eq a b
  else if name = "ck_load_ptr" then (A.eval_at body args 1).map .ck_load_ptr
  else if name = "ck_load_int" then (A.eval_at body args 1).map .ck_load_int
  else if name = "ck_getfield" then
    (A.eval_at body args 1).bind fun v => (const_at args 3).map fun f => .ck_getfield v f
  else if name = "ck_getfield_int" then
    (A.eval_at body args 1).bind fun v => (const_at args 3).map fun f => .ck_getfield_int v f
  else if name = "ck_select" then
    (A.eval_at body args 0).bind fun c => (A.eval_at body args 2).bind fun t =>
    (A.eval_at body args 4).map fun e => .ck_select c t e
  else if name = "ck_add" then
    (A.eval_at body args 0).bind fun a => (A.eval_at body args 2).map fun b => .ck_add a b
  else none

/-- One step of the analysis; none when the instruction leaves the discipline of bindings: an
indirect call or a call of an unknown function, an Eval operand that is not the current value of
its binding, a store through anything but the alloca itself, a block copy between anything but
whole bindings. -/
def bind_instr (body : List Instr) (A : Bindings) : Instr → Option Bindings
  | .call none _ => none
  | .call (some name) args =>
    if "llvm.memcpy".toList.isPrefixOf name.toList then
      (binding_at args 0).bind fun dst => (binding_at args 1).map fun src =>
      { A with results := A.results ++ [.unknown],
               cells := (dst, (A.cells.lookup src).getD .unknown) :: A.cells }
    else
      (A.call_of body name args).map fun c =>
      { A with results := A.results ++ [.call A.calls.length], calls := A.calls ++ [c] }
  | .load ptr =>
    some { A with results := A.results ++ [match ptr.binding with
      | some a => (A.cells.lookup a).getD .unknown
      | none => .unknown] }
  | .store val ptr =>
    match ptr with
    | .alloca a =>
      match A.value val with
      | .call c =>
        if A.eval_use body val = some c then
          some { A with results := A.results ++ [.unknown], cells := (a, .call c) :: A.cells }
        else none
      | v => some { A with results := A.results ++ [.unknown], cells := (a, v) :: A.cells }
    | _ => none
  | .other => some { A with results := A.results ++ [.unknown] }

/-- Invariant of the instruction loop on a kernel that keeps the discipline of bindings.  The
pass state s, the machine m and the analysis A are taken after the same instructions, and vals
are the results of the calls met so far.  The builder is the one the call-level lifting loop
gives for these calls; a call instruction is mapped to the node of its call; a binding, or an
instruction result, that the analysis says holds the Eval of a call is mapped by the pass to the
node of that call and holds that Eval in the machine. -/
structure Sim (body : List Instr) (heap : Heap) (p q : Int) (s : RunState) (m : Machine)
    (A : Bindings) (vals : List Eval) : Prop where
  builder : s.builder = (A.calls.foldl lift_call {}).builder
  struct : StructInv (A.calls.foldl lift_call {})
  vt_len : (A.calls.foldl lift_call {}).valueToNode.length = A.calls.length
  run : run_calls heap p q A.calls [] = some vals
  vals_len : vals.length = A.calls.length
  wf : calls_wf 0 A.calls = true
  len : m.results.length = A.results.length
  res_call : ∀ (i c : Nat), A.results[i]? = some (AbsVal.call c) →
    ∃ e, vals[c]? = some e ∧ m.results[i]? = some (Val.eval e)
  res_param : ∀ (i : Nat) (x : Param), A.results[i]? = some (AbsVal.param x) →
    m.results[i]? = some (Val.int (param_value p q x))
  value_map : ∀ (i c : Nat) (callee : Option String) (args : List Operand),
    body[i]? = some (Instr.call callee args) → A.results[i]? = some (AbsVal.call c) →
    s.valueToNode.lookup i = some ((A.calls.foldl lift_call {}).valueToNode.getD c 0)
  cell_call : ∀ (a c : Nat), A.cells.lookup a = some (AbsVal.call c) →
    s.allocaToNode.lookup a = some ((A.calls.foldl lift_call {}).valueToNode.getD c 0) ∧
    ∃ e, vals[c]? = some e ∧ m.memory.lookup (a, 0) = some (Val.eval e)
  cell_param : ∀ (a : Nat) (x : Param), A.cells.lookup a = some (AbsVal.param x) →
    m.memory.lookup (a, 0) = some (Val.int (param_value p q x))

/-- The state the pass reaches on a call instruction, in terms of the call-level lifting step
on the call it stands for. -/
def CallStep (body : List Instr) (s : RunState) (A : Bindings) (i : Nat) (name : String)
    (args : List Operand) (call : Call) : Prop :=
  ∃ id, (lift_call (A.calls.foldl lift_call {}) call).valueToNode =
      (A.calls.foldl lift_call {}).valueToNode ++ [id] ∧
    run_instr body s i (.call (some name) args) =
      { builder := (lift_call (A.calls.foldl lift_call {}) call).builder,
        valueToNode := (i, id) :: s.valueToNode,
        allocaToNode := s.allocaToNode }

theorem run_triple_deref (heap : Heap) (p q : Int) :
    run_kernel triple_deref_kernel heap p q = some (triple_deref heap p q) := rfl

theorem run_field_chain (heap : Heap) (p q : Int) :
    run_kernel field_chain_kernel heap p q = some (field_chain heap p q) := rfl

theorem run_guarded_chain (heap : Heap) (p q : Int) :
    run_kernel guarded_chain_kernel heap p q = some (guarded_chain heap p q) := rfl

theorem run_alias_branch (heap : Heap) (p q : Int) :
    run_kernel alias_branch_kernel heap p q = some (alias_branch heap p q) := rfl

theorem run_mixed_fields (heap : Heap) (p q : Int) :
    run_kernel mixed_fields_kernel heap p q = some (mixed_fields heap p q) := rfl

theorem run_add_two (heap : Heap) (p q : Int) :
    run_kernel add_two_kernel heap p q = some (add_two heap p q) := rfl

/-! ### Checked runtime -/

theorem heap_get_field_fin (obj : Obj) (f : Fin MAX_FIELDS) :
    heap_get_field obj (f.val : Int) =
      if obj.has_field f = 0 then none else some (obj.value f) := by
  have hf := f.isLt
  simp only [MAX_FIELDS] at hf
  have h : ¬ (((f.val : Nat) : Int) < 0 ∨ ((f.val : Nat) : Int) ≥ (MAX_FIELDS : Nat)) := by
    simp only [MAX_FIELDS]; omega
  unfold heap_get_field
  rw [dif_neg h]
  simp

/-- C3: ck_getfield on a field index in 0..2 follows the error priority of the specification
(upstream error, Type, Null, Invalid, MissingField, else Ok of the slot), ck_load_ptr is the same
on FIELD_DEREF, and the tagged integer word 5 gives Err(Type) on every heap. -/
theorem load_error_priority (heap : Heap) (v : Eval) (f : Fin MAX_FIELDS) :
    ck_getfield heap v (f.val : Int) = load_priority_spec heap v f ∧
    ck_load_ptr heap v = load_priority_spec heap v ⟨0, by decide⟩ ∧
    ck_load_ptr heap v = ck_getfield heap v FIELD_DEREF ∧
    ck_getfield heap (eval_ok 5) (f.val : Int) = eval_err Err.ERR_TYPE ∧
    ck_load_ptr heap (eval_ok 5) = eval_err Err.ERR_TYPE := by
  have key : ∀ g : Fin MAX_FIELDS,
      load_field heap v (g.val : Int) false = load_priority_spec heap v g := by
    intro g
    unfold load_field load_priority_spec
    by_cases h0 : v.ok = 0
    · simp [h0]
    by_cases h1 : v.value % 2 = 1
    · simp [h0, h1, VAL_IS_INT]
    have h1' : v.value % 2 = 0 := by omega
    by_cases h2 : v.value = 0
    · simp [h0, h2, VAL_IS_INT, VAL_NULL]
    by_cases h3 : v.value / 2 < 1 ∨ (heap.objs.length : Int) < v.value / 2
    · have : heap_get_obj heap (VAL_PTR_ADDR v.value) = none := by
        unfold heap_get_obj VAL_PTR_ADDR Heap.num_objs
        rw [if_pos]
        omega
      simp [h0, h1', h2, h3, VAL_IS_INT, VAL_NULL, this]
    · have hidx : (v.value / 2 - 1).toNat = (v.value / 2).toNat - 1 := by omega
      have : heap_get_obj heap (VAL_PTR_ADDR v.value) = heap.objs[(v.value / 2).toNat - 1]? := by
        unfold heap_get_obj VAL_PTR_ADDR Heap.num_objs
        rw [if_neg (by omega), hidx]
      simp only [h0, h1', h2, h3, VAL_IS_INT, VAL_NULL, this, if_false]
      simp only [show ((0 : Int) != 0) = false from rfl, Bool.false_eq_true, if_false]
      cases hobj : heap.objs[(v.value / 2).toNat - 1]? with
      | none => simp
      | some obj =>
        simp only [heap_get_field_fin]
        by_cases hp : obj.has_field g = 0 <;> simp [hp]
  refine ⟨key f, ?_, rfl, ?_, ?_⟩
  · exact key ⟨0, by decide⟩
  · simp [ck_getfield, load_field, eval_ok, VAL_IS_INT]
  · simp [ck_load_ptr, load_field, eval_ok, VAL_IS_INT]

/-- C7: ck_select on Ok(Int(1)) returns the then value and on Ok(Int(0)) the else value, unchanged
whether they are ok or errors; on an error condition it returns the condition. -/
theorem select_semantics (c t e : Eval) :
    ck_select (eval_ok (VAL_INT 1)) t e = t ∧
    ck_select (eval_ok (VAL_INT 0)) t e = e ∧
    ck_select (eval_ok 3) t e = t ∧
    ck_select (eval_ok 1) t e = e ∧
    ck_select { c with ok := 0 } t e = { c with ok := 0 } := by
  refine ⟨?_, ?_, ?_, ?_, ?_⟩ <;>
    simp [ck_select, eval_ok, VAL_INT, wrap32, VAL_IS_INT, VAL_INT_VALUE]


/-! ### Graph evaluator: unfolding lemmas -/

theorem ret_guard_ptr (st : EvalState) (id : Int) (v : Eval) :
    (if v.ok = 0 then st.ret id v
      else if VAL_IS_INT v.value then st.ret id { ok := 0, err := Err.ERR_TYPE, value := 0 }
      else st.ret id v) = st.ret id (guard_ptr_node v) := by
  unfold guard_ptr_node
  split_ifs <;> rfl

theorem ret_guard_nonnull (st : EvalState) (id : Int) (v : Eval) :
    (if v.ok = 0 then st.ret id v
      else if VAL_IS_INT v.value then st.ret id { ok := 0, err := Err.ERR_TYPE, value := 0 }
      else if v.value = VAL_NULL then st.ret id { ok := 0, err := Err.ERR_NULL, value := 0 }
      else st.ret id v) = st.ret id (guard_nonnull_node v) := by
  unfold guard_nonnull_node
  split_ifs <;> rfl

theorem eval_ops_nil_bind {β : Type} (ev : Int → EvalState → Option (Eval × EvalState))
    (st : EvalState) (f : List Eval × EvalState → Option β) :
    (eval_ops ev [] st).bind f = f ([], st) := rfl

theorem eval_ops_cons_bind {β : Type} (ev : Int → EvalState → Option (Eval × EvalState))
    (x : Int) (xs : List Int) (st : EvalState) (f : List Eval × EvalState → Option β) :
    (eval_ops ev (x :: xs) st).bind f =
      (ev x st).bind fun a => (eval_ops ev xs a.2).bind fun rs => f (a.1 :: rs.1, rs.2) := by
  rw [eval_ops]
  cases ev x st with
  | none => rfl
  | some a =>
    simp only [Option.some_bind]
    cases eval_ops ev xs a.2 <;> rfl

theorem eval_node_succ (graph : Graph) (heap : Heap) (env : Env) (fuel : Nat) (id : Int)
    (st : EvalState) :
    eval_node graph heap env (fuel + 1) id st =
      if id ≤ 0 ∨ id > graph.num_nodes then
        some ({ ok := 0, err := Err.ERR_INVALID, value := 0 }, st)
      else if st.seen id then some (st.memo id, st)
      else
        (eval_ops (eval_node graph heap env fuel) (node_operands (graph.nodes id))
          (st.mark id)).bind fun r =>
        r.2.ret id (node_combine heap env (graph.nodes id) r.1) := by
  rw [eval_node]
  by_cases h1 : id ≤ 0 ∨ id > graph.num_nodes
  · simp only [if_pos h1]
  by_cases h2 : st.seen id = true
  · simp only [if_neg h1, if_pos h2]
  simp only [if_neg h1, if_neg h2, ret_guard_ptr, ret_guard_nonnull]
  unfold node_operands node_combine
  by_cases k1 : (graph.nodes id).kind = "input"
  · simp only [if_pos k1]; rfl
  simp only [if_neg k1]
  by_cases k2 : (graph.nodes id).kind = "const_int"
  · simp only [if_pos k2]; rfl
  simp only [if_neg k2]
  by_cases k3 : (graph.nodes id).kind = "const_null"
  · simp only [if_pos k3]; rfl
  simp only [if_neg k3]
  by_cases k4 : (graph.nodes id).kind = "is_nonnull"
  · simp only [if_pos k4, eval_ops_cons_bind, eval_ops_nil_bind]; rfl
  simp only [if_neg k4]
  by_cases k5 : (graph.nodes id).kind = "guard_ptr"
  · simp only [if_pos k5, eval_ops_cons_bind, eval_ops_nil_bind]; rfl
  simp only [if_neg k5]
  by_cases k6 : (graph.nodes id).kind = "guard_nonnull"
  · simp only [if_pos k6, eval_ops_cons_bind, eval_ops_nil_bind]; rfl
  simp only [if_neg k6]
  by_cases k7 : (graph.nodes id).kind = "guard_eq"
  · simp only [if_pos k7, eval_ops_cons_bind, eval_ops_nil_bind]; rfl
  simp only [if_neg k7]
  by_cases k8 : (graph.nodes id).kind = "load_ptr"
  · simp only [if_pos k8, eval_ops_cons_bind, eval_ops_nil_bind]; rfl
  simp only [if_neg k8]
  by_cases k9 : (graph.nodes id).kind = "load_int"
  · simp only [if_pos k9, eval_ops_cons_bind, eval_ops_nil_bind]; rfl
  simp only [if_neg k9]
  by_cases k10 : (graph.nodes id).kind = "getfield"
  · simp only [if_pos k10, eval_ops_cons_bind, eval_ops_nil_bind]; rfl
  simp only [if_neg k10]
  by_cases k11 : (graph.nodes id).kind = "getfield_int"
  · simp only [if_pos k11, eval_ops_cons_bind, eval_ops_nil_bind]; rfl
  simp only [if_neg k11]
  by_cases k12 : (graph.nodes id).kind = "select"
  · simp only [if_pos k12, eval_ops_cons_bind, eval_ops_nil_bind]; rfl
  simp only [if_neg k12]
  by_cases k13 : (graph.nodes id).kind = "add"
  · simp only [if_pos k13, eval_ops_cons_bind, eval_ops_nil_bind]; rfl
  simp only [if_neg k13]
  rfl

theorem eval_node_plain_succ (graph : Graph) (heap : Heap) (env : Env) (fuel : Nat) (id : Int) :
    eval_node_plain graph heap env (fuel + 1) id =
      if id ≤ 0 ∨ id > graph.num_nodes then
        some { ok := 0, err := Err.ERR_INVALID, value := 0 }
      else
        (eval_ops_plain (eval_node_plain graph heap env fuel)
          (node_operands (graph.nodes id))).bind fun rs =>
        some (node_combine heap env (graph.nodes id) rs) := by
  rw [eval_node_plain]
  by_cases h1 : id ≤ 0 ∨ id > graph.num_nodes
  · simp only [if_pos h1]
  simp only [if_neg h1]
  have gp : ∀ v : Eval, (if v.ok = 0 then some v
      else if VAL_IS_INT v.value then some { ok := 0, err := Err.ERR_TYPE, value := 0 }
      else some v) = some (guard_ptr_node v) := by
    intro v; unfold guard_ptr_node; split_ifs <;> rfl
  have gn : ∀ v : Eval, (if v.ok = 0 then some v
      else if VAL_IS_INT v.value then some { ok := 0, err := Err.ERR_TYPE, value := 0 }
      else if v.value = VAL_NULL then some { ok := 0, err := Err.ERR_NULL, value := 0 }
      else some v) = some (guard_nonnull_node v) := by
    intro v; unfold guard_nonnull_node; split_ifs <;> rfl
  have nil : ∀ (ev : Int → Option Eval) (f : List Eval → Option Eval),
      (eval_ops_plain ev []).bind f = f [] := fun _ _ => rfl
  have cons : ∀ (ev : Int → Option Eval) (x : Int) (xs : List Int) (f : List Eval → Option Eval),
      (eval_ops_plain ev (x :: xs)).bind f =
        (ev x).bind fun a => (eval_ops_plain ev xs).bind fun rs => f (a :: rs) := by
    intro ev x xs f
    rw [eval_ops_plain]
    cases ev x with
    | none => rfl
    | some a =>
      simp only [Option.some_bind]
      cases eval_ops_plain ev xs <;> rfl
  simp only [gp, gn]
  unfold node_operands node_combine
  by_cases k1 : (graph.nodes id).kind = "input"
  · simp only [if_pos k1]; rfl
  simp only [if_neg k1]
  by_cases k2 : (graph.nodes id).kind = "const_int"
  · simp only [if_pos k2]; rfl
  simp only [if_neg k2]
  by_cases k3 : (graph.nodes id).kind = "const_null"
  · simp only [if_pos k3]; rfl
  simp only [if_neg k3]
  by_cases k4 : (graph.nodes id).kind = "is_nonnull"
  · simp only [if_pos k4, cons, nil]; rfl
  simp only [if_neg k4]
  by_cases k5 : (graph.nodes id).kind = "guard_ptr"
  · simp only [if_pos k5, cons, nil]; rfl
  simp only [if_neg k5]
  by_cases k6 : (graph.nodes id).kind = "guard_nonnull"
  · simp only [if_pos k6, cons, nil]; rfl
  simp only [if_neg k6]
  by_cases k7 : (graph.nodes id).kind = "guard_eq"
  · simp only [if_pos k7, cons, nil]; rfl
  simp only [if_neg k7]
  by_cases k8 : (graph.nodes id).kind = "load_ptr"
  · simp only [if_pos k8, cons, nil]; rfl
  simp only [if_neg k8]
  by_cases k9 : (graph.nodes id).kind = "load_int"
  · simp only [if_pos k9, cons, nil]; rfl
  simp only [if_neg k9]
  by_cases k10 : (graph.nodes id).kind = "getfield"
  · simp only [if_pos k10, cons, nil]; rfl
  simp only [if_neg k10]
  by_cases k11 : (graph.nodes id).kind = "getfield_int"
  · simp only [if_pos k11, cons, nil]; rfl
  simp only [if_neg k11]
  by_cases k12 : (graph.nodes id).kind = "select"
  · simp only [if_pos k12, cons, nil]; rfl
  simp only [if_neg k12]
  by_cases k13 : (graph.nodes id).kind = "add"
  · simp only [if_pos k13, cons, nil]; rfl
  simp only [if_neg k13]
  rfl

/-! ### Termination of the memoized evaluator -/

theorem progress_refl (graph : Graph) (st : EvalState) : Progress graph st st :=
  ⟨fun _ h => h, le_refl _, rfl⟩

theorem progress_trans {graph : Graph} {a b c : EvalState} (h1 : Progress graph a b)
    (h2 : Progress graph b c) : Progress graph a c :=
  ⟨fun i h => h2.1 i (h1.1 i h), le_trans h2.2.1 h1.2.1, by rw [h2.2.2, h1.2.2]⟩

theorem unseen_count_mark (graph : Graph) (st : EvalState) (id : Int)
    (hr : ¬ (id ≤ 0 ∨ id > graph.num_nodes)) (hs : ¬ st.seen id = true) :
    unseen_count graph (st.mark id) + 1 = unseen_count graph st := by
  unfold unseen_count
  have hs' : st.seen id = false := by simpa using hs
  have hset : (Finset.Icc 1 graph.num_nodes).filter (fun i => st.seen i = false) =
      insert id ((Finset.Icc 1 graph.num_nodes).filter (fun i => (st.mark id).seen i = false)) := by
    ext i
    simp only [Finset.mem_filter, Finset.mem_Icc, Finset.mem_insert, EvalState.mark]
    by_cases hi : i = id
    · subst hi
      simp only [hs', if_true, true_or, and_true, iff_true]
      omega
    · simp [hi]
  rw [hset, Finset.card_insert_of_not_mem]
  simp [EvalState.mark]

theorem eval_ops_progress (graph : Graph) (F : Nat)
    (ev : Int → EvalState → Option (Eval × EvalState))
    (hev : ∀ o st, unseen_count graph st < F →
      ∃ r st', ev o st = some (r, st') ∧ Progress graph st st') :
    ∀ (ops : List Int) (st : EvalState), unseen_count graph st < F →
      ∃ rs st', eval_ops ev ops st = some (rs, st') ∧ Progress graph st st' := by
  intro ops
  induction ops with
  | nil => intro st _; exact ⟨[], st, rfl, progress_refl graph st⟩
  | cons o os ih =>
    intro st hst
    obtain ⟨r, st1, h1, p1⟩ := hev o st hst
    obtain ⟨rs, st2, h2, p2⟩ := ih st1 (lt_of_le_of_lt p1.2.1 hst)
    refine ⟨r :: rs, st2, ?_, progress_trans p1 p2⟩
    simp [eval_ops, h1, h2]

theorem eval_node_progress (graph : Graph) (heap : Heap) (env : Env) :
    ∀ (F : Nat) (id : Int) (st : EvalState), unseen_count graph st < F →
      ∃ r st', eval_node graph heap env F id st = some (r, st') ∧ Progress graph st st' := by
  intro F
  induction F with
  | zero => intro id st h; omega
  | succ F ih =>
    intro id st hst
    rw [eval_node_succ]
    by_cases h1 : id ≤ 0 ∨ id > graph.num_nodes
    · exact ⟨_, st, by rw [if_pos h1], progress_refl graph st⟩
    by_cases h2 : st.seen id = true
    · exact ⟨_, st, by rw [if_neg h1, if_pos h2], progress_refl graph st⟩
    simp only [if_neg h1, if_neg h2]
    have hm := unseen_count_mark graph st id h1 h2
    obtain ⟨rs, st2, h3, p3⟩ :=
      eval_ops_progress graph F (eval_node graph heap env F) ih
        (node_operands (graph.nodes id)) (st.mark id) (by omega)
    refine ⟨_, _, by simp only [h3, Option.some_bind, EvalState.ret]; rfl, ?_⟩
    refine ⟨fun i hi => ?_, ?_, ?_⟩
    · apply p3.1
      simp [EvalState.mark, hi]
    · have := p3.2.1
      show unseen_count graph st2 ≤ _
      omega
    · have := p3.2.2
      show st2.bodies + unseen_count graph st2 = _
      have hb : (st.mark id).bodies = st.bodies + 1 := rfl
      omega

theorem unseen_count_init (graph : Graph) :
    unseen_count graph EvalState.init = graph.num_nodes.toNat := by
  unfold unseen_count EvalState.init
  simp


/-! ### Memoized and plain evaluation agree -/

theorem eval_ops_plain_mono (ev ev' : Int → Option Eval)
    (h : ∀ o r, ev o = some r → ev' o = some r) :
    ∀ (ops : List Int) (rs : List Eval),
      eval_ops_plain ev ops = some rs → eval_ops_plain ev' ops = some rs := by
  intro ops
  induction ops with
  | nil => intro rs hrs; exact hrs
  | cons o os ih =>
    intro rs hrs
    rw [eval_ops_plain] at hrs ⊢
    cases ho : ev o with
    | none => simp [ho] at hrs
    | some a =>
      rw [ho] at hrs
      simp only [Option.some_bind] at hrs
      cases hos : eval_ops_plain ev os with
      | none => simp [hos] at hrs
      | some as =>
        rw [hos] at hrs
        rw [h o a ho, Option.some_bind, ih as hos]
        exact hrs

theorem eval_node_plain_step (graph : Graph) (heap : Heap) (env : Env) :
    ∀ (k : Nat) (id : Int) (r : Eval),
      eval_node_plain graph heap env k id = some r →
      eval_node_plain graph heap env (k + 1) id = some r := by
  intro k
  induction k with
  | zero => intro id r h; simp [eval_node_plain] at h
  | succ k ih =>
    intro id r h
    rw [eval_node_plain_succ] at h ⊢
    by_cases h1 : id ≤ 0 ∨ id > graph.num_nodes
    · rw [if_pos h1] at h ⊢; exact h
    rw [if_neg h1] at h ⊢
    cases hops : eval_ops_plain (eval_node_plain graph heap env k)
        (node_operands (graph.nodes id)) with
    | none => simp [hops] at h
    | some rs =>
      rw [hops] at h
      rw [eval_ops_plain_mono _ _ (ih) _ rs hops]
      exact h

theorem eval_node_plain_mono (graph : Graph) (heap : Heap) (env : Env) (k k' : Nat) (id : Int)
    (r : Eval) (hk : k ≤ k') (h : eval_node_plain graph heap env k id = some r) :
    eval_node_plain graph heap env k' id = some r := by
  induction hk with
  | refl => exact h
  | step _ ih => exact eval_node_plain_step graph heap env _ id r ih

theorem den_unique {graph : Graph} {heap : Heap} {env : Env} {id : Int} {r r' : Eval}
    (h : Den graph heap env id r) (h' : Den graph heap env id r') : r = r' := by
  obtain ⟨k, hk⟩ := h
  obtain ⟨k', hk'⟩ := h'
  have a := eval_node_plain_mono graph heap env k (max k k') id r (le_max_left _ _) hk
  have b := eval_node_plain_mono graph heap env k' (max k k') id r' (le_max_right _ _) hk'
  rw [a] at b
  exact Option.some.inj b

theorem frame_refl (graph : Graph) (heap : Heap) (env : Env) (st : EvalState) :
    Frame graph heap env st st :=
  ⟨fun _ h => ⟨h, rfl⟩, fun a _ h h' => by rw [h] at h'; exact absurd h' (by decide)⟩

theorem frame_trans {graph : Graph} {heap : Heap} {env : Env} {a b c : EvalState}
    (h1 : Frame graph heap env a b) (h2 : Frame graph heap env b c) :
    Frame graph heap env a c := by
  refine ⟨fun i hi => ?_, fun i hr hi hc => ?_⟩
  · obtain ⟨hb, hm⟩ := h1.1 i hi
    obtain ⟨hc, hm'⟩ := h2.1 i hb
    exact ⟨hc, hm'.trans hm⟩
  · by_cases hb : b.seen i = true
    · rw [(h2.1 i hb).2]
      exact h1.2 i hr hi hb
    · exact h2.2 i hr (by simpa using hb) hc

theorem memo_inv_frame {graph : Graph} {heap : Heap} {env : Env} {k : Nat} {st st' : EvalState}
    (hinv : MemoInv graph heap env k st) (hf : Frame graph heap env st st') :
    MemoInv graph heap env k st' := by
  intro a hr hs
  by_cases hb : st.seen a = true
  · rw [(hf.1 a hb).2]
    exact hinv a hr hb
  · exact Or.inl (hf.2 a hr (by simpa using hb) hs)

theorem eval_ops_agree (graph : Graph) (heap : Heap) (env : Env) (F m : Nat)
    (ih : ∀ (k : Nat) (id : Int) (st : EvalState) (r' : Eval) (st' : EvalState) (r : Eval),
      eval_node graph heap env F id st = some (r', st') →
      eval_node_plain graph heap env k id = some r →
      MemoInv graph heap env k st → r' = r ∧ Frame graph heap env st st') :
    ∀ (ops : List Int) (st : EvalState) (rs : List Eval) (st' : EvalState) (rsp : List Eval),
      eval_ops (eval_node graph heap env F) ops st = some (rs, st') →
      eval_ops_plain (eval_node_plain graph heap env m) ops = some rsp →
      MemoInv graph heap env m st → rs = rsp ∧ Frame graph heap env st st' := by
  intro ops
  induction ops with
  | nil =>
    intro st rs st' rsp h hp _
    simp only [eval_ops, Option.some.injEq, Prod.mk.injEq] at h
    simp only [eval_ops_plain, Option.some.injEq] at hp
    obtain ⟨h1, h2⟩ := h
    subst h1; subst h2; subst hp
    exact ⟨rfl, frame_refl graph heap env st⟩
  | cons o os ihops =>
    intro st rs st' rsp h hp hinv
    rw [eval_ops] at h
    rw [eval_ops_plain] at hp
    cases ho : eval_node graph heap env F o st with
    | none => simp [ho] at h
    | some a =>
      rw [ho, Option.some_bind] at h
      cases hpo : eval_node_plain graph heap env m o with
      | none => simp [hpo] at hp
      | some b =>
        rw [hpo, Option.some_bind] at hp
        cases hos : eval_ops (eval_node graph heap env F) os a.2 with
        | none => simp [hos] at h
        | some as =>
          rw [hos, Option.some_bind] at h
          cases hpos : eval_ops_plain (eval_node_plain graph heap env m) os with
          | none => simp [hpos] at hp
          | some bs =>
            rw [hpos, Option.some_bind] at hp
            obtain ⟨e1, f1⟩ := ih m o st a.1 a.2 b ho hpo hinv
            obtain ⟨e2, f2⟩ := ihops a.2 as.1 as.2 bs hos hpos (memo_inv_frame hinv f1)
            simp only [Option.some.injEq, Prod.mk.injEq] at h
            simp only [Option.some.injEq] at hp
            obtain ⟨h1, h2⟩ := h
            subst h1; subst h2; subst hp
            exact ⟨by rw [e1, e2], frame_trans f1 f2⟩


theorem eval_node_plain_least (graph : Graph) (heap : Heap) (env : Env) (k : Nat) (id : Int)
    (r : Eval) (h : eval_node_plain graph heap env k id = some r) :
    ∃ m, m + 1 ≤ k ∧ eval_node_plain graph heap env m id = none ∧
      eval_node_plain graph heap env (m + 1) id = some r := by
  induction k with
  | zero => simp [eval_node_plain] at h
  | succ k ih =>
    cases hk : eval_node_plain graph heap env k id with
    | none => exact ⟨k, le_refl _, hk, h⟩
    | some r0 =>
      have := eval_node_plain_step graph heap env k id r0 hk
      rw [h] at this
      obtain ⟨m, hm, h1, h2⟩ := ih (by rw [hk, Option.some.inj this])
      exact ⟨m, by omega, h1, h2⟩

theorem eval_node_agree (graph : Graph) (heap : Heap) (env : Env) :
    ∀ (F k : Nat) (id : Int) (st : EvalState) (r' : Eval) (st' : EvalState) (r : Eval),
      eval_node graph heap env F id st = some (r', st') →
      eval_node_plain graph heap env k id = some r →
      MemoInv graph heap env k st → r' = r ∧ Frame graph heap env st st' := by
  intro F
  induction F with
  | zero => intro k id st r' st' r h; simp [eval_node] at h
  | succ F ih =>
    intro k id st r' st' r h hp hinv
    rw [eval_node_succ] at h
    by_cases h1 : id ≤ 0 ∨ id > graph.num_nodes
    · rw [if_pos h1] at h
      obtain ⟨m, _, _, hm⟩ := eval_node_plain_least graph heap env k id r hp
      rw [eval_node_plain_succ, if_pos h1] at hm
      simp only [Option.some.injEq, Prod.mk.injEq] at h hm
      obtain ⟨e1, e2⟩ := h
      subst e1; subst e2; subst hm
      exact ⟨rfl, frame_refl graph heap env st⟩
    have hr : in_range graph id := by unfold in_range; omega
    by_cases h2 : st.seen id = true
    · rw [if_neg h1, if_pos h2] at h
      simp only [Option.some.injEq, Prod.mk.injEq] at h
      obtain ⟨e1, e2⟩ := h
      subst e1; subst e2
      refine ⟨?_, frame_refl graph heap env st⟩
      rcases hinv id hr h2 with hd | hn
      · exact den_unique hd ⟨k, hp⟩
      · rw [hn] at hp; exact absurd hp (by simp)
    rw [if_neg h1, if_neg h2] at h
    obtain ⟨m, hmk, hnone, hm⟩ := eval_node_plain_least graph heap env k id r hp
    rw [eval_node_plain_succ, if_neg h1] at hm
    cases hops : eval_ops (eval_node graph heap env F) (node_operands (graph.nodes id))
        (st.mark id) with
    | none => simp [hops] at h
    | some a =>
      rw [hops, Option.some_bind] at h
      cases hpops : eval_ops_plain (eval_node_plain graph heap env m)
          (node_operands (graph.nodes id)) with
      | none => simp [hpops] at hm
      | some rsp =>
        rw [hpops, Option.some_bind] at hm
        have hinv1 : MemoInv graph heap env m (st.mark id) := by
          intro b hb hs
          by_cases hbi : b = id
          · subst hbi; exact Or.inr hnone
          · have hs' : st.seen b = true := by simpa [EvalState.mark, hbi] using hs
            rcases hinv b hb hs' with hd | hn
            · exact Or.inl hd
            · right
              cases hx : eval_node_plain graph heap env m b with
              | none => rfl
              | some x =>
                have := eval_node_plain_mono graph heap env m k b x (by omega) hx
                rw [hn] at this
                exact absurd this (by simp)
        obtain ⟨e, f⟩ := eval_ops_agree graph heap env F m ih
          (node_operands (graph.nodes id)) (st.mark id) a.1 a.2 rsp hops hpops hinv1
        simp only [EvalState.ret, EvalState.store, Option.some.injEq, Prod.mk.injEq] at h hm
        obtain ⟨e1, e2⟩ := h
        have hrr : r' = r := by rw [← e1, ← hm, e]
        refine ⟨hrr, ?_, ?_⟩
        · intro b hb
          have hbi : b ≠ id := by
            intro hbi; subst hbi; exact h2 hb
          have hb1 : (st.mark id).seen b = true := by simp [EvalState.mark, hb]
          obtain ⟨g1, g2⟩ := f.1 b hb1
          subst e2
          exact ⟨g1, by simpa [hbi, EvalState.mark] using g2⟩
        · intro b hb hs hs'
          subst e2
          by_cases hbi : b = id
          · subst hbi
            simp only [if_true]
            rw [e1, hrr]
            exact ⟨k, hp⟩
          · simp only [if_neg hbi]
            have hs1 : (st.mark id).seen b = false := by simpa [EvalState.mark, hbi] using hs
            exact f.2 b hb hs1 hs'

theorem memo_inv_init (graph : Graph) (heap : Heap) (env : Env) (k : Nat) :
    MemoInv graph heap env k EvalState.init := by
  intro a _ hs
  simp [EvalState.init] at hs

/-- Memoized evaluation returns the plain value whenever the plain evaluation of the output
finishes. -/
theorem graph_eval_eq_of_plain (graph : Graph) (heap : Heap) (env : Env) (k : Nat) (r : Eval)
    (h : graph_eval_plain k graph heap env = some r) :
    graph_eval graph heap env = some r := by
  unfold graph_eval graph_eval_run
  unfold graph_eval_plain at h
  by_cases ho : graph.output ≤ 0
  · rw [if_pos ho] at h ⊢
    simp only [Option.some.injEq] at h
    subst h; rfl
  rw [if_neg ho] at h ⊢
  obtain ⟨r', st', hrun, _⟩ := eval_node_progress graph heap env (graph.num_nodes.toNat + 1)
    graph.output EvalState.init (by rw [unseen_count_init]; omega)
  rw [hrun]
  obtain ⟨e, _⟩ := eval_node_agree graph heap env _ k graph.output EvalState.init r' st' r hrun h
    (memo_inv_init graph heap env k)
  simp [e]


theorem eval_node_step (graph : Graph) (heap : Heap) (env : Env) :
    ∀ (F : Nat) (id : Int) (st : EvalState) (x : Eval × EvalState),
      eval_node graph heap env F id st = some x →
      eval_node graph heap env (F + 1) id st = some x := by
  intro F
  induction F with
  | zero => intro id st x h; simp [eval_node] at h
  | succ F ih =>
    intro id st x h
    have hops : ∀ (ops : List Int) (s : EvalState) (y : List Eval × EvalState),
        eval_ops (eval_node graph heap env F) ops s = some y →
        eval_ops (eval_node graph heap env (F + 1)) ops s = some y := by
      intro ops
      induction ops with
      | nil => intro s y hy; exact hy
      | cons o os iho =>
        intro s y hy
        rw [eval_ops] at hy ⊢
        cases ho : eval_node graph heap env F o s with
        | none => simp [ho] at hy
        | some a =>
          rw [ho, Option.some_bind] at hy
          rw [ih o s a ho, Option.some_bind]
          cases hos : eval_ops (eval_node graph heap env F) os a.2 with
          | none => simp [hos] at hy
          | some b =>
            rw [hos] at hy
            rw [iho a.2 b hos]
            exact hy
    rw [eval_node_succ] at h ⊢
    by_cases h1 : id ≤ 0 ∨ id > graph.num_nodes
    · rw [if_pos h1] at h ⊢; exact h
    by_cases h2 : st.seen id = true
    · rw [if_neg h1, if_pos h2] at h ⊢; exact h
    rw [if_neg h1, if_neg h2] at h ⊢
    cases hy : eval_ops (eval_node graph heap env F) (node_operands (graph.nodes id))
        (st.mark id) with
    | none => simp [hy] at h
    | some y =>
      rw [hy] at h
      rw [hops _ _ y hy]
      exact h

theorem eval_node_mono (graph : Graph) (heap : Heap) (env : Env) (F F' : Nat) (id : Int)
    (st : EvalState) (x : Eval × EvalState) (hF : F ≤ F')
    (h : eval_node graph heap env F id st = some x) :
    eval_node graph heap env F' id st = some x := by
  induction hF with
  | refl => exact h
  | step _ ih => exact eval_node_step graph heap env _ id st x ih

theorem eval_ops_plain_total (graph : Graph) (heap : Heap) (env : Env) :
    ∀ (ops : List Int),
      (∀ o ∈ ops, ∃ k r, eval_node_plain graph heap env k o = some r) →
      ∃ K rs, eval_ops_plain (eval_node_plain graph heap env K) ops = some rs := by
  intro ops
  induction ops with
  | nil => intro _; exact ⟨0, [], rfl⟩
  | cons o os ih =>
    intro h
    obtain ⟨k, r, hk⟩ := h o (List.mem_cons_self o os)
    obtain ⟨K, rs, hK⟩ := ih (fun o' ho' => h o' (List.mem_cons_of_mem o ho'))
    refine ⟨max k K, r :: rs, ?_⟩
    rw [eval_ops_plain,
      eval_node_plain_mono graph heap env k (max k K) o r (le_max_left _ _) hk,
      Option.some_bind,
      eval_ops_plain_mono _ _ (fun o' r' h' =>
        eval_node_plain_mono graph heap env K (max k K) o' r' (le_max_right _ _) h') os rs hK]
    rfl

/-- On a graph whose part reachable from the output has no cycle, plain evaluation finishes. -/
theorem plain_total_of_acyclic (graph : Graph) (heap : Heap) (env : Env) (h : Acyclic graph) :
    ∃ k r, graph_eval_plain k graph heap env = some r := by
  have fin : Finite {i : Int | Reachable graph i ∧ in_range graph i} :=
    (Set.Finite.subset (Set.finite_Icc 1 graph.num_nodes)
      (fun i hi => ⟨hi.2.1, hi.2.2⟩)).to_subtype
  have tr : IsTrans {i : Int | Reachable graph i ∧ in_range graph i}
      (fun a b => Relation.TransGen (Edge graph) b.1 a.1) :=
    ⟨fun a b c hab hbc => Relation.TransGen.trans hbc hab⟩
  have irr : IsIrrefl {i : Int | Reachable graph i ∧ in_range graph i}
      (fun a b => Relation.TransGen (Edge graph) b.1 a.1) :=
    ⟨fun a haa => h a.1 a.2.1 haa⟩
  have wf : WellFounded (fun a b : {i : Int | Reachable graph i ∧ in_range graph i} =>
      Relation.TransGen (Edge graph) b.1 a.1) :=
    Finite.wellFounded_of_trans_of_irrefl _
  have key : ∀ s : {i : Int | Reachable graph i ∧ in_range graph i},
      ∃ k r, eval_node_plain graph heap env k s.1 = some r := by
    intro s
    induction s using wf.induction with
    | _ s ih =>
      have hs : ¬ (s.1 ≤ 0 ∨ s.1 > graph.num_nodes) := by
        have := s.2.2; unfold in_range at this; omega
      have ops : ∀ o ∈ node_operands (graph.nodes s.1),
          ∃ k r, eval_node_plain graph heap env k o = some r := by
        intro o ho
        by_cases hr : o ≤ 0 ∨ o > graph.num_nodes
        · exact ⟨1, _, by rw [eval_node_plain_succ, if_pos hr]⟩
        · have hro : in_range graph o := by unfold in_range; omega
          have e : Edge graph s.1 o := ⟨s.2.2, ho, hro⟩
          exact ih ⟨o, Reachable.step s.2.1 e, hro⟩ (Relation.TransGen.single e)
      obtain ⟨K, rs, hK⟩ := eval_ops_plain_total graph heap env _ ops
      exact ⟨K + 1, _, by rw [eval_node_plain_succ, if_neg hs, hK]; rfl⟩
  unfold graph_eval_plain
  by_cases ho : graph.output ≤ 0
  · exact ⟨0, _, by rw [if_pos ho]⟩
  by_cases hr : graph.output ≤ 0 ∨ graph.output > graph.num_nodes
  · exact ⟨1, _, by rw [if_neg ho, eval_node_plain_succ, if_pos hr]⟩
  · have hro : in_range graph graph.output := by unfold in_range; omega
    obtain ⟨k, r, hk⟩ := key ⟨graph.output, Reachable.output, hro⟩
    exact ⟨k, r, by rw [if_neg ho]; exact hk⟩

theorem graph_eval_plain_mono (graph : Graph) (heap : Heap) (env : Env) (k k' : Nat) (r : Eval)
    (hk : k ≤ k') (h : graph_eval_plain k graph heap env = some r) :
    graph_eval_plain k' graph heap env = some r := by
  unfold graph_eval_plain at h ⊢
  by_cases ho : graph.output ≤ 0
  · rw [if_pos ho] at h ⊢; exact h
  · rw [if_neg ho] at h ⊢
    exact eval_node_plain_mono graph heap env k k' _ r hk h

theorem acyclic_of_topo (graph : Graph) (h : ∀ i o, Edge graph i o → o < i) : Acyclic graph := by
  have key : ∀ i j, Relation.TransGen (Edge graph) i j → j < i := by
    intro i j hij
    induction hij with
    | single e => exact h _ _ e
    | tail _ e ih => exact lt_trans (h _ _ e) ih
  intro i _ hii
  exact lt_irrefl i (key i i hii)

theorem shared_graph_acyclic : Acyclic shared_graph := by
  apply acyclic_of_topo
  intro i o e
  obtain ⟨⟨h1, h2⟩, ho, _⟩ := e
  have h2' : i ≤ 5 := h2
  interval_cases i <;> simp [shared_graph, node_operands] at ho <;> omega

/-- C10: on a graph whose part reachable from the output is acyclic, the memoized graph_eval
returns a result, and the plain evaluation that recomputes every operand (no memo, no seen array)
returns that same Eval for every sufficiently large fuel. -/
theorem memo_equivalence (graph : Graph) (heap : Heap) (env : Env) (h : Acyclic graph) :
    ∃ r, graph_eval graph heap env = some r ∧
      ∃ k0, ∀ k, k0 ≤ k → graph_eval_plain k graph heap env = some r := by
  obtain ⟨k0, r, hk0⟩ := plain_total_of_acyclic graph heap env h
  exact ⟨r, graph_eval_eq_of_plain graph heap env k0 r hk0, k0,
    fun k hk => graph_eval_plain_mono graph heap env k0 k r hk hk0⟩

/-- Witness of C10: an acyclic graph in which the load of node 4 is shared by both operands of
the add. -/
theorem memo_equivalence_witness :
    Acyclic shared_graph ∧
    graph_eval shared_graph one_int_heap { p := 2, q := 0 } = some (eval_ok 13) ∧
    graph_eval_plain 5 shared_graph one_int_heap { p := 2, q := 0 } = some (eval_ok 13) ∧
    ∃ r, graph_eval shared_graph one_int_heap { p := 2, q := 0 } = some r ∧
      ∃ k0, ∀ k, k0 ≤ k →
        graph_eval_plain k shared_graph one_int_heap { p := 2, q := 0 } = some r :=
  ⟨shared_graph_acyclic, by decide, by decide,
    memo_equivalence shared_graph one_int_heap { p := 2, q := 0 } shared_graph_acyclic⟩


/-- C9: eval_node returns at once, leaving the scratch state alone, when the id is out of range
or already seen; with fuel above the number of unseen ids it always returns, every body entered
having marked exactly one previously unseen id; hence graph_eval returns on every graph (cyclic
or with dangling operand ids included), the same result for every fuel above num_nodes, after
entering at most num_nodes node bodies. -/
theorem graph_eval_terminates (graph : Graph) (heap : Heap) (env : Env) (k : Nat) :
    (∀ (F : Nat) (id : Int) (st : EvalState),
      (id ≤ 0 ∨ id > graph.num_nodes ∨ st.seen id = true) →
      ∃ r, eval_node graph heap env (F + 1) id st = some (r, st)) ∧
    (∀ (F : Nat) (id : Int) (st : EvalState), unseen_count graph st < F →
      ∃ r st', eval_node graph heap env F id st = some (r, st') ∧
        (∀ i, st.seen i = true → st'.seen i = true) ∧
        st'.bodies + unseen_count graph st' = st.bodies + unseen_count graph st) ∧
    ∃ r st, graph_eval_run (graph.num_nodes.toNat + 1 + k) graph heap env = some (r, st) ∧
      st.bodies ≤ graph.num_nodes.toNat ∧
      graph_eval graph heap env = some r := by
  refine ⟨?_, ?_, ?_⟩
  · intro F id st h
    rw [eval_node_succ]
    by_cases h1 : id ≤ 0 ∨ id > graph.num_nodes
    · exact ⟨_, by rw [if_pos h1]⟩
    · have h2 : st.seen id = true := by
        rcases h with h | h | h
        · exact absurd (Or.inl h) h1
        · exact absurd (Or.inr h) h1
        · exact h
      exact ⟨_, by rw [if_neg h1, if_pos h2]⟩
  · intro F id st h
    obtain ⟨r, st', h1, h2⟩ := eval_node_progress graph heap env F id st h
    exact ⟨r, st', h1, h2.1, h2.2.2⟩
  · unfold graph_eval graph_eval_run
    by_cases ho : graph.output ≤ 0
    · refine ⟨_, _, by rw [if_pos ho], ?_, by rw [if_pos ho]; rfl⟩
      simp [EvalState.init]
    · rw [if_neg ho, if_neg ho]
      obtain ⟨r, st, h1, h2⟩ := eval_node_progress graph heap env (graph.num_nodes.toNat + 1)
        graph.output EvalState.init (by rw [unseen_count_init]; omega)
      have h3 := eval_node_mono graph heap env _ (graph.num_nodes.toNat + 1 + k) _ _ _
        (by omega) h1
      refine ⟨r, st, h3, ?_, by rw [h1]; rfl⟩
      have := h2.2.2
      rw [unseen_count_init] at this
      have hb : EvalState.init.bodies = 0 := rfl
      omega

/-! ### Correctness of the lifter -/

theorem den_nullary (graph : Graph) (heap : Heap) (env : Env) (id : Int)
    (hr : in_range graph id) (hops : node_operands (graph.nodes id) = []) :
    Den graph heap env id (node_combine heap env (graph.nodes id) []) := by
  have h1 : ¬ (id ≤ 0 ∨ id > graph.num_nodes) := by unfold in_range at hr; omega
  exact ⟨1, by rw [eval_node_plain_succ, if_neg h1, hops]; rfl⟩

theorem den_unary (graph : Graph) (heap : Heap) (env : Env) (id x : Int) (a : Eval)
    (hr : in_range graph id) (hops : node_operands (graph.nodes id) = [x])
    (hx : Den graph heap env x a) :
    Den graph heap env id (node_combine heap env (graph.nodes id) [a]) := by
  have h1 : ¬ (id ≤ 0 ∨ id > graph.num_nodes) := by unfold in_range at hr; omega
  obtain ⟨k, hk⟩ := hx
  exact ⟨k + 1, by rw [eval_node_plain_succ, if_neg h1, hops]; simp [eval_ops_plain, hk]⟩

theorem den_binary (graph : Graph) (heap : Heap) (env : Env) (id x y : Int) (a b : Eval)
    (hr : in_range graph id) (hops : node_operands (graph.nodes id) = [x, y])
    (hx : Den graph heap env x a) (hy : Den graph heap env y b) :
    Den graph heap env id (node_combine heap env (graph.nodes id) [a, b]) := by
  have h1 : ¬ (id ≤ 0 ∨ id > graph.num_nodes) := by unfold in_range at hr; omega
  obtain ⟨k, hk⟩ := hx
  obtain ⟨l, hl⟩ := hy
  have hk' := eval_node_plain_mono graph heap env k (max k l) x a (le_max_left _ _) hk
  have hl' := eval_node_plain_mono graph heap env l (max k l) y b (le_max_right _ _) hl
  exact ⟨max k l + 1, by
    rw [eval_node_plain_succ, if_neg h1, hops]; simp [eval_ops_plain, hk', hl']⟩

theorem den_ternary (graph : Graph) (heap : Heap) (env : Env) (id x y z : Int) (a b c : Eval)
    (hr : in_range graph id) (hops : node_operands (graph.nodes id) = [x, y, z])
    (hx : Den graph heap env x a) (hy : Den graph heap env y b) (hz : Den graph heap env z c) :
    Den graph heap env id (node_combine heap env (graph.nodes id) [a, b, c]) := by
  have h1 : ¬ (id ≤ 0 ∨ id > graph.num_nodes) := by unfold in_range at hr; omega
  obtain ⟨k, hk⟩ := hx
  obtain ⟨l, hl⟩ := hy
  obtain ⟨m, hm⟩ := hz
  have hk' := eval_node_plain_mono graph heap env k (max (max k l) m) x a
    (le_trans (le_max_left _ _) (le_max_left _ _)) hk
  have hl' := eval_node_plain_mono graph heap env l (max (max k l) m) y b
    (le_trans (le_max_right _ _) (le_max_left _ _)) hl
  have hm' := eval_node_plain_mono graph heap env m (max (max k l) m) z c (le_max_right _ _) hm
  exact ⟨max (max k l) m + 1, by
    rw [eval_node_plain_succ, if_neg h1, hops]; simp [eval_ops_plain, hk', hl', hm']⟩

/-- The guard prelude emitted before a load does not change what the load returns. -/
theorem load_field_guards (heap : Heap) (v : Eval) (field : Int) (require_int : Bool) :
    load_field heap (guard_nonnull_node (guard_ptr_node v)) field require_int =
      load_field heap v field require_int := by
  unfold guard_nonnull_node guard_ptr_node load_field eval_err
  by_cases h0 : v.ok = 0
  · simp [h0]
  by_cases h1 : VAL_IS_INT v.value = true
  · simp [h0, h1]
  by_cases h2 : v.value = VAL_NULL
  · simp [h0, h1, h2, VAL_NULL, VAL_IS_INT]
  · simp [h0, h1, h2]

theorem store_nodes_spec :
    ∀ (ns : List Node) (g : Graph) (m : Nat), g.num_nodes = (m : Int) →
      (∀ (j : Nat) (n : Node), ns[j]? = some n → n.id = (m : Int) + (j : Int) + 1) →
      (ns.foldl store_node g).num_nodes = (m : Int) + (ns.length : Int) ∧
      (ns.foldl store_node g).output = g.output ∧
      (∀ n ∈ ns, (ns.foldl store_node g).nodes n.id = n) := by
  intro ns
  induction ns with
  | nil => intro g m hm _; simp [hm]
  | cons a as ih =>
    intro g m hm hid
    have ha : a.id = (m : Int) + 1 := by
      have := hid 0 a (by simp)
      simpa using this
    have hstore : store_node g a =
        { g with nodes := fun i => if i = a.id then a else g.nodes i, num_nodes := a.id } := by
      unfold store_node
      rw [if_pos (by omega), if_pos (by omega)]
    have hnum : (store_node g a).num_nodes = ((m + 1 : Nat) : Int) := by
      rw [hstore]; simp [ha]
    have hid' : ∀ (j : Nat) (n : Node), as[j]? = some n →
        n.id = ((m + 1 : Nat) : Int) + (j : Int) + 1 := by
      intro j n hj
      have := hid (j + 1) n (by simpa using hj)
      rw [this]; push_cast; ring
    obtain ⟨h1, h2, h3⟩ := ih (store_node g a) (m + 1) hnum hid'
    refine ⟨?_, ?_, ?_⟩
    · rw [List.foldl_cons, h1]; simp; ring
    · rw [List.foldl_cons, h2, hstore]
    · intro n hn
      rw [List.foldl_cons]
      rcases List.mem_cons.mp hn with rfl | hn'
      · -- the head is not overwritten by later records, whose ids are larger
        have keep : ∀ (bs : List Node) (g' : Graph), (∀ b ∈ bs, b.id ≠ n.id) →
            (bs.foldl store_node g').nodes n.id = g'.nodes n.id := by
          intro bs
          induction bs with
          | nil => intro g' _; rfl
          | cons b bs ihb =>
            intro g' hb
            rw [List.foldl_cons, ihb _ (fun b' hb' => hb b' (List.mem_cons_of_mem b hb'))]
            unfold store_node
            have hbn : b.id ≠ n.id := hb b (List.mem_cons_self b bs)
            split_ifs <;> simp [Ne.symm hbn]
        rw [keep as _ ?_]
        · rw [hstore]; simp
        · intro b hb
          obtain ⟨j, hj, hjb⟩ := List.mem_iff_getElem.mp hb
          have := hid' j b (by rw [List.getElem?_eq_getElem hj, hjb])
          rw [this, ha]; push_cast; omega
      · exact h3 n hn'

theorem load_graph_contains (ns : List Node) (output : Int)
    (hid : ∀ (j : Nat) (n : Node), ns[j]? = some n → n.id = (j : Int) + 1) :
    Contains (load_graph ns output) ns ∧ (load_graph ns output).output = output := by
  obtain ⟨h1, h2, h3⟩ := store_nodes_spec ns
    { num_nodes := 0, nodes := fun _ => {}, output := output } 0 rfl
    (by intro j n hj; rw [hid j n hj]; simp)
  refine ⟨fun n hn => ⟨?_, h3 n hn⟩, h2⟩
  obtain ⟨j, hj, hjn⟩ := List.mem_iff_getElem.mp hn
  have := hid j n (by rw [List.getElem?_eq_getElem hj, hjn])
  unfold in_range load_graph
  rw [h1, this]
  simp
  omega


theorem contains_mono {graph : Graph} {ns ns' : List Node} (h : Contains graph ns')
    (hsub : ∀ n ∈ ns, n ∈ ns') : Contains graph ns :=
  fun n hn => h n (hsub n hn)

theorem value_inv_mono {heap : Heap} {p q : Int} {ns ns' : List Node} {vt : List Int}
    {vals : List Eval} (h : ValueInv heap p q ns vt vals) (hsub : ∀ n ∈ ns, n ∈ ns') :
    ValueInv heap p q ns' vt vals :=
  ⟨h.1, fun graph hc j v hj => h.2 graph (contains_mono hc hsub) j v hj⟩

theorem value_inv_snoc {heap : Heap} {p q : Int} {ns : List Node} {vt : List Int}
    {vals : List Eval} (h : ValueInv heap p q ns vt vals) (id : Int) (r : Eval)
    (hden : ∀ graph, Contains graph ns →
      in_range graph id ∧ Den graph heap { p := p, q := q } id r) :
    ValueInv heap p q ns (vt ++ [id]) (vals ++ [r]) := by
  refine ⟨by simp [h.1], fun graph hc j v hj => ?_⟩
  by_cases hlt : j < vals.length
  · rw [List.getElem?_append_left hlt] at hj
    have hlt' : j < vt.length := by rw [h.1]; exact hlt
    have : (vt ++ [id]).getD j 0 = vt.getD j 0 := by
      simp [List.getD_eq_getElem?_getD, List.getElem?_append_left hlt']
    rw [this]
    exact h.2 graph hc j v hj
  · have hj' : j = vals.length := by
      by_contra hne
      have : vals.length + 1 ≤ j := by omega
      rw [List.getElem?_eq_none (by simp; omega)] at hj
      exact absurd hj (by simp)
    subst hj'
    have hv : v = r := by
      simp at hj
      exact hj.symm
    have : (vt ++ [id]).getD vals.length 0 = id := by
      rw [← h.1]
      simp [List.getD_eq_getElem?_getD]
    rw [this, hv]
    exact hden graph hc

theorem addNode_spec (b : GraphBuilder) (n : Node) (hb : BuilderInv b) :
    BuilderInv (b.addNode n).1 ∧
    (b.addNode n).2 = (b.nodes.length : Int) + 1 ∧
    (b.addNode n).1.nodes = b.nodes ++ [set_id n ((b.nodes.length : Int) + 1)] ∧
    (b.addNode n).1.inputNodes = b.inputNodes := by
  obtain ⟨h1, h2, h3⟩ := hb
  unfold GraphBuilder.addNode set_id
  rw [h1]
  refine ⟨⟨?_, ?_, ?_⟩, rfl, rfl, rfl⟩
  · simp
  · intro j m hj
    simp only at hj
    by_cases hlt : j < b.nodes.length
    · rw [List.getElem?_append_left hlt] at hj
      exact h2 j m hj
    · by_cases hj' : j = b.nodes.length
      · subst hj'
        simp at hj
        rw [← hj]
      · rw [List.getElem?_eq_none (by simp; omega)] at hj
        exact absurd hj (by simp)
  · intro name id hl
    obtain ⟨m, hm, hm'⟩ := h3 name id hl
    exact ⟨m, List.mem_append_left _ hm, hm'⟩

theorem contains_last (graph : Graph) (ns : List Node) (n : Node)
    (hc : Contains graph (ns ++ [n])) : in_range graph n.id ∧ graph.nodes n.id = n :=
  hc n (by simp)

theorem env_lookup_input (p q : Int) (name : String) (tagged : Param)
    (hwf : (Call.ck_input name tagged).wf 0 = true) :
    ck_input name (env_lookup { p := p, q := q } name) =
      ck_input name (param_value p q tagged) := by
  simp only [Call.wf, Bool.or_eq_true, Bool.and_eq_true, beq_iff_eq] at hwf
  rcases hwf with ⟨h1, h2⟩ | ⟨h1, h2⟩
  · subst h1; subst h2; rfl
  · subst h1; subst h2; rfl

/-- Emitting one node whose plain value is r keeps both invariants and maps the call to r. -/
theorem emit_step (heap : Heap) (p q : Int) (s : LiftState) (vals : List Eval)
    (b' : GraphBuilder) (n : Node) (r : Eval)
    (hb' : BuilderInv b') (hsub : ∀ x ∈ s.builder.nodes, x ∈ b'.nodes)
    (hv : ValueInv heap p q s.builder.nodes s.valueToNode vals)
    (hden : ∀ graph, Contains graph (b'.nodes ++ [set_id n ((b'.nodes.length : Int) + 1)]) →
      Den graph heap { p := p, q := q } ((b'.nodes.length : Int) + 1) r) :
    BuilderInv (s.emit b' n).builder ∧
    ValueInv heap p q (s.emit b' n).builder.nodes (s.emit b' n).valueToNode (vals ++ [r]) := by
  obtain ⟨a1, a2, a3, _⟩ := addNode_spec b' n hb'
  unfold LiftState.emit
  refine ⟨a1, ?_⟩
  simp only [a2, a3]
  have hsub' : ∀ x ∈ s.builder.nodes,
      x ∈ b'.nodes ++ [set_id n ((b'.nodes.length : Int) + 1)] :=
    fun x hx => List.mem_append_left _ (hsub x hx)
  apply value_inv_snoc (value_inv_mono hv hsub')
  intro graph hc
  exact ⟨(contains_last graph _ _ hc).1, hden graph hc⟩


theorem den_last_nullary (graph : Graph) (heap : Heap) (env : Env) (ns : List Node) (n : Node)
    (i : Int) (hc : Contains graph (ns ++ [set_id n i])) (hops : node_operands n = []) :
    Den graph heap env i (node_combine heap env n []) := by
  obtain ⟨h1, h2⟩ := contains_last graph ns _ hc
  have := den_nullary graph heap env i h1 (by rw [show graph.nodes i = set_id n i from h2]; exact hops)
  rwa [show graph.nodes i = set_id n i from h2] at this

theorem den_last_unary (graph : Graph) (heap : Heap) (env : Env) (ns : List Node) (n : Node)
    (i x : Int) (a : Eval) (hc : Contains graph (ns ++ [set_id n i]))
    (hops : node_operands n = [x]) (hx : Den graph heap env x a) :
    Den graph heap env i (node_combine heap env n [a]) := by
  obtain ⟨h1, h2⟩ := contains_last graph ns _ hc
  have := den_unary graph heap env i x a h1
    (by rw [show graph.nodes i = set_id n i from h2]; exact hops) hx
  rwa [show graph.nodes i = set_id n i from h2] at this

theorem den_last_binary (graph : Graph) (heap : Heap) (env : Env) (ns : List Node) (n : Node)
    (i x y : Int) (a b : Eval) (hc : Contains graph (ns ++ [set_id n i]))
    (hops : node_operands n = [x, y])
    (hx : Den graph heap env x a) (hy : Den graph heap env y b) :
    Den graph heap env i (node_combine heap env n [a, b]) := by
  obtain ⟨h1, h2⟩ := contains_last graph ns _ hc
  have := den_binary graph heap env i x y a b h1
    (by rw [show graph.nodes i = set_id n i from h2]; exact hops) hx hy
  rwa [show graph.nodes i = set_id n i from h2] at this

theorem den_last_ternary (graph : Graph) (heap : Heap) (env : Env) (ns : List Node) (n : Node)
    (i x y z : Int) (a b c : Eval) (hc : Contains graph (ns ++ [set_id n i]))
    (hops : node_operands n = [x, y, z])
    (hx : Den graph heap env x a) (hy : Den graph heap env y b) (hz : Den graph heap env z c) :
    Den graph heap env i (node_combine heap env n [a, b, c]) := by
  obtain ⟨h1, h2⟩ := contains_last graph ns _ hc
  have := den_ternary graph heap env i x y z a b c h1
    (by rw [show graph.nodes i = set_id n i from h2]; exact hops) hx hy hz
  rwa [show graph.nodes i = set_id n i from h2] at this

theorem addGuardedPtr_spec (heap : Heap) (env : Env) (b : GraphBuilder) (x : Int)
    (hb : BuilderInv b) :
    BuilderInv (addGuardedPtr b x).1 ∧
    (∀ n ∈ b.nodes, n ∈ (addGuardedPtr b x).1.nodes) ∧
    (∀ graph a, Contains graph (addGuardedPtr b x).1.nodes → Den graph heap env x a →
      Den graph heap env (addGuardedPtr b x).2 (guard_nonnull_node (guard_ptr_node a))) := by
  obtain ⟨a1, a2, a3, _⟩ := addNode_spec b { kind := "guard_ptr", x := x } hb
  obtain ⟨c1, c2, c3, _⟩ := addNode_spec (b.addNode { kind := "guard_ptr", x := x }).1
    { kind := "guard_nonnull", x := (b.addNode { kind := "guard_ptr", x := x }).2 } a1
  unfold addGuardedPtr
  refine ⟨c1, ?_, ?_⟩
  · intro n hn
    rw [c3, a3]
    simp [hn]
  · intro graph a hc hx
    rw [c3] at hc
    rw [c2]
    have hc1 : Contains graph (b.addNode { kind := "guard_ptr", x := x }).1.nodes :=
      contains_mono hc (fun n hn => List.mem_append_left _ hn)
    rw [a3] at hc1
    have d1 := den_last_unary graph heap env _ _ _ x a hc1 (by simp [node_operands]) hx
    rw [← a2] at d1
    have d2 := den_last_unary graph heap env _ _ _ _ _ hc (by simp [node_operands]) d1
    simpa [node_combine] using d2

theorem getElem?_of_lt_wf {vals : List Eval} {v : Nat} (h : v < vals.length) :
    ∃ a, vals[v]? = some a := ⟨vals[v], List.getElem?_eq_getElem h⟩


theorem getOrAddInput_some (b : GraphBuilder) (name : String) (id : Int)
    (hl : b.inputNodes.lookup name = some id) : b.getOrAddInput name = (b, id) := by
  unfold GraphBuilder.getOrAddInput
  rw [hl]

theorem getOrAddInput_none (b : GraphBuilder) (name : String)
    (hl : b.inputNodes.lookup name = none) :
    b.getOrAddInput name =
      ({ (b.addNode { kind := "input", name := name }).1 with
          inputNodes := (name, (b.addNode { kind := "input", name := name }).2) ::
            (b.addNode { kind := "input", name := name }).1.inputNodes },
        (b.addNode { kind := "input", name := name }).2) := by
  unfold GraphBuilder.getOrAddInput
  rw [hl]

theorem lift_input_step (heap : Heap) (p q : Int) (s : LiftState) (vals : List Eval)
    (name : String) (tagged : Param)
    (hb : BuilderInv s.builder)
    (hv : ValueInv heap p q s.builder.nodes s.valueToNode vals)
    (hwf : (Call.ck_input name tagged).wf 0 = true) :
    BuilderInv (lift_call s (.ck_input name tagged)).builder ∧
    ValueInv heap p q (lift_call s (.ck_input name tagged)).builder.nodes
      (lift_call s (.ck_input name tagged)).valueToNode
      (vals ++ [ck_input name (param_value p q tagged)]) := by
  rw [← env_lookup_input p q name tagged hwf]
  show BuilderInv (s.builder.getOrAddInput name).1 ∧
    ValueInv heap p q (s.builder.getOrAddInput name).1.nodes
      (s.valueToNode ++ [(s.builder.getOrAddInput name).2]) _
  cases hl : s.builder.inputNodes.lookup name with
  | some id =>
    rw [getOrAddInput_some _ _ _ hl]
    refine ⟨hb, ?_⟩
    apply value_inv_snoc hv
    intro graph hc
    obtain ⟨n, hn, h1, h2, h3⟩ := hb.2.2 name id hl
    obtain ⟨c1, c2⟩ := hc n hn
    rw [h1] at c1 c2
    refine ⟨c1, ?_⟩
    have := den_nullary graph heap { p := p, q := q } id c1
      (by rw [c2]; simp [node_operands, h2])
    rw [c2] at this
    simpa [node_combine, h2, h3] using this
  | none =>
    rw [getOrAddInput_none _ _ hl]
    obtain ⟨a1, a2, a3, a4⟩ := addNode_spec s.builder { kind := "input", name := name } hb
    refine ⟨⟨a1.1, a1.2.1, ?_⟩, ?_⟩
    · intro name' id' hl'
      simp only [List.lookup_cons] at hl'
      by_cases hname : name' = name
      · subst hname
        simp only [beq_self_eq_true, Option.some.injEq] at hl'
        subst hl'
        refine ⟨set_id { kind := "input", name := name' } ((s.builder.nodes.length : Int) + 1),
          ?_, a2.symm, rfl, rfl⟩
        show _ ∈ (s.builder.addNode { kind := "input", name := name' }).1.nodes
        rw [a3]; simp
      · have hne : (name' == name) = false := by simpa using hname
        simp only [hne] at hl'
        rw [a4] at hl'
        obtain ⟨m, hm, hm'⟩ := hb.2.2 name' id' hl'
        refine ⟨m, ?_, hm'⟩
        show _ ∈ (s.builder.addNode { kind := "input", name := name }).1.nodes
        rw [a3]; exact List.mem_append_left _ hm
    · show ValueInv heap p q (s.builder.addNode { kind := "input", name := name }).1.nodes _ _
      rw [a3]
      apply value_inv_snoc (value_inv_mono hv (fun x hx => List.mem_append_left _ hx))
      intro graph hc
      rw [a2]
      refine ⟨(contains_last graph _ _ hc).1, ?_⟩
      have := den_last_nullary graph heap { p := p, q := q } _ _ _ hc (by simp [node_operands])
      simpa [node_combine] using this

theorem lift_load_step (heap : Heap) (p q : Int) (s : LiftState) (vals : List Eval)
    (kind : String) (ptr : Nat) (field : Int) (require_int : Bool) (a : Eval)
    (hb : BuilderInv s.builder)
    (hv : ValueInv heap p q s.builder.nodes s.valueToNode vals)
    (ha : vals[ptr]? = some a)
    (hops : ∀ x : Int, node_operands { kind := kind, x := x, field := field } = [x])
    (hcomb : ∀ (x : Int) (v : Eval),
      node_combine heap { p := p, q := q } { kind := kind, x := x, field := field } [v] =
        load_field heap v field require_int) :
    BuilderInv (s.emit (addGuardedPtr s.builder (resolveNode s.valueToNode ptr)).1
      { kind := kind, x := (addGuardedPtr s.builder (resolveNode s.valueToNode ptr)).2,
        field := field }).builder ∧
    ValueInv heap p q
      (s.emit (addGuardedPtr s.builder (resolveNode s.valueToNode ptr)).1
        { kind := kind, x := (addGuardedPtr s.builder (resolveNode s.valueToNode ptr)).2,
          field := field }).builder.nodes
      (s.emit (addGuardedPtr s.builder (resolveNode s.valueToNode ptr)).1
        { kind := kind, x := (addGuardedPtr s.builder (resolveNode s.valueToNode ptr)).2,
          field := field }).valueToNode
      (vals ++ [load_field heap a field require_int]) := by
  obtain ⟨g1, g2, g3⟩ := addGuardedPtr_spec heap { p := p, q := q } s.builder
    (resolveNode s.valueToNode ptr) hb
  apply emit_step heap p q s vals _ _ _ g1 g2 hv
  intro graph hc
  have hc0 : Contains graph s.builder.nodes :=
    contains_mono hc (fun n hn => List.mem_append_left _ (g2 n hn))
  have hc1 : Contains graph (addGuardedPtr s.builder (resolveNode s.valueToNode ptr)).1.nodes :=
    contains_mono hc (fun n hn => List.mem_append_left _ hn)
  have dx : Den graph heap { p := p, q := q } (resolveNode s.valueToNode ptr) a :=
    (hv.2 graph hc0 ptr a ha).2
  have dg := g3 graph a hc1 dx
  have := den_last_unary graph heap { p := p, q := q } _ _ _ _ _ hc (hops _) dg
  rw [hcomb, load_field_guards] at this
  exact this


theorem lift_call_step (heap : Heap) (p q : Int) (s : LiftState) (vals : List Eval) (c : Call)
    (hb : BuilderInv s.builder)
    (hv : ValueInv heap p q s.builder.nodes s.valueToNode vals)
    (hwf : c.wf vals.length = true) :
    ∃ r, exec_call heap p q vals c = some r ∧
      BuilderInv (lift_call s c).builder ∧
      ValueInv heap p q (lift_call s c).builder.nodes (lift_call s c).valueToNode
        (vals ++ [r]) := by
  have sub0 : ∀ (graph : Graph) (n : Node) (i : Int),
      Contains graph (s.builder.nodes ++ [set_id n i]) → Contains graph s.builder.nodes :=
    fun graph n i hc => contains_mono hc (fun x hx => List.mem_append_left _ hx)
  cases c with
  | ck_input name tagged =>
    exact ⟨_, rfl, lift_input_step heap p q s vals name tagged hb hv hwf⟩
  | ck_const_int value =>
    refine ⟨_, rfl, emit_step heap p q s vals s.builder _ _ hb (fun x hx => hx) hv ?_⟩
    intro graph hc
    have := den_last_nullary graph heap { p := p, q := q } _ _ _ hc (by simp [node_operands])
    simpa [node_combine] using this
  | ck_const_null =>
    refine ⟨_, rfl, emit_step heap p q s vals s.builder _ _ hb (fun x hx => hx) hv ?_⟩
    intro graph hc
    have := den_last_nullary graph heap { p := p, q := q } _ _ _ hc (by simp [node_operands])
    simpa [node_combine] using this
  | ck_guard_nonnull v =>
    simp only [Call.wf, decide_eq_true_eq] at hwf
    obtain ⟨a, ha⟩ := getElem?_of_lt_wf hwf
    refine ⟨ck_guard_nonnull a, by simp [exec_call, ha],
      emit_step heap p q s vals s.builder _ _ hb (fun x hx => hx) hv ?_⟩
    intro graph hc
    have dx : Den graph heap { p := p, q := q } (resolveNode s.valueToNode v) a :=
      (hv.2 graph (sub0 graph _ _ hc) v a ha).2
    have := den_last_unary graph heap { p := p, q := q } _ _ _ _ _ hc
      (by simp [node_operands]) dx
    simpa [node_combine] using this
  | ck_guard_eq x y =>
    simp only [Call.wf, Bool.and_eq_true, decide_eq_true_eq] at hwf
    obtain ⟨a, ha⟩ := getElem?_of_lt_wf hwf.1
    obtain ⟨b, hb'⟩ := getElem?_of_lt_wf hwf.2
    refine ⟨ck_guard_eq a b, by simp [exec_call, ha, hb'],
      emit_step heap p q s vals s.builder _ _ hb (fun x hx => hx) hv ?_⟩
    intro graph hc
    have dx : Den graph heap { p := p, q := q } (resolveNode s.valueToNode x) a :=
      (hv.2 graph (sub0 graph _ _ hc) x a ha).2
    have dy : Den graph heap { p := p, q := q } (resolveNode s.valueToNode y) b :=
      (hv.2 graph (sub0 graph _ _ hc) y b hb').2
    have := den_last_binary graph heap { p := p, q := q } _ _ _ _ _ _ _ hc
      (by simp [node_operands]) dx dy
    simpa [node_combine] using this
  | ck_select c t e =>
    simp only [Call.wf, Bool.and_eq_true, decide_eq_true_eq] at hwf
    obtain ⟨a, ha⟩ := getElem?_of_lt_wf hwf.1.1
    obtain ⟨b, hb'⟩ := getElem?_of_lt_wf hwf.1.2
    obtain ⟨d, hd⟩ := getElem?_of_lt_wf hwf.2
    refine ⟨ck_select a b d, by simp [exec_call, ha, hb', hd],
      emit_step heap p q s vals s.builder _ _ hb (fun x hx => hx) hv ?_⟩
    intro graph hc
    have dx : Den graph heap { p := p, q := q } (resolveNode s.valueToNode c) a :=
      (hv.2 graph (sub0 graph _ _ hc) c a ha).2
    have dy : Den graph heap { p := p, q := q } (resolveNode s.valueToNode t) b :=
      (hv.2 graph (sub0 graph _ _ hc) t b hb').2
    have dz : Den graph heap { p := p, q := q } (resolveNode s.valueToNode e) d :=
      (hv.2 graph (sub0 graph _ _ hc) e d hd).2
    have := den_last_ternary graph heap { p := p, q := q } _ _ _ _ _ _ _ _ _ hc
      (by simp [node_operands]) dx dy dz
    simpa [node_combine] using this
  | ck_add x y =>
    simp only [Call.wf, Bool.and_eq_true, decide_eq_true_eq] at hwf
    obtain ⟨a, ha⟩ := getElem?_of_lt_wf hwf.1
    obtain ⟨b, hb'⟩ := getElem?_of_lt_wf hwf.2
    refine ⟨ck_add a b, by simp [exec_call, ha, hb'],
      emit_step heap p q s vals s.builder _ _ hb (fun x hx => hx) hv ?_⟩
    intro graph hc
    have dx : Den graph heap { p := p, q := q } (resolveNode s.valueToNode x) a :=
      (hv.2 graph (sub0 graph _ _ hc) x a ha).2
    have dy : Den graph heap { p := p, q := q } (resolveNode s.valueToNode y) b :=
      (hv.2 graph (sub0 graph _ _ hc) y b hb').2
    have := den_last_binary graph heap { p := p, q := q } _ _ _ _ _ _ _ hc
      (by simp [node_operands]) dx dy
    simpa [node_combine] using this
  | ck_load_ptr ptr =>
    simp only [Call.wf, decide_eq_true_eq] at hwf
    obtain ⟨a, ha⟩ := getElem?_of_lt_wf hwf
    exact ⟨ck_load_ptr heap a, by simp [exec_call, ha],
      lift_load_step heap p q s vals "load_ptr" ptr 0 false a hb hv ha
        (by intro x; simp [node_operands])
        (by intro x v; simp [node_combine, ck_load_ptr, FIELD_DEREF])⟩
  | ck_load_int ptr =>
    simp only [Call.wf, decide_eq_true_eq] at hwf
    obtain ⟨a, ha⟩ := getElem?_of_lt_wf hwf
    exact ⟨ck_load_int heap a, by simp [exec_call, ha],
      lift_load_step heap p q s vals "load_int" ptr 0 true a hb hv ha
        (by intro x; simp [node_operands])
        (by intro x v; simp [node_combine, ck_load_int, FIELD_DEREF])⟩
  | ck_getfield ptr field =>
    simp only [Call.wf, decide_eq_true_eq] at hwf
    obtain ⟨a, ha⟩ := getElem?_of_lt_wf hwf
    exact ⟨ck_getfield heap a field, by simp [exec_call, ha],
      lift_load_step heap p q s vals "getfield" ptr field false a hb hv ha
        (by intro x; simp [node_operands])
        (by intro x v; simp [node_combine, ck_getfield])⟩
  | ck_getfield_int ptr field =>
    simp only [Call.wf, decide_eq_true_eq] at hwf
    obtain ⟨a, ha⟩ := getElem?_of_lt_wf hwf
    exact ⟨ck_getfield_int heap a field, by simp [exec_call, ha],
      lift_load_step heap p q s vals "getfield_int" ptr field true a hb hv ha
        (by intro x; simp [node_operands])
        (by intro x v; simp [node_combine, ck_getfield_int])⟩

theorem lift_calls_sim (heap : Heap) (p q : Int) :
    ∀ (calls : List Call) (s : LiftState) (vals : List Eval),
      BuilderInv s.builder →
      ValueInv heap p q s.builder.nodes s.valueToNode vals →
      calls_wf vals.length calls = true →
      ∃ vals', run_calls heap p q calls vals = some vals' ∧
        vals'.length = vals.length + calls.length ∧
        BuilderInv (calls.foldl lift_call s).builder ∧
        ValueInv heap p q (calls.foldl lift_call s).builder.nodes
          (calls.foldl lift_call s).valueToNode vals' := by
  intro calls
  induction calls with
  | nil => intro s vals hb hv _; exact ⟨vals, rfl, rfl, hb, hv⟩
  | cons c cs ih =>
    intro s vals hb hv hwf
    simp only [calls_wf, Bool.and_eq_true] at hwf
    obtain ⟨r, hr, hb1, hv1⟩ := lift_call_step heap p q s vals c hb hv hwf.1
    obtain ⟨vals', h1, h2, h3, h4⟩ := ih (lift_call s c) (vals ++ [r]) hb1 hv1
      (by simpa using hwf.2)
    refine ⟨vals', ?_, ?_, h3, h4⟩
    · rw [run_calls, hr]; exact h1
    · rw [h2]; simp; omega

/-- Agreement of a well-formed straight-line kernel with its lifted graph. -/
theorem lift_kernel_agree (k : Kernel) (heap : Heap) (p q : Int) (hwf : k.wf = true) :
    ∃ r, run_kernel k heap p q = some r ∧
      graph_eval (lift_kernel k) heap { p := p, q := q } = some r := by
  simp only [Kernel.wf, Bool.and_eq_true, decide_eq_true_eq] at hwf
  have hb0 : BuilderInv ({} : LiftState).builder := by
    refine ⟨rfl, ?_, ?_⟩
    · intro j n hj; simp at hj
    · intro name id hl; simp [List.lookup] at hl
  have hv0 : ValueInv heap p q ({} : LiftState).builder.nodes ({} : LiftState).valueToNode [] :=
    ⟨rfl, fun graph _ j v hj => by simp at hj⟩
  obtain ⟨vals, h1, h2, h3, h4⟩ := lift_calls_sim heap p q k.calls {} [] hb0 hv0 hwf.1
  have hret : k.ret < vals.length := by rw [h2]; simpa using hwf.2
  obtain ⟨r, hr⟩ := getElem?_of_lt_wf hret
  refine ⟨r, by rw [run_kernel, h1]; exact hr, ?_⟩
  obtain ⟨c1, c2⟩ := load_graph_contains (k.calls.foldl lift_call {}).builder.nodes
    (resolveNode (k.calls.foldl lift_call {}).valueToNode k.ret) h3.2.1
  obtain ⟨d1, ⟨m, d2⟩⟩ := h4.2 _ c1 k.ret r hr
  apply graph_eval_eq_of_plain (lift_kernel k) heap { p := p, q := q } m r
  unfold graph_eval_plain
  have hout : (lift_kernel k).output = resolveNode (k.calls.foldl lift_call {}).valueToNode k.ret :=
    c2
  have hpos : ¬ (lift_kernel k).output ≤ 0 := by
    rw [hout]
    have := d1.1
    unfold resolveNode
    omega
  rw [if_neg hpos, hout]
  exact d2


/-! ### Agreement of kernels and lifted graphs -/

/-- C2: for each of the six shipped kernels the lifter emits the node list of section 4.5, and
for every heap and all words p, q the kernel and graph_eval of that graph return the same Eval. -/
theorem shipped_kernels_agree (heap : Heap) (p q : Int) :
    (lift_nodes triple_deref_kernel = triple_deref_nodes ∧
      graph_eval triple_deref_graph heap { p := p, q := q } = some (triple_deref heap p q)) ∧
    (lift_nodes field_chain_kernel = field_chain_nodes ∧
      graph_eval field_chain_graph heap { p := p, q := q } = some (field_chain heap p q)) ∧
    (lift_nodes guarded_chain_kernel = guarded_chain_nodes ∧
      graph_eval guarded_chain_graph heap { p := p, q := q } = some (guarded_chain heap p q)) ∧
    (lift_nodes alias_branch_kernel = alias_branch_nodes ∧
      graph_eval alias_branch_graph heap { p := p, q := q } = some (alias_branch heap p q)) ∧
    (lift_nodes mixed_fields_kernel = mixed_fields_nodes ∧
      graph_eval mixed_fields_graph heap { p := p, q := q } = some (mixed_fields heap p q)) ∧
    (lift_nodes add_two_kernel = add_two_nodes ∧
      graph_eval add_two_graph heap { p := p, q := q } = some (add_two heap p q)) := by
  have key : ∀ (k : Kernel) (f : Heap → Int → Int → Eval), k.wf = true →
      (∀ h a b, run_kernel k h a b = some (f h a b)) →
      graph_eval (lift_kernel k) heap { p := p, q := q } = some (f heap p q) := by
    intro k f hwf hrun
    obtain ⟨r, h1, h2⟩ := lift_kernel_agree k heap p q hwf
    rw [hrun] at h1
    rw [h2, ← h1]
  refine ⟨⟨by decide, ?_⟩, ⟨by decide, ?_⟩, ⟨by decide, ?_⟩, ⟨by decide, ?_⟩, ⟨by decide, ?_⟩,
    ⟨by decide, ?_⟩⟩
  · exact key triple_deref_kernel triple_deref (by decide) run_triple_deref
  · exact key field_chain_kernel field_chain (by decide) run_field_chain
  · exact key guarded_chain_kernel guarded_chain (by decide) run_guarded_chain
  · exact key alias_branch_kernel alias_branch (by decide) run_alias_branch
  · exact key mixed_fields_kernel mixed_fields (by decide) run_mixed_fields
  · exact key add_two_kernel add_two (by decide) run_add_two

/-- C6: on every heap and for every q, guarded_chain with p = Null returns Ok with value word 1
(Int(0)); graph_eval of its lifted graph returns the same Eval, and in the final scratch state the
is_nonnull node (node 2) holds Ok(Int(0)). -/
theorem guarded_chain_null (heap : Heap) (q : Int) :
    guarded_chain heap 0 q = eval_ok 1 ∧
    eval_ok 1 = eval_ok (VAL_INT 0) ∧
    graph_eval guarded_chain_graph heap { p := 0, q := q } = some (eval_ok 1) ∧
    (guarded_chain_graph.nodes 2).kind = "is_nonnull" ∧
    ∃ st, graph_eval_run 11 guarded_chain_graph heap { p := 0, q := q } = some (eval_ok 1, st) ∧
      st.seen 2 = true ∧ st.memo 2 = eval_ok (VAL_INT 0) :=
  ⟨rfl, rfl, rfl, by decide, _, rfl, rfl, rfl⟩

/-- C8 (code evaluated at the self-loop): graph_eval of the single guard_ptr node whose x is its
own id returns the zero-filled memo slot, an Eval with ok = 0 and err = 0 (OK), which is not
Err(Invalid). -/
theorem self_loop_yields_zero_eval (heap : Heap) (env : Env) :
    graph_eval self_loop_graph heap env = some { ok := 0, err := Err.OK, value := 0 } ∧
    graph_eval self_loop_graph heap env ≠ some (eval_err Err.ERR_INVALID) ∧
    Err.code Err.OK = 0 ∧ Err.code Err.ERR_INVALID = 2 :=
  ⟨rfl,
    fun h => absurd
      ((rfl : some ({ ok := 0, err := Err.OK, value := 0 } : Eval) =
        graph_eval self_loop_graph heap env).trans h) (by decide),
    rfl, rfl⟩


/-! ### The select primitive and the select node -/

/-- A select node stores ck_select of the Evals of its three operands, evaluated in the order
cond, then, else. -/
theorem eval_node_select (graph : Graph) (heap : Heap) (env : Env) (fuel : Nat) (id : Int)
    (st : EvalState) (c t e : Eval) (s1 s2 s3 : EvalState)
    (hr : in_range graph id) (hs : st.seen id = false)
    (hk : (graph.nodes id).kind = "select")
    (hc : eval_node graph heap env fuel (graph.nodes id).cond (st.mark id) = some (c, s1))
    (ht : eval_node graph heap env fuel (graph.nodes id).then_id s1 = some (t, s2))
    (he : eval_node graph heap env fuel (graph.nodes id).else_id s2 = some (e, s3)) :
    eval_node graph heap env (fuel + 1) id st =
      some (ck_select c t e, s3.store id (ck_select c t e)) := by
  have h1 : ¬ (id ≤ 0 ∨ id > graph.num_nodes) := by unfold in_range at hr; omega
  have h2 : ¬ st.seen id = true := by simp [hs]
  have hops : node_operands (graph.nodes id) =
      [(graph.nodes id).cond, (graph.nodes id).then_id, (graph.nodes id).else_id] := by
    simp [node_operands, hk]
  have hcomb : ∀ vals, node_combine heap env (graph.nodes id) vals =
      ck_select (vals.getD 0 zero_eval) (vals.getD 1 zero_eval) (vals.getD 2 zero_eval) := by
    intro vals; simp [node_combine, hk]
  rw [eval_node_succ, if_neg h1, if_neg h2, hops]
  simp [eval_ops, hc, ht, he, hcomb, EvalState.ret]

/-- C4 (as amended): an Ok condition whose word is not integer-tagged (a pointer or Null) makes
ck_select return Err(Type) whatever the branches are, and a select node whose condition operand
evaluates to such an Eval stores and returns Err(Type); an Ok integer condition is never rejected:
a nonzero payload (Int(1), Int(2), ...) selects the then value and Int(0) the else value. -/
theorem select_requires_int (c : Eval) (hok : c.ok ≠ 0) (hni : VAL_IS_INT c.value = false) :
    (∀ t e : Eval, ck_select c t e = eval_err Err.ERR_TYPE) ∧
    (∀ (graph : Graph) (heap : Heap) (env : Env) (fuel : Nat) (id : Int) (st : EvalState)
      (t e : Eval) (s1 s2 s3 : EvalState),
      in_range graph id → st.seen id = false → (graph.nodes id).kind = "select" →
      eval_node graph heap env fuel (graph.nodes id).cond (st.mark id) = some (c, s1) →
      eval_node graph heap env fuel (graph.nodes id).then_id s1 = some (t, s2) →
      eval_node graph heap env fuel (graph.nodes id).else_id s2 = some (e, s3) →
      eval_node graph heap env (fuel + 1) id st =
        some (eval_err Err.ERR_TYPE, s3.store id (eval_err Err.ERR_TYPE))) ∧
    (∀ c' t e : Eval, c'.ok ≠ 0 → VAL_IS_INT c'.value = true →
      (VAL_INT_VALUE c'.value ≠ 0 → ck_select c' t e = t) ∧
      (VAL_INT_VALUE c'.value = 0 → ck_select c' t e = e)) := by
  have hsel : ∀ t e : Eval, ck_select c t e = eval_err Err.ERR_TYPE := by
    intro t e
    simp [ck_select, hok, hni]
  refine ⟨hsel, ?_, ?_⟩
  · intro graph heap env fuel id st t e s1 s2 s3 hr hs hk hc ht he
    rw [eval_node_select graph heap env fuel id st c t e s1 s2 s3 hr hs hk hc ht he, hsel]
  · intro c' t e hok' hint
    constructor
    · intro hv; simp [ck_select, hok', hint, hv]
    · intro hv; simp [ck_select, hok', hint, hv]

/-- Witness of C4 (as amended): the Null condition, in ck_select and in a select node whose
condition is the Null constant. -/
theorem select_requires_int_witness :
    (eval_ok 0).ok ≠ 0 ∧ VAL_IS_INT (eval_ok 0).value = false ∧
    ck_select (eval_ok 0) (eval_ok 7) (eval_ok 9) = eval_err Err.ERR_TYPE ∧
    eval_node select_null_graph empty_heap { p := 0, q := 0 } 2 4 EvalState.init =
      some (eval_err Err.ERR_TYPE,
        ((((((EvalState.init.mark 4).mark 1).store 1 (eval_ok 0)).mark 2).store 2
          (eval_ok 7)).mark 3).store 3 (eval_ok 9) |>.store 4 (eval_err Err.ERR_TYPE)) :=
  ⟨by decide, by decide,
    (select_requires_int (eval_ok 0) (by decide) (by decide)).1 (eval_ok 7) (eval_ok 9),
    (select_requires_int (eval_ok 0) (by decide) (by decide)).2.1
      select_null_graph empty_heap { p := 0, q := 0 } 1 4 EvalState.init
      (eval_ok 7) (eval_ok 9)
      (((EvalState.init.mark 4).mark 1).store 1 (eval_ok 0))
      (((((EvalState.init.mark 4).mark 1).store 1 (eval_ok 0)).mark 2).store 2 (eval_ok 7))
      (((((((EvalState.init.mark 4).mark 1).store 1 (eval_ok 0)).mark 2).store 2
        (eval_ok 7)).mark 3).store 3 (eval_ok 9))
      ⟨by decide, by decide⟩ rfl (by decide) rfl rfl rfl⟩

/-- C4 (counterexample): the condition Ok(Int(2)), word 5, is neither Int(0) nor Int(1), yet
ck_select returns the then value instead of Err(Type). -/
theorem select_int_two_counterexample :
    (eval_ok 5).ok ≠ 0 ∧ (eval_ok 5).value ≠ 1 ∧ (eval_ok 5).value ≠ 3 ∧
    eval_ok 5 = eval_ok (VAL_INT 2) ∧
    ck_select (eval_ok 5) (eval_ok 7) (eval_ok 9) = eval_ok 7 ∧
    ck_select (eval_ok 5) (eval_ok 7) (eval_ok 9) ≠ eval_err Err.ERR_TYPE := by
  decide

/-- C5 (as amended): when the condition is Ok(Int(0)) or Ok(Int(1)), ck_select returns the
selected branch unchanged (then for Int(1), else for Int(0)), so the result is an error exactly
when the selected branch is one, whatever the non-selected branch is; a select node stores and
returns that same Eval. -/
theorem select_returns_selected (c : Eval) (hcond : c = eval_ok 1 ∨ c = eval_ok 3) :
    (∀ t e : Eval, ck_select c t e = (if c = eval_ok 3 then t else e) ∧
      ((ck_select c t e).ok = 0 ↔ (if c = eval_ok 3 then t else e).ok = 0)) ∧
    (∀ (graph : Graph) (heap : Heap) (env : Env) (fuel : Nat) (id : Int) (st : EvalState)
      (t e : Eval) (s1 s2 s3 : EvalState),
      in_range graph id → st.seen id = false → (graph.nodes id).kind = "select" →
      eval_node graph heap env fuel (graph.nodes id).cond (st.mark id) = some (c, s1) →
      eval_node graph heap env fuel (graph.nodes id).then_id s1 = some (t, s2) →
      eval_node graph heap env fuel (graph.nodes id).else_id s2 = some (e, s3) →
      eval_node graph heap env (fuel + 1) id st =
        some ((if c = eval_ok 3 then t else e),
          s3.store id (if c = eval_ok 3 then t else e))) := by
  have hsel : ∀ t e : Eval, ck_select c t e = (if c = eval_ok 3 then t else e) := by
    intro t e
    rcases hcond with h | h
    · subst h
      simp [ck_select, eval_ok, VAL_IS_INT, VAL_INT_VALUE]
    · subst h
      simp [ck_select, eval_ok, VAL_IS_INT, VAL_INT_VALUE]
  refine ⟨fun t e => ⟨hsel t e, by rw [hsel]⟩, ?_⟩
  intro graph heap env fuel id st t e s1 s2 s3 hr hs hk hc ht he
  rw [eval_node_select graph heap env fuel id st c t e s1 s2 s3 hr hs hk hc ht he, hsel]

/-- Witness of C5 (as amended): a select on Int(0) whose then branch is Err(Null) returns the ok
else value, in ck_select and in a select node. -/
theorem select_returns_selected_witness :
    (eval_err Err.ERR_NULL).ok = 0 ∧
    (ck_select (eval_ok 1) (eval_err Err.ERR_NULL) (eval_ok 11) =
        (if eval_ok 1 = eval_ok 3 then eval_err Err.ERR_NULL else eval_ok 11) ∧
      ((ck_select (eval_ok 1) (eval_err Err.ERR_NULL) (eval_ok 11)).ok = 0 ↔
        (if eval_ok 1 = eval_ok 3 then eval_err Err.ERR_NULL else eval_ok 11).ok = 0)) ∧
    eval_node select_untaken_graph empty_heap { p := 0, q := 0 } 3 5 EvalState.init =
      some ((if eval_ok 1 = eval_ok 3 then eval_err Err.ERR_NULL else eval_ok 11),
        (((((((EvalState.init.mark 5).mark 1).store 1 (eval_ok 1)).mark 3).mark 2).store 2
          (eval_ok 0)).store 3 (eval_err Err.ERR_NULL) |>.mark 4).store 4 (eval_ok 11) |>.store 5
          (if eval_ok 1 = eval_ok 3 then eval_err Err.ERR_NULL else eval_ok 11)) :=
  ⟨rfl,
    (select_returns_selected (eval_ok 1) (Or.inl rfl)).1 (eval_err Err.ERR_NULL) (eval_ok 11),
    (select_returns_selected (eval_ok 1) (Or.inl rfl)).2
      select_untaken_graph empty_heap { p := 0, q := 0 } 2 5
      EvalState.init (eval_err Err.ERR_NULL) (eval_ok 11)
      (((EvalState.init.mark 5).mark 1).store 1 (eval_ok 1))
      ((((((EvalState.init.mark 5).mark 1).store 1 (eval_ok 1)).mark 3).mark 2).store 2
        (eval_ok 0) |>.store 3 (eval_err Err.ERR_NULL))
      ((((((((EvalState.init.mark 5).mark 1).store 1 (eval_ok 1)).mark 3).mark 2).store 2
        (eval_ok 0) |>.store 3 (eval_err Err.ERR_NULL)).mark 4).store 4 (eval_ok 11))
      ⟨by decide, by decide⟩ rfl (by decide) rfl rfl rfl⟩

/-- C5 (counterexample): with condition Ok(Int(0)) and an erroneous then branch ck_select
returns the ok else value; guarded_chain on p = Null returns Ok although its untaken then branch
is Err(Null). -/
theorem select_untaken_error_counterexample :
    (eval_err Err.ERR_NULL).ok = 0 ∧
    (ck_select (eval_ok 1) (eval_err Err.ERR_NULL) (eval_ok 1)).ok ≠ 0 ∧
    ck_load_ptr empty_heap (ck_load_ptr empty_heap (ck_input "p" 0)) = eval_err Err.ERR_NULL ∧
    ck_guard_nonnull (ck_input "p" 0) = eval_ok 1 ∧
    (guarded_chain empty_heap 0 0).ok ≠ 0 := by
  decide


/-! ### Tagged values -/

/-- C18: for every word exactly one of is_int (low bit 1), is_ptr (nonzero, low bit 0) and
is_null (the word 0) holds. -/
theorem tag_partition (v : Int) :
    (VAL_IS_INT v = true ∧ VAL_IS_PTR v = false ∧ is_null v = false) ∨
    (VAL_IS_INT v = false ∧ VAL_IS_PTR v = true ∧ is_null v = false) ∨
    (VAL_IS_INT v = false ∧ VAL_IS_PTR v = false ∧ is_null v = true) := by
  unfold VAL_IS_INT VAL_IS_PTR is_null VAL_NULL
  by_cases h0 : v = 0
  · subst h0; decide
  · by_cases h1 : v % 2 = 0
    · right; left; simp [h0, h1]
    · left; simp [h0, h1]

theorem wrap32_id (x : Int) (h1 : -2147483648 ≤ x) (h2 : x < 2147483648) : wrap32 x = x := by
  unfold wrap32
  omega

/-- C19: on payloads n with -2^30 <= n < 2^30 VAL_INT gives an integer-tagged (hence nonzero) word
whose VAL_INT_VALUE is n; on addresses a with 1 <= a < 2^30 VAL_PTR gives a pointer-tagged word
whose VAL_PTR_ADDR is a; both are injective on these ranges, and the images are disjoint from
each other and from Null. -/
theorem tagged_round_trip (n a : Int) (hn : -1073741824 ≤ n ∧ n < 1073741824)
    (ha : 1 ≤ a ∧ a < 1073741824) :
    (VAL_IS_INT (VAL_INT n) = true ∧ VAL_INT n ≠ 0 ∧ VAL_INT_VALUE (VAL_INT n) = n) ∧
    (VAL_IS_PTR (VAL_PTR a) = true ∧ VAL_PTR a ≠ 0 ∧ VAL_PTR a % 2 = 0 ∧
      VAL_PTR_ADDR (VAL_PTR a) = a) ∧
    (∀ n' : Int, -1073741824 ≤ n' ∧ n' < 1073741824 → VAL_INT n = VAL_INT n' → n = n') ∧
    (∀ a' : Int, 1 ≤ a' ∧ a' < 1073741824 → VAL_PTR a = VAL_PTR a' → a = a') ∧
    VAL_INT n ≠ VAL_PTR a ∧ VAL_INT n ≠ VAL_NULL ∧ VAL_PTR a ≠ VAL_NULL := by
  have hi : VAL_INT n = n * 2 + 1 := by
    unfold VAL_INT; rw [wrap32_id _ (by omega) (by omega)]
  have hp : VAL_PTR a = a * 2 := by
    unfold VAL_PTR; rw [wrap32_id _ (by omega) (by omega)]
  refine ⟨⟨?_, ?_, ?_⟩, ⟨?_, ?_, ?_, ?_⟩, ?_, ?_, ?_, ?_, ?_⟩
  · rw [hi]; unfold VAL_IS_INT; simp; omega
  · rw [hi]; omega
  · rw [hi]; unfold VAL_INT_VALUE; omega
  · rw [hp]; unfold VAL_IS_PTR; simp; omega
  · rw [hp]; omega
  · rw [hp]; omega
  · rw [hp]; unfold VAL_PTR_ADDR; omega
  · intro n' hn' h
    have hi' : VAL_INT n' = n' * 2 + 1 := by
      unfold VAL_INT; rw [wrap32_id _ (by omega) (by omega)]
    rw [hi, hi'] at h; omega
  · intro a' ha' h
    have hp' : VAL_PTR a' = a' * 2 := by
      unfold VAL_PTR; rw [wrap32_id _ (by omega) (by omega)]
    rw [hp, hp'] at h; omega
  · rw [hi, hp]; omega
  · rw [hi]; unfold VAL_NULL; omega
  · rw [hp]; unfold VAL_NULL; omega

/-- Witness of C19: the payload 3 and the address 1, and the two ends of both ranges. -/
theorem tagged_round_trip_witness :
    VAL_INT 3 = 7 ∧ VAL_PTR 1 = 2 ∧
    VAL_INT (-1073741824) = -2147483647 ∧ VAL_INT 1073741823 = 2147483647 ∧
    VAL_PTR 1073741823 = 2147483646 ∧
    ((VAL_IS_INT (VAL_INT 3) = true ∧ VAL_INT 3 ≠ 0 ∧ VAL_INT_VALUE (VAL_INT 3) = 3) ∧
    (VAL_IS_PTR (VAL_PTR 1) = true ∧ VAL_PTR 1 ≠ 0 ∧ VAL_PTR 1 % 2 = 0 ∧
      VAL_PTR_ADDR (VAL_PTR 1) = 1) ∧
    (∀ n' : Int, -1073741824 ≤ n' ∧ n' < 1073741824 → VAL_INT 3 = VAL_INT n' → 3 = n') ∧
    (∀ a' : Int, 1 ≤ a' ∧ a' < 1073741824 → VAL_PTR 1 = VAL_PTR a' → 1 = a') ∧
    VAL_INT 3 ≠ VAL_PTR 1 ∧ VAL_INT 3 ≠ VAL_NULL ∧ VAL_PTR 1 ≠ VAL_NULL) :=
  ⟨by decide, by decide, by decide, by decide, by decide,
    tagged_round_trip 3 1 ⟨by decide, by decide⟩ ⟨by decide, by decide⟩⟩


/-! ### Checked runtime: propagation, integer loads, addition, equality -/

/-- C12: ck_guard_nonnull and the four loads return an error operand unchanged; ck_guard_eq and
ck_add return a unchanged when a is an error, whatever b is, and return b unchanged when a is ok
and b is an error, whatever the tag of a is. -/
theorem error_propagation (heap : Heap) (v a b : Eval) (f : Int) :
    (v.ok = 0 →
      ck_guard_nonnull v = v ∧ ck_load_ptr heap v = v ∧ ck_load_int heap v = v ∧
      ck_getfield heap v f = v ∧ ck_getfield_int heap v f = v) ∧
    (a.ok = 0 → ck_guard_eq a b = a ∧ ck_add a b = a) ∧
    (a.ok ≠ 0 → b.ok = 0 → ck_guard_eq a b = b ∧ ck_add a b = b) := by
  refine ⟨fun h => ?_, fun h => ?_, fun h h' => ?_⟩
  · simp [ck_guard_nonnull, ck_load_ptr, ck_load_int, ck_getfield, ck_getfield_int, load_field, h]
  · simp [ck_guard_eq, ck_add, h]
  · simp [ck_guard_eq, ck_add, h, h']

/-- Witness of C12: an error operand with a nonzero value field, and ck_add of a pointer and an
error. -/
theorem error_propagation_witness :
    ck_load_int empty_heap { ok := 0, err := Err.ERR_NULL, value := 5 } =
      { ok := 0, err := Err.ERR_NULL, value := 5 } ∧
    ck_add { ok := 0, err := Err.ERR_NULL, value := 5 } (eval_err Err.ERR_TYPE) =
      { ok := 0, err := Err.ERR_NULL, value := 5 } ∧
    ck_add (eval_ok 2) (eval_err Err.ERR_MISSING_FIELD) = eval_err Err.ERR_MISSING_FIELD :=
  ⟨((error_propagation empty_heap { ok := 0, err := Err.ERR_NULL, value := 5 }
      (eval_ok 2) (eval_err Err.ERR_MISSING_FIELD) 0).1 rfl).2.2.1,
    ((error_propagation empty_heap (eval_ok 2) { ok := 0, err := Err.ERR_NULL, value := 5 }
      (eval_err Err.ERR_TYPE) 0).2.1 rfl).2,
    ((error_propagation empty_heap (eval_ok 2) (eval_ok 2)
      (eval_err Err.ERR_MISSING_FIELD) 0).2.2 (by decide) rfl).2⟩

theorem load_field_int (heap : Heap) (v : Eval) (f : Int) :
    load_field heap v f true =
      if (load_field heap v f false).ok = 0 ∨ VAL_IS_INT (load_field heap v f false).value = true
      then load_field heap v f false else eval_err Err.ERR_TYPE := by
  unfold load_field
  by_cases h0 : v.ok = 0
  · simp [h0]
  by_cases h1 : VAL_IS_INT v.value = true
  · simp [h0, h1, eval_err]
  by_cases h2 : v.value = VAL_NULL
  · simp [h0, h1, h2, eval_err, show VAL_IS_INT VAL_NULL = false from rfl]
  simp only [h0, h1, h2, if_false, Bool.false_eq_true]
  cases hobj : heap_get_obj heap (VAL_PTR_ADDR v.value) with
  | none => simp [eval_err]
  | some obj =>
    simp only []
    cases hfld : heap_get_field obj f with
    | none => simp [eval_err]
    | some w =>
      by_cases hw : VAL_IS_INT w = true
      · simp [hw, eval_ok]
      · simp [hw, eval_ok, eval_err]

/-- C13: ck_getfield_int (and ck_load_int on FIELD_DEREF) equals ck_getfield (ck_load_ptr)
whenever that result is an error or an Ok integer word, and is Err(Type) whenever it is Ok of a
pointer or Null; in particular a MissingField result stays MissingField. -/
theorem int_loads (heap : Heap) (v : Eval) (f : Int) :
    ck_getfield_int heap v f =
      (if (ck_getfield heap v f).ok = 0 ∨ VAL_IS_INT (ck_getfield heap v f).value = true
       then ck_getfield heap v f else eval_err Err.ERR_TYPE) ∧
    ck_load_int heap v =
      (if (ck_load_ptr heap v).ok = 0 ∨ VAL_IS_INT (ck_load_ptr heap v).value = true
       then ck_load_ptr heap v else eval_err Err.ERR_TYPE) ∧
    ck_load_int heap v = ck_getfield_int heap v FIELD_DEREF ∧
    (ck_getfield heap v f = eval_err Err.ERR_MISSING_FIELD →
      ck_getfield_int heap v f = eval_err Err.ERR_MISSING_FIELD) ∧
    (ck_load_ptr heap v = eval_err Err.ERR_MISSING_FIELD →
      ck_load_int heap v = eval_err Err.ERR_MISSING_FIELD) := by
  have k1 := load_field_int heap v f
  have k2 := load_field_int heap v FIELD_DEREF
  refine ⟨k1, k2, rfl, fun h => ?_, fun h => ?_⟩
  · unfold ck_getfield at h
    unfold ck_getfield_int
    rw [k1, h]; rfl
  · unfold ck_load_ptr at h
    unfold ck_load_int
    rw [k2, h]; rfl

/-- C14: on Ok operands ck_add returns Err(Type) if either word is not integer-tagged; otherwise
it returns Ok(w) with w a 32-bit integer-tagged word congruent to Int(x + y) modulo 2^32, whose
payload is x + y wrapped to 31 bits, and w is exactly Int(x + y) when x + y lies in
-2^30 .. 2^30 - 1 (x, y the payloads of the operands). -/
theorem add_tagged (a b : Eval) (ha : a.ok ≠ 0) (hb : b.ok ≠ 0) :
    ((VAL_IS_INT a.value = false ∨ VAL_IS_INT b.value = false) →
      ck_add a b = eval_err Err.ERR_TYPE) ∧
    (VAL_IS_INT a.value = true → VAL_IS_INT b.value = true →
      ∃ w, ck_add a b = eval_ok w ∧ VAL_IS_INT w = true ∧
        -2147483648 ≤ w ∧ w < 2147483648 ∧
        w % 4294967296 =
          ((VAL_INT_VALUE a.value + VAL_INT_VALUE b.value) * 2 + 1) % 4294967296 ∧
        VAL_INT_VALUE w = wrap31 (VAL_INT_VALUE a.value + VAL_INT_VALUE b.value) ∧
        (-1073741824 ≤ VAL_INT_VALUE a.value + VAL_INT_VALUE b.value ∧
          VAL_INT_VALUE a.value + VAL_INT_VALUE b.value < 1073741824 →
          w = (VAL_INT_VALUE a.value + VAL_INT_VALUE b.value) * 2 + 1 ∧
          VAL_INT_VALUE w = VAL_INT_VALUE a.value + VAL_INT_VALUE b.value)) := by
  refine ⟨fun h => ?_, fun hia hib => ?_⟩
  · rcases h with h | h <;> simp [ck_add, ha, hb, h]
  · refine ⟨VAL_INT (VAL_INT_VALUE a.value + VAL_INT_VALUE b.value), ?_, ?_, ?_, ?_, ?_, ?_, ?_⟩
    · simp [ck_add, ha, hb, hia, hib]
    · unfold VAL_IS_INT VAL_INT wrap32; simp; omega
    · unfold VAL_INT wrap32; omega
    · unfold VAL_INT wrap32; omega
    · unfold VAL_INT wrap32; omega
    · unfold VAL_INT VAL_INT_VALUE wrap32 wrap31; omega
    · intro hr
      simp only [VAL_INT, VAL_INT_VALUE, wrap32] at hr ⊢
      constructor <;> omega

/-- Witness of C14: Int(3) + Int(4) = Int(7), word 15. -/
theorem add_tagged_witness :
    ck_add (eval_ok 7) (eval_ok 9) = eval_ok 15 ∧
    ck_add (eval_ok 2147483647) (eval_ok 3) = eval_ok (-2147483647) ∧
    ck_add (eval_ok 7) (eval_ok 2) = eval_err Err.ERR_TYPE ∧
    (VAL_IS_INT (eval_ok 7).value = true → VAL_IS_INT (eval_ok 9).value = true →
      ∃ w, ck_add (eval_ok 7) (eval_ok 9) = eval_ok w ∧ VAL_IS_INT w = true ∧
        -2147483648 ≤ w ∧ w < 2147483648 ∧
        w % 4294967296 =
          ((VAL_INT_VALUE (eval_ok 7).value + VAL_INT_VALUE (eval_ok 9).value) * 2 + 1) %
            4294967296 ∧
        VAL_INT_VALUE w =
          wrap31 (VAL_INT_VALUE (eval_ok 7).value + VAL_INT_VALUE (eval_ok 9).value) ∧
        (-1073741824 ≤ VAL_INT_VALUE (eval_ok 7).value + VAL_INT_VALUE (eval_ok 9).value ∧
          VAL_INT_VALUE (eval_ok 7).value + VAL_INT_VALUE (eval_ok 9).value < 1073741824 →
          w = (VAL_INT_VALUE (eval_ok 7).value + VAL_INT_VALUE (eval_ok 9).value) * 2 + 1 ∧
          VAL_INT_VALUE w =
            VAL_INT_VALUE (eval_ok 7).value + VAL_INT_VALUE (eval_ok 9).value)) :=
  ⟨by decide, by decide, by decide,
    (add_tagged (eval_ok 7) (eval_ok 9) (by decide) (by decide)).2⟩

/-- C17: on Ok operands of any tags ck_guard_eq returns Ok(Int(1)) (word 3) when the two words
are identical and Ok(Int(0)) (word 1) otherwise; it is never Err(Type). -/
theorem guard_eq_semantics (a b : Eval) (ha : a.ok ≠ 0) (hb : b.ok ≠ 0) :
    (a.value = b.value → ck_guard_eq a b = eval_ok 3) ∧
    (a.value ≠ b.value → ck_guard_eq a b = eval_ok 1) ∧
    ck_guard_eq a b ≠ eval_err Err.ERR_TYPE ∧
    (ck_guard_eq a b).ok = 1 ∧
    eval_ok 3 = eval_ok (VAL_INT 1) ∧ eval_ok 1 = eval_ok (VAL_INT 0) := by
  have h1 : a.value = b.value → ck_guard_eq a b = eval_ok 3 := by
    intro h; simp [ck_guard_eq, ha, hb, h, VAL_INT, wrap32]
  have h2 : a.value ≠ b.value → ck_guard_eq a b = eval_ok 1 := by
    intro h; simp [ck_guard_eq, ha, hb, h, VAL_INT, wrap32]
  refine ⟨h1, h2, ?_, ?_, by decide, by decide⟩
  · by_cases h : a.value = b.value
    · rw [h1 h]; decide
    · rw [h2 h]; decide
  · by_cases h : a.value = b.value
    · rw [h1 h]; rfl
    · rw [h2 h]; rfl

/-- Witness of C17: the integer Int(2) (word 5) compared with the pointer Ptr(1) (word 2). -/
theorem guard_eq_semantics_witness :
    ck_guard_eq (eval_ok 5) (eval_ok 2) = eval_ok 1 ∧
    ck_guard_eq (eval_ok 2) (eval_ok 2) = eval_ok 3 ∧
    ck_guard_eq (eval_ok 5) (eval_ok 2) ≠ eval_err Err.ERR_TYPE :=
  ⟨(guard_eq_semantics (eval_ok 5) (eval_ok 2) (by decide) (by decide)).2.1 (by decide),
    (guard_eq_semantics (eval_ok 2) (eval_ok 2) (by decide) (by decide)).1 rfl,
    (guard_eq_semantics (eval_ok 5) (eval_ok 2) (by decide) (by decide)).2.2.1⟩


/-- C20: heap_get_field on a field index in 0..2 returns the stored word exactly when the
presence flag is set; a load through a valid pointer returns Ok of the stored word when the slot
is present (Ok(Null), word 0, when it holds Null) and Err(MissingField) when the slot is absent,
whatever word the absent slot stores. -/
theorem absent_is_not_null (heap : Heap) (obj : Obj) (v : Eval) (f : Fin MAX_FIELDS) :
    heap_get_field obj (f.val : Int) =
      (if obj.has_field f ≠ 0 then some (obj.value f) else none) ∧
    ((∃ w, heap_get_field obj (f.val : Int) = some w) ↔ obj.has_field f ≠ 0) ∧
    (v.ok ≠ 0 → VAL_IS_PTR v.value = true →
      heap_get_obj heap (VAL_PTR_ADDR v.value) = some obj →
      (obj.has_field f ≠ 0 → ck_getfield heap v (f.val : Int) = eval_ok (obj.value f)) ∧
      (obj.has_field f ≠ 0 → obj.value f = VAL_NULL →
        ck_getfield heap v (f.val : Int) = eval_ok 0) ∧
      (obj.has_field f = 0 →
        ck_getfield heap v (f.val : Int) = eval_err Err.ERR_MISSING_FIELD ∧
        ck_getfield_int heap v (f.val : Int) = eval_err Err.ERR_MISSING_FIELD)) ∧
    ck_load_ptr heap v = ck_getfield heap v (((0 : Fin MAX_FIELDS).val : Nat) : Int) ∧
    ck_load_int heap v = ck_getfield_int heap v (((0 : Fin MAX_FIELDS).val : Nat) : Int) := by
  have hgf := heap_get_field_fin obj f
  refine ⟨?_, ?_, ?_, rfl, rfl⟩
  · rw [hgf]; by_cases h : obj.has_field f = 0 <;> simp [h]
  · rw [hgf]; by_cases h : obj.has_field f = 0 <;> simp [h]
  · intro hok hptr hobj
    have hni : VAL_IS_INT v.value = false := by
      simp only [VAL_IS_PTR, VAL_IS_INT, Bool.and_eq_true, bne_iff_ne, beq_iff_eq] at hptr ⊢
      simp [hptr.2]
    have hnz : ¬ v.value = VAL_NULL := by
      simp only [VAL_IS_PTR, Bool.and_eq_true, bne_iff_ne] at hptr
      exact hptr.1
    have key : ∀ ri : Bool, load_field heap v (f.val : Int) ri =
        if obj.has_field f = 0 then eval_err Err.ERR_MISSING_FIELD
        else if (ri && !VAL_IS_INT (obj.value f)) = true then eval_err Err.ERR_TYPE
        else eval_ok (obj.value f) := by
      intro ri
      unfold load_field
      simp only [hok, hni, hnz, hobj, hgf, if_false, Bool.false_eq_true]
      by_cases h : obj.has_field f = 0 <;> simp [h]
    refine ⟨fun hp => ?_, fun hp hv => ?_, fun ha => ⟨?_, ?_⟩⟩
    · unfold ck_getfield; rw [key]; simp [hp]
    · unfold ck_getfield; rw [key, hv]; simp [hp, VAL_NULL]
    · unfold ck_getfield; rw [key]; simp [ha]
    · unfold ck_getfield_int; rw [key]; simp [ha]

/-- Witness of C20: object 1 holds a present Null, object 2 an absent slot with stored word 6. -/
theorem absent_is_not_null_witness :
    ck_load_ptr null_and_absent_heap (eval_ok 2) = eval_ok 0 ∧
    ck_load_ptr null_and_absent_heap (eval_ok 4) = eval_err Err.ERR_MISSING_FIELD ∧
    ck_getfield null_and_absent_heap (eval_ok 2) 0 = eval_ok 0 ∧
    (ck_getfield null_and_absent_heap (eval_ok 4) 0 = eval_err Err.ERR_MISSING_FIELD ∧
      ck_getfield_int null_and_absent_heap (eval_ok 4) 0 = eval_err Err.ERR_MISSING_FIELD) :=
  ⟨by decide, by decide,
    ((absent_is_not_null null_and_absent_heap
      { has_field := fun i => if i = 0 then 1 else 0, value := fun _ => 0 } (eval_ok 2) 0).2.2.1
      (by decide) (by decide) rfl).2.1 (by decide) rfl,
    ((absent_is_not_null null_and_absent_heap
      { has_field := fun _ => 0, value := fun i => if i = 0 then 6 else 0 } (eval_ok 4) 0).2.2.1
      (by decide) (by decide) rfl).2.2 rfl⟩


/-! ### Node-level behaviour of the evaluator -/

/-- A node without operands stores the value node_combine gives on the empty list. -/
theorem eval_node_nullary_op (graph : Graph) (heap : Heap) (env : Env) (fuel : Nat) (id : Int)
    (st : EvalState) (hr : in_range graph id) (hs : st.seen id = false)
    (hops : node_operands (graph.nodes id) = []) :
    eval_node graph heap env (fuel + 1) id st =
      some (node_combine heap env (graph.nodes id) [],
        (st.mark id).store id (node_combine heap env (graph.nodes id) [])) := by
  have h1 : ¬ (id ≤ 0 ∨ id > graph.num_nodes) := by unfold in_range at hr; omega
  have h2 : ¬ st.seen id = true := by simp [hs]
  rw [eval_node_succ, if_neg h1, if_neg h2, hops]
  rfl

/-- A node with one operand stores the value node_combine gives on the operand's Eval. -/
theorem eval_node_unary_op (graph : Graph) (heap : Heap) (env : Env) (fuel : Nat) (id : Int)
    (st : EvalState) (x : Int) (v : Eval) (s1 : EvalState)
    (hr : in_range graph id) (hs : st.seen id = false)
    (hops : node_operands (graph.nodes id) = [x])
    (hx : eval_node graph heap env fuel x (st.mark id) = some (v, s1)) :
    eval_node graph heap env (fuel + 1) id st =
      some (node_combine heap env (graph.nodes id) [v],
        s1.store id (node_combine heap env (graph.nodes id) [v])) := by
  have h1 : ¬ (id ≤ 0 ∨ id > graph.num_nodes) := by unfold in_range at hr; omega
  have h2 : ¬ st.seen id = true := by simp [hs]
  rw [eval_node_succ, if_neg h1, if_neg h2, hops]
  simp [eval_ops, hx, EvalState.ret]

theorem unknown_kind_ops (n : Node) (hk : n.kind ∉ valid_kinds) :
    node_operands n = [] ∧
    ∀ (heap : Heap) (env : Env) (vals : List Eval),
      node_combine heap env n vals = eval_err Err.ERR_INVALID := by
  simp only [valid_kinds, List.mem_cons, List.mem_singleton, not_or, List.not_mem_nil,
    or_false] at hk
  obtain ⟨k1, k2, k3, k4, k5, k6, k7, k8, k9, k10, k11, k12, k13⟩ := hk
  refine ⟨?_, fun heap env vals => ?_⟩
  · unfold node_operands
    simp only [if_neg k1, if_neg k2, if_neg k3, if_neg k4, if_neg k5, if_neg k6, if_neg k7,
      if_neg k8, if_neg k9, if_neg k10, if_neg k11, if_neg k12, if_neg k13]
  · unfold node_combine
    simp only [if_neg k1, if_neg k2, if_neg k3, if_neg k4, if_neg k5, if_neg k6, if_neg k7,
      if_neg k8, if_neg k9, if_neg k10, if_neg k11, if_neg k12, if_neg k13]
    rfl

/-- C11: graph_eval returns Err(Invalid) when output <= 0 or output > num_nodes; eval_node on an
id outside 1..num_nodes (0, the value of an absent attribute, included) returns Err(Invalid) and
leaves the scratch state alone; an unseen in-range node whose kind is none of the thirteen valid
kinds (the empty kind of a never-defined id included) stores and returns Err(Invalid), and so
does graph_eval when the output is such a node. -/
theorem malformed_graph_invalid (graph : Graph) (heap : Heap) (env : Env) (fuel : Nat) (id : Int)
    (st : EvalState) :
    ((graph.output ≤ 0 ∨ graph.output > graph.num_nodes) →
      graph_eval graph heap env = some (eval_err Err.ERR_INVALID)) ∧
    ((id ≤ 0 ∨ id > graph.num_nodes) →
      eval_node graph heap env (fuel + 1) id st = some (eval_err Err.ERR_INVALID, st)) ∧
    eval_node graph heap env (fuel + 1) 0 st = some (eval_err Err.ERR_INVALID, st) ∧
    (in_range graph id → st.seen id = false → (graph.nodes id).kind ∉ valid_kinds →
      eval_node graph heap env (fuel + 1) id st =
        some (eval_err Err.ERR_INVALID, (st.mark id).store id (eval_err Err.ERR_INVALID))) ∧
    (in_range graph graph.output → (graph.nodes graph.output).kind ∉ valid_kinds →
      graph_eval graph heap env = some (eval_err Err.ERR_INVALID)) ∧
    (({} : Node).kind = "" ∧ "" ∉ valid_kinds ∧ valid_kinds.length = 13) := by
  have oob : ∀ (F : Nat) (i : Int) (s : EvalState), (i ≤ 0 ∨ i > graph.num_nodes) →
      eval_node graph heap env (F + 1) i s = some (eval_err Err.ERR_INVALID, s) := by
    intro F i s h
    rw [eval_node_succ, if_pos h]; rfl
  have unk : ∀ (F : Nat) (i : Int) (s : EvalState), in_range graph i → s.seen i = false →
      (graph.nodes i).kind ∉ valid_kinds →
      eval_node graph heap env (F + 1) i s =
        some (eval_err Err.ERR_INVALID, (s.mark i).store i (eval_err Err.ERR_INVALID)) := by
    intro F i s hr hs hk
    obtain ⟨h1, h2⟩ := unknown_kind_ops (graph.nodes i) hk
    rw [eval_node_nullary_op graph heap env F i s hr hs h1, h2]
  refine ⟨?_, oob fuel id st, oob fuel 0 st (Or.inl (le_refl 0)), unk fuel id st, ?_,
    rfl, by decide, rfl⟩
  · intro h
    unfold graph_eval graph_eval_run
    by_cases ho : graph.output ≤ 0
    · rw [if_pos ho]; rfl
    · rw [if_neg ho, oob _ _ _ h]; rfl
  · intro hr hk
    unfold graph_eval graph_eval_run
    have ho : ¬ graph.output ≤ 0 := by unfold in_range at hr; omega
    rw [if_neg ho, unk _ _ _ hr rfl hk]; rfl

/-- Witness of C11: the malformed example graph with output 0, 4 (out of range), 1 (unknown
kind) and 2 (never defined), and its node 3 whose operand id 7 is out of range. -/
theorem malformed_graph_invalid_witness :
    graph_eval (gap_graph 0) empty_heap { p := 0, q := 0 } = some (eval_err Err.ERR_INVALID) ∧
    graph_eval (gap_graph 4) empty_heap { p := 0, q := 0 } = some (eval_err Err.ERR_INVALID) ∧
    graph_eval (gap_graph 1) empty_heap { p := 0, q := 0 } = some (eval_err Err.ERR_INVALID) ∧
    graph_eval (gap_graph 2) empty_heap { p := 0, q := 0 } = some (eval_err Err.ERR_INVALID) ∧
    eval_node (gap_graph 3) empty_heap { p := 0, q := 0 } 1 7 (EvalState.init.mark 3) =
      some (eval_err Err.ERR_INVALID, EvalState.init.mark 3) ∧
    graph_eval (gap_graph 3) empty_heap { p := 0, q := 0 } = some (eval_err Err.ERR_INVALID) :=
  ⟨(malformed_graph_invalid (gap_graph 0) empty_heap { p := 0, q := 0 } 0 0 EvalState.init).1
      (Or.inl (by decide)),
    (malformed_graph_invalid (gap_graph 4) empty_heap { p := 0, q := 0 } 0 0 EvalState.init).1
      (Or.inr (by decide)),
    (malformed_graph_invalid (gap_graph 1) empty_heap { p := 0, q := 0 } 0 0
      EvalState.init).2.2.2.2.1 ⟨by decide, by decide⟩ (by decide),
    (malformed_graph_invalid (gap_graph 2) empty_heap { p := 0, q := 0 } 0 0
      EvalState.init).2.2.2.2.1 ⟨by decide, by decide⟩ (by decide),
    (malformed_graph_invalid (gap_graph 3) empty_heap { p := 0, q := 0 } 0 7
      (EvalState.init.mark 3)).2.1 (Or.inr (by decide)),
    by decide⟩


theorem tag_partition_cases (v : Int) :
    VAL_IS_INT v = true ∨ VAL_IS_PTR v = true ∨ is_null v = true := by
  unfold VAL_IS_INT VAL_IS_PTR is_null VAL_NULL
  by_cases h0 : v = 0
  · subst h0; decide
  · by_cases h1 : v % 2 = 0
    · right; left; simp [h0, h1]
    · left; simp [h1]


/-- C15: on an Ok word x, ck_guard_nonnull returns Err(Type) if x is integer-tagged, Ok(Int(0))
(word 1) if x is Null and Ok(Int(1)) (word 3) if x is a pointer, so an ok result is word 1 or 3
and never the pointer itself; an is_nonnull node stores and returns ck_guard_nonnull of its
operand's Eval. -/
theorem guard_nonnull_boolean (x : Int) :
    (VAL_IS_INT x = true → ck_guard_nonnull (eval_ok x) = eval_err Err.ERR_TYPE) ∧
    (is_null x = true → ck_guard_nonnull (eval_ok x) = eval_ok 1) ∧
    (VAL_IS_PTR x = true →
      ck_guard_nonnull (eval_ok x) = eval_ok 3 ∧ ck_guard_nonnull (eval_ok x) ≠ eval_ok x) ∧
    ((ck_guard_nonnull (eval_ok x)).ok ≠ 0 →
      (ck_guard_nonnull (eval_ok x)).value = 1 ∨ (ck_guard_nonnull (eval_ok x)).value = 3) ∧
    (eval_ok 1 = eval_ok (VAL_INT 0) ∧ eval_ok 3 = eval_ok (VAL_INT 1)) ∧
    (∀ (graph : Graph) (heap : Heap) (env : Env) (fuel : Nat) (id : Int) (st : EvalState)
      (v : Eval) (s1 : EvalState),
      in_range graph id → st.seen id = false → (graph.nodes id).kind = "is_nonnull" →
      eval_node graph heap env fuel (graph.nodes id).x (st.mark id) = some (v, s1) →
      eval_node graph heap env (fuel + 1) id st =
        some (ck_guard_nonnull v, s1.store id (ck_guard_nonnull v))) := by
  have hint : VAL_IS_INT x = true → ck_guard_nonnull (eval_ok x) = eval_err Err.ERR_TYPE := by
    intro h; simp [ck_guard_nonnull, eval_ok, h]
  have hnull : is_null x = true → ck_guard_nonnull (eval_ok x) = eval_ok 1 := by
    intro h
    have hx : x = 0 := by simpa [is_null, VAL_NULL] using h
    subst hx; decide
  have hptr : VAL_IS_PTR x = true → ck_guard_nonnull (eval_ok x) = eval_ok 3 := by
    intro h
    simp only [VAL_IS_PTR, Bool.and_eq_true, bne_iff_ne, beq_iff_eq] at h
    have hni : VAL_IS_INT x = false := by simp [VAL_IS_INT, h.2]
    simp [ck_guard_nonnull, eval_ok, hni, h.1, VAL_INT, wrap32]
  refine ⟨hint, hnull, fun h => ⟨hptr h, ?_⟩, ?_, ⟨by decide, by decide⟩, ?_⟩
  · rw [hptr h]
    simp only [VAL_IS_PTR, Bool.and_eq_true, bne_iff_ne, beq_iff_eq] at h
    intro he
    have : (3 : Int) = x := by simpa [eval_ok] using he
    omega
  · rcases tag_partition_cases x with h | h | h
    · rw [hint h]; intro hc; exact absurd rfl hc
    · rw [hptr h]; intro _; right; rfl
    · rw [hnull h]; intro _; left; rfl
  · intro graph heap env fuel id st v s1 hr hs hk hx
    have hops : node_operands (graph.nodes id) = [(graph.nodes id).x] := by
      simp [node_operands, hk]
    have hcomb : node_combine heap env (graph.nodes id) [v] = ck_guard_nonnull v := by
      simp [node_combine, hk]
    rw [eval_node_unary_op graph heap env fuel id st _ v s1 hr hs hops hx, hcomb]

/-- Witness of C15: the is_nonnull node of the example graph on p = Ptr(1) (word 2). -/
theorem guard_nonnull_boolean_witness :
    ck_guard_nonnull (eval_ok 5) = eval_err Err.ERR_TYPE ∧
    ck_guard_nonnull (eval_ok 0) = eval_ok 1 ∧
    ck_guard_nonnull (eval_ok 2) = eval_ok 3 ∧
    eval_node guards_graph empty_heap { p := 2, q := 0 } 2 2 EvalState.init =
      some (ck_guard_nonnull (eval_ok 2),
        (((EvalState.init.mark 2).mark 1).store 1 (eval_ok 2)).store 2
          (ck_guard_nonnull (eval_ok 2))) :=
  ⟨(guard_nonnull_boolean 5).1 (by decide),
    (guard_nonnull_boolean 0).2.1 (by decide),
    ((guard_nonnull_boolean 2).2.2.1 (by decide)).1,
    (guard_nonnull_boolean 2).2.2.2.2.2 guards_graph empty_heap { p := 2, q := 0 } 1 2
      EvalState.init (eval_ok 2) (((EvalState.init.mark 2).mark 1).store 1 (eval_ok 2))
      ⟨by decide, by decide⟩ rfl (by decide) rfl⟩

/-- C16: a guard_ptr node stores and returns its operand's Eval v unchanged when v is an error,
a pointer or Null, and Err(Type) when v is an Ok integer; a guard_nonnull node returns v
unchanged when v is an error or a non-null pointer, Err(Type) when v is an Ok integer and
Err(Null) when v is Ok(Null); on a pointer the guard_nonnull node returns the pointer where
ck_guard_nonnull returns the boolean Int(1). -/
theorem pointer_guard_nodes (graph : Graph) (heap : Heap) (env : Env) (fuel : Nat) (id : Int)
    (st : EvalState) (v : Eval) (s1 : EvalState) :
    (in_range graph id → st.seen id = false → (graph.nodes id).kind = "guard_ptr" →
      eval_node graph heap env fuel (graph.nodes id).x (st.mark id) = some (v, s1) →
      eval_node graph heap env (fuel + 1) id st =
        some (guard_ptr_node v, s1.store id (guard_ptr_node v))) ∧
    (in_range graph id → st.seen id = false → (graph.nodes id).kind = "guard_nonnull" →
      eval_node graph heap env fuel (graph.nodes id).x (st.mark id) = some (v, s1) →
      eval_node graph heap env (fuel + 1) id st =
        some (guard_nonnull_node v, s1.store id (guard_nonnull_node v))) ∧
    (v.ok = 0 → guard_ptr_node v = v ∧ guard_nonnull_node v = v) ∧
    (v.ok ≠ 0 → VAL_IS_INT v.value = true →
      guard_ptr_node v = eval_err Err.ERR_TYPE ∧ guard_nonnull_node v = eval_err Err.ERR_TYPE) ∧
    (v.ok ≠ 0 → is_null v.value = true →
      guard_ptr_node v = v ∧ guard_nonnull_node v = eval_err Err.ERR_NULL) ∧
    (v.ok ≠ 0 → VAL_IS_PTR v.value = true →
      guard_ptr_node v = v ∧ guard_nonnull_node v = v ∧
      ck_guard_nonnull v = eval_ok (VAL_INT 1) ∧ ck_guard_nonnull v ≠ v) := by
  refine ⟨?_, ?_, ?_, ?_, ?_, ?_⟩
  · intro hr hs hk hx
    have hops : node_operands (graph.nodes id) = [(graph.nodes id).x] := by
      simp [node_operands, hk]
    have hcomb : node_combine heap env (graph.nodes id) [v] = guard_ptr_node v := by
      simp [node_combine, hk]
    rw [eval_node_unary_op graph heap env fuel id st _ v s1 hr hs hops hx, hcomb]
  · intro hr hs hk hx
    have hops : node_operands (graph.nodes id) = [(graph.nodes id).x] := by
      simp [node_operands, hk]
    have hcomb : node_combine heap env (graph.nodes id) [v] = guard_nonnull_node v := by
      simp [node_combine, hk]
    rw [eval_node_unary_op graph heap env fuel id st _ v s1 hr hs hops hx, hcomb]
  · intro h
    simp [guard_ptr_node, guard_nonnull_node, h]
  · intro h hi
    simp [guard_ptr_node, guard_nonnull_node, h, hi, eval_err]
  · intro h hn
    have hv : v.value = 0 := by simpa [is_null, VAL_NULL] using hn
    simp [guard_ptr_node, guard_nonnull_node, h, hv, eval_err, VAL_NULL, VAL_IS_INT]
  · intro h hp
    simp only [VAL_IS_PTR, Bool.and_eq_true, bne_iff_ne, beq_iff_eq] at hp
    have hni : VAL_IS_INT v.value = false := by simp [VAL_IS_INT, hp.2]
    have hg : ck_guard_nonnull v = eval_ok (VAL_INT 1) := by
      simp [ck_guard_nonnull, h, hni, hp.1]
    refine ⟨by simp [guard_ptr_node, h, hni], by simp [guard_nonnull_node, h, hni, hp.1, VAL_NULL],
      hg, ?_⟩
    rw [hg]
    intro he
    have : (3 : Int) = v.value := by
      have := congrArg Eval.value he
      simpa [eval_ok, VAL_INT, wrap32] using this
    omega

/-- Witness of C16: the guard_ptr and guard_nonnull nodes of the example graph on p = Null. -/
theorem pointer_guard_nodes_witness :
    eval_node guards_graph empty_heap { p := 0, q := 0 } 2 3 EvalState.init =
      some (guard_ptr_node (eval_ok 0),
        (((EvalState.init.mark 3).mark 1).store 1 (eval_ok 0)).store 3
          (guard_ptr_node (eval_ok 0))) ∧
    eval_node guards_graph empty_heap { p := 0, q := 0 } 2 4 EvalState.init =
      some (guard_nonnull_node (eval_ok 0),
        (((EvalState.init.mark 4).mark 1).store 1 (eval_ok 0)).store 4
          (guard_nonnull_node (eval_ok 0))) ∧
    (guard_ptr_node (eval_ok 0) = eval_ok 0 ∧
      guard_nonnull_node (eval_ok 0) = eval_err Err.ERR_NULL) ∧
    graph_eval guards_graph empty_heap { p := 2, q := 0 } = some (eval_ok 2) ∧
    graph_eval guards_graph empty_heap { p := 5, q := 0 } = some (eval_err Err.ERR_TYPE) :=
  ⟨(pointer_guard_nodes guards_graph empty_heap { p := 0, q := 0 } 1 3 EvalState.init
      (eval_ok 0) (((EvalState.init.mark 3).mark 1).store 1 (eval_ok 0))).1
      ⟨by decide, by decide⟩ rfl (by decide) rfl,
    (pointer_guard_nodes guards_graph empty_heap { p := 0, q := 0 } 1 4 EvalState.init
      (eval_ok 0) (((EvalState.init.mark 4).mark 1).store 1 (eval_ok 0))).2.1
      ⟨by decide, by decide⟩ rfl (by decide) rfl,
    (pointer_guard_nodes guards_graph empty_heap { p := 0, q := 0 } 1 4 EvalState.init
      (eval_ok 0) (((EvalState.init.mark 4).mark 1).store 1 (eval_ok 0))).2.2.2.2.1
      (by decide) (by decide),
    by decide, by decide⟩


/-! ### Heap addressing -/

theorem heap_get_obj_spec (heap : Heap) (addr : Int) :
    (1 ≤ addr ∧ addr ≤ heap.num_objs →
      ∃ o, heap.objs[(addr - 1).toNat]? = some o ∧ heap_get_obj heap addr = some o) ∧
    (¬ (1 ≤ addr ∧ addr ≤ heap.num_objs) → heap_get_obj heap addr = none) := by
  unfold heap_get_obj Heap.num_objs
  constructor
  · intro h
    have hlt : (addr - 1).toNat < heap.objs.length := by omega
    refine ⟨heap.objs[(addr - 1).toNat], List.getElem?_eq_getElem hlt, ?_⟩
    rw [if_neg (by omega), List.getElem?_eq_getElem hlt]
  · intro h
    rw [if_pos (by omega)]

/-- A load through an Ok pointer to an existing object is decided by the object's slot. -/
theorem load_field_at (heap : Heap) (v : Eval) (o : Obj) (field : Int) (require_int : Bool)
    (hok : v.ok ≠ 0) (ha : addresses heap v.value o) :
    load_field heap v field require_int =
      match heap_get_field o field with
      | none => eval_err Err.ERR_MISSING_FIELD
      | some value =>
        if require_int && !VAL_IS_INT value then eval_err Err.ERR_TYPE else eval_ok value := by
  obtain ⟨hptr, hobj⟩ := ha
  simp only [VAL_IS_PTR, Bool.and_eq_true, bne_iff_ne, beq_iff_eq] at hptr
  have hni : VAL_IS_INT v.value = false := by simp [VAL_IS_INT, hptr.2]
  have hnz : ¬ v.value = VAL_NULL := hptr.1
  unfold load_field
  simp only [hok, hni, hnz, hobj, if_false, Bool.false_eq_true]

/-- C21: for every n >= 0 heap_create(n) has n objects with no slot present; heap_get_obj returns
the object at position addr - 1 exactly when 1 <= addr <= num_objs and nothing otherwise; on a
freshly created heap every ck_getfield through an Ok pointer with address in 1..n returns
Err(MissingField), for every field index. -/
theorem heap_addressing (n : Nat) (heap : Heap) (addr : Int) :
    (∃ h, heap_create (n : Int) = some h ∧ h.num_objs = (n : Int) ∧ h.objs.length = n ∧
      (∀ o ∈ h.objs, ∀ f : Fin MAX_FIELDS, o.has_field f = 0) ∧
      (∀ (v : Eval) (f : Int), v.ok ≠ 0 → VAL_IS_PTR v.value = true →
        1 ≤ VAL_PTR_ADDR v.value → VAL_PTR_ADDR v.value ≤ (n : Int) →
        ck_getfield h v f = eval_err Err.ERR_MISSING_FIELD)) ∧
    (1 ≤ addr ∧ addr ≤ heap.num_objs →
      ∃ o, heap.objs[(addr - 1).toNat]? = some o ∧ heap_get_obj heap addr = some o) ∧
    (¬ (1 ≤ addr ∧ addr ≤ heap.num_objs) → heap_get_obj heap addr = none) := by
  refine ⟨?_, (heap_get_obj_spec heap addr).1, (heap_get_obj_spec heap addr).2⟩
  have hc : heap_create (n : Int) =
      some { objs := List.replicate n { has_field := fun _ => 0, value := fun _ => 0 } } := by
    unfold heap_create
    rw [if_neg (by omega)]
    simp
  refine ⟨_, hc, by simp [Heap.num_objs], by simp, ?_, ?_⟩
  · intro o ho f
    rw [List.eq_of_mem_replicate ho]
  · intro v f hok hptr h1 h2
    obtain ⟨o, ho1, ho2⟩ := (heap_get_obj_spec
      { objs := List.replicate n { has_field := fun _ => 0, value := fun _ => 0 } }
      (VAL_PTR_ADDR v.value)).1 ⟨h1, by simpa [Heap.num_objs] using h2⟩
    have hmem : o ∈ List.replicate n ({ has_field := fun _ => 0, value := fun _ => 0 } : Obj) :=
      List.getElem?_mem ho1
    have ho : o = { has_field := fun _ => 0, value := fun _ => 0 } :=
      List.eq_of_mem_replicate hmem
    unfold ck_getfield
    rw [load_field_at _ v o f false hok ⟨hptr, ho2⟩, ho]
    have : heap_get_field { has_field := fun _ => 0, value := fun _ => 0 } f = none := by
      unfold heap_get_field
      split_ifs <;> simp_all
    rw [this]

/-- Witness of C21: a fresh heap of three objects and a load through Ptr(2) (word 4). -/
theorem heap_addressing_witness :
    (heap_create 3).map (fun h => h.objs.length) = some 3 ∧
    (heap_create 3).map (fun h => ck_getfield h (eval_ok 4) 1) =
      some (eval_err Err.ERR_MISSING_FIELD) ∧
    (heap_create 3).map (fun h => ck_getfield h (eval_ok 8) 1) =
      some (eval_err Err.ERR_INVALID) ∧
    (1 ≤ (1 : Int) ∧ (1 : Int) ≤ one_int_heap.num_objs →
      ∃ o, one_int_heap.objs[((1 : Int) - 1).toNat]? = some o ∧
        heap_get_obj one_int_heap 1 = some o) :=
  ⟨by decide, by decide, by decide, (heap_addressing 3 one_int_heap 1).2.1⟩


/-! ### Input nodes -/

/-- C22: an unseen in-range input node stores and returns Ok of env_lookup of its name, which is
E.p for the name p, E.q for the name q and Null for every other name, the empty one included;
the result is never an error, whatever words the environment holds. -/
theorem input_resolution (graph : Graph) (heap : Heap) (env : Env) (fuel : Nat) (id : Int)
    (st : EvalState) :
    (in_range graph id → st.seen id = false → (graph.nodes id).kind = "input" →
      eval_node graph heap env (fuel + 1) id st =
        some (eval_ok (env_lookup env (graph.nodes id).name),
          (st.mark id).store id (eval_ok (env_lookup env (graph.nodes id).name)))) ∧
    env_lookup env "p" = env.p ∧ env_lookup env "q" = env.q ∧ env_lookup env "" = VAL_NULL ∧
    (∀ name : String, name ≠ "p" → name ≠ "q" → env_lookup env name = VAL_NULL) ∧
    (∀ w : Int, (eval_ok w).ok = 1 ∧ (eval_ok w).err = Err.OK ∧ (eval_ok w).value = w) := by
  refine ⟨?_, rfl, rfl, rfl, ?_, fun w => ⟨rfl, rfl, rfl⟩⟩
  · intro hr hs hk
    have hops : node_operands (graph.nodes id) = [] := by simp [node_operands, hk]
    have hcomb : node_combine heap env (graph.nodes id) [] =
        eval_ok (env_lookup env (graph.nodes id).name) := by
      simp [node_combine, hk, ck_input]
    rw [eval_node_nullary_op graph heap env fuel id st hr hs hops, hcomb]
  · intro name h1 h2
    simp [env_lookup, h1, h2]

/-- Witness of C22: the four input nodes of the example graph in the environment p = 6, q = 5. -/
theorem input_resolution_witness :
    graph_eval (inputs_graph 1) empty_heap { p := 6, q := 5 } = some (eval_ok 6) ∧
    graph_eval (inputs_graph 2) empty_heap { p := 6, q := 5 } = some (eval_ok 5) ∧
    graph_eval (inputs_graph 3) empty_heap { p := 6, q := 5 } = some (eval_ok 0) ∧
    graph_eval (inputs_graph 4) empty_heap { p := 6, q := 5 } = some (eval_ok 0) ∧
    eval_node (inputs_graph 3) empty_heap { p := 6, q := 5 } 1 3 EvalState.init =
      some (eval_ok (env_lookup { p := 6, q := 5 } ((inputs_graph 3).nodes 3).name),
        (EvalState.init.mark 3).store 3
          (eval_ok (env_lookup { p := 6, q := 5 } ((inputs_graph 3).nodes 3).name))) :=
  ⟨by decide, by decide, by decide, by decide,
    (input_resolution (inputs_graph 3) empty_heap { p := 6, q := 5 } 0 3 EvalState.init).1
      ⟨by decide, by decide⟩ rfl (by decide)⟩

/-! ### Triple dereference -/

theorem triple_deref_graph_eval (heap : Heap) (p q : Int) :
    graph_eval triple_deref_graph heap { p := p, q := q } = some (triple_deref heap p q) := by
  obtain ⟨r, h1, h2⟩ := lift_kernel_agree triple_deref_kernel heap p q (by decide)
  rw [run_triple_deref] at h1
  have h3 : graph_eval triple_deref_graph heap { p := p, q := q } = some r := h2
  rw [h3, ← h1]

theorem ck_load_ptr_valid (heap : Heap) (w w' : Int) (h : valid_deref heap w = some w') :
    ck_load_ptr heap (eval_ok w) = eval_ok w' := by
  unfold valid_deref at h
  by_cases hp : VAL_IS_PTR w = true
  · rw [if_pos hp] at h
    cases ho : heap_get_obj heap (VAL_PTR_ADDR w) with
    | none => rw [ho] at h; simp at h
    | some o =>
      rw [ho, Option.some_bind] at h
      unfold ck_load_ptr
      rw [load_field_at heap (eval_ok w) o FIELD_DEREF false (by simp [eval_ok]) ⟨hp, ho⟩, h]
      rfl
  · rw [if_neg hp] at h; simp at h

theorem ck_load_ptr_null (heap : Heap) : ck_load_ptr heap (eval_ok VAL_NULL) =
    eval_err Err.ERR_NULL := rfl

theorem ck_load_ptr_err (heap : Heap) (e : Err) : ck_load_ptr heap (eval_err e) = eval_err e :=
  rfl

/-- C29 (as amended): if p validly loads w1, w1 validly loads w2 and w2 validly loads w (each a
pointer to an object whose FIELD_DEREF slot is present), then triple_deref returns Ok(w) for
every q, and so does graph_eval of its lifted graph; on the chain heap of build_good_heap with
p = Ptr(1) these words are Ptr(2), Ptr(3), Ptr(4), so the result is Ok(Ptr(4)), word 8, and with
p = Ptr(2) the result is Ok(Int(7)), word 15. -/
theorem triple_deref_valid (heap : Heap) (p q w1 w2 w : Int)
    (h1 : valid_deref heap p = some w1) (h2 : valid_deref heap w1 = some w2)
    (h3 : valid_deref heap w2 = some w) :
    (triple_deref heap p q = eval_ok w ∧
      graph_eval triple_deref_graph heap { p := p, q := q } = some (eval_ok w)) ∧
    build_good_heap.map (fun h => triple_deref h (VAL_PTR 1) VAL_NULL) =
      some (eval_ok (VAL_PTR 4)) ∧
    build_good_heap.map (fun h => triple_deref h (VAL_PTR 2) VAL_NULL) =
      some (eval_ok (VAL_INT 7)) := by
  have hk : triple_deref heap p q = eval_ok w := by
    unfold triple_deref ck_input
    simp only []
    rw [ck_load_ptr_valid heap p w1 h1, ck_load_ptr_valid heap w1 w2 h2,
      ck_load_ptr_valid heap w2 w h3]
  exact ⟨⟨hk, by rw [triple_deref_graph_eval, hk]⟩, by decide, by decide⟩

/-- Witness of C29 (as amended): on the chain heap of build_good_heap, p = Ptr(1) gives
Ok(Ptr(4)), value word 8, and p = Ptr(2) gives Ok(Int(7)), value word 15. -/
theorem triple_deref_valid_witness :
    build_good_heap.map (fun h => h.objs.length) = some 4 ∧
    (triple_deref (build_good_heap.getD empty_heap) (VAL_PTR 1) VAL_NULL = eval_ok 8 ∧
      graph_eval triple_deref_graph (build_good_heap.getD empty_heap)
        { p := VAL_PTR 1, q := VAL_NULL } = some (eval_ok 8)) ∧
    (triple_deref (build_good_heap.getD empty_heap) (VAL_PTR 2) VAL_NULL = eval_ok 15 ∧
      graph_eval triple_deref_graph (build_good_heap.getD empty_heap)
        { p := VAL_PTR 2, q := VAL_NULL } = some (eval_ok 15)) :=
  ⟨by decide,
    (triple_deref_valid (build_good_heap.getD empty_heap) (VAL_PTR 1) VAL_NULL 4 6 8
      (by decide) (by decide) (by decide)).1,
    (triple_deref_valid (build_good_heap.getD empty_heap) (VAL_PTR 2) VAL_NULL 6 8 15
      (by decide) (by decide) (by decide)).1⟩

/-- C29 (counterexample): on the 4-object chain heap (object k holding Ptr(k+1) for k = 1..3,
object 4 holding Int(7)) with p = Ptr(1), triple_deref returns Ok with value word 8, the pointer
Ptr(4) stored in object 3, not word 15. -/
theorem triple_deref_chain_counterexample :
    build_good_heap.map (fun h => triple_deref h (VAL_PTR 1) VAL_NULL) = some (eval_ok 8) ∧
    build_good_heap.map (fun h => triple_deref h (VAL_PTR 1) VAL_NULL) ≠ some (eval_ok 15) ∧
    (8 : Int) = VAL_PTR 4 ∧ (15 : Int) = VAL_INT 7 ∧
    build_good_heap.map (fun h => valid_deref h (VAL_PTR 1)) = some (some (VAL_PTR 2)) ∧
    build_good_heap.map (fun h => valid_deref h (VAL_PTR 2)) = some (some (VAL_PTR 3)) ∧
    build_good_heap.map (fun h => valid_deref h (VAL_PTR 3)) = some (some (VAL_PTR 4)) ∧
    build_good_heap.map (fun h => valid_deref h (VAL_PTR 4)) = some (some (VAL_INT 7)) := by
  decide

/-- C30: if p is Null, or p validly loads Null, or p validly loads a pointer that validly loads
Null, then triple_deref returns Err(Null), and so does graph_eval of its lifted graph. -/
theorem triple_deref_null_hop (heap : Heap) (p q : Int)
    (h : p = VAL_NULL ∨ valid_deref heap p = some VAL_NULL ∨
      ∃ w1, valid_deref heap p = some w1 ∧ valid_deref heap w1 = some VAL_NULL) :
    triple_deref heap p q = eval_err Err.ERR_NULL ∧
    graph_eval triple_deref_graph heap { p := p, q := q } = some (eval_err Err.ERR_NULL) := by
  have hk : triple_deref heap p q = eval_err Err.ERR_NULL := by
    unfold triple_deref ck_input
    simp only []
    rcases h with h | h | ⟨w1, h1, h2⟩
    · rw [h, ck_load_ptr_null, ck_load_ptr_err, ck_load_ptr_err]
    · rw [ck_load_ptr_valid heap p _ h, ck_load_ptr_null, ck_load_ptr_err]
    · rw [ck_load_ptr_valid heap p w1 h1, ck_load_ptr_valid heap w1 _ h2, ck_load_ptr_null]
  exact ⟨hk, by rw [triple_deref_graph_eval, hk]⟩

/-- Witness of C30: the chain heap with object 2's FIELD_DEREF set to Null and p = Ptr(1). -/
theorem triple_deref_null_hop_witness :
    build_null_hop_heap.map (fun h => triple_deref h (VAL_PTR 1) VAL_NULL) =
      some (eval_err Err.ERR_NULL) ∧
    (triple_deref (build_null_hop_heap.getD empty_heap) (VAL_PTR 1) VAL_NULL =
        eval_err Err.ERR_NULL ∧
      graph_eval triple_deref_graph (build_null_hop_heap.getD empty_heap)
        { p := VAL_PTR 1, q := VAL_NULL } = some (eval_err Err.ERR_NULL)) ∧
    (triple_deref empty_heap VAL_NULL 0 = eval_err Err.ERR_NULL ∧
      graph_eval triple_deref_graph empty_heap { p := VAL_NULL, q := 0 } =
        some (eval_err Err.ERR_NULL)) :=
  ⟨by decide,
    triple_deref_null_hop (build_null_hop_heap.getD empty_heap) (VAL_PTR 1) VAL_NULL
      (Or.inr (Or.inr ⟨4, by decide, by decide⟩)),
    triple_deref_null_hop empty_heap VAL_NULL 0 (Or.inl rfl)⟩


/-! ### Well-formed results -/

theorem eval_ok_wf (w : Int) : (eval_ok w).wf := Or.inl ⟨rfl, rfl⟩

theorem eval_err_wf (e : Err) (h : e ≠ Err.OK) : (eval_err e).wf := by
  refine Or.inr ⟨rfl, ?_, rfl⟩
  cases e <;> simp [eval_err] at h ⊢

theorem wf_ok_cases (v : Eval) (h : v.wf) : v.ok = 0 ∨ v.ok = 1 := by
  rcases h with h | h
  · exact Or.inr h.1
  · exact Or.inl h.1

theorem load_field_wf (heap : Heap) (v : Eval) (f : Int) (ri : Bool) (h : v.wf) :
    (load_field heap v f ri).wf := by
  unfold load_field
  by_cases h0 : v.ok = 0
  · rw [if_pos h0]; exact h
  rw [if_neg h0]
  by_cases h1 : VAL_IS_INT v.value = true
  · rw [if_pos h1]; exact eval_err_wf _ (by decide)
  rw [if_neg h1]
  by_cases h2 : v.value = VAL_NULL
  · rw [if_pos h2]; exact eval_err_wf _ (by decide)
  rw [if_neg h2]
  cases heap_get_obj heap (VAL_PTR_ADDR v.value) with
  | none => exact eval_err_wf _ (by decide)
  | some o =>
    simp only []
    cases heap_get_field o f with
    | none => exact eval_err_wf _ (by decide)
    | some w =>
      simp only []
      split_ifs
      · exact eval_err_wf _ (by decide)
      · exact eval_ok_wf w

theorem primitives_wf (heap : Heap) (v a b c : Eval) (f : Int) :
    (v.wf → (ck_guard_nonnull v).wf ∧ (ck_load_ptr heap v).wf ∧ (ck_load_int heap v).wf ∧
      (ck_getfield heap v f).wf ∧ (ck_getfield_int heap v f).wf ∧
      (guard_ptr_node v).wf ∧ (guard_nonnull_node v).wf) ∧
    (a.wf → b.wf → (ck_guard_eq a b).wf ∧ (ck_add a b).wf) ∧
    (a.wf → b.wf → c.wf → (ck_select a b c).wf) := by
  refine ⟨fun h => ⟨?_, load_field_wf heap v _ _ h, load_field_wf heap v _ _ h,
    load_field_wf heap v _ _ h, load_field_wf heap v _ _ h, ?_, ?_⟩, fun ha hb => ⟨?_, ?_⟩,
    fun ha hb hc => ?_⟩
  · unfold ck_guard_nonnull
    split_ifs
    all_goals first
      | exact h
      | exact eval_err_wf _ (by decide)
      | exact eval_ok_wf _
  · unfold guard_ptr_node
    split_ifs
    · exact h
    · exact eval_err_wf Err.ERR_TYPE (by decide)
    · exact h
  · unfold guard_nonnull_node
    split_ifs
    · exact h
    · exact eval_err_wf Err.ERR_TYPE (by decide)
    · exact eval_err_wf Err.ERR_NULL (by decide)
    · exact h
  · unfold ck_guard_eq
    split_ifs
    all_goals first
      | exact ha
      | exact hb
      | exact eval_ok_wf _
  · unfold ck_add
    split_ifs
    · exact ha
    · exact hb
    · exact eval_err_wf _ (by decide)
    · exact eval_ok_wf _
  · unfold ck_select
    split_ifs
    · exact ha
    · exact eval_err_wf _ (by decide)
    · exact hb
    · exact hc

theorem eval_ops_plain_all (P : Eval → Prop) (ev : Int → Option Eval)
    (hev : ∀ o r, ev o = some r → P r) :
    ∀ (ops : List Int) (rs : List Eval), eval_ops_plain ev ops = some rs →
      rs.length = ops.length ∧ ∀ r ∈ rs, P r := by
  intro ops
  induction ops with
  | nil =>
    intro rs h
    simp only [eval_ops_plain, Option.some.injEq] at h
    subst h
    exact ⟨rfl, fun r hr => by simp at hr⟩
  | cons o os ih =>
    intro rs h
    rw [eval_ops_plain] at h
    cases ho : ev o with
    | none => simp [ho] at h
    | some a =>
      rw [ho, Option.some_bind] at h
      cases hos : eval_ops_plain ev os with
      | none => simp [hos] at h
      | some as =>
        rw [hos, Option.some_bind] at h
        simp only [Option.some.injEq] at h
        subst h
        obtain ⟨h1, h2⟩ := ih as hos
        refine ⟨by simp [h1], fun r hr => ?_⟩
        rcases List.mem_cons.mp hr with rfl | hr'
        · exact hev o _ ho
        · exact h2 r hr'

theorem getD_mem_of_lt {vals : List Eval} {i : Nat} (h : i < vals.length) (d : Eval) :
    vals.getD i d ∈ vals := by
  rw [List.getD_eq_getElem?_getD, List.getElem?_eq_getElem h]
  exact List.getElem_mem h

theorem node_combine_wf (heap : Heap) (env : Env) (n : Node) (vals : List Eval)
    (hlen : vals.length = (node_operands n).length) (hall : ∀ v ∈ vals, v.wf) :
    (node_combine heap env n vals).wf := by
  have hget : ∀ i, i < vals.length → (vals.getD i zero_eval).wf :=
    fun i hi => hall _ (getD_mem_of_lt hi zero_eval)
  unfold node_operands at hlen
  unfold node_combine
  by_cases k1 : n.kind = "input"
  · simp only [if_pos k1]; exact eval_ok_wf _
  simp only [if_neg k1] at hlen ⊢
  by_cases k2 : n.kind = "const_int"
  · simp only [if_pos k2]; exact eval_ok_wf _
  simp only [if_neg k2] at hlen ⊢
  by_cases k3 : n.kind = "const_null"
  · simp only [if_pos k3]; exact eval_ok_wf _
  simp only [if_neg k3] at hlen ⊢
  by_cases k4 : n.kind = "is_nonnull"
  · simp only [if_pos k4, List.length_cons, List.length_nil] at hlen ⊢
    exact ((primitives_wf heap _ zero_eval zero_eval zero_eval 0).1 (hget 0 (by omega))).1
  simp only [if_neg k4] at hlen ⊢
  by_cases k5 : n.kind = "guard_ptr"
  · simp only [if_pos k5, List.length_cons, List.length_nil] at hlen ⊢
    exact ((primitives_wf heap _ zero_eval zero_eval zero_eval 0).1
      (hget 0 (by omega))).2.2.2.2.2.1
  simp only [if_neg k5] at hlen ⊢
  by_cases k6 : n.kind = "guard_nonnull"
  · simp only [if_pos k6, List.length_cons, List.length_nil] at hlen ⊢
    exact ((primitives_wf heap _ zero_eval zero_eval zero_eval 0).1
      (hget 0 (by omega))).2.2.2.2.2.2
  simp only [if_neg k6] at hlen ⊢
  by_cases k7 : n.kind = "guard_eq"
  · simp only [if_pos k7, List.length_cons, List.length_nil] at hlen ⊢
    exact ((primitives_wf heap zero_eval _ _ zero_eval 0).2.1 (hget 0 (by omega))
      (hget 1 (by omega))).1
  simp only [if_neg k7] at hlen ⊢
  by_cases k8 : n.kind = "load_ptr"
  · simp only [if_pos k8, List.length_cons, List.length_nil] at hlen ⊢
    exact load_field_wf heap _ _ _ (hget 0 (by omega))
  simp only [if_neg k8] at hlen ⊢
  by_cases k9 : n.kind = "load_int"
  · simp only [if_pos k9, List.length_cons, List.length_nil] at hlen ⊢
    exact load_field_wf heap _ _ _ (hget 0 (by omega))
  simp only [if_neg k9] at hlen ⊢
  by_cases k10 : n.kind = "getfield"
  · simp only [if_pos k10, List.length_cons, List.length_nil] at hlen ⊢
    exact load_field_wf heap _ _ _ (hget 0 (by omega))
  simp only [if_neg k10] at hlen ⊢
  by_cases k11 : n.kind = "getfield_int"
  · simp only [if_pos k11, List.length_cons, List.length_nil] at hlen ⊢
    exact load_field_wf heap _ _ _ (hget 0 (by omega))
  simp only [if_neg k11] at hlen ⊢
  by_cases k12 : n.kind = "select"
  · simp only [if_pos k12, List.length_cons, List.length_nil] at hlen ⊢
    exact (primitives_wf heap zero_eval _ _ _ 0).2.2 (hget 0 (by omega)) (hget 1 (by omega))
      (hget 2 (by omega))
  simp only [if_neg k12] at hlen ⊢
  by_cases k13 : n.kind = "add"
  · simp only [if_pos k13, List.length_cons, List.length_nil] at hlen ⊢
    exact ((primitives_wf heap zero_eval _ _ zero_eval 0).2.1 (hget 0 (by omega))
      (hget 1 (by omega))).2
  simp only [if_neg k13] at hlen ⊢
  exact eval_err_wf Err.ERR_INVALID (by decide)

theorem eval_node_plain_wf (graph : Graph) (heap : Heap) (env : Env) :
    ∀ (k : Nat) (id : Int) (r : Eval), eval_node_plain graph heap env k id = some r → r.wf := by
  intro k
  induction k with
  | zero => intro id r h; simp [eval_node_plain] at h
  | succ k ih =>
    intro id r h
    rw [eval_node_plain_succ] at h
    by_cases h1 : id ≤ 0 ∨ id > graph.num_nodes
    · rw [if_pos h1] at h
      simp only [Option.some.injEq] at h
      subst h
      exact eval_err_wf Err.ERR_INVALID (by decide)
    rw [if_neg h1] at h
    cases hops : eval_ops_plain (eval_node_plain graph heap env k)
        (node_operands (graph.nodes id)) with
    | none => simp [hops] at h
    | some rs =>
      rw [hops, Option.some_bind] at h
      simp only [Option.some.injEq] at h
      subst h
      obtain ⟨hl, ha⟩ := eval_ops_plain_all Eval.wf _ (fun o r => ih o r) _ rs hops
      exact node_combine_wf heap env _ rs hl ha

/-- C23: every checked-runtime primitive returns a well-formed Eval when its Eval operands are
well formed, and on a graph whose part reachable from the output is acyclic graph_eval returns
a well-formed Eval, for every heap and environment. -/
theorem evals_well_formed (heap : Heap) (v a b c : Eval) (name : String) (w f : Int) :
    ((ck_input name w).wf ∧ (ck_const_int w).wf ∧ ck_const_null.wf) ∧
    (v.wf → (ck_guard_nonnull v).wf ∧ (ck_load_ptr heap v).wf ∧ (ck_load_int heap v).wf ∧
      (ck_getfield heap v f).wf ∧ (ck_getfield_int heap v f).wf) ∧
    (a.wf → b.wf → (ck_guard_eq a b).wf ∧ (ck_add a b).wf) ∧
    (a.wf → b.wf → c.wf → (ck_select a b c).wf) ∧
    (∀ (graph : Graph) (env : Env), Acyclic graph →
      ∃ r, graph_eval graph heap env = some r ∧ r.wf) := by
  have hp := primitives_wf heap v a b c f
  refine ⟨⟨eval_ok_wf _, eval_ok_wf _, eval_ok_wf _⟩, fun h => ?_, hp.2.1, hp.2.2, ?_⟩
  · obtain ⟨h1, h2, h3, h4, h5, _⟩ := hp.1 h
    exact ⟨h1, h2, h3, h4, h5⟩
  · intro graph env hac
    obtain ⟨k, r, hk⟩ := plain_total_of_acyclic graph heap env hac
    refine ⟨r, graph_eval_eq_of_plain graph heap env k r hk, ?_⟩
    unfold graph_eval_plain at hk
    by_cases ho : graph.output ≤ 0
    · rw [if_pos ho] at hk
      simp only [Option.some.injEq] at hk
      subst hk
      exact eval_err_wf Err.ERR_INVALID (by decide)
    · rw [if_neg ho] at hk
      exact eval_node_plain_wf graph heap env k _ r hk

/-- Witness of C23: the shared example graph is acyclic and evaluates to a well-formed Eval; the
zero-filled Eval read on a cycle is not well formed. -/
theorem evals_well_formed_witness :
    (∃ r, graph_eval shared_graph one_int_heap { p := 2, q := 0 } = some r ∧ r.wf) ∧
    (ck_add (eval_ok 7) (eval_err Err.ERR_NULL)).wf ∧
    ¬ zero_eval.wf :=
  ⟨(evals_well_formed one_int_heap (eval_ok 2) (eval_ok 7) (eval_err Err.ERR_NULL) (eval_ok 1)
      "p" 2 0).2.2.2.2 shared_graph { p := 2, q := 0 } shared_graph_acyclic,
    ((evals_well_formed one_int_heap (eval_ok 2) (eval_ok 7) (eval_err Err.ERR_NULL) (eval_ok 1)
      "p" 2 0).2.2.1 (by decide) (by decide)).2,
    by decide⟩


/-! ### Guard prelude of the lifter -/

theorem nodes_inv_snoc (ns : List Node) (n : Node) (h : NodesInv ns)
    (hops : ∀ o ∈ node_operands n, 1 ≤ o ∧ o ≤ (ns.length : Int)) :
    NodesInv (ns ++ [set_id n ((ns.length : Int) + 1)]) := by
  intro j m hj
  by_cases hlt : j < ns.length
  · rw [List.getElem?_append_left hlt] at hj
    exact h j m hj
  · by_cases hj' : j = ns.length
    · subst hj'
      simp at hj
      subst hj
      refine ⟨rfl, fun o ho => ?_⟩
      have := hops o ho
      show 1 ≤ o ∧ o < (ns.length : Int) + 1
      omega
    · rw [List.getElem?_eq_none (by simp; omega)] at hj
      exact absurd hj (by simp)

theorem resolveNode_bound (vt : List Int) (L : Int) (h : ∀ v ∈ vt, 1 ≤ v ∧ v ≤ L) (i : Nat)
    (hi : i < vt.length) : 1 ≤ resolveNode vt i ∧ resolveNode vt i ≤ L := by
  unfold resolveNode
  rw [List.getD_eq_getElem?_getD, List.getElem?_eq_getElem hi]
  exact h _ (List.getElem_mem hi)

theorem addNode_struct (b : GraphBuilder) (n : Node) (hb : BuilderInv b) (hn : NodesInv b.nodes)
    (hops : ∀ o ∈ node_operands n, 1 ≤ o ∧ o ≤ (b.nodes.length : Int)) :
    BuilderInv (b.addNode n).1 ∧ NodesInv (b.addNode n).1.nodes ∧
    (b.addNode n).2 = (b.nodes.length : Int) + 1 ∧
    (b.addNode n).1.nodes.length = b.nodes.length + 1 := by
  obtain ⟨a1, a2, a3, _⟩ := addNode_spec b n hb
  refine ⟨a1, ?_, a2, ?_⟩
  · rw [a3]; exact nodes_inv_snoc b.nodes n hn hops
  · rw [a3]; simp

theorem emit_struct (s : LiftState) (b' : GraphBuilder) (n : Node) (hb : BuilderInv b')
    (hn : NodesInv b'.nodes)
    (hv : ∀ v ∈ s.valueToNode, 1 ≤ v ∧ v ≤ (b'.nodes.length : Int))
    (hops : ∀ o ∈ node_operands n, 1 ≤ o ∧ o ≤ (b'.nodes.length : Int)) :
    StructInv (s.emit b' n) ∧ (s.emit b' n).valueToNode.length = s.valueToNode.length + 1 := by
  obtain ⟨a1, a2, a3, a4⟩ := addNode_struct b' n hb hn hops
  unfold LiftState.emit
  refine ⟨⟨a1, a2, ?_⟩, by simp⟩
  intro v hv'
  simp only [a4]
  rcases List.mem_append.mp hv' with h | h
  · have := hv v h
    push_cast
    omega
  · simp only [List.mem_singleton] at h
    rw [h, a3]
    push_cast
    omega

theorem addGuardedPtr_struct (b : GraphBuilder) (x : Int) (hb : BuilderInv b)
    (hn : NodesInv b.nodes) (hx : 1 ≤ x ∧ x ≤ (b.nodes.length : Int)) :
    BuilderInv (addGuardedPtr b x).1 ∧ NodesInv (addGuardedPtr b x).1.nodes ∧
    (addGuardedPtr b x).2 = (b.nodes.length : Int) + 2 ∧
    (addGuardedPtr b x).1.nodes.length = b.nodes.length + 2 := by
  obtain ⟨a1, a2, a3, a4⟩ := addNode_struct b { kind := "guard_ptr", x := x } hb hn
    (by intro o ho; simp [node_operands] at ho; subst ho; exact hx)
  obtain ⟨c1, c2, c3, c4⟩ := addNode_struct (b.addNode { kind := "guard_ptr", x := x }).1
    { kind := "guard_nonnull", x := (b.addNode { kind := "guard_ptr", x := x }).2 } a1 a2
    (by
      intro o ho
      simp only [node_operands] at ho
      simp at ho
      rw [ho, a3, a4]
      push_cast
      omega)
  unfold addGuardedPtr
  refine ⟨c1, c2, ?_, ?_⟩
  · rw [c3, a4]; push_cast; omega
  · rw [c4, a4]

theorem lift_load_struct (s : LiftState) (kind : String) (ptr : Nat) (field : Int)
    (hs : StructInv s) (hp : ptr < s.valueToNode.length)
    (hops : ∀ x : Int, node_operands { kind := kind, x := x, field := field } = [x]) :
    StructInv (s.emit (addGuardedPtr s.builder (resolveNode s.valueToNode ptr)).1
      { kind := kind, x := (addGuardedPtr s.builder (resolveNode s.valueToNode ptr)).2,
        field := field }) ∧
    (s.emit (addGuardedPtr s.builder (resolveNode s.valueToNode ptr)).1
      { kind := kind, x := (addGuardedPtr s.builder (resolveNode s.valueToNode ptr)).2,
        field := field }).valueToNode.length = s.valueToNode.length + 1 := by
  obtain ⟨hb, hn, hv⟩ := hs
  obtain ⟨g1, g2, g3, g4⟩ := addGuardedPtr_struct s.builder (resolveNode s.valueToNode ptr) hb hn
    (resolveNode_bound _ _ hv ptr hp)
  apply emit_struct s _ _ g1 g2
  · intro v hv'
    have := hv v hv'
    rw [g4]
    push_cast
    omega
  · intro o ho
    rw [hops] at ho
    simp only [List.mem_singleton] at ho
    rw [ho, g3, g4]
    push_cast
    omega

theorem getOrAddInput_struct (b : GraphBuilder) (name : String) (hb : BuilderInv b)
    (hn : NodesInv b.nodes) :
    BuilderInv (b.getOrAddInput name).1 ∧ NodesInv (b.getOrAddInput name).1.nodes ∧
    (1 ≤ (b.getOrAddInput name).2 ∧
      (b.getOrAddInput name).2 ≤ ((b.getOrAddInput name).1.nodes.length : Int)) ∧
    b.nodes.length ≤ (b.getOrAddInput name).1.nodes.length := by
  cases hl : b.inputNodes.lookup name with
  | some id =>
    rw [getOrAddInput_some _ _ _ hl]
    refine ⟨hb, hn, ?_, le_refl _⟩
    obtain ⟨n, hmem, h1, _, _⟩ := hb.2.2 name id hl
    obtain ⟨j, hj, hjn⟩ := List.mem_iff_getElem.mp hmem
    have := (hn j n (by rw [List.getElem?_eq_getElem hj, hjn])).1
    show 1 ≤ id ∧ id ≤ (b.nodes.length : Int)
    omega
  | none =>
    rw [getOrAddInput_none _ _ hl]
    obtain ⟨a1, a2, a3, a4⟩ := addNode_spec b { kind := "input", name := name } hb
    obtain ⟨_, c2, _, c4⟩ := addNode_struct b { kind := "input", name := name } hb hn
      (by intro o ho; simp [node_operands] at ho)
    refine ⟨⟨a1.1, a1.2.1, ?_⟩, c2, ?_, ?_⟩
    · intro name' id' hl'
      simp only [List.lookup_cons] at hl'
      by_cases hname : name' = name
      · subst hname
        simp only [beq_self_eq_true, Option.some.injEq] at hl'
        subst hl'
        refine ⟨set_id { kind := "input", name := name' } ((b.nodes.length : Int) + 1),
          ?_, a2.symm, rfl, rfl⟩
        show _ ∈ (b.addNode { kind := "input", name := name' }).1.nodes
        rw [a3]; simp
      · have hne : (name' == name) = false := by simpa using hname
        simp only [hne] at hl'
        rw [a4] at hl'
        obtain ⟨m, hm, hm'⟩ := hb.2.2 name' id' hl'
        refine ⟨m, ?_, hm'⟩
        show _ ∈ (b.addNode { kind := "input", name := name }).1.nodes
        rw [a3]; exact List.mem_append_left _ hm
    · show 1 ≤ (b.addNode { kind := "input", name := name }).2 ∧
        (b.addNode { kind := "input", name := name }).2 ≤
          ((b.addNode { kind := "input", name := name }).1.nodes.length : Int)
      rw [a2, c4]
      push_cast
      omega
    · show b.nodes.length ≤ (b.addNode { kind := "input", name := name }).1.nodes.length
      rw [c4]
      omega

theorem lift_call_struct (s : LiftState) (c : Call) (hs : StructInv s)
    (hc : c.operands.all (fun v => decide (v < s.valueToNode.length)) = true) :
    StructInv (lift_call s c) ∧
    (lift_call s c).valueToNode.length = s.valueToNode.length + 1 := by
  have hr := resolveNode_bound s.valueToNode _ hs.2.2
  have hs' := hs
  obtain ⟨hb, hn, hv⟩ := hs'
  cases c with
  | ck_input name tagged =>
    obtain ⟨g1, g2, g3, g4⟩ := getOrAddInput_struct s.builder name hb hn
    refine ⟨⟨g1, g2, ?_⟩, by simp [lift_call]⟩
    intro v hv'
    have hv'' : v ∈ s.valueToNode ++ [(s.builder.getOrAddInput name).2] := hv'
    rcases List.mem_append.mp hv'' with h | h
    · have := hv v h
      show 1 ≤ v ∧ v ≤ ((s.builder.getOrAddInput name).1.nodes.length : Int)
      omega
    · simp only [List.mem_singleton] at h
      subst h
      exact g3
  | ck_const_int value =>
    exact emit_struct s s.builder _ hb hn hv (by intro o ho; simp [node_operands] at ho)
  | ck_const_null =>
    exact emit_struct s s.builder _ hb hn hv (by intro o ho; simp [node_operands] at ho)
  | ck_guard_nonnull v =>
    simp only [Call.operands, List.all_cons, List.all_nil, Bool.and_true, Bool.and_eq_true,
      decide_eq_true_eq] at hc
    refine emit_struct s s.builder _ hb hn hv ?_
    intro o ho
    simp [node_operands] at ho
    subst ho
    exact hr v hc
  | ck_guard_eq a b =>
    simp only [Call.operands, List.all_cons, List.all_nil, Bool.and_true, Bool.and_eq_true,
      decide_eq_true_eq] at hc
    refine emit_struct s s.builder _ hb hn hv ?_
    intro o ho
    simp [node_operands] at ho
    rcases ho with rfl | rfl
    · exact hr a hc.1
    · exact hr b hc.2
  | ck_select c t e =>
    simp only [Call.operands, List.all_cons, List.all_nil, Bool.and_true, Bool.and_eq_true,
      decide_eq_true_eq] at hc
    refine emit_struct s s.builder _ hb hn hv ?_
    intro o ho
    simp [node_operands] at ho
    rcases ho with rfl | rfl | rfl
    · exact hr c hc.1
    · exact hr t hc.2.1
    · exact hr e hc.2.2
  | ck_add a b =>
    simp only [Call.operands, List.all_cons, List.all_nil, Bool.and_true, Bool.and_eq_true,
      decide_eq_true_eq] at hc
    refine emit_struct s s.builder _ hb hn hv ?_
    intro o ho
    simp [node_operands] at ho
    rcases ho with rfl | rfl
    · exact hr a hc.1
    · exact hr b hc.2
  | ck_load_ptr ptr =>
    simp only [Call.operands, List.all_cons, List.all_nil, Bool.and_true, Bool.and_eq_true,
      decide_eq_true_eq] at hc
    exact lift_load_struct s "load_ptr" ptr 0 hs hc (by intro x; simp [node_operands])
  | ck_load_int ptr =>
    simp only [Call.operands, List.all_cons, List.all_nil, Bool.and_true, Bool.and_eq_true,
      decide_eq_true_eq] at hc
    exact lift_load_struct s "load_int" ptr 0 hs hc (by intro x; simp [node_operands])
  | ck_getfield ptr field =>
    simp only [Call.operands, List.all_cons, List.all_nil, Bool.and_true, Bool.and_eq_true,
      decide_eq_true_eq] at hc
    exact lift_load_struct s "getfield" ptr field hs hc (by intro x; simp [node_operands])
  | ck_getfield_int ptr field =>
    simp only [Call.operands, List.all_cons, List.all_nil, Bool.and_true, Bool.and_eq_true,
      decide_eq_true_eq] at hc
    exact lift_load_struct s "getfield_int" ptr field hs hc (by intro x; simp [node_operands])

theorem eval_node_ord_succ (order : Int → EvalState → List Nat) (graph : Graph) (heap : Heap)
    (env : Env) (fuel : Nat) (id : Int) (st : EvalState) :
    eval_node_ord order graph heap env (fuel + 1) id st =
      if id ≤ 0 ∨ id > graph.num_nodes then
        some ({ ok := 0, err := Err.ERR_INVALID, value := 0 }, st)
      else if st.seen id then some (st.memo id, st)
      else
        (eval_ops (eval_node_ord order graph heap env fuel)
          ((order id st).map fun i => (node_operands (graph.nodes id)).getD i 0)
          (st.mark id)).bind fun r =>
        r.2.ret id (node_combine heap env (graph.nodes id)
          ((List.range (node_operands (graph.nodes id)).length).map fun i =>
            r.1.getD ((order id st).indexOf i) zero_eval)) := by
  rw [eval_node_ord]

theorem eval_node_ord_progress (order : Int → EvalState → List Nat) (graph : Graph)
    (heap : Heap) (env : Env) :
    ∀ (F : Nat) (id : Int) (st : EvalState), unseen_count graph st < F →
      ∃ r st', eval_node_ord order graph heap env F id st = some (r, st') ∧
        Progress graph st st' := by
  intro F
  induction F with
  | zero => intro id st h; omega
  | succ F ih =>
    intro id st hst
    rw [eval_node_ord_succ]
    by_cases h1 : id ≤ 0 ∨ id > graph.num_nodes
    · exact ⟨_, st, by rw [if_pos h1], progress_refl graph st⟩
    by_cases h2 : st.seen id = true
    · exact ⟨_, st, by rw [if_neg h1, if_pos h2], progress_refl graph st⟩
    simp only [if_neg h1, if_neg h2]
    have hm := unseen_count_mark graph st id h1 h2
    obtain ⟨rs, st2, h3, p3⟩ :=
      eval_ops_progress graph F (eval_node_ord order graph heap env F) ih
        ((order id st).map fun i => (node_operands (graph.nodes id)).getD i 0)
        (st.mark id) (by omega)
    refine ⟨_, _, by simp only [h3, Option.some_bind, EvalState.ret]; rfl, ?_⟩
    refine ⟨fun i hi => ?_, ?_, ?_⟩
    · apply p3.1
      simp [EvalState.mark, hi]
    · have := p3.2.1
      show unseen_count graph st2 ≤ _
      omega
    · have := p3.2.2
      show st2.bodies + unseen_count graph st2 = _
      have hb : (st.mark id).bodies = st.bodies + 1 := rfl
      omega

theorem eval_ops_agree_any (graph : Graph) (heap : Heap) (env : Env) (m : Nat)
    (ev : Int → EvalState → Option (Eval × EvalState))
    (ih : ∀ (k : Nat) (id : Int) (st : EvalState) (r' : Eval) (st' : EvalState) (r : Eval),
      ev id st = some (r', st') →
      eval_node_plain graph heap env k id = some r →
      MemoInv graph heap env k st → r' = r ∧ Frame graph heap env st st') :
    ∀ (ops : List Int) (st : EvalState) (rs : List Eval) (st' : EvalState) (rsp : List Eval),
      eval_ops ev ops st = some (rs, st') →
      eval_ops_plain (eval_node_plain graph heap env m) ops = some rsp →
      MemoInv graph heap env m st → rs = rsp ∧ Frame graph heap env st st' := by
  intro ops
  induction ops with
  | nil =>
    intro st rs st' rsp h hp _
    simp only [eval_ops, Option.some.injEq, Prod.mk.injEq] at h
    simp only [eval_ops_plain, Option.some.injEq] at hp
    obtain ⟨h1, h2⟩ := h
    subst h1; subst h2; subst hp
    exact ⟨rfl, frame_refl graph heap env st⟩
  | cons o os ihops =>
    intro st rs st' rsp h hp hinv
    rw [eval_ops] at h
    rw [eval_ops_plain] at hp
    cases ho : ev o st with
    | none => simp [ho] at h
    | some a =>
      rw [ho, Option.some_bind] at h
      cases hpo : eval_node_plain graph heap env m o with
      | none => simp [hpo] at hp
      | some b =>
        rw [hpo, Option.some_bind] at hp
        cases hos : eval_ops ev os a.2 with
        | none => simp [hos] at h
        | some as =>
          rw [hos, Option.some_bind] at h
          cases hpos : eval_ops_plain (eval_node_plain graph heap env m) os with
          | none => simp [hpos] at hp
          | some bs =>
            rw [hpos, Option.some_bind] at hp
            obtain ⟨e1, f1⟩ := ih m o st a.1 a.2 b ho hpo hinv
            obtain ⟨e2, f2⟩ := ihops a.2 as.1 as.2 bs hos hpos (memo_inv_frame hinv f1)
            simp only [Option.some.injEq, Prod.mk.injEq] at h
            simp only [Option.some.injEq] at hp
            obtain ⟨h1, h2⟩ := h
            subst h1; subst h2; subst hp
            exact ⟨by rw [e1, e2], frame_trans f1 f2⟩

theorem eval_ops_plain_getD (ev : Int → Option Eval) :
    ∀ (ops : List Int) (rsp : List Eval), eval_ops_plain ev ops = some rsp →
      rsp.length = ops.length ∧
      ∀ i, i < ops.length → ev (ops.getD i 0) = some (rsp.getD i zero_eval) := by
  intro ops
  induction ops with
  | nil =>
    intro rsp h
    simp only [eval_ops_plain, Option.some.injEq] at h
    subst h
    exact ⟨rfl, fun i hi => by simp at hi⟩
  | cons o os ih =>
    intro rsp h
    rw [eval_ops_plain] at h
    cases ho : ev o with
    | none => simp [ho] at h
    | some a =>
      rw [ho, Option.some_bind] at h
      cases hos : eval_ops_plain ev os with
      | none => simp [hos] at h
      | some as =>
        rw [hos, Option.some_bind] at h
        simp only [Option.some.injEq] at h
        subst h
        obtain ⟨h1, h2⟩ := ih as hos
        refine ⟨by simp [h1], fun i hi => ?_⟩
        cases i with
        | zero => simpa using ho
        | succ i =>
          have := h2 i (by simpa using hi)
          simpa using this

theorem eval_ops_plain_map (ev : Int → Option Eval) (g : Nat → Int) (h : Nat → Eval) :
    ∀ (idxs : List Nat), (∀ i ∈ idxs, ev (g i) = some (h i)) →
      eval_ops_plain ev (idxs.map g) = some (idxs.map h) := by
  intro idxs
  induction idxs with
  | nil => intro _; rfl
  | cons i is ih =>
    intro hall
    rw [List.map_cons, eval_ops_plain, hall i (List.mem_cons_self i is), Option.some_bind,
      ih (fun j hj => hall j (List.mem_cons_of_mem i hj)), Option.some_bind]
    rfl

theorem range_map_getD (l : List Eval) (d : Eval) :
    (List.range l.length).map (fun i => l.getD i d) = l := by
  apply List.ext_getElem
  · simp
  · intro i h1 h2
    simp [List.getD_eq_getElem?_getD, List.getElem?_eq_getElem h2]

theorem reassemble_by_position (ord : List Nat) (rsp : List Eval) (n : Nat)
    (hperm : List.Perm ord (List.range n)) (hlen : rsp.length = n) :
    (List.range n).map (fun i =>
      (ord.map fun j => rsp.getD j zero_eval).getD (ord.indexOf i) zero_eval) = rsp := by
  have key : ∀ i ∈ List.range n,
      (ord.map fun j => rsp.getD j zero_eval).getD (ord.indexOf i) zero_eval =
        rsp.getD i zero_eval := by
    intro i hi
    have hmem : i ∈ ord := hperm.symm.subset hi
    have hidx : ord.indexOf i < ord.length := List.indexOf_lt_length.mpr hmem
    rw [List.getD_eq_getElem?_getD, List.getElem?_map, List.getElem?_eq_getElem hidx]
    simp only [Option.map_some', Option.getD_some]
    have hig := List.indexOf_get hidx
    simp only [List.get_eq_getElem] at hig
    rw [hig]
  rw [List.map_congr_left key, ← hlen]
  exact range_map_getD rsp zero_eval

theorem eval_node_ord_agree (order : Int → EvalState → List Nat) (graph : Graph) (heap : Heap)
    (env : Env) (hord : OperandOrder graph order) :
    ∀ (F k : Nat) (id : Int) (st : EvalState) (r' : Eval) (st' : EvalState) (r : Eval),
      eval_node_ord order graph heap env F id st = some (r', st') →
      eval_node_plain graph heap env k id = some r →
      MemoInv graph heap env k st → r' = r ∧ Frame graph heap env st st' := by
  intro F
  induction F with
  | zero => intro k id st r' st' r h; simp [eval_node_ord] at h
  | succ F ih =>
    intro k id st r' st' r h hp hinv
    rw [eval_node_ord_succ] at h
    by_cases h1 : id ≤ 0 ∨ id > graph.num_nodes
    · rw [if_pos h1] at h
      obtain ⟨m, _, _, hm⟩ := eval_node_plain_least graph heap env k id r hp
      rw [eval_node_plain_succ, if_pos h1] at hm
      simp only [Option.some.injEq, Prod.mk.injEq] at h hm
      obtain ⟨e1, e2⟩ := h
      subst e1; subst e2; subst hm
      exact ⟨rfl, frame_refl graph heap env st⟩
    have hr : in_range graph id := by unfold in_range; omega
    by_cases h2 : st.seen id = true
    · rw [if_neg h1, if_pos h2] at h
      simp only [Option.some.injEq, Prod.mk.injEq] at h
      obtain ⟨e1, e2⟩ := h
      subst e1; subst e2
      refine ⟨?_, frame_refl graph heap env st⟩
      rcases hinv id hr h2 with hd | hn
      · exact den_unique hd ⟨k, hp⟩
      · rw [hn] at hp; exact absurd hp (by simp)
    rw [if_neg h1, if_neg h2] at h
    obtain ⟨m, hmk, hnone, hm⟩ := eval_node_plain_least graph heap env k id r hp
    rw [eval_node_plain_succ, if_neg h1] at hm
    cases hops : eval_ops (eval_node_ord order graph heap env F)
        ((order id st).map fun i => (node_operands (graph.nodes id)).getD i 0)
        (st.mark id) with
    | none => rw [hops] at h; exact absurd h (by simp)
    | some a =>
      rw [hops, Option.some_bind] at h
      cases hpops : eval_ops_plain (eval_node_plain graph heap env m)
          (node_operands (graph.nodes id)) with
      | none => rw [hpops] at hm; exact absurd hm (by simp)
      | some rsp =>
        rw [hpops, Option.some_bind] at hm
        have hinv1 : MemoInv graph heap env m (st.mark id) := by
          intro b hb hs
          by_cases hbi : b = id
          · subst hbi; exact Or.inr hnone
          · have hs' : st.seen b = true := by simpa [EvalState.mark, hbi] using hs
            rcases hinv b hb hs' with hd | hn
            · exact Or.inl hd
            · right
              cases hx : eval_node_plain graph heap env m b with
              | none => rfl
              | some x =>
                have := eval_node_plain_mono graph heap env m k b x (by omega) hx
                rw [hn] at this
                exact absurd this (by simp)
        obtain ⟨hlen, hget⟩ := eval_ops_plain_getD _ _ rsp hpops
        have hperm := hord id st
        have hpord : eval_ops_plain (eval_node_plain graph heap env m)
            ((order id st).map fun i => (node_operands (graph.nodes id)).getD i 0) =
            some ((order id st).map fun i => rsp.getD i zero_eval) := by
          apply eval_ops_plain_map
          intro i hi
          exact hget i (List.mem_range.mp (hperm.subset hi))
        obtain ⟨e, f⟩ := eval_ops_agree_any graph heap env m
          (eval_node_ord order graph heap env F) ih _ (st.mark id) a.1 a.2 _ hops hpord hinv1
        have hvals : ((List.range (node_operands (graph.nodes id)).length).map fun i =>
            a.1.getD ((order id st).indexOf i) zero_eval) = rsp := by
          rw [e]
          exact reassemble_by_position _ rsp _ hperm hlen
        rw [hvals] at h
        simp only [EvalState.ret, EvalState.store, Option.some.injEq, Prod.mk.injEq] at h hm
        obtain ⟨e1, e2⟩ := h
        have hrr : r' = r := by rw [← e1, ← hm]
        refine ⟨hrr, ?_, ?_⟩
        · intro b hb
          have hbi : b ≠ id := by
            intro hbi; subst hbi; exact h2 hb
          have hb1 : (st.mark id).seen b = true := by simp [EvalState.mark, hb]
          obtain ⟨g1, g2⟩ := f.1 b hb1
          subst e2
          exact ⟨g1, by simpa [hbi, EvalState.mark] using g2⟩
        · intro b hb hs hs'
          subst e2
          by_cases hbi : b = id
          · subst hbi
            simp only [if_true]
            rw [e1, hrr]
            exact ⟨k, hp⟩
          · simp only [if_neg hbi]
            have hs1 : (st.mark id).seen b = false := by simpa [EvalState.mark, hbi] using hs
            exact f.2 b hb hs1 hs'

theorem graph_eval_ord_eq_of_plain (order : Int → EvalState → List Nat) (graph : Graph)
    (heap : Heap) (env : Env) (hord : OperandOrder graph order) (k : Nat) (r : Eval)
    (h : graph_eval_plain k graph heap env = some r) :
    graph_eval_ord order graph heap env = some r := by
  unfold graph_eval_ord
  unfold graph_eval_plain at h
  by_cases ho : graph.output ≤ 0
  · rw [if_pos ho] at h ⊢
    exact h
  rw [if_neg ho] at h ⊢
  obtain ⟨r', st', hrun, _⟩ := eval_node_ord_progress order graph heap env
    (graph.num_nodes.toNat + 1) graph.output EvalState.init (by rw [unseen_count_init]; omega)
  rw [hrun]
  obtain ⟨e, _⟩ := eval_node_ord_agree order graph heap env hord _ k graph.output
    EvalState.init r' st' r hrun h (memo_inv_init graph heap env k)
  simp [e]

theorem eval_ops_length (ev : Int → EvalState → Option (Eval × EvalState)) :
    ∀ (ops : List Int) (st : EvalState) (x : List Eval × EvalState),
      eval_ops ev ops st = some x → x.1.length = ops.length := by
  intro ops
  induction ops with
  | nil =>
    intro st x h
    simp only [eval_ops, Option.some.injEq] at h
    subst h; rfl
  | cons o os ih =>
    intro st x h
    rw [eval_ops] at h
    cases ho : ev o st with
    | none => simp [ho] at h
    | some a =>
      rw [ho, Option.some_bind] at h
      cases hos : eval_ops ev os a.2 with
      | none => simp [hos] at h
      | some b =>
        rw [hos, Option.some_bind] at h
        simp only [Option.some.injEq] at h
        subst h
        simp [ih a.2 b hos]

theorem range_map_getD_int (l : List Int) (d : Int) :
    (List.range l.length).map (fun i => l.getD i d) = l := by
  apply List.ext_getElem
  · simp
  · intro i h1 h2
    simp [List.getD_eq_getElem?_getD, List.getElem?_eq_getElem h2]

theorem indexOf_range (n i : Nat) (h : i < n) : (List.range n).indexOf i = i := by
  induction n with
  | zero => omega
  | succ n ih =>
    rw [List.range_succ]
    by_cases hi : i < n
    · rw [List.indexOf_append_of_mem (List.mem_range.mpr hi)]
      exact ih hi
    · have : i = n := by omega
      subst this
      rw [List.indexOf_append_of_not_mem (by simp)]
      simp

/-- Taking the operands left to right, eval_node_ord is eval_node. -/
theorem eval_node_ord_left_to_right (graph : Graph) (heap : Heap) (env : Env) :
    ∀ (F : Nat) (id : Int) (st : EvalState),
      eval_node_ord (left_to_right graph) graph heap env F id st =
        eval_node graph heap env F id st := by
  intro F
  induction F with
  | zero => intro id st; rfl
  | succ F ih =>
    intro id st
    rw [eval_node_ord_succ, eval_node_succ]
    have hfun : eval_node_ord (left_to_right graph) graph heap env F =
        eval_node graph heap env F := by
      funext o s
      exact ih o s
    rw [hfun]
    by_cases h1 : id ≤ 0 ∨ id > graph.num_nodes
    · rw [if_pos h1, if_pos h1]
    by_cases h2 : st.seen id = true
    · rw [if_neg h1, if_neg h1, if_pos h2, if_pos h2]
    rw [if_neg h1, if_neg h1, if_neg h2, if_neg h2]
    have hl : ((left_to_right graph id st).map fun i =>
        (node_operands (graph.nodes id)).getD i 0) = node_operands (graph.nodes id) :=
      range_map_getD_int _ 0
    rw [hl]
    cases hops : eval_ops (eval_node graph heap env F) (node_operands (graph.nodes id))
        (st.mark id) with
    | none => rfl
    | some a =>
      simp only [Option.some_bind]
      have hlen := eval_ops_length _ _ _ a hops
      have hv : ((List.range (node_operands (graph.nodes id)).length).map fun i =>
          a.1.getD ((left_to_right graph id st).indexOf i) zero_eval) = a.1 := by
        have key : ∀ i ∈ List.range (node_operands (graph.nodes id)).length,
            a.1.getD ((left_to_right graph id st).indexOf i) zero_eval =
              a.1.getD i zero_eval := by
          intro i hi
          show a.1.getD ((List.range _).indexOf i) zero_eval = _
          rw [indexOf_range _ i (List.mem_range.mp hi)]
        rw [List.map_congr_left key, ← hlen]
        exact range_map_getD a.1 zero_eval
      rw [hv]

theorem order_graph_acyclic : Acyclic order_graph := by
  apply acyclic_of_topo
  intro i o e
  obtain ⟨⟨h1, h2⟩, ho, _⟩ := e
  have h2' : i ≤ 6 := h2
  interval_cases i <;> simp [order_graph, node_operands] at ho <;> omega

/-- C24: on a graph whose part reachable from the output is acyclic, graph_eval returns one Eval
determined by the graph, the heap and the environment: the same for every sufficient amount of
fuel, and the same whatever order the operands of each node are evaluated in (any permutation of
the operand positions, chosen anew at every node entry); taking them left to right is graph_eval
itself. -/
theorem order_independence (graph : Graph) (heap : Heap) (env : Env)
    (order : Int → EvalState → List Nat) (hac : Acyclic graph)
    (hord : OperandOrder graph order) :
    ∃ r, graph_eval graph heap env = some r ∧
      graph_eval_ord order graph heap env = some r ∧
      graph_eval_ord (left_to_right graph) graph heap env = graph_eval graph heap env ∧
      ∀ fuel, graph.num_nodes.toNat + 1 ≤ fuel →
        (graph_eval_run fuel graph heap env).map Prod.fst = some r := by
  obtain ⟨k, r, hk⟩ := plain_total_of_acyclic graph heap env hac
  have hg := graph_eval_eq_of_plain graph heap env k r hk
  refine ⟨r, hg, graph_eval_ord_eq_of_plain order graph heap env hord k r hk, ?_, ?_⟩
  · unfold graph_eval_ord graph_eval graph_eval_run
    by_cases ho : graph.output ≤ 0
    · rw [if_pos ho, if_pos ho]; rfl
    · rw [if_neg ho, if_neg ho, eval_node_ord_left_to_right]
  · intro fuel hfuel
    unfold graph_eval graph_eval_run at hg
    unfold graph_eval_run
    by_cases ho : graph.output ≤ 0
    · rw [if_pos ho] at hg ⊢; exact hg
    · rw [if_neg ho] at hg ⊢
      cases hx : eval_node graph heap env (graph.num_nodes.toNat + 1) graph.output
          EvalState.init with
      | none => rw [hx] at hg; simp at hg
      | some x =>
        rw [hx] at hg
        rw [eval_node_mono graph heap env _ fuel _ _ x hfuel hx]
        exact hg

/-- Witness of C24: an add node whose two operands fail differently and a select over it,
evaluated right to left. -/
theorem order_independence_witness :
    graph_eval order_graph empty_heap { p := 0, q := 5 } = some (eval_err Err.ERR_NULL) ∧
    graph_eval_ord (right_to_left order_graph) order_graph empty_heap { p := 0, q := 5 } =
      some (eval_err Err.ERR_NULL) ∧
    ∃ r, graph_eval order_graph empty_heap { p := 0, q := 5 } = some r ∧
      graph_eval_ord (right_to_left order_graph) order_graph empty_heap { p := 0, q := 5 } =
        some r ∧
      graph_eval_ord (left_to_right order_graph) order_graph empty_heap { p := 0, q := 5 } =
        graph_eval order_graph empty_heap { p := 0, q := 5 } ∧
      ∀ fuel, order_graph.num_nodes.toNat + 1 ≤ fuel →
        (graph_eval_run fuel order_graph empty_heap { p := 0, q := 5 }).map Prod.fst = some r :=
  ⟨by decide, by decide,
    order_independence order_graph empty_heap { p := 0, q := 5 } (right_to_left order_graph)
      order_graph_acyclic (fun _ _ => List.reverse_perm _)⟩

/-! ### Binding resolution in the lifter -/

theorem resolve_load (s : PassState) (ptr : IRPtr) (ai : Nat) (id : Int)
    (hp : getAlloca ptr = some ai) (hl : s.allocaToNode.lookup ai = some id) :
    s.resolveNode (.load ptr) = id := by
  simp [PassState.resolveNode, hp, hl]

theorem handle_memcpy_mapped (s : PassState) (dp sp : IRPtr) (d sr : Nat) (id : Int)
    (hd : getAlloca dp = some d) (hs : getAlloca sp = some sr)
    (hl : s.allocaToNode.lookup sr = some id) :
    handle_memcpy s dp sp = { s with allocaToNode := (d, id) :: s.allocaToNode } := by
  simp [handle_memcpy, hd, hs, hl]

theorem lookup_after_bind (m : List (Nat × Int)) (d x : Nat) (id : Int)
    (h : x = d ∨ m.lookup x = some id) : List.lookup x ((d, id) :: m) = some id := by
  rw [List.lookup_cons]
  by_cases hx : x = d
  · subst hx; simp
  · have : (x == d) = false := by simpa using hx
    rw [this]
    rcases h with h | h
    · exact absurd h hx
    · exact h

theorem copy_chain_spec :
    ∀ (dsts : List Nat) (s : PassState) (src : Nat) (id : Int),
      s.allocaToNode.lookup src = some id →
      (∀ x, s.allocaToNode.lookup x = some id →
        (copy_chain s src dsts).allocaToNode.lookup x = some id) ∧
      (∀ x ∈ dsts, (copy_chain s src dsts).allocaToNode.lookup x = some id) := by
  intro dsts
  induction dsts with
  | nil => intro s src id _; exact ⟨fun x h => h, fun x hx => by simp at hx⟩
  | cons d ds ih =>
    intro s src id hsrc
    have hstep : handle_memcpy s (.alloca d) (.alloca src) =
        { s with allocaToNode := (d, id) :: s.allocaToNode } :=
      handle_memcpy_mapped s _ _ d src id rfl rfl hsrc
    have hd : (handle_memcpy s (.alloca d) (.alloca src)).allocaToNode.lookup d = some id := by
      rw [hstep]; exact lookup_after_bind _ d d id (Or.inl rfl)
    obtain ⟨i1, i2⟩ := ih (handle_memcpy s (.alloca d) (.alloca src)) d id hd
    refine ⟨fun x hx => ?_, fun x hx => ?_⟩
    · apply i1 x
      rw [hstep]; exact lookup_after_bind _ d x id (Or.inr hx)
    · rcases List.mem_cons.mp hx with rfl | hx'
      · exact i1 x hd
      · exact i2 x hx'

/-- C28 (as amended): a store, through the alloca of a binding, of a value that resolves to a
node makes every read of that binding resolve to that node, whatever the binding was mapped to
before; a block copy from a mapped binding s to a binding d makes d resolve to the node of s,
and along a chain of copies starting at a mapped binding every binding of the chain resolves to
that node; a store of a value that resolves to no node, a store through any other pointer, and
a copy from an unmapped binding leave both maps as they were. -/
theorem binding_resolution (st : PassState) (val : IRValue) (a : Nat) (rp dp sp : IRPtr)
    (d s : Nat) (id : Int) (dsts : List Nat)
    (hval : st.resolveNode val ≠ 0) (hrp : getAlloca rp = some a)
    (hd : getAlloca dp = some d) (hs : getAlloca sp = some s)
    (hsrc : st.allocaToNode.lookup s = some id) :
    (handle_store st val (.alloca a)).resolveNode (.load rp) = st.resolveNode val ∧
    (st.resolveNode (.load sp) = id ∧
      (handle_memcpy st dp sp).resolveNode (.load dp) = id ∧
      (handle_memcpy st dp sp).resolveNode (.load sp) = id) ∧
    (∀ x ∈ s :: dsts, (copy_chain st s dsts).resolveNode (.load (.alloca x)) = id) ∧
    (∀ (st' : PassState) (val' : IRValue) (ptr : IRPtr),
      st'.resolveNode val' = 0 ∨ (∀ ai, ptr ≠ .alloca ai) → handle_store st' val' ptr = st') ∧
    (∀ (st' : PassState) (dp' sp' : IRPtr),
      (∀ sr, getAlloca sp' = some sr → st'.allocaToNode.lookup sr = none) →
      handle_memcpy st' dp' sp' = st') := by
  refine ⟨?_, ⟨resolve_load st sp s id hs hsrc, ?_, ?_⟩, ?_, ?_, ?_⟩
  · apply resolve_load _ rp a _ hrp
    simp only [handle_store, if_pos hval]
    exact lookup_after_bind _ a a _ (Or.inl rfl)
  · rw [handle_memcpy_mapped st dp sp d s id hd hs hsrc]
    exact resolve_load _ dp d id hd (lookup_after_bind _ d d id (Or.inl rfl))
  · rw [handle_memcpy_mapped st dp sp d s id hd hs hsrc]
    exact resolve_load _ sp s id hs (lookup_after_bind _ d s id (Or.inr hsrc))
  · intro x hx
    obtain ⟨c1, c2⟩ := copy_chain_spec dsts st s id hsrc
    apply resolve_load _ (.alloca x) x id rfl
    rcases List.mem_cons.mp hx with rfl | hx'
    · exact c1 x hsrc
    · exact c2 x hx'
  · intro st' val' ptr h
    cases ptr with
    | alloca ai =>
      rcases h with h | h
      · simp [handle_store, h]
      · exact absurd rfl (h ai)
    | gep ai => rfl
    | other => rfl
  · intro st' dp' sp' h
    unfold handle_memcpy
    cases hdp : getAlloca dp' with
    | none => rfl
    | some d' =>
      cases hsp : getAlloca sp' with
      | none => rfl
      | some s' => simp [h s' hsp]

/-- Witness of C28 (as amended): alloca 0 is mapped to node 1; storing the second call (node 2)
into it overrides the mapping, and copies from it reach allocas 3, 4 and 5. -/
theorem binding_resolution_witness :
    (handle_store { valueToNode := [1, 2], allocaToNode := [(0, 1)] } (.call 1)
      (.alloca 0)).resolveNode (.load (.gep 0)) = 2 ∧
    (∀ x ∈ [0, 3, 4, 5], (copy_chain { valueToNode := [1, 2], allocaToNode := [(0, 1)] } 0
      [3, 4, 5]).resolveNode (.load (.alloca x)) = 1) :=
  ⟨(binding_resolution { valueToNode := [1, 2], allocaToNode := [(0, 1)] } (.call 1) 0 (.gep 0)
      (.alloca 3) (.gep 0) 3 0 1 [3, 4, 5] (by decide) rfl rfl rfl rfl).1,
    (binding_resolution { valueToNode := [1, 2], allocaToNode := [(0, 1)] } (.call 1) 0 (.gep 0)
      (.alloca 3) (.gep 0) 3 0 1 [3, 4, 5] (by decide) rfl rfl rfl rfl).2.2.1⟩

/-- C28 (counterexample): alloca 0 is mapped to node 1.  A store into it of a value that
resolves to no node leaves the read of the binding at node 1, not at the (absent) node of the
stored value; a block copy into it from the unmapped alloca 7 leaves it at node 1 while alloca 7
resolves to 0. -/
theorem stale_binding_counterexample :
    bound_state.resolveNode (.load (.alloca 0)) = 1 ∧
    bound_state.resolveNode .other = 0 ∧
    (handle_store bound_state .other (.alloca 0)).resolveNode (.load (.alloca 0)) = 1 ∧
    (handle_store bound_state .other (.alloca 0)).resolveNode (.load (.alloca 0)) ≠
      bound_state.resolveNode .other ∧
    (handle_memcpy bound_state (.alloca 0) (.alloca 7)).resolveNode (.load (.alloca 0)) = 1 ∧
    (handle_memcpy bound_state (.alloca 0) (.alloca 7)).resolveNode (.load (.alloca 7)) = 0 ∧
    (handle_memcpy bound_state (.alloca 0) (.alloca 7)).resolveNode (.load (.alloca 0)) ≠
      (handle_memcpy bound_state (.alloca 0) (.alloca 7)).resolveNode (.load (.alloca 7)) := by
  decide

/-! ### Alias branch and add two -/

theorem alias_branch_graph_eval (heap : Heap) (p q : Int) :
    graph_eval alias_branch_graph heap { p := p, q := q } = some (alias_branch heap p q) := by
  obtain ⟨r, h1, h2⟩ := lift_kernel_agree alias_branch_kernel heap p q (by decide)
  rw [run_alias_branch] at h1
  have h3 : graph_eval alias_branch_graph heap { p := p, q := q } = some r := h2
  rw [h3, ← h1]

theorem add_two_graph_eval (heap : Heap) (p q : Int) :
    graph_eval add_two_graph heap { p := p, q := q } = some (add_two heap p q) := by
  obtain ⟨r, h1, h2⟩ := lift_kernel_agree add_two_kernel heap p q (by decide)
  rw [run_add_two] at h1
  have h3 : graph_eval add_two_graph heap { p := p, q := q } = some r := h2
  rw [h3, ← h1]

theorem alias_branch_eq (heap : Heap) (p q : Int) :
    alias_branch heap p q =
      if p = q then ck_load_ptr heap (eval_ok p) else ck_load_ptr heap (eval_ok q) := by
  unfold alias_branch ck_input ck_guard_eq ck_select
  by_cases h : p = q
  · simp [eval_ok, h, VAL_INT, VAL_IS_INT, VAL_INT_VALUE, wrap32]
  · simp [eval_ok, h, VAL_INT, VAL_IS_INT, VAL_INT_VALUE, wrap32]

/-- C31: for every heap and all words p, q, alias_branch returns ck_load_ptr of Ok(p) when p and
q are the same word and ck_load_ptr of Ok(q) otherwise, hence ck_load_ptr of Ok(q) in every
case, and so does graph_eval of its lifted graph; with p = q = Ptr(1) and object 1's FIELD_DEREF
holding Int(5) the result is Ok with value word 11. -/
theorem alias_branch_spec (heap : Heap) (p q : Int) :
    (p = q → alias_branch heap p q = ck_load_ptr heap (eval_ok p)) ∧
    (p ≠ q → alias_branch heap p q = ck_load_ptr heap (eval_ok q)) ∧
    alias_branch heap p q = ck_load_ptr heap (eval_ok q) ∧
    graph_eval alias_branch_graph heap { p := p, q := q } =
      some (ck_load_ptr heap (eval_ok q)) ∧
    alias_branch (heap_of_words [VAL_INT 5]) (VAL_PTR 1) (VAL_PTR 1) = eval_ok 11 ∧
    (11 : Int) = VAL_INT 5 := by
  have hq : alias_branch heap p q = ck_load_ptr heap (eval_ok q) := by
    rw [alias_branch_eq]
    by_cases h : p = q
    · rw [if_pos h, h]
    · rw [if_neg h]
  refine ⟨fun h => ?_, fun h => ?_, hq, ?_, by decide, by decide⟩
  · rw [alias_branch_eq, if_pos h]
  · rw [alias_branch_eq, if_neg h]
  · rw [alias_branch_graph_eval, hq]

theorem val_int_is_int (a : Int) : VAL_IS_INT (VAL_INT a) = true := by
  simp only [VAL_IS_INT, VAL_INT, wrap32, bne_iff_ne, ne_eq]
  omega

theorem val_int_add (a b : Int) :
    VAL_INT (VAL_INT_VALUE (VAL_INT a) + VAL_INT_VALUE (VAL_INT b)) = VAL_INT (a + b) := by
  simp only [VAL_INT, VAL_INT_VALUE, wrap32]
  omega

/-- C32: if p and q validly load the integer words Int(a) and Int(b) and a + b lies in
[-2^30, 2^30 - 1], add_two returns Ok(Int(a + b)), the word 2 (a + b) + 1 whose payload is
a + b, and so does graph_eval of its lifted graph; whenever the load through p fails, add_two
returns that error whatever the load through q does; with object 1 holding Int(3), object 2
holding Int(4), p = Ptr(1) and q = Ptr(2) the result is Ok with value word 15. -/
theorem add_two_spec (heap : Heap) (p q a b : Int)
    (hp : valid_deref heap p = some (VAL_INT a)) (hq : valid_deref heap q = some (VAL_INT b))
    (hr : -1073741824 ≤ a + b ∧ a + b ≤ 1073741823) :
    add_two heap p q = eval_ok (VAL_INT (a + b)) ∧
    VAL_INT (a + b) = (a + b) * 2 + 1 ∧ VAL_INT_VALUE (VAL_INT (a + b)) = a + b ∧
    graph_eval add_two_graph heap { p := p, q := q } = some (eval_ok (VAL_INT (a + b))) ∧
    (∀ (heap' : Heap) (p' q' : Int), (ck_load_ptr heap' (eval_ok p')).ok = 0 →
      add_two heap' p' q' = ck_load_ptr heap' (eval_ok p') ∧
      graph_eval add_two_graph heap' { p := p', q := q' } =
        some (ck_load_ptr heap' (eval_ok p'))) ∧
    add_two (heap_of_words [VAL_INT 3, VAL_INT 4]) (VAL_PTR 1) (VAL_PTR 2) = eval_ok 15 := by
  have hk : add_two heap p q = eval_ok (VAL_INT (a + b)) := by
    unfold add_two ck_input
    simp only []
    rw [ck_load_ptr_valid heap p _ hp, ck_load_ptr_valid heap q _ hq]
    unfold ck_add
    simp only [eval_ok, val_int_is_int, val_int_add]
    simp
  have herr : ∀ (heap' : Heap) (p' q' : Int), (ck_load_ptr heap' (eval_ok p')).ok = 0 →
      add_two heap' p' q' = ck_load_ptr heap' (eval_ok p') := by
    intro heap' p' q' h
    unfold add_two ck_input ck_add
    simp only [h, if_true]
  refine ⟨hk, ?_, ?_, by rw [add_two_graph_eval, hk], fun heap' p' q' h => ⟨herr heap' p' q' h, ?_⟩,
    by decide⟩
  · simp only [VAL_INT, wrap32]; omega
  · simp only [VAL_INT, VAL_INT_VALUE, wrap32]; omega
  · rw [add_two_graph_eval, herr heap' p' q' h]

/-- Witness of C32: objects 1 and 2 hold Int(3) and Int(4); with no object at all both loads
fail and the error of the load through p is returned. -/
theorem add_two_spec_witness :
    add_two (heap_of_words [VAL_INT 3, VAL_INT 4]) (VAL_PTR 1) (VAL_PTR 2) =
      eval_ok (VAL_INT (3 + 4)) ∧
    graph_eval add_two_graph (heap_of_words [VAL_INT 3, VAL_INT 4])
      { p := VAL_PTR 1, q := VAL_PTR 2 } = some (eval_ok 15) ∧
    add_two empty_heap VAL_NULL (VAL_INT 1) = eval_err Err.ERR_NULL :=
  ⟨(add_two_spec (heap_of_words [VAL_INT 3, VAL_INT 4]) (VAL_PTR 1) (VAL_PTR 2) 3 4
      (by decide) (by decide) (by decide)).1,
    (add_two_spec (heap_of_words [VAL_INT 3, VAL_INT 4]) (VAL_PTR 1) (VAL_PTR 2) 3 4
      (by decide) (by decide) (by decide)).2.2.2.1,
    by decide⟩

/-! ### Guard prelude and field bounds -/

/-- C34: for every heap, every operand Eval, every field index and both load flavours, the load
applied to the value of a guard_nonnull node over a guard_ptr node over v is the load applied to
v itself. -/
theorem guard_prelude_transparent (heap : Heap) (v : Eval) (f : Int) :
    ck_getfield heap (guard_nonnull_node (guard_ptr_node v)) f = ck_getfield heap v f ∧
    ck_getfield_int heap (guard_nonnull_node (guard_ptr_node v)) f = ck_getfield_int heap v f ∧
    ck_load_ptr heap (guard_nonnull_node (guard_ptr_node v)) = ck_load_ptr heap v ∧
    ck_load_int heap (guard_nonnull_node (guard_ptr_node v)) = ck_load_int heap v :=
  ⟨load_field_guards heap v f false, load_field_guards heap v f true,
    load_field_guards heap v FIELD_DEREF false, load_field_guards heap v FIELD_DEREF true⟩

/-- C35: for every pointer word addressing an object of the heap and every field index f with
f < 0 or f >= 3, ck_getfield and ck_getfield_int return Err(MissingField), which is not
Err(Invalid); heap_get_field answers without looking at the object, whatever its slots hold. -/
theorem field_out_of_range (heap : Heap) (v : Int) (o : Obj) (f : Int)
    (ha : addresses heap v o) (hf : f < 0 ∨ f ≥ 3) :
    ck_getfield heap (eval_ok v) f = eval_err Err.ERR_MISSING_FIELD ∧
    ck_getfield_int heap (eval_ok v) f = eval_err Err.ERR_MISSING_FIELD ∧
    eval_err Err.ERR_MISSING_FIELD ≠ eval_err Err.ERR_INVALID ∧
    (∀ o' : Obj, heap_get_field o' f = none) := by
  have hnone : ∀ o' : Obj, heap_get_field o' f = none := by
    intro o'
    unfold heap_get_field
    rw [dif_pos (by simp only [MAX_FIELDS]; omega)]
  refine ⟨?_, ?_, by decide, hnone⟩
  · unfold ck_getfield
    rw [load_field_at heap (eval_ok v) o f false (by simp [eval_ok]) ha, hnone o]
  · unfold ck_getfield_int
    rw [load_field_at heap (eval_ok v) o f true (by simp [eval_ok]) ha, hnone o]

/-- Witness of C35: field indices 3 and -1 through Ptr(1) on a heap of one object. -/
theorem field_out_of_range_witness :
    (ck_getfield one_int_heap (eval_ok 2) 3 = eval_err Err.ERR_MISSING_FIELD ∧
      ck_getfield_int one_int_heap (eval_ok 2) 3 = eval_err Err.ERR_MISSING_FIELD ∧
      eval_err Err.ERR_MISSING_FIELD ≠ eval_err Err.ERR_INVALID ∧
      (∀ o' : Obj, heap_get_field o' 3 = none)) ∧
    ck_getfield one_int_heap (eval_ok 2) (-1) = eval_err Err.ERR_MISSING_FIELD :=
  ⟨field_out_of_range one_int_heap 2
      { has_field := fun i => if i = 0 then 1 else 0, value := fun i => if i = 0 then 7 else 0 }
      3 ⟨by decide, rfl⟩ (Or.inr (by decide)),
    (field_out_of_range one_int_heap 2
      { has_field := fun i => if i = 0 then 1 else 0, value := fun i => if i = 0 then 7 else 0 }
      (-1) ⟨by decide, rfl⟩ (Or.inl (by decide))).1⟩

/-! ### Trial generator -/

theorem xor_pos_of_ne (x y : Nat) (hx : x < 4294967296) (hy : y < 4294967296) (hne : x ≠ y) :
    0 < x ^^^ y ∧ x ^^^ y < 4294967296 := by
  refine ⟨Nat.pos_of_ne_zero fun h => hne (Nat.xor_eq_zero.mp h), ?_⟩
  have h1 : x < 2 ^ 32 := by norm_num; exact hx
  have h2 : y < 2 ^ 32 := by norm_num; exact hy
  have := Nat.xor_lt_two_pow h1 h2
  norm_num at this
  exact this

theorem rng_next_pos (s : Nat) (hs : 0 < s) (hlt : s < 4294967296) :
    0 < rng_next s ∧ rng_next s < 4294967296 := by
  unfold rng_next
  simp only []
  have e13 : ∀ x : Nat, x <<< 13 = x * 8192 := fun x => by rw [Nat.shiftLeft_eq]
  have e5 : ∀ x : Nat, x <<< 5 = x * 32 := fun x => by rw [Nat.shiftLeft_eq]
  have e17 : ∀ x : Nat, x >>> 17 = x / 131072 := fun x => by
    rw [Nat.shiftRight_eq_div_pow]
  rw [e13, e17, e5]
  obtain ⟨a1, a2⟩ := xor_pos_of_ne s (s * 8192 % 4294967296) hlt (Nat.mod_lt _ (by norm_num))
    (by omega)
  obtain ⟨b1, b2⟩ := xor_pos_of_ne _ ((s ^^^ s * 8192 % 4294967296) / 131072) a2 (by omega)
    (by omega)
  exact xor_pos_of_ne _ _ b2 (Nat.mod_lt _ (by norm_num)) (by omega)

theorem rng_seed_pos (seed : Nat) (hseed : seed < 4294967296) :
    0 < rng_seed seed ∧ rng_seed seed < 4294967296 := by
  unfold rng_seed
  split_ifs <;> omega

theorem rng_iterate_pos (s : Nat) (hs : 0 < s) (hlt : s < 4294967296) :
    ∀ n : Nat, 0 < rng_next^[n] s ∧ rng_next^[n] s < 4294967296 := by
  intro n
  induction n with
  | zero => exact ⟨hs, hlt⟩
  | succ n ih =>
    rw [Function.iterate_succ_apply']
    exact rng_next_pos _ ih.1 ih.2

/-- C38: rng_seed leaves a nonzero state for every seed (seed 0 becomes 1, any other seed is
kept), rng_next maps every nonzero 32-bit state to a nonzero 32-bit state, and so after seeding
every state and every word returned by rng_next, however many calls are made, is nonzero. -/
theorem rng_never_zero (seed s : Nat) (hseed : seed < 4294967296) (hs : 0 < s)
    (hlt : s < 4294967296) :
    (rng_seed seed ≠ 0 ∧ rng_seed seed < 4294967296 ∧ rng_seed 0 = 1 ∧
      (seed ≠ 0 → rng_seed seed = seed)) ∧
    (rng_next s ≠ 0 ∧ rng_next s < 4294967296) ∧
    (∀ n : Nat, rng_next^[n] (rng_seed seed) ≠ 0 ∧ rng_next^[n] (rng_seed seed) < 4294967296) := by
  obtain ⟨a1, a2⟩ := rng_seed_pos seed hseed
  obtain ⟨b1, b2⟩ := rng_next_pos s hs hlt
  refine ⟨⟨by omega, a2, rfl, fun h => by simp [rng_seed, h]⟩, ⟨by omega, b2⟩, fun n => ?_⟩
  obtain ⟨c1, c2⟩ := rng_iterate_pos (rng_seed seed) a1 a2 n
  exact ⟨by omega, c2⟩

/-- Witness of C38: seed 0 and state 1, whose successor is 270369. -/
theorem rng_never_zero_witness :
    rng_next 1 = 270369 ∧ rng_next (rng_seed 1234) = 332584831 ∧
    ((rng_seed 0 ≠ 0 ∧ rng_seed 0 < 4294967296 ∧ rng_seed 0 = 1 ∧
        ((0 : Nat) ≠ 0 → rng_seed 0 = 0)) ∧
      (rng_next 1 ≠ 0 ∧ rng_next 1 < 4294967296) ∧
      (∀ n : Nat, rng_next^[n] (rng_seed 0) ≠ 0 ∧ rng_next^[n] (rng_seed 0) < 4294967296)) :=
  ⟨by decide, by decide, rng_never_zero 0 1 (by decide) (by decide) (by decide)⟩

theorem rng_range_spec (state : Nat) (lo hi : Int) (h1 : lo ≤ hi) (h2 : hi - lo < 2147483647) :
    ∃ r, rng_range state lo hi = some (r, rng_next state) ∧ lo ≤ r ∧ r ≤ hi := by
  unfold rng_range wrap32
  simp only []
  have hspan : ((hi - lo + 1) % 4294967296).toNat ≠ 0 := by omega
  rw [if_neg hspan]
  have hu : (((hi - lo + 1) % 4294967296).toNat : Int) = hi - lo + 1 := by omega
  have hlt : rng_next state % ((hi - lo + 1) % 4294967296).toNat <
      ((hi - lo + 1) % 4294967296).toNat := Nat.mod_lt _ (Nat.pos_of_ne_zero hspan)
  generalize rng_next state % ((hi - lo + 1) % 4294967296).toNat = m at hlt
  generalize ((hi - lo + 1) % 4294967296).toNat = u at hu hlt
  refine ⟨_, rfl, ?_, ?_⟩ <;> omega

theorem val_ptr_valid (n r : Int) (h1 : 1 ≤ r) (h2 : r ≤ n) (hn : n ≤ 1073741823) :
    null_or_valid_ptr n (VAL_PTR r) := by
  right
  have e : VAL_PTR r = r * 2 := by unfold VAL_PTR wrap32; omega
  rw [e]
  refine ⟨?_, ?_, ?_⟩
  · simp only [VAL_IS_PTR, Bool.and_eq_true, bne_iff_ne, ne_eq, beq_iff_eq]
    omega
  · unfold VAL_PTR_ADDR; omega
  · unfold VAL_PTR_ADDR; omega

theorem env_random_word_spec (n : Int) (state : Nat) (use : Int) (h1 : 1 ≤ n)
    (hn : n ≤ 1073741823) :
    ∃ w s', env_random_word n state use = some (w, s') ∧ null_or_valid_ptr n w ∧
      (use = 0 → w = VAL_NULL) := by
  unfold env_random_word
  by_cases hu : use ≠ 0
  · rw [if_pos hu]
    simp only []
    by_cases hc : (rng_chance state 10).1 = true
    · rw [if_pos hc]
      exact ⟨_, _, rfl, Or.inl rfl, fun h => absurd h hu⟩
    · rw [if_neg hc]
      obtain ⟨r, hr, r1, r2⟩ := rng_range_spec (rng_chance state 10).2 1 n h1 (by omega)
      rw [hr]
      exact ⟨_, _, rfl, val_ptr_valid n r r1 r2 hn, fun h => absurd h hu⟩
  · rw [if_neg hu]
    exact ⟨_, _, rfl, Or.inl rfl, fun _ => rfl⟩

theorem randomize_field_spec (n : Int) (obj : Obj) (f : Fin MAX_FIELDS) (state : Nat)
    (h1 : 1 ≤ n) (hn : n ≤ 1073741823) :
    ∃ w s', randomize_field n obj f state = some ((obj.set_present f).set_value f w, s') ∧
      valid_trial_word n w := by
  unfold randomize_field
  simp only []
  generalize (if (f.val : Int) = FIELD_DEREF then (70 : Int) else 50) = pct
  split_ifs with hc hnull
  · exact ⟨_, _, rfl, Or.inl (Or.inl rfl)⟩
  · obtain ⟨r, hr, r1, r2⟩ := rng_range_spec (rng_chance (rng_chance state pct).2 10).2
      1 n h1 (by omega)
    rw [hr]
    exact ⟨_, _, rfl, Or.inl (val_ptr_valid n r r1 r2 hn)⟩
  · obtain ⟨r, hr, r1, r2⟩ := rng_range_spec (rng_chance state pct).2 0 9 (by decide)
      (by decide)
    rw [hr]
    exact ⟨_, _, rfl, Or.inr ⟨r, r1, r2, rfl⟩⟩

/-- A slot is present and holds a word a trial may hold. -/
theorem randomize_obj_spec (n : Int) (h1 : 1 ≤ n) (hn : n ≤ 1073741823) :
    ∀ (fields : List (Fin MAX_FIELDS)) (obj : Obj) (state : Nat),
      ∃ obj' s', randomize_obj n obj fields state = some (obj', s') ∧
        (∀ g, obj.has_field g = 1 ∧ valid_trial_word n (obj.value g) →
          obj'.has_field g = 1 ∧ valid_trial_word n (obj'.value g)) ∧
        (∀ g ∈ fields, obj'.has_field g = 1 ∧ valid_trial_word n (obj'.value g)) := by
  intro fields
  induction fields with
  | nil =>
    intro obj state
    exact ⟨obj, state, rfl, fun g h => h, fun g hg => by simp at hg⟩
  | cons f fs ih =>
    intro obj state
    obtain ⟨w, s1, hf, hw⟩ := randomize_field_spec n obj f state h1 hn
    obtain ⟨obj', s', hr, k1, k2⟩ := ih ((obj.set_present f).set_value f w) s1
    have hkeep : ∀ g, (g = f ∨ (obj.has_field g = 1 ∧ valid_trial_word n (obj.value g))) →
        ((obj.set_present f).set_value f w).has_field g = 1 ∧
        valid_trial_word n (((obj.set_present f).set_value f w).value g) := by
      intro g hg
      by_cases hgf : g = f
      · subst hgf
        simp [Obj.set_present, Obj.set_value, hw]
      · rcases hg with hg | hg
        · exact absurd hg hgf
        · simpa [Obj.set_present, Obj.set_value, hgf] using hg
    refine ⟨obj', s', ?_, fun g hg => k1 g (hkeep g (Or.inr hg)), fun g hg => ?_⟩
    · rw [randomize_obj, hf]
      exact hr
    · rcases List.mem_cons.mp hg with rfl | hg'
      · exact k1 g (hkeep g (Or.inl rfl))
      · exact k2 g hg'

theorem randomize_objs_spec (n : Int) (h1 : 1 ≤ n) (hn : n ≤ 1073741823)
    (fields : List (Fin MAX_FIELDS)) :
    ∀ (objs : List Obj) (state : Nat),
      ∃ objs' s', randomize_objs n fields objs state = some (objs', s') ∧
        objs'.length = objs.length ∧
        ∀ o ∈ objs', ∀ g ∈ fields, o.has_field g = 1 ∧ valid_trial_word n (o.value g) := by
  intro objs
  induction objs with
  | nil => intro state; exact ⟨[], state, rfl, rfl, fun o ho => by simp at ho⟩
  | cons o os ih =>
    intro state
    obtain ⟨o', s1, ho, _, k2⟩ := randomize_obj_spec n h1 hn fields o state
    obtain ⟨os', s', hos, hlen, hall⟩ := ih s1
    refine ⟨o' :: os', s', ?_, by simp [hlen], fun x hx => ?_⟩
    · rw [randomize_objs, ho, Option.some_bind, hos]
      rfl
    · rcases List.mem_cons.mp hx with rfl | hx'
      · exact k2
      · exact hall x hx'

/-- C37 (as amended): for every heap with 1 <= num_objs <= 2^30 - 1, every list of field
indices and every generator state, heap_randomize returns, keeps the number of objects, and
leaves each listed field of each object present and holding Null, Int(k) with 0 <= k <= 9, or a
pointer with address in 1..num_objs; env_randomize returns with p and q each Null or a pointer
with address in 1..num_objs, and Null when the use flag is 0. -/
theorem trials_valid (heap : Heap) (fields : List (Fin MAX_FIELDS)) (state : Nat)
    (use_p use_q : Int) (h1 : 1 ≤ heap.num_objs) (hn : heap.num_objs ≤ 1073741823) :
    (∃ heap' state', heap_randomize heap fields state = some (heap', state') ∧
      heap'.num_objs = heap.num_objs ∧
      ∀ o ∈ heap'.objs, ∀ f ∈ fields,
        o.has_field f = 1 ∧ valid_trial_word heap.num_objs (o.value f)) ∧
    (∃ env state', env_randomize heap.num_objs state use_p use_q = some (env, state') ∧
      null_or_valid_ptr heap.num_objs env.p ∧ null_or_valid_ptr heap.num_objs env.q ∧
      (use_p = 0 → env.p = VAL_NULL) ∧ (use_q = 0 → env.q = VAL_NULL)) := by
  constructor
  · obtain ⟨objs', s', hr, hlen, hall⟩ :=
      randomize_objs_spec heap.num_objs h1 hn fields heap.objs state
    refine ⟨{ objs := objs' }, s', ?_, ?_, hall⟩
    · unfold heap_randomize
      rw [hr]
      rfl
    · simp [Heap.num_objs, hlen]
  · obtain ⟨wp, sp, hp, vp, zp⟩ := env_random_word_spec heap.num_objs state use_p h1 hn
    obtain ⟨wq, sq, hq, vq, zq⟩ := env_random_word_spec heap.num_objs sp use_q h1 hn
    refine ⟨{ p := wp, q := wq }, sq, ?_, vp, vq, zp, zq⟩
    unfold env_randomize
    rw [hp, Option.some_bind, hq]
    rfl

/-- Witness of C37 (as amended): the first trial of the driver for field_chain, a heap of six
objects randomized on the fields F, G and DEREF from seed 1234. -/
theorem trials_valid_witness :
    ((heap_create 6).bind fun h => (heap_randomize h [1, 2, 0] (rng_seed 1234)).map
      fun r => (r.1.objs.map fun o => (o.value 0, o.value 1, o.value 2), r.2)) =
      some ([(2, 2, 13), (10, 13, 10), (10, 8, 2), (7, 3, 3), (5, 9, 4), (19, 12, 10)],
        1930140079) ∧
    ((∃ heap' state', heap_randomize (heap_of_words [0, 0, 0, 0, 0, 0]) [1, 2, 0]
        (rng_seed 1234) = some (heap', state') ∧
      heap'.num_objs = (heap_of_words [0, 0, 0, 0, 0, 0]).num_objs ∧
      ∀ o ∈ heap'.objs, ∀ f ∈ ([1, 2, 0] : List (Fin MAX_FIELDS)),
        o.has_field f = 1 ∧
          valid_trial_word (heap_of_words [0, 0, 0, 0, 0, 0]).num_objs (o.value f)) ∧
    (∃ env state', env_randomize (heap_of_words [0, 0, 0, 0, 0, 0]).num_objs (rng_seed 1234)
        1 0 = some (env, state') ∧
      null_or_valid_ptr (heap_of_words [0, 0, 0, 0, 0, 0]).num_objs env.p ∧
      null_or_valid_ptr (heap_of_words [0, 0, 0, 0, 0, 0]).num_objs env.q ∧
      ((1 : Int) = 0 → env.p = VAL_NULL) ∧ ((0 : Int) = 0 → env.q = VAL_NULL))) :=
  ⟨by decide,
    trials_valid (heap_of_words [0, 0, 0, 0, 0, 0]) [1, 2, 0] (rng_seed 1234) 1 0
      (by decide) (by decide)⟩

theorem heap_create_num_objs (n : Nat) :
    (heap_create (n : Int)).map Heap.num_objs = some (n : Int) := by
  unfold heap_create
  rw [if_neg (by omega)]
  simp [Heap.num_objs]

/-- C37 (counterexample): with num_objs = 2^30, a count heap_create accepts, env_randomize from
state 238513600 draws the address 2^30, whose pointer word overflows to -2^31: p is neither Null
nor a pointer with address in 1..num_objs. -/
theorem huge_heap_counterexample :
    (heap_create 1073741824).map Heap.num_objs = some 1073741824 ∧
    env_randomize 1073741824 238513600 1 0 =
      some ({ p := -2147483648, q := 0 }, 1073741823) ∧
    ¬ null_or_valid_ptr 1073741824 (-2147483648) :=
  ⟨heap_create_num_objs 1073741824, by decide, by decide⟩

/-! ### Graph documents -/

theorem skip_ws_of_not_space (c : Char) (cs : List Char) (h : isspace c = false) :
    skip_ws (c :: cs) = c :: cs := by
  simp [skip_ws, h]

theorem next_token_space (c : Char) (p : List Char) (h : isspace c = true) :
    next_token (c :: p) = next_token p := by
  unfold next_token
  simp [skip_ws, h]

theorem digit_char_spec (d : Nat) (h : d < 10) :
    isdigit (Char.ofNat (48 + d)) = true ∧ (Char.ofNat (48 + d)).toNat - 48 = d ∧
    isspace (Char.ofNat (48 + d)) = false ∧ Char.ofNat (48 + d) ≠ Char.ofNat 0 := by
  interval_cases d <;> decide

theorem strtol_digits_print (rest : List Char) :
    ∀ (fuel n : Nat) (acc : List Char) (a : Nat), n < fuel →
      ∃ k, strtol_digits (print_nat_digits fuel n acc ++ rest) a =
        strtol_digits (acc ++ rest) (a * 10 ^ k + n) := by
  intro fuel
  induction fuel with
  | zero => intro n acc a h; omega
  | succ fuel ih =>
    intro n acc a h
    have hd := digit_char_spec (n % 10) (Nat.mod_lt _ (by norm_num))
    unfold print_nat_digits
    by_cases h0 : n / 10 = 0
    · rw [if_pos h0]
      refine ⟨1, ?_⟩
      rw [List.cons_append, strtol_digits, if_pos hd.1, hd.2.1]
      congr 1
      omega
    · rw [if_neg h0]
      obtain ⟨k, hk⟩ := ih (n / 10) (Char.ofNat (48 + n % 10) :: acc) a (by omega)
      refine ⟨k + 1, ?_⟩
      rw [hk, List.cons_append, strtol_digits, if_pos hd.1, hd.2.1]
      congr 1
      rw [pow_succ]
      have := Nat.div_add_mod n 10
      nlinarith

theorem strtol_digits_stop (rest : List Char) (hrest : no_digit_head rest) (a : Nat) :
    strtol_digits rest a = (a, rest) := by
  cases rest with
  | nil => rfl
  | cons c cs =>
    have : isdigit c = false := hrest c (by simp)
    simp [strtol_digits, this]

theorem strtol_digits_print_nat (n : Nat) (rest : List Char) (hrest : no_digit_head rest) :
    strtol_digits (print_nat_digits (n + 1) n [] ++ rest) 0 = (n, rest) := by
  obtain ⟨k, hk⟩ := strtol_digits_print rest (n + 1) n [] 0 (by omega)
  rw [hk, List.nil_append, strtol_digits_stop rest hrest]
  simp

theorem print_nat_digits_head (fuel n : Nat) (acc : List Char) (h : n < fuel) :
    ∃ c cs, print_nat_digits fuel n acc = c :: cs ∧ isdigit c = true := by
  induction fuel generalizing n acc with
  | zero => omega
  | succ fuel ih =>
    have hd := digit_char_spec (n % 10) (Nat.mod_lt _ (by norm_num))
    unfold print_nat_digits
    by_cases h0 : n / 10 = 0
    · rw [if_pos h0]; exact ⟨_, _, rfl, hd.1⟩
    · rw [if_neg h0]; exact ih (n / 10) _ (by omega)

theorem digit_not_special (c : Char) (h : c = '-' ∨ isdigit c = true) :
    isspace c = false ∧ c ≠ '\x7b' ∧ c ≠ '\x7d' ∧ c ≠ '[' ∧ c ≠ ']' ∧ c ≠ ':' ∧ c ≠ ',' ∧
    c ≠ '\x22' ∧ c ≠ '+' ∧ c ≠ Char.ofNat 0 ∧ (isdigit c = true → c ≠ '-') := by
  rcases h with h | h
  · subst h; decide
  · have h' : 48 ≤ c.toNat ∧ c.toNat ≤ 57 := by
      simpa [isdigit] using h
    refine ⟨?_, ?_, ?_, ?_, ?_, ?_, ?_, ?_, ?_, ?_, ?_⟩
    · cases hs : isspace c with
      | false => rfl
      | true =>
        simp only [isspace, Bool.or_eq_true, decide_eq_true_eq] at hs
        rcases hs with ((((hs | hs) | hs) | hs) | hs) | hs <;>
          (rw [hs] at h'; exact absurd h' (by decide))
    case refine_11 => intro _ hc; rw [hc] at h'; exact absurd h' (by decide)
    all_goals (intro hc; rw [hc] at h'; exact absurd h' (by decide))

theorem print_int_head (i : Int) :
    ∃ c cs, print_int i = c :: cs ∧ (c = '-' ∨ isdigit c = true) := by
  unfold print_int
  by_cases h : i < 0
  · rw [if_pos h]; exact ⟨_, _, rfl, Or.inl rfl⟩
  · rw [if_neg h]
    obtain ⟨c, cs, h1, h2⟩ := print_nat_digits_head (i.natAbs + 1) i.natAbs [] (by omega)
    exact ⟨c, cs, h1, Or.inr h2⟩

theorem strtol_print_int (i : Int) (rest : List Char) (hrest : no_digit_head rest)
    (h1 : -9223372036854775808 ≤ i) (h2 : i ≤ 9223372036854775807) :
    strtol (print_int i ++ rest) = (i, rest) := by
  obtain ⟨c, cs, hc, hd⟩ := print_nat_digits_head (i.natAbs + 1) i.natAbs [] (by omega)
  have hns := digit_not_special c (Or.inr hd)
  have hdig := strtol_digits_print_nat i.natAbs rest hrest
  rw [hc] at hdig
  simp only [List.cons_append] at hdig
  unfold strtol print_int
  by_cases h : i < 0
  · rw [if_pos h, hc]
    have hs : skip_ws ('-' :: c :: (cs ++ rest)) = '-' :: c :: (cs ++ rest) :=
      skip_ws_of_not_space _ _ (by decide)
    simp only [List.cons_append, hs, List.head?_cons, List.tail_cons, true_or, if_true,
      Option.map_some', hd, hdig]
    congr 1
    omega
  · rw [if_neg h, hc]
    have hs : skip_ws (c :: (cs ++ rest)) = c :: (cs ++ rest) :=
      skip_ws_of_not_space _ _ hns.1
    have hm : c ≠ '-' := hns.2.2.2.2.2.2.2.2.2.2 hd
    have hp : c ≠ '+' := hns.2.2.2.2.2.2.2.2.1
    simp only [List.cons_append, hs, List.head?_cons, Option.some.injEq, hm, hp, or_self,
      if_false, Option.map_some', hd, if_true, hdig]
    congr 1
    omega

theorem next_token_cons (c : Char) (cs : List Char) (h : isspace c = false) :
    next_token (c :: cs) =
      if c = '\x7b' then ({ kind := .TK_LBRACE, start := c :: cs, len := 1, num := 0 }, cs)
      else if c = '\x7d' then ({ kind := .TK_RBRACE, start := c :: cs, len := 1, num := 0 }, cs)
      else if c = '[' then ({ kind := .TK_LBRACKET, start := c :: cs, len := 1, num := 0 }, cs)
      else if c = ']' then ({ kind := .TK_RBRACKET, start := c :: cs, len := 1, num := 0 }, cs)
      else if c = ':' then ({ kind := .TK_COLON, start := c :: cs, len := 1, num := 0 }, cs)
      else if c = ',' then ({ kind := .TK_COMMA, start := c :: cs, len := 1, num := 0 }, cs)
      else if c = '\x22' then
        ({ kind := .TK_STRING, start := cs,
           len := (cs.takeWhile fun d => d ≠ '\x22').length, num := 0 },
          (cs.dropWhile fun d => d ≠ '\x22').tail)
      else if c = '-' ∨ isdigit c = true then
        ({ kind := .TK_NUMBER, start := c :: cs,
           len := (c :: cs).length - (strtol (c :: cs)).2.length,
           num := (strtol (c :: cs)).1 }, (strtol (c :: cs)).2)
      else if strncmp_eq (c :: cs) ['t', 'r', 'u', 'e'] then
        ({ kind := .TK_TRUE, start := c :: cs, len := 4, num := 0 }, (c :: cs).drop 4)
      else if strncmp_eq (c :: cs) ['f', 'a', 'l', 's', 'e'] then
        ({ kind := .TK_FALSE, start := c :: cs, len := 5, num := 0 }, (c :: cs).drop 5)
      else if strncmp_eq (c :: cs) ['n', 'u', 'l', 'l'] then
        ({ kind := .TK_NULL, start := c :: cs, len := 4, num := 0 }, (c :: cs).drop 4)
      else ({ kind := .TK_EOF, start := c :: cs, len := 1, num := 0 }, c :: cs) := by
  unfold next_token
  rw [skip_ws_of_not_space c cs h]

theorem next_token_lbrace (p : List Char) :
    next_token ('\x7b' :: p) =
      ({ kind := .TK_LBRACE, start := '\x7b' :: p, len := 1, num := 0 }, p) := by
  rw [next_token_cons _ _ (by decide)]; rfl

theorem next_token_rbrace (p : List Char) :
    next_token ('\x7d' :: p) =
      ({ kind := .TK_RBRACE, start := '\x7d' :: p, len := 1, num := 0 }, p) := by
  rw [next_token_cons _ _ (by decide)]; rfl

theorem next_token_lbracket (p : List Char) :
    next_token ('[' :: p) =
      ({ kind := .TK_LBRACKET, start := '[' :: p, len := 1, num := 0 }, p) := by
  rw [next_token_cons _ _ (by decide)]; rfl

theorem next_token_rbracket (p : List Char) :
    next_token (']' :: p) =
      ({ kind := .TK_RBRACKET, start := ']' :: p, len := 1, num := 0 }, p) := by
  rw [next_token_cons _ _ (by decide)]; rfl

theorem next_token_colon (p : List Char) :
    next_token (':' :: p) =
      ({ kind := .TK_COLON, start := ':' :: p, len := 1, num := 0 }, p) := by
  rw [next_token_cons _ _ (by decide)]; rfl

theorem next_token_comma (p : List Char) :
    next_token (',' :: p) =
      ({ kind := .TK_COMMA, start := ',' :: p, len := 1, num := 0 }, p) := by
  rw [next_token_cons _ _ (by decide)]; rfl

theorem takeWhile_quote (k rest : List Char) (hk : ∀ c ∈ k, c ≠ '\x22') :
    (k ++ '\x22' :: rest).takeWhile (fun d => d ≠ '\x22') = k ∧
    (k ++ '\x22' :: rest).dropWhile (fun d => d ≠ '\x22') = '\x22' :: rest := by
  induction k with
  | nil => simp
  | cons c cs ih =>
    have hc : c ≠ '\x22' := hk c (List.mem_cons_self c cs)
    obtain ⟨i1, i2⟩ := ih (fun d hd => hk d (List.mem_cons_of_mem c hd))
    constructor
    · rw [List.cons_append, List.takeWhile_cons, if_pos (by simpa using hc), i1]
    · rw [List.cons_append, List.dropWhile_cons, if_pos (by simpa using hc), i2]

theorem next_token_string (k rest : List Char) (hk : ∀ c ∈ k, c ≠ '\x22') :
    next_token ('\x22' :: (k ++ '\x22' :: rest)) =
      ({ kind := .TK_STRING, start := k ++ '\x22' :: rest, len := k.length, num := 0 },
        rest) := by
  rw [next_token_cons _ _ (by decide)]
  obtain ⟨h1, h2⟩ := takeWhile_quote k rest hk
  simp only [h1, h2, List.tail_cons]
  rfl

theorem next_token_number (i : Int) (rest : List Char) (hrest : no_digit_head rest)
    (h1 : -9223372036854775808 ≤ i) (h2 : i ≤ 9223372036854775807) :
    next_token (print_int i ++ rest) =
      ({ kind := .TK_NUMBER, start := print_int i ++ rest,
         len := (print_int i ++ rest).length - rest.length, num := i }, rest) := by
  obtain ⟨c, cs, hc, hd⟩ := print_int_head i
  have hns := digit_not_special c hd
  have hst := strtol_print_int i rest hrest h1 h2
  rw [hc] at hst ⊢
  rw [List.cons_append] at hst ⊢
  rw [next_token_cons _ _ hns.1]
  simp only [hns.2.1, hns.2.2.1, hns.2.2.2.1, hns.2.2.2.2.1, hns.2.2.2.2.2.1,
    hns.2.2.2.2.2.2.1, hns.2.2.2.2.2.2.2.1, if_false, hd, if_true, hst]

theorem token_equals_string (k r0 lit : List Char) (num : Int) :
    token_equals { kind := .TK_STRING, start := k ++ '\x22' :: r0, len := k.length, num := num }
      lit = decide (k = lit) := by
  unfold token_equals strncmp_eq
  by_cases hl : k.length = lit.length
  · have ht : (k ++ '\x22' :: r0).take lit.length = k := by
      rw [← hl, List.take_left']
      rfl
    simp only [hl, ht, decide_True, Bool.true_and]
    by_cases hkl : k = lit
    · simp [hkl]
    · simp [hkl]
  · have hne : k ≠ lit := fun h => hl (by rw [h])
    simp [hl, hne]

theorem parse_skip_value_number (f : Nat) (v : Int) (T : List Char) (hT : no_digit_head T)
    (h1 : -9223372036854775808 ≤ v) (h2 : v ≤ 9223372036854775807) :
    parse_skip_value (f + 1) (print_int v ++ T) = some T := by
  rw [parse_skip_value]
  simp only [next_token_number v T hT h1 h2, token_is]
  rfl

theorem parse_skip_value_string (f : Nat) (k T : List Char) (hk : ∀ c ∈ k, c ≠ '\x22') :
    parse_skip_value (f + 1) ('\x22' :: (k ++ '\x22' :: T)) = some T := by
  rw [parse_skip_value, next_token_string k T hk]
  simp only [token_is]
  rfl

theorem parse_node_key_number (f : Nat) (k r0 : List Char) (num v : Int) (T : List Char)
    (node : Node) (hT : no_digit_head T)
    (h1 : -9223372036854775808 ≤ v) (h2 : v ≤ 9223372036854775807) :
    parse_node_key (f + 1)
      { kind := .TK_STRING, start := k ++ '\x22' :: r0, len := k.length, num := num }
      (print_int v ++ T) node = some (T, node_set k v node) := by
  have hn := next_token_number v T hT h1 h2
  have hs := parse_skip_value_number f v T hT h1 h2
  unfold parse_node_key node_set
  rw [hn, hs]
  simp only [token_equals_string, decide_eq_true_eq]
  by_cases k0 : k = ['i', 'd']
  · rw [if_pos k0, if_pos k0]; rfl
  rw [if_neg k0, if_neg k0]
  by_cases k1 : k = ['k', 'i', 'n', 'd']
  · rw [if_pos k1, if_pos k1]; rfl
  rw [if_neg k1, if_neg k1]
  by_cases k2 : k = ['n', 'a', 'm', 'e']
  · rw [if_pos k2, if_pos k2]; rfl
  rw [if_neg k2, if_neg k2]
  by_cases k3 : k = ['x']
  · rw [if_pos k3, if_pos k3]; rfl
  rw [if_neg k3, if_neg k3]
  by_cases k4 : k = ['y']
  · rw [if_pos k4, if_pos k4]; rfl
  rw [if_neg k4, if_neg k4]
  by_cases k5 : k = ['f', 'i', 'e', 'l', 'd']
  · rw [if_pos k5, if_pos k5]; rfl
  rw [if_neg k5, if_neg k5]
  by_cases k6 : k = ['v', 'a', 'l', 'u', 'e']
  · rw [if_pos k6, if_pos k6]; rfl
  rw [if_neg k6, if_neg k6]
  by_cases k7 : k = ['c', 'o', 'n', 'd']
  · rw [if_pos k7, if_pos k7]; rfl
  rw [if_neg k7, if_neg k7]
  by_cases k8 : k = ['t', 'h', 'e', 'n']
  · rw [if_pos k8, if_pos k8]; rfl
  rw [if_neg k8, if_neg k8]
  by_cases k9 : k = ['e', 'l', 's', 'e']
  · rw [if_pos k9, if_pos k9]; rfl
  rw [if_neg k9, if_neg k9]
  rfl

theorem parse_node_key_kind (f : Nat) (r0 : List Char) (num : Int) (K T : List Char)
    (node : Node) (hK : ∀ c ∈ K, c ≠ '\x22') :
    parse_node_key f
      { kind := .TK_STRING, start := ['k', 'i', 'n', 'd'] ++ '\x22' :: r0,
        len := ['k', 'i', 'n', 'd'].length, num := num }
      ('\x22' :: (K ++ '\x22' :: T)) node =
      some (T, { node with kind := String.mk (K.take (min K.length 23)) }) := by
  have e := token_equals_string ['k', 'i', 'n', 'd'] r0
  unfold parse_node_key
  rw [next_token_string K T hK]
  simp only [e, copy_token]
  have ht : List.take (min K.length (24 - 1)) (K ++ '\x22' :: T) =
      List.take (min K.length 23) K := by
    rw [List.take_append_of_le_length (by omega)]
  rw [ht]
  rfl

theorem parse_node_key_name (f : Nat) (r0 : List Char) (num : Int) (K T : List Char)
    (node : Node) (hK : ∀ c ∈ K, c ≠ '\x22') :
    parse_node_key f
      { kind := .TK_STRING, start := ['n', 'a', 'm', 'e'] ++ '\x22' :: r0,
        len := ['n', 'a', 'm', 'e'].length, num := num }
      ('\x22' :: (K ++ '\x22' :: T)) node =
      some (T, { node with name := String.mk (K.take (min K.length 31)) }) := by
  have e := token_equals_string ['n', 'a', 'm', 'e'] r0
  unfold parse_node_key
  rw [next_token_string K T hK]
  simp only [e, copy_token]
  have ht : List.take (min K.length (32 - 1)) (K ++ '\x22' :: T) =
      List.take (min K.length 31) K := by
    rw [List.take_append_of_le_length (by omega)]
  rw [ht]
  rfl

theorem parse_node_keys_key (f : Nat) (k V : List Char) (node : Node)
    (hk : ∀ c ∈ k, c ≠ '\x22') :
    parse_node_keys (f + 1) ('\x22' :: (k ++ '\x22' :: ':' :: V)) node =
      (parse_node_key f
        { kind := .TK_STRING, start := k ++ '\x22' :: ':' :: V, len := k.length, num := 0 }
        V node).bind fun r => node_keys_tail f r.1 r.2 := by
  rw [parse_node_keys, next_token_string k (':' :: V) hk]
  simp only [token_is, parse_expect, next_token_colon]
  rfl

theorem node_keys_tail_rbrace (f : Nat) (rest : List Char) (node : Node) :
    node_keys_tail f ('\x7d' :: rest) node = some (rest, node) := by
  unfold node_keys_tail
  simp only [next_token_rbrace, token_is]
  rfl

theorem node_keys_tail_comma (f : Nat) (X : List Char) (node : Node) :
    node_keys_tail f (',' :: X) node = parse_node_keys f X node := by
  unfold node_keys_tail
  simp only [next_token_comma, token_is]
  rfl

theorem write_attr_append (k : List Char) (v : Int) (T : List Char) :
    write_attr k v ++ T = ',' :: '\x22' :: (k ++ '\x22' :: ':' :: (print_int v ++ T)) := by
  simp [write_attr]

theorem no_digit_head_cons (c : Char) (cs : List Char) (h : isdigit c = false) :
    no_digit_head (c :: cs) := by
  intro d hd
  simp only [List.head?_cons, Option.mem_def, Option.some.injEq] at hd
  rw [← hd]; exact h

theorem no_digit_head_opt (b : Prop) [Decidable b] (k : List Char) (v : Int) (T : List Char)
    (hT : no_digit_head T) : no_digit_head ((if b then write_attr k v else []) ++ T) := by
  by_cases hb : b
  · rw [if_pos hb, write_attr_append]
    exact no_digit_head_cons _ _ (by decide)
  · rw [if_neg hb]; exact hT

theorem keys_end (rest : List Char) (node : Node) :
    KeysTo 0 ('\x7d' :: rest) node (rest, node) :=
  fun f _ => node_keys_tail_rbrace f rest node

theorem keys_attr (F : Nat) (k : List Char) (v : Int) (T : List Char) (node : Node)
    (R : List Char × Node) (hk : ∀ c ∈ k, c ≠ '\x22') (hT : no_digit_head T)
    (h1 : -9223372036854775808 ≤ v) (h2 : v ≤ 9223372036854775807)
    (h : KeysTo F T (node_set k v node) R) :
    KeysTo (F + 2) (write_attr k v ++ T) node R := by
  intro f hf
  obtain ⟨g, rfl⟩ : ∃ g, f = g + 2 := ⟨f - 2, by omega⟩
  rw [write_attr_append, node_keys_tail_comma, parse_node_keys_key _ _ _ _ hk,
    parse_node_key_number g k _ 0 v T node hT h1 h2, Option.some_bind]
  exact h (g + 1) (by omega)

theorem keys_opt (F : Nat) (b : Prop) [Decidable b] (k : List Char) (v : Int) (T : List Char)
    (node : Node) (R : List Char × Node) (hk : ∀ c ∈ k, c ≠ '\x22') (hT : no_digit_head T)
    (h1 : -9223372036854775808 ≤ v) (h2 : v ≤ 9223372036854775807)
    (h : KeysTo F T (if b then node_set k v node else node) R) :
    KeysTo (F + 2) ((if b then write_attr k v else []) ++ T) node R := by
  by_cases hb : b
  · rw [if_pos hb] at h ⊢
    exact keys_attr F k v T node R hk hT h1 h2 h
  · rw [if_neg hb] at h ⊢
    intro f hf
    exact h f (by omega)

theorem int32_long (v : Int) (h : is_int32 v) :
    -9223372036854775808 ≤ v ∧ v ≤ 9223372036854775807 := by
  unfold is_int32 at h; omega

theorem long_to_int_id (v : Int) (h : is_int32 v) : long_to_int v = v := by
  unfold is_int32 at h
  unfold long_to_int wrap32
  omega

theorem opt_x (N : Node) (v : Int) (hv : is_int32 v) (h0 : N.x = 0) :
    (if v ≠ 0 then node_set ['x'] v N else N) = { N with x := v } := by
  by_cases h : v = 0
  · subst h; rw [if_neg (by simp)]; cases N; simp_all
  · rw [if_pos h]
    show { N with x := long_to_int v } = _
    rw [long_to_int_id v hv]

theorem opt_y (N : Node) (v : Int) (hv : is_int32 v) (h0 : N.y = 0) :
    (if v ≠ 0 then node_set ['y'] v N else N) = { N with y := v } := by
  by_cases h : v = 0
  · subst h; rw [if_neg (by simp)]; cases N; simp_all
  · rw [if_pos h]
    show { N with y := long_to_int v } = _
    rw [long_to_int_id v hv]

theorem opt_field (N : Node) (v : Int) (hv : is_int32 v) (h0 : N.field = 0) :
    (if v ≠ 0 then node_set ['f', 'i', 'e', 'l', 'd'] v N else N) = { N with field := v } := by
  by_cases h : v = 0
  · subst h; rw [if_neg (by simp)]; cases N; simp_all
  · rw [if_pos h]
    show { N with field := long_to_int v } = _
    rw [long_to_int_id v hv]

theorem opt_value (N : Node) (v : Int) (c : Prop) [Decidable c] (hv : is_int32 v)
    (h0 : N.value = 0) :
    (if v ≠ 0 ∨ c then node_set ['v', 'a', 'l', 'u', 'e'] v N else N) =
      { N with value := v } := by
  by_cases h : v ≠ 0 ∨ c
  · rw [if_pos h]
    show { N with value := long_to_int v } = _
    rw [long_to_int_id v hv]
  · rw [if_neg h]
    have hv0 : v = 0 := by
      by_contra hne
      exact h (Or.inl hne)
    subst hv0
    cases N; simp_all

theorem opt_cond (N : Node) (v : Int) (hv : is_int32 v) (h0 : N.cond = 0) :
    (if v ≠ 0 then node_set ['c', 'o', 'n', 'd'] v N else N) = { N with cond := v } := by
  by_cases h : v = 0
  · subst h; rw [if_neg (by simp)]; cases N; simp_all
  · rw [if_pos h]
    show { N with cond := long_to_int v } = _
    rw [long_to_int_id v hv]

theorem opt_then (N : Node) (v : Int) (hv : is_int32 v) (h0 : N.then_id = 0) :
    (if v ≠ 0 then node_set ['t', 'h', 'e', 'n'] v N else N) = { N with then_id := v } := by
  by_cases h : v = 0
  · subst h; rw [if_neg (by simp)]; cases N; simp_all
  · rw [if_pos h]
    show { N with then_id := long_to_int v } = _
    rw [long_to_int_id v hv]

theorem opt_else (N : Node) (v : Int) (hv : is_int32 v) (h0 : N.else_id = 0) :
    (if v ≠ 0 then node_set ['e', 'l', 's', 'e'] v N else N) = { N with else_id := v } := by
  by_cases h : v = 0
  · subst h; rw [if_neg (by simp)]; cases N; simp_all
  · rw [if_pos h]
    show { N with else_id := long_to_int v } = _
    rw [long_to_int_id v hv]

theorem write_node_append (n : Node) (rest : List Char) :
    write_node n ++ rest =
      ' ' :: ' ' :: ' ' :: ' ' :: '\x7b' :: '\x22' :: (['i', 'd'] ++ '\x22' :: ':' ::
        (print_int n.id ++ ',' :: '\x22' :: (['k', 'i', 'n', 'd'] ++ '\x22' :: ':' ::
          '\x22' :: (n.kind.toList ++ '\x22' ::
            ((if n.name ≠ "" then
                ',' :: '\x22' :: (['n', 'a', 'm', 'e'] ++ '\x22' :: ':' :: '\x22' ::
                  (n.name.toList ++ ['\x22']))
              else []) ++
            ((if n.x ≠ 0 then write_attr ['x'] n.x else []) ++
            ((if n.y ≠ 0 then write_attr ['y'] n.y else []) ++
            ((if n.field ≠ 0 then write_attr ['f', 'i', 'e', 'l', 'd'] n.field else []) ++
            ((if n.value ≠ 0 ∨ n.kind = "const_int" then
                write_attr ['v', 'a', 'l', 'u', 'e'] n.value else []) ++
            ((if n.cond ≠ 0 then write_attr ['c', 'o', 'n', 'd'] n.cond else []) ++
            ((if n.then_id ≠ 0 then write_attr ['t', 'h', 'e', 'n'] n.then_id else []) ++
            ((if n.else_id ≠ 0 then write_attr ['e', 'l', 's', 'e'] n.else_id else []) ++
            '\x7d' :: rest)))))))))))) := by
  have e1 : "    \x7b\"id\":".toList =
      [' ', ' ', ' ', ' ', '\x7b', '\x22', 'i', 'd', '\x22', ':'] := rfl
  have e2 : ",\"kind\":\"".toList = [',', '\x22', 'k', 'i', 'n', 'd', '\x22', ':', '\x22'] := rfl
  have e3 : ",\"name\":\"".toList = [',', '\x22', 'n', 'a', 'm', 'e', '\x22', ':', '\x22'] := rfl
  unfold write_node
  rw [e1, e2, e3]
  by_cases hn : n.name = ""
  · simp [hn]
  · simp [hn]

theorem string_mk_take (s : String) (m : Nat) (h : s.length ≤ m) :
    String.mk (s.toList.take (min s.toList.length m)) = s := by
  have hl : s.toList.length = s.length := rfl
  rw [List.take_of_length_le (by omega)]
  cases s; rfl

theorem keys_name (F : Nat) (s : String) (T : List Char) (node : Node) (R : List Char × Node)
    (hq : ∀ c ∈ s.toList, c ≠ '\x22') (hl : s.length ≤ 31)
    (h : KeysTo F T { node with name := s } R) :
    KeysTo (F + 2)
      (',' :: '\x22' :: (['n', 'a', 'm', 'e'] ++ '\x22' :: ':' :: '\x22' ::
        (s.toList ++ '\x22' :: T))) node R := by
  intro f hf
  obtain ⟨g, rfl⟩ : ∃ g, f = g + 2 := ⟨f - 2, by omega⟩
  rw [node_keys_tail_comma, parse_node_keys_key _ _ _ _ (by decide),
    parse_node_key_name _ _ _ s.toList T node hq, Option.some_bind, string_mk_take s 31 hl]
  exact h (g + 1) (by omega)

theorem keys_name_opt (F : Nat) (s : String) (T : List Char) (m : Node) (R : List Char × Node)
    (hq : ∀ c ∈ s.toList, c ≠ '\x22') (hl : s.length ≤ 31) (hm : m.name = "")
    (h : KeysTo F T { m with name := s } R) :
    KeysTo (F + 2)
      ((if s ≠ "" then
          ',' :: '\x22' :: (['n', 'a', 'm', 'e'] ++ '\x22' :: ':' :: '\x22' ::
            (s.toList ++ ['\x22']))
        else []) ++ T) m R := by
  by_cases hn : s = ""
  · rw [if_neg (not_not.mpr hn), List.nil_append]
    have e : ({ m with name := s } : Node) = m := by
      cases m; simp_all
    rw [e] at h
    intro f hf
    exact h f (by omega)
  · rw [if_pos hn]
    have := keys_name F s T m R hq hl h
    simpa using this

theorem keys_kind (F : Nat) (s : String) (T : List Char) (node : Node) (R : List Char × Node)
    (hq : ∀ c ∈ s.toList, c ≠ '\x22') (hl : s.length ≤ 23)
    (h : KeysTo F T { node with kind := s } R) :
    KeysTo (F + 2)
      (',' :: '\x22' :: (['k', 'i', 'n', 'd'] ++ '\x22' :: ':' :: '\x22' ::
        (s.toList ++ '\x22' :: T))) node R := by
  intro f hf
  obtain ⟨g, rfl⟩ : ∃ g, f = g + 2 := ⟨f - 2, by omega⟩
  rw [node_keys_tail_comma, parse_node_keys_key _ _ _ _ (by decide),
    parse_node_key_kind _ _ _ s.toList T node hq, Option.some_bind, string_mk_take s 23 hl]
  exact h (g + 1) (by omega)

theorem node_keys_id (f : Nat) (v : Int) (T : List Char) (node : Node) (hv : is_int32 v) :
    parse_node_keys (f + 2)
      ('\x22' :: (['i', 'd'] ++ '\x22' :: ':' :: (print_int v ++ ',' :: T))) node =
      node_keys_tail (f + 1) (',' :: T) { node with id := v } := by
  rw [parse_node_keys_key _ _ _ _ (by decide),
    parse_node_key_number f ['i', 'd'] _ 0 v (',' :: T) node
      (no_digit_head_cons _ _ (by decide)) (int32_long _ hv).1 (int32_long _ hv).2,
    Option.some_bind]
  show node_keys_tail (f + 1) (',' :: T) { node with id := long_to_int v } = _
  rw [long_to_int_id v hv]

theorem parse_node_keys_write (n : Node) (rest : List Char)
    (hkq : ∀ c ∈ n.kind.toList, c ≠ '\x22') (hkl : n.kind.length ≤ 23)
    (hnq : ∀ c ∈ n.name.toList, c ≠ '\x22') (hnl : n.name.length ≤ 31)
    (hid : is_int32 n.id) (hx : is_int32 n.x) (hy : is_int32 n.y) (hf : is_int32 n.field)
    (hv : is_int32 n.value) (hc : is_int32 n.cond) (ht : is_int32 n.then_id)
    (he : is_int32 n.else_id) (f : Nat) (hfuel : 20 ≤ f) :
    ∃ body, write_node n ++ rest = ' ' :: ' ' :: ' ' :: ' ' :: '\x7b' :: body ∧
      parse_node_keys f body {} = some (rest, n) := by
  refine ⟨_, write_node_append n rest, ?_⟩
  have d8 : no_digit_head ('\x7d' :: rest) := no_digit_head_cons _ _ (by decide)
  have d7 := no_digit_head_opt (n.else_id ≠ 0) ['e', 'l', 's', 'e'] n.else_id _ d8
  have d6 := no_digit_head_opt (n.then_id ≠ 0) ['t', 'h', 'e', 'n'] n.then_id _ d7
  have d5 := no_digit_head_opt (n.cond ≠ 0) ['c', 'o', 'n', 'd'] n.cond _ d6
  have d4 := no_digit_head_opt (n.value ≠ 0 ∨ n.kind = "const_int") ['v', 'a', 'l', 'u', 'e']
    n.value _ d5
  have d3 := no_digit_head_opt (n.field ≠ 0) ['f', 'i', 'e', 'l', 'd'] n.field _ d4
  have d2 := no_digit_head_opt (n.y ≠ 0) ['y'] n.y _ d3
  have k8 := keys_end rest n
  have k7 := keys_opt 0 (n.else_id ≠ 0) ['e', 'l', 's', 'e'] n.else_id _
    { n with else_id := 0 } (rest, n) (by decide) d8
    (int32_long _ he).1 (int32_long _ he).2
    (by rw [opt_else _ _ he rfl]; exact k8)
  have k6 := keys_opt _ (n.then_id ≠ 0) ['t', 'h', 'e', 'n'] n.then_id _
    { n with else_id := 0, then_id := 0 } (rest, n) (by decide) d7
    (int32_long _ ht).1 (int32_long _ ht).2
    (by rw [opt_then _ _ ht rfl]; exact k7)
  have k5 := keys_opt _ (n.cond ≠ 0) ['c', 'o', 'n', 'd'] n.cond _
    { n with else_id := 0, then_id := 0, cond := 0 } (rest, n) (by decide) d6
    (int32_long _ hc).1 (int32_long _ hc).2
    (by rw [opt_cond _ _ hc rfl]; exact k6)
  have k4 := keys_opt _ (n.value ≠ 0 ∨ n.kind = "const_int") ['v', 'a', 'l', 'u', 'e'] n.value _
    { n with else_id := 0, then_id := 0, cond := 0, value := 0 } (rest, n) (by decide) d5
    (int32_long _ hv).1 (int32_long _ hv).2
    (by rw [opt_value _ _ _ hv rfl]; exact k5)
  have k3 := keys_opt _ (n.field ≠ 0) ['f', 'i', 'e', 'l', 'd'] n.field _
    { n with else_id := 0, then_id := 0, cond := 0, value := 0, field := 0 } (rest, n)
    (by decide) d4
    (int32_long _ hf).1 (int32_long _ hf).2
    (by rw [opt_field _ _ hf rfl]; exact k4)
  have k2 := keys_opt _ (n.y ≠ 0) ['y'] n.y _
    { n with else_id := 0, then_id := 0, cond := 0, value := 0, field := 0, y := 0 } (rest, n)
    (by decide) d3
    (int32_long _ hy).1 (int32_long _ hy).2
    (by rw [opt_y _ _ hy rfl]; exact k3)
  have k1 := keys_opt _ (n.x ≠ 0) ['x'] n.x _
    { n with else_id := 0, then_id := 0, cond := 0, value := 0, field := 0, y := 0, x := 0 }
    (rest, n) (by decide) d2
    (int32_long _ hx).1 (int32_long _ hx).2
    (by rw [opt_x _ _ hx rfl]; exact k2)
  have k0 := keys_name_opt 14 n.name _ { id := n.id, kind := n.kind } (rest, n) hnq hnl rfl k1
  have kK := keys_kind 16 n.kind _ { id := n.id } (rest, n) hkq hkl k0
  obtain ⟨g, rfl⟩ : ∃ g, f = g + 2 := ⟨f - 2, by omega⟩
  rw [node_keys_id g n.id _ {} hid]
  exact kK (g + 1) (by omega)

theorem skip_ws_print_int (v : Int) (T : List Char) :
    skip_ws (print_int v ++ T) = print_int v ++ T := by
  obtain ⟨c, cs, hc, hd⟩ := print_int_head v
  rw [hc, List.cons_append]
  exact skip_ws_of_not_space _ _ (digit_not_special c hd).1

theorem skip_array_loop_number (f : Nat) (v : Int) (T : List Char) (hT : no_digit_head T)
    (hv : is_int32 v) :
    parse_skip_array_loop (f + 2) (print_int v ++ T) =
      if token_is (next_token T).1 .TK_RBRACKET || token_is (next_token T).1 .TK_EOF then
        some (next_token T).2
      else parse_skip_array_loop (f + 1) (next_token T).2 := by
  rw [parse_skip_array_loop, skip_ws_print_int,
    next_token_number v T hT (int32_long _ hv).1 (int32_long _ hv).2]
  simp only [token_is]
  rw [parse_skip_value_number f v T hT (int32_long _ hv).1 (int32_long _ hv).2]
  rfl

theorem write_edge_append (e : Int × Int) (T : List Char) :
    write_edge e ++ T = '[' :: (print_int e.1 ++ ',' :: (print_int e.2 ++ ']' :: T)) := by
  simp [write_edge]

theorem parse_skip_value_lbracket (f : Nat) (X : List Char) :
    parse_skip_value (f + 2) ('[' :: X) = parse_skip_array_loop f X := by
  rw [parse_skip_value, next_token_lbracket]
  show parse_skip_array (f + 1) ('[' :: X) = _
  rw [parse_skip_array, next_token_lbracket]
  rfl

theorem parse_skip_value_edge (f : Nat) (e : Int × Int) (T : List Char)
    (h1 : is_int32 e.1) (h2 : is_int32 e.2) :
    parse_skip_value (f + 5) (write_edge e ++ T) = some T := by
  rw [write_edge_append, parse_skip_value_lbracket]
  rw [skip_array_loop_number (f + 1) e.1 _ (no_digit_head_cons _ _ (by decide)) h1,
    next_token_comma]
  simp only [token_is]
  show parse_skip_array_loop (f + 2) _ = _
  rw [skip_array_loop_number f e.2 _ (no_digit_head_cons _ _ (by decide)) h2,
    next_token_rbracket]
  simp only [token_is]
  rfl

theorem skip_array_loop_edges (rest : List Char) :
    ∀ (es : List (Int × Int)) (f : Nat), (∀ e ∈ es, is_int32 e.1 ∧ is_int32 e.2) →
      es.length + 6 ≤ f →
      parse_skip_array_loop f (write_edges es ++ ']' :: rest) = some rest := by
  intro es
  induction es with
  | nil =>
    intro f _ hf
    obtain ⟨g, rfl⟩ : ∃ g, f = g + 1 := ⟨f - 1, by omega⟩
    rw [parse_skip_array_loop]
    simp only [write_edges, List.nil_append]
    rw [skip_ws_of_not_space _ _ (by decide), next_token_rbracket]
    simp only [token_is]
    rfl
  | cons e tl ih =>
    intro f hes hf
    obtain ⟨g, rfl⟩ : ∃ g, f = g + 6 := ⟨f - 6, by omega⟩
    have he := hes e (List.mem_cons_self _ _)
    cases tl with
    | nil =>
      rw [parse_skip_array_loop]
      simp only [write_edges]
      rw [write_edge_append, skip_ws_of_not_space _ _ (by decide), next_token_lbracket]
      simp only [token_is]
      rw [← write_edge_append, parse_skip_value_edge g e _ he.1 he.2]
      simp only [Option.some_bind, next_token_rbracket, token_is]
      rfl
    | cons e2 tl2 =>
      rw [parse_skip_array_loop]
      simp only [write_edges, List.append_assoc, List.singleton_append]
      rw [write_edge_append, skip_ws_of_not_space _ _ (by decide), next_token_lbracket]
      simp only [token_is]
      rw [← write_edge_append, parse_skip_value_edge g e _ he.1 he.2]
      simp only [Option.some_bind, next_token_comma, token_is]
      have := ih (g + 5) (fun x hx => hes x (List.mem_cons_of_mem _ hx))
        (by simp only [List.length_cons] at hf ⊢; omega)
      simpa using this

theorem parse_skip_value_space (f : Nat) (c : Char) (p : List Char) (h : isspace c = true) :
    parse_skip_value f (c :: p) = parse_skip_value f p := by
  cases f with
  | zero => rw [parse_skip_value, parse_skip_value]
  | succ g => rw [parse_skip_value, parse_skip_value, next_token_space c p h]

theorem parse_skip_value_edges (es : List (Int × Int)) (rest : List Char) (f : Nat)
    (hes : ∀ e ∈ es, is_int32 e.1 ∧ is_int32 e.2) (hf : es.length + 8 ≤ f) :
    parse_skip_value f ('[' :: (write_edges es ++ ']' :: rest)) = some rest := by
  obtain ⟨g, rfl⟩ : ∃ g, f = g + 2 := ⟨f - 2, by omega⟩
  rw [parse_skip_value_lbracket]
  exact skip_array_loop_edges rest es g hes (by omega)

theorem valid_kind_text (k : String) (h : k ∈ valid_kinds) :
    (∀ c ∈ k.toList, c ≠ '\x22' ∧ c ≠ Char.ofNat 0) ∧ k.length ≤ 23 := by
  simp only [valid_kinds, List.mem_cons, List.mem_singleton, List.not_mem_nil, or_false] at h
  rcases h with h | h | h | h | h | h | h | h | h | h | h | h | h <;> subst h <;> decide

theorem parse_nodes_loop_space (f : Nat) (c : Char) (p : List Char) (graph : Graph)
    (h : isspace c = true) :
    parse_nodes_loop f (c :: p) graph = parse_nodes_loop f p graph := by
  cases f with
  | zero => rfl
  | succ g => rw [parse_nodes_loop, parse_nodes_loop, next_token_space c p h]

theorem parse_nodes_loop_node (f : Nat) (n : Node) (T : List Char) (graph : Graph)
    (hn : persistable n) (hf : 20 ≤ f) :
    parse_nodes_loop (f + 1) (write_node n ++ T) graph =
      if token_is (next_token T).1 .TK_RBRACKET || token_is (next_token T).1 .TK_EOF then
        some ((next_token T).2, store_node graph n)
      else parse_nodes_loop f (next_token T).2 (store_node graph n) := by
  obtain ⟨hk, hnm, hnl, hid, hx, hy, hfd, hv, hc, ht, he⟩ := hn
  obtain ⟨hkq, hkl⟩ := valid_kind_text n.kind hk
  obtain ⟨body, hb, hp⟩ := parse_node_keys_write n T (fun c hc => (hkq c hc).1) hkl
    (fun c hc => (hnm c hc).1) (by omega) hid hx hy hfd hv hc ht he f hf
  rw [hb, parse_nodes_loop, next_token_space _ _ (by decide), next_token_space _ _ (by decide),
    next_token_space _ _ (by decide), next_token_space _ _ (by decide), next_token_lbrace]
  simp only [token_is]
  rw [hp]
  rfl

theorem parse_nodes_loop_write (rest : List Char) :
    ∀ (ns : List Node) (graph : Graph) (f : Nat), (∀ n ∈ ns, persistable n) →
      ns.length + 21 ≤ f →
      parse_nodes_loop f (write_nodes ns ++ ' ' :: ' ' :: ']' :: rest) graph =
        some (rest, ns.foldl store_node graph) := by
  intro ns
  induction ns with
  | nil =>
    intro graph f _ hf
    obtain ⟨g, rfl⟩ : ∃ g, f = g + 1 := ⟨f - 1, by omega⟩
    simp only [write_nodes, List.nil_append, List.foldl_nil]
    rw [parse_nodes_loop, next_token_space _ _ (by decide), next_token_space _ _ (by decide),
      next_token_rbracket]
    rfl
  | cons n tl ih =>
    intro graph f hns hf
    simp only [List.length_cons] at hf
    obtain ⟨g, rfl⟩ : ∃ g, f = g + 1 := ⟨f - 1, by omega⟩
    have hn := hns n (List.mem_cons_self _ _)
    cases tl with
    | nil =>
      simp only [write_nodes, List.append_assoc, List.singleton_append, List.foldl_cons,
        List.foldl_nil]
      rw [parse_nodes_loop_node g n _ graph hn (by omega), next_token_space _ _ (by decide),
        next_token_space _ _ (by decide), next_token_space _ _ (by decide),
        next_token_rbracket]
      rfl
    | cons m tl2 =>
      have h := ih (store_node graph n) g (fun x hx => hns x (List.mem_cons_of_mem _ hx))
        (by simp only [List.length_cons] at hf ⊢; omega)
      simp only [write_nodes, List.append_assoc, List.cons_append, List.nil_append,
        List.foldl_cons]
      rw [parse_nodes_loop_node g n _ graph hn (by simp only [List.length_cons] at hf; omega),
        next_token_comma]
      simp only [token_is]
      rw [show (decide (TokenKind.TK_COMMA = TokenKind.TK_RBRACKET) ||
          decide (TokenKind.TK_COMMA = TokenKind.TK_EOF)) = false from rfl]
      simp only [Bool.false_eq_true, if_false]
      rw [parse_nodes_loop_space _ _ _ _ (by decide)]
      simpa [write_nodes] using h

theorem graph_load_keys_space (f : Nat) (c : Char) (p : List Char) (graph : Graph)
    (h : isspace c = true) :
    graph_load_keys f (c :: p) graph = graph_load_keys f p graph := by
  cases f with
  | zero => rfl
  | succ g => rw [graph_load_keys, graph_load_keys, next_token_space c p h]

theorem graph_load_keys_skip (f : Nat) (k V T : List Char) (graph : Graph)
    (hk : ∀ c ∈ k, c ≠ '\x22') (h1 : k ≠ ['n', 'o', 'd', 'e', 's'])
    (h2 : k ≠ ['o', 'u', 't', 'p', 'u', 't'])
    (h : parse_skip_value f V = some (',' :: T)) :
    graph_load_keys (f + 1) ('\x22' :: (k ++ '\x22' :: ':' :: V)) graph =
      graph_load_keys f T graph := by
  rw [graph_load_keys, next_token_string k (':' :: V) hk]
  simp only [token_is, parse_expect, next_token_colon, token_equals_string, decide_eq_true_eq,
    if_neg h1, if_neg h2, h, Option.map_some', Option.some_bind, next_token_comma]
  rfl

theorem graph_load_keys_nodes (f : Nat) (V T : List Char) (graph g2 : Graph)
    (h : parse_nodes_array f V graph = some (',' :: T, g2)) :
    graph_load_keys (f + 1) ('\x22' :: (['n', 'o', 'd', 'e', 's'] ++ '\x22' :: ':' :: V)) graph =
      graph_load_keys f T g2 := by
  rw [graph_load_keys, next_token_string _ (':' :: V) (by decide)]
  simp only [token_is, parse_expect, next_token_colon, token_equals_string, decide_eq_true_eq,
    if_true, h, Option.some_bind, next_token_comma]
  rfl

theorem graph_load_keys_output (f : Nat) (v : Int) (T : List Char) (graph : Graph)
    (hv : is_int32 v) :
    graph_load_keys (f + 1)
      ('\x22' :: (['o', 'u', 't', 'p', 'u', 't'] ++ '\x22' :: ':' :: ' ' ::
        (print_int v ++ '\n' :: '\x7d' :: T))) graph = some { graph with output := v } := by
  rw [graph_load_keys, next_token_string _ _ (by decide)]
  simp only [token_is, parse_expect, next_token_colon, token_equals_string, decide_eq_true_eq]
  rw [if_neg (show ¬(['o', 'u', 't', 'p', 'u', 't'] = ['n', 'o', 'd', 'e', 's']) by decide),
    if_pos True.intro, next_token_space _ _ (by decide),
    next_token_number v _ (no_digit_head_cons _ _ (by decide)) (int32_long _ hv).1
      (int32_long _ hv).2]
  simp only [Option.some_bind, next_token_space _ _ (show isspace '\n' = true by decide),
    next_token_rbrace, long_to_int_id v hv]
  rfl

theorem parse_nodes_array_write (ns : List Node) (rest : List Char) (graph : Graph) (f : Nat)
    (hns : ∀ n ∈ ns, persistable n) (hf : ns.length + 21 ≤ f) :
    parse_nodes_array f (' ' :: '[' :: '\n' :: (write_nodes ns ++ ' ' :: ' ' :: ']' :: rest))
      graph = some (rest, ns.foldl store_node graph) := by
  unfold parse_nodes_array
  rw [next_token_space _ _ (by decide), next_token_lbracket]
  simp only [token_is]
  rw [parse_nodes_loop_space _ _ _ _ (by decide)]
  rw [← parse_nodes_loop_write rest ns graph f hns hf]
  rfl

theorem no_nul_append (a b : List Char) (ha : no_nul a) (hb : no_nul b) : no_nul (a ++ b) := by
  intro c hc
  rcases List.mem_append.mp hc with h | h
  · exact ha c h
  · exact hb c h

theorem no_nul_cons (c : Char) (l : List Char) (hc : c ≠ Char.ofNat 0) (hl : no_nul l) :
    no_nul (c :: l) := by
  intro d hd
  rcases List.mem_cons.mp hd with h | h
  · rw [h]; exact hc
  · exact hl d h

theorem no_nul_opt (b : Prop) [Decidable b] (l : List Char) (hl : no_nul l) :
    no_nul (if b then l else []) := by
  by_cases hb : b
  · rw [if_pos hb]; exact hl
  · rw [if_neg hb]; intro c hc; cases hc

theorem no_nul_digits :
    ∀ (fuel n : Nat) (acc : List Char), no_nul acc → no_nul (print_nat_digits fuel n acc) := by
  intro fuel
  induction fuel with
  | zero => intro n acc h; exact h
  | succ k ih =>
    intro n acc h
    have hdig := (digit_char_spec (n % 10) (Nat.mod_lt _ (by decide))).1
    have hd : Char.ofNat (48 + n % 10) ≠ Char.ofNat 0 :=
      (digit_not_special _ (Or.inr hdig)).2.2.2.2.2.2.2.2.2.1
    unfold print_nat_digits
    by_cases h0 : n / 10 = 0
    · rw [if_pos h0]; exact no_nul_cons _ _ hd h
    · rw [if_neg h0]; exact ih _ _ (no_nul_cons _ _ hd h)

theorem no_nul_print_int (i : Int) : no_nul (print_int i) := by
  unfold print_int
  have h := no_nul_digits (i.natAbs + 1) i.natAbs [] (by decide)
  by_cases hi : i < 0
  · rw [if_pos hi]; exact no_nul_cons _ _ (by decide) h
  · rw [if_neg hi]; exact h

theorem no_nul_write_attr (k : List Char) (v : Int) (hk : no_nul k) :
    no_nul (write_attr k v) := by
  unfold write_attr
  exact no_nul_append _ _ (no_nul_append _ _ (no_nul_append _ _ (by decide) hk) (by decide))
    (no_nul_print_int v)

theorem no_nul_nil : no_nul [] := by
  intro c hc; cases hc

theorem no_nul_append_iff (a b : List Char) : no_nul (a ++ b) ↔ no_nul a ∧ no_nul b := by
  constructor
  · intro h
    exact ⟨fun c hc => h c (List.mem_append_left _ hc),
      fun c hc => h c (List.mem_append_right _ hc)⟩
  · intro h
    exact no_nul_append a b h.1 h.2

theorem no_nul_write_node (n : Node) (hn : persistable n) : no_nul (write_node n) := by
  obtain ⟨hk, hnm, -⟩ := hn
  have hkn : no_nul n.kind.toList := fun c hc => ((valid_kind_text n.kind hk).1 c hc).2
  have hnn : no_nul n.name.toList := fun c hc => (hnm c hc).2
  have l1 : no_nul "    \x7b\"id\":".toList := by decide
  have l2 : no_nul ",\"kind\":\"".toList := by decide
  have l3 : no_nul ['\x22'] := by decide
  have l4 : no_nul ",\"name\":\"".toList := by decide
  have l5 : no_nul ['\x7d'] := by decide
  have an := no_nul_opt (n.name ≠ "") _ (no_nul_append _ _ (no_nul_append _ _ l4 hnn) l3)
  have ax := no_nul_opt (n.x ≠ 0) _ (no_nul_write_attr ['x'] n.x (by decide))
  have ay := no_nul_opt (n.y ≠ 0) _ (no_nul_write_attr ['y'] n.y (by decide))
  have af := no_nul_opt (n.field ≠ 0) _
    (no_nul_write_attr ['f', 'i', 'e', 'l', 'd'] n.field (by decide))
  have av := no_nul_opt (n.value ≠ 0 ∨ n.kind = "const_int") _
    (no_nul_write_attr ['v', 'a', 'l', 'u', 'e'] n.value (by decide))
  have ac := no_nul_opt (n.cond ≠ 0) _
    (no_nul_write_attr ['c', 'o', 'n', 'd'] n.cond (by decide))
  have at1 := no_nul_opt (n.then_id ≠ 0) _
    (no_nul_write_attr ['t', 'h', 'e', 'n'] n.then_id (by decide))
  have ae := no_nul_opt (n.else_id ≠ 0) _
    (no_nul_write_attr ['e', 'l', 's', 'e'] n.else_id (by decide))
  unfold write_node
  simp only [no_nul_append_iff, and_assoc]
  exact ⟨l1, no_nul_print_int _, l2, hkn, l3, an, ax, ay, af, av, ac, at1, ae, l5⟩

theorem no_nul_write_nodes :
    ∀ ns : List Node, (∀ n ∈ ns, persistable n) → no_nul (write_nodes ns) := by
  intro ns
  induction ns with
  | nil => intro _; exact no_nul_nil
  | cons n tl ih =>
    intro h
    have hn := no_nul_write_node n (h n (List.mem_cons_self _ _))
    cases tl with
    | nil =>
      exact no_nul_append _ _ hn (by decide)
    | cons m tl2 =>
      exact no_nul_append _ _ (no_nul_append _ _ hn (by decide))
        (ih fun x hx => h x (List.mem_cons_of_mem _ hx))

theorem no_nul_write_edges : ∀ es : List (Int × Int), no_nul (write_edges es) := by
  have he : ∀ e : Int × Int, no_nul (write_edge e) := by
    intro e
    have l1 : no_nul ['['] := by decide
    have l2 : no_nul [','] := by decide
    have l3 : no_nul [']'] := by decide
    unfold write_edge
    simp only [no_nul_append_iff, and_assoc]
    exact ⟨l1, no_nul_print_int _, l2, no_nul_print_int _, l3⟩
  intro es
  induction es with
  | nil => exact no_nul_nil
  | cons e tl ih =>
    cases tl with
    | nil => exact he e
    | cons m tl2 =>
      exact no_nul_append _ _ (no_nul_append _ _ (he e) (by decide)) ih

theorem kernel_name_text (function : String) (h : isKernelName function = true) :
    (∀ c ∈ function.toList, c ≠ '\x22') ∧ no_nul function.toList := by
  simp only [isKernelName, Bool.or_eq_true, beq_iff_eq] at h
  rcases h with (((((h | h) | h) | h) | h) | h) | h <;> subst h <;> decide

theorem no_nul_write_graph (function : String) (ns : List Node) (output : Int)
    (hfn : isKernelName function = true) (hns : ∀ n ∈ ns, persistable n) :
    no_nul (write_graph function ns output) := by
  have h1 := (kernel_name_text function hfn).2
  have h2 := no_nul_write_nodes ns hns
  have l1 : no_nul "\x7b\n".toList := by decide
  have l2 : no_nul "  \"function\": \"".toList := by decide
  have l3 : no_nul "\",\n".toList := by decide
  have l4 : no_nul "  \"nodes\": [\n".toList := by decide
  have l5 : no_nul "  ],\n".toList := by decide
  have l6 : no_nul "  \"edges\": [".toList := by decide
  have l7 : no_nul "],\n".toList := by decide
  have l8 : no_nul "  \"output\": ".toList := by decide
  have l9 : no_nul "\n".toList := by decide
  have l10 : no_nul "\x7d\n".toList := by decide
  unfold write_graph
  simp only [no_nul_append_iff, and_assoc]
  exact ⟨l1, l2, h1, l3, l4, h2, l5, l6, no_nul_write_edges _, l7, l8, no_nul_print_int _, l9,
    l10⟩

theorem write_nodes_length : ∀ ns : List Node, ns.length ≤ (write_nodes ns).length := by
  intro ns
  induction ns with
  | nil => simp
  | cons n tl ih =>
    cases tl with
    | nil => simp [write_nodes]
    | cons m tl2 =>
      simp only [write_nodes, List.length_append, List.length_cons, List.length_nil] at ih ⊢
      omega

theorem write_edges_length : ∀ es : List (Int × Int), es.length ≤ (write_edges es).length := by
  intro es
  induction es with
  | nil => simp
  | cons e tl ih =>
    cases tl with
    | nil => simp [write_edges, write_edge]
    | cons m tl2 =>
      simp only [write_edges, List.length_append, List.length_cons, List.length_nil] at ih ⊢
      omega

theorem node_edges_int (n : Node) (hn : persistable n) :
    ∀ e ∈ node_edges n, is_int32 e.1 ∧ is_int32 e.2 := by
  obtain ⟨-, -, -, hid, hx, hy, -, -, hc, ht, he⟩ := hn
  intro e hm
  unfold node_edges at hm
  split_ifs at hm <;> simp at hm <;> (try rcases hm with hm | hm | hm) <;> (try subst hm) <;>
    first
    | exact ⟨hx, hid⟩
    | exact ⟨hy, hid⟩
    | exact ⟨hc, hid⟩
    | exact ⟨ht, hid⟩
    | exact ⟨he, hid⟩

theorem write_graph_text (function : String) (ns : List Node) (output : Int) :
    write_graph function ns output =
      '\x7b' :: '\n' :: ' ' :: ' ' :: '\x22' :: (['f', 'u', 'n', 'c', 't', 'i', 'o', 'n'] ++
        '\x22' :: ':' :: ' ' :: '\x22' :: (function.toList ++ '\x22' :: ',' :: '\n' :: ' ' ::
        ' ' :: '\x22' :: (['n', 'o', 'd', 'e', 's'] ++ '\x22' :: ':' :: ' ' :: '[' :: '\n' ::
        (write_nodes ns ++ ' ' :: ' ' :: ']' :: ',' :: '\n' :: ' ' :: ' ' :: '\x22' ::
        (['e', 'd', 'g', 'e', 's'] ++ '\x22' :: ':' :: ' ' :: '[' ::
        (write_edges (ns.flatMap node_edges) ++ ']' :: ',' :: '\n' :: ' ' :: ' ' :: '\x22' ::
        (['o', 'u', 't', 'p', 'u', 't'] ++ '\x22' :: ':' :: ' ' ::
        (print_int output ++ '\n' :: '\x7d' :: ['\n'])))))))) := by
  have e1 : "\x7b\n".toList = ['\x7b', '\n'] := rfl
  have e2 : "  \"function\": \"".toList =
      [' ', ' ', '\x22', 'f', 'u', 'n', 'c', 't', 'i', 'o', 'n', '\x22', ':', ' ', '\x22'] := rfl
  have e3 : "\",\n".toList = ['\x22', ',', '\n'] := rfl
  have e4 : "  \"nodes\": [\n".toList =
      [' ', ' ', '\x22', 'n', 'o', 'd', 'e', 's', '\x22', ':', ' ', '[', '\n'] := rfl
  have e5 : "  ],\n".toList = [' ', ' ', ']', ',', '\n'] := rfl
  have e6 : "  \"edges\": [".toList =
      [' ', ' ', '\x22', 'e', 'd', 'g', 'e', 's', '\x22', ':', ' ', '['] := rfl
  have e7 : "],\n".toList = [']', ',', '\n'] := rfl
  have e8 : "  \"output\": ".toList =
      [' ', ' ', '\x22', 'o', 'u', 't', 'p', 'u', 't', '\x22', ':', ' '] := rfl
  have e9 : "\n".toList = ['\n'] := rfl
  have e10 : "\x7d\n".toList = ['\x7d', '\n'] := rfl
  unfold write_graph
  rw [e1, e2, e3, e4, e5, e6, e7, e8, e9, e10]
  simp only [List.cons_append, List.nil_append, List.append_assoc]

theorem graph_load_keys_write (function : String) (ns : List Node) (output : Int) (F : Nat)
    (hfn : isKernelName function = true) (hns : ∀ n ∈ ns, persistable n)
    (hout : is_int32 output)
    (hF : ns.length + (ns.flatMap node_edges).length + 30 ≤ F) :
    ∃ body, write_graph function ns output = '\x7b' :: body ∧
      graph_load_keys F body { num_nodes := 0, nodes := fun _ => {}, output := 0 } =
        some { load_graph ns 0 with output := output } := by
  refine ⟨_, write_graph_text function ns output, ?_⟩
  obtain ⟨G, rfl⟩ : ∃ G, F = G + 4 := ⟨F - 4, by omega⟩
  have hes : ∀ e ∈ ns.flatMap node_edges, is_int32 e.1 ∧ is_int32 e.2 := by
    intro e he
    obtain ⟨n, hn, hen⟩ := List.mem_flatMap.mp he
    exact node_edges_int n (hns n hn) e hen
  rw [graph_load_keys_space _ _ _ _ (by decide), graph_load_keys_space _ _ _ _ (by decide),
    graph_load_keys_space _ _ _ _ (by decide)]
  rw [graph_load_keys_skip (G + 3) ['f', 'u', 'n', 'c', 't', 'i', 'o', 'n'] _ _ _ (by decide)
    (by decide) (by decide)
    (by
      rw [parse_skip_value_space _ _ _ (by decide)]
      exact parse_skip_value_string (G + 2) function.toList _ (kernel_name_text function hfn).1)]
  rw [graph_load_keys_space _ _ _ _ (by decide), graph_load_keys_space _ _ _ _ (by decide),
    graph_load_keys_space _ _ _ _ (by decide)]
  rw [graph_load_keys_nodes (G + 2) _ _ _ _
    (parse_nodes_array_write ns _ _ (G + 2) hns (by omega))]
  rw [graph_load_keys_space _ _ _ _ (by decide), graph_load_keys_space _ _ _ _ (by decide),
    graph_load_keys_space _ _ _ _ (by decide)]
  rw [graph_load_keys_skip (G + 1) ['e', 'd', 'g', 'e', 's'] _ _ _ (by decide)
    (by decide) (by decide)
    (by
      rw [parse_skip_value_space _ _ _ (by decide)]
      exact parse_skip_value_edges _ _ (G + 1) hes (by omega))]
  rw [graph_load_keys_space _ _ _ _ (by decide), graph_load_keys_space _ _ _ _ (by decide),
    graph_load_keys_space _ _ _ _ (by decide)]
  rw [graph_load_keys_output G output _ _ hout]
  rfl

theorem write_graph_length (function : String) (ns : List Node) (output : Int) :
    ns.length + (ns.flatMap node_edges).length + 30 ≤
      4 * (write_graph function ns output).length + 4 := by
  have h1 := write_nodes_length ns
  have h2 := write_edges_length (ns.flatMap node_edges)
  rw [write_graph_text]
  simp only [List.length_cons, List.length_append, List.length_nil]
  omega

theorem graph_load_json_write (function : String) (ns : List Node) (output : Int)
    (hfn : isKernelName function = true) (hns : ∀ n ∈ ns, persistable n)
    (hout : is_int32 output) :
    graph_load_json (write_graph function ns output) =
      some (some { load_graph ns 0 with output := output }) := by
  have hnul := no_nul_write_graph function ns output hfn hns
  have hbuf : (write_graph function ns output).takeWhile (fun c => c ≠ Char.ofNat 0) =
      write_graph function ns output := by
    rw [List.takeWhile_eq_self_iff]
    intro c hc
    simpa using hnul c hc
  obtain ⟨body, hb, hk⟩ := graph_load_keys_write function ns output
    (4 * (write_graph function ns output).length + 4) hfn hns hout
    (write_graph_length function ns output)
  unfold graph_load_json
  simp only [hbuf]
  rw [hb, next_token_lbrace] at *
  simp only [token_is]
  rw [hk]
  rfl

/-- C36 (amended): the document the pass writes for a kernel function loads back unchanged.
For a node list with ids 1..n in order, kinds from the valid set, names without a double quote
or a NUL character and shorter than 32 characters, and numeric members and output id that are
C ints, graph_load_json on the text of write_graph returns a graph with num_nodes = n, the same
output, and at every id the record that was written (kind, name, x, y, field, value, cond, then
and else). -/
theorem persisted_graph_loads (function : String) (ns : List Node) (output : Int)
    (hfn : isKernelName function = true)
    (hids : ns.map Node.id = List.map (fun j : Nat => (j : Int) + 1) (List.range ns.length))
    (hns : ∀ n ∈ ns, persistable n) (hout : is_int32 output) :
    ∃ g, graph_load_json (write_graph function ns output) = some (some g) ∧
      g.num_nodes = (ns.length : Int) ∧ g.output = output ∧ ∀ n ∈ ns, g.nodes n.id = n := by
  refine ⟨_, graph_load_json_write function ns output hfn hns hout, ?_⟩
  have hj : ∀ (j : Nat) (n : Node), ns[j]? = some n → n.id = ((0 : Nat) : Int) + (j : Int) + 1 := by
    intro j n h
    have h1 : (ns.map Node.id)[j]? = some n.id := by
      rw [List.getElem?_map, h]; rfl
    rw [hids, List.getElem?_map] at h1
    have hlt : j < ns.length := by
      by_contra hge
      rw [List.getElem?_eq_none (by omega)] at h
      cases h
    rw [List.getElem?_range hlt] at h1
    simp only [Option.map_some', Option.some.injEq] at h1
    omega
  obtain ⟨h1, -, h3⟩ := store_nodes_spec ns
    { num_nodes := 0, nodes := fun _ => {}, output := 0 } 0 rfl hj
  refine ⟨?_, rfl, ?_⟩
  · show (load_graph ns 0).num_nodes = _
    unfold load_graph
    rw [h1]; simp
  · exact h3

/-- Witness for C36: the ten-node document of triple_deref satisfies the hypotheses. -/
theorem persisted_graph_loads_witness :
    ∃ g, graph_load_json (write_graph "triple_deref" triple_deref_nodes 10) = some (some g) ∧
      g.num_nodes = (triple_deref_nodes.length : Int) ∧ g.output = 10 ∧
      ∀ n ∈ triple_deref_nodes, g.nodes n.id = n :=
  persisted_graph_loads "triple_deref" triple_deref_nodes 10 (by decide) (by decide)
    (by decide) (by decide)

set_option maxRecDepth 100000 in
/-- Counterexample for C36 as stated: an input whose name is a, NUL, b has a valid kind, no
double quote in its name and fewer than 32 characters, yet the document written for it loads as
a graph whose node 1 is named a and whose output is 0, not 1: the loader stops at the NUL. -/
theorem nul_name_counterexample :
    (∀ n ∈ nul_name_nodes, n.kind ∈ valid_kinds ∧ (∀ c ∈ n.name.toList, c ≠ '\x22') ∧
      n.name.length < 32) ∧
    nul_name_nodes.map Node.id = [1] ∧
    (graph_load_json (write_graph "triple_deref" nul_name_nodes 1)).map
      (Option.map (graph_summary 1)) =
      some (some (1, 0, [{ id := 1, kind := "input", name := "a" }])) := by
  decide!

set_option maxRecDepth 100000 in
/-- C33: what graph_load_json does with unknown keys.  The document with one const_null node and
output 1 loads as such, also with unknown top-level keys and unknown node keys whose values are
numbers, strings, true, false, null, objects or arrays of numbers; with an unknown key whose
value is an array of strings, at the top level or in the node, the loader stops inside the first
string and returns a graph with no node and output 0.  A node of unknown kind is stored, and
evaluating it gives Err(Invalid). -/
theorem unknown_key_string_array :
    (graph_load_json (null_document "" "")).map (Option.map (graph_summary 1)) =
      some (some (1, 1, [{ id := 1, kind := "const_null" }])) ∧
    (graph_load_json (null_document
        ("\"n\":-5,\"s\":\"text\",\"t\":true,\"f\":false,\"z\":null," ++
          "\"o\":\x7b\"k\":\"v\"\x7d,\"a\":[1,2],")
        "\"n\":7,\"s\":\"text\",\"t\":true,\"z\":null,\"o\":\x7b\"k\":3\x7d,\"a\":[1,[2]],")).map
        (Option.map (graph_summary 1)) =
      some (some (1, 1, [{ id := 1, kind := "const_null" }])) ∧
    (graph_load_json (null_document "\"extra\":[\"a\"]," "")).map
        (Option.map (graph_summary 1)) = some (some (0, 0, [{}])) ∧
    (graph_load_json (null_document "" "\"tag\":[\"a\"],")).map
        (Option.map (graph_summary 1)) = some (some (0, 0, [{}])) ∧
    (graph_load_json mystery_document).map (Option.map (graph_summary 1)) =
      some (some (1, 1, [{ id := 1, kind := "mystery" }])) ∧
    (graph_load_json mystery_document).bind
        (fun r => r.bind fun g => graph_eval g (heap_of_words []) { p := 0, q := 0 }) =
      some (eval_err .ERR_INVALID) := by
  refine ⟨?_, ?_, ?_, ?_, ?_, ?_⟩ <;> decide!

/-! ### The pass on instructions and the call-level lifting loop -/

theorem run_calls_append (heap : Heap) (p q : Int) :
    ∀ (cs ds : List Call) (vals : List Eval),
      run_calls heap p q (cs ++ ds) vals =
        (run_calls heap p q cs vals).bind fun v => run_calls heap p q ds v := by
  intro cs
  induction cs with
  | nil => intro ds vals; rfl
  | cons c cs ih =>
    intro ds vals
    simp only [List.cons_append, run_calls]
    cases exec_call heap p q vals c with
    | none => rfl
    | some r => simp only [Option.some_bind]; exact ih ds _

theorem run_calls_snoc (heap : Heap) (p q : Int) (cs : List Call) (c : Call)
    (vals : List Eval) (r : Eval) (h : run_calls heap p q cs [] = some vals)
    (hr : exec_call heap p q vals c = some r) :
    run_calls heap p q (cs ++ [c]) [] = some (vals ++ [r]) := by
  rw [run_calls_append, h]
  simp [run_calls, hr]

theorem calls_wf_append :
    ∀ (cs ds : List Call) (n : Nat),
      calls_wf n (cs ++ ds) = (calls_wf n cs && calls_wf (n + cs.length) ds) := by
  intro cs
  induction cs with
  | nil => intro ds n; simp [calls_wf]
  | cons c cs ih =>
    intro ds n
    rw [List.cons_append, calls_wf, calls_wf, ih, List.length_cons, Bool.and_assoc,
      show n + 1 + cs.length = n + (cs.length + 1) by omega]

theorem calls_wf_snoc (cs : List Call) (c : Call) (h : calls_wf 0 cs = true)
    (hc : c.wf cs.length = true) : calls_wf 0 (cs ++ [c]) = true := by
  rw [calls_wf_append, h]
  simp [calls_wf, hc]

theorem wf_operands (n : Nat) (c : Call) (h : c.wf n = true) :
    c.operands.all (fun v => decide (v < n)) = true := by
  cases c <;>
    simp only [Call.wf, Call.operands, List.all_cons, List.all_nil, Bool.and_true,
      Bool.and_eq_true, decide_eq_true_eq] at h ⊢ <;>
    first
    | trivial
    | exact h
    | exact ⟨h.1.1, h.1.2, h.2⟩

theorem lift_call_value (L : LiftState) (c : Call) :
    ∃ id, (lift_call L c).valueToNode = L.valueToNode ++ [id] := by
  cases c <;> exact ⟨_, rfl⟩

theorem getD_snoc_lt (vt : List Int) (id : Int) (c : Nat) (h : c < vt.length) :
    (vt ++ [id]).getD c 0 = vt.getD c 0 := by
  simp [List.getD_eq_getElem?_getD, List.getElem?_append_left h]

theorem getD_snoc_eq (vt : List Int) (id : Int) : (vt ++ [id]).getD vt.length 0 = id := by
  simp [List.getD_eq_getElem?_getD]

theorem binding_alloca (ptr : Pointer) (a : Nat) (h : ptr.binding = some a) :
    getAlloca (stripGEP ptr) = some a ∧ ptr.cell = some (a, 0) := by
  cases ptr with
  | alloca b =>
    simp only [Pointer.binding, Option.some.injEq] at h
    subst h
    exact ⟨rfl, rfl⟩
  | gep b index =>
    cases index with
    | zero =>
      simp only [Pointer.binding, Option.some.injEq] at h
      subst h
      exact ⟨rfl, rfl⟩
    | succ k => simp [Pointer.binding] at h
  | other => simp [Pointer.binding] at h

/-- An operand the analysis accepts as carrying the Eval of call c is resolved by the pass to
the node of call c, and holds the Eval of call c in the machine. -/
theorem use_spec (body : List Instr) (heap : Heap) (p q : Int) (s : RunState) (m : Machine)
    (A : Bindings) (vals : List Eval) (hs : Sim body heap p q s m A vals) (v : Operand)
    (c : Nat) (h : A.eval_use body v = some c) :
    c < A.calls.length ∧
    s.resolveNode body v = resolveNode (A.calls.foldl lift_call {}).valueToNode c ∧
    ∃ e, vals[c]? = some e ∧ m.value p q v = .eval e := by
  cases v with
  | inst i =>
    unfold Bindings.eval_use at h
    cases hb : body[i]? with
    | none => simp [hb] at h
    | some instr =>
      cases hr : A.results[i]? with
      | none => cases instr <;> simp [hb, hr] at h
      | some av =>
        cases instr with
        | call callee args =>
          cases av with
          | call c' =>
            simp only [hb, hr, Option.some.injEq] at h
            subst h
            obtain ⟨e, he, hm⟩ := hs.res_call i c' hr
            have hlt : c' < A.calls.length := by
              rw [← hs.vals_len]
              by_contra hge
              rw [List.getElem?_eq_none (by omega)] at he
              cases he
            refine ⟨hlt, ?_, e, he, ?_⟩
            · unfold RunState.resolveNode resolveNode
              simp only [hb]
              rw [hs.value_map i c' callee args hb hr]
              rfl
            · show m.results.getD i Val.unset = Val.eval e
              rw [List.getD_eq_getElem?_getD, hm]
              rfl
          | param x => simp [hb, hr] at h
          | unknown => simp [hb, hr] at h
        | load ptr =>
          cases av with
          | call c' =>
            simp only [hb, hr] at h
            cases hbind : ptr.binding with
            | none => simp [hbind] at h
            | some a =>
              simp only [hbind] at h
              by_cases hcell : A.cells.lookup a = some (.call c')
              · rw [if_pos hcell] at h
                simp only [Option.some.injEq] at h
                subst h
                obtain ⟨e, he, hm⟩ := hs.res_call i c' hr
                obtain ⟨hmap, -⟩ := hs.cell_call a c' hcell
                have hlt : c' < A.calls.length := by
                  rw [← hs.vals_len]
                  by_contra hge
                  rw [List.getElem?_eq_none (by omega)] at he
                  cases he
                refine ⟨hlt, ?_, e, he, ?_⟩
                · unfold RunState.resolveNode resolveNode
                  simp only [hb, (binding_alloca ptr a hbind).1, Option.some_bind, hmap]
                · show m.results.getD i Val.unset = Val.eval e
                  rw [List.getD_eq_getElem?_getD, hm]
                  rfl
              · rw [if_neg hcell] at h
                cases h
          | param x => simp [hb, hr] at h
          | unknown => simp [hb, hr] at h
        | store val ptr => cases av <;> simp [hb, hr] at h
        | other => cases av <;> simp [hb, hr] at h
  | const_int v => simp [Bindings.eval_use] at h
  | const_string s => simp [Bindings.eval_use] at h
  | param x => simp [Bindings.eval_use] at h
  | pointer ptr => simp [Bindings.eval_use] at h
  | other => simp [Bindings.eval_use] at h

theorem eval_at_spec (body : List Instr) (heap : Heap) (p q : Int) (s : RunState) (m : Machine)
    (A : Bindings) (vals : List Eval) (hs : Sim body heap p q s m A vals)
    (args : List Operand) (idx c : Nat) (h : A.eval_at body args idx = some c) :
    c < A.calls.length ∧
    s.resolveEvalArg body args idx = resolveNode (A.calls.foldl lift_call {}).valueToNode c ∧
    ∃ e, vals[c]? = some e ∧ m.eval_arg p q args idx = some e := by
  unfold Bindings.eval_at at h
  cases ha : args[idx]? with
  | none => simp [ha] at h
  | some v =>
    rw [ha, Option.some_bind] at h
    obtain ⟨h1, h2, e, h3, h4⟩ := use_spec body heap p q s m A vals hs v c h
    refine ⟨h1, ?_, e, h3, ?_⟩
    · unfold RunState.resolveEvalArg
      rw [ha]
      exact h2
    · unfold Machine.eval_arg
      rw [ha]
      simp only [h4]

theorem const_at_spec (p q : Int) (m : Machine) (args : List Operand) (idx : Nat) (v : Int)
    (h : const_at args idx = some v) :
    getConstInt (args.getD idx .other) 0 = v ∧ m.int_arg p q args idx = some v := by
  unfold const_at at h
  cases ha : args[idx]? with
  | none => simp [ha] at h
  | some o =>
    cases o with
    | const_int c =>
      simp only [ha] at h
      by_cases hc : is_int32 c
      · rw [if_pos hc] at h
        simp only [Option.some.injEq] at h
        subst h
        refine ⟨?_, ?_⟩
        · rw [List.getD_eq_getElem?_getD, ha]
          show wrap32 c = c
          unfold is_int32 at hc
          exact wrap32_id c hc.1 (by omega)
        · unfold Machine.int_arg
          rw [ha]
          rfl
      · rw [if_neg hc] at h
        cases h
    | inst i => simp [ha] at h
    | const_string s => simp [ha] at h
    | param x => simp [ha] at h
    | pointer ptr => simp [ha] at h
    | other => simp [ha] at h

theorem value_param (body : List Instr) (heap : Heap) (p q : Int) (s : RunState) (m : Machine)
    (A : Bindings) (vals : List Eval) (hs : Sim body heap p q s m A vals) (v : Operand)
    (x : Param) (h : A.value v = .param x) : m.value p q v = .int (param_value p q x) := by
  cases v with
  | inst i =>
    have h' : A.results.getD i .unknown = .param x := h
    rw [List.getD_eq_getElem?_getD] at h'
    cases hr : A.results[i]? with
    | none => rw [hr] at h'; cases h'
    | some av =>
      rw [hr] at h'
      simp only [Option.getD_some] at h'
      subst h'
      show m.results.getD i Val.unset = _
      rw [List.getD_eq_getElem?_getD, hs.res_param i x hr]
      rfl
  | param y =>
    have h' : AbsVal.param y = .param x := h
    cases h'
    rfl
  | const_int v => cases h
  | const_string s => cases h
  | pointer ptr => cases h
  | other => cases h

theorem run_instr_input (body : List Instr) (s : RunState) (i : Nat) (args : List Operand) :
    run_instr body s i (.call (some "ck_input") args) =
      { builder := (s.builder.getOrAddInput (getConstString (args.getD 0 .other))).1,
        valueToNode :=
          (i, (s.builder.getOrAddInput (getConstString (args.getD 0 .other))).2) ::
            s.valueToNode,
        allocaToNode := s.allocaToNode } := rfl

theorem call_step (body : List Instr) (heap : Heap) (p q : Int) (s : RunState)
    (m : Machine) (A : Bindings) (vals : List Eval) (hs : Sim body heap p q s m A vals)
    (i : Nat) (name : String) (args : List Operand) (call : Call)
    (hc : A.call_of body name args = some call) :
    ∃ r, exec_call heap p q vals call = some r ∧ call.wf A.calls.length = true ∧
      exec_instr heap p q m (.call (some name) args) = some (m.push (.eval r)) ∧
      CallStep body s A i name args call := by
  unfold Bindings.call_of at hc
  by_cases h1 : name = "ck_input"
  · rw [if_pos h1] at hc
    subst h1
    split at hc
    · rename_i nm x hn hx
      by_cases hw : (Call.ck_input nm x).wf 0 = true
      · rw [if_pos hw] at hc
        simp only [Option.some.injEq] at hc
        subst hc
        cases h1a : args[1]? with
        | none => simp [h1a] at hx
        | some v =>
          simp only [h1a, Option.map_some', Option.some.injEq] at hx
          have hv := value_param body heap p q s m A vals hs v x hx
          have hname : getConstString (args.getD 0 .other) = nm := by
            rw [List.getD_eq_getElem?_getD, hn]
            rfl
          have hstr : string_arg args 0 = nm := by
            unfold string_arg
            rw [hn]
          refine ⟨ck_input nm (param_value p q x), rfl, ?_, ?_, _, rfl, ?_⟩
          · simpa [Call.wf] using hw
          · show (m.int_arg p q args 1).map _ = _
            unfold Machine.int_arg
            rw [h1a]
            simp only [hv, Option.map_some', hstr]
          · rw [run_instr_input, hs.builder, hname]
            rfl
      · rw [if_neg hw] at hc
        cases hc
    · cases hc
  rw [if_neg h1] at hc
  by_cases h2 : name = "ck_const_int"
  · rw [if_pos h2] at hc
    subst h2
    cases h0 : const_at args 0 with
    | none => simp [h0] at hc
    | some v =>
      simp only [h0, Option.map_some', Option.some.injEq] at hc
      subst hc
      obtain ⟨a1, a2⟩ := const_at_spec p q m args 0 v h0
      refine ⟨ck_const_int v, rfl, rfl, ?_, _, rfl, ?_⟩
      · show (m.int_arg p q args 0).map _ = _
        rw [a2]; rfl
      · show s.emit i s.builder _ = _
        rw [hs.builder, a1]
        rfl
  rw [if_neg h2] at hc
  by_cases h3 : name = "ck_const_null"
  · rw [if_pos h3] at hc
    subst h3
    simp only [Option.some.injEq] at hc
    subst hc
    refine ⟨ck_const_null, rfl, rfl, rfl, _, rfl, ?_⟩
    show s.emit i s.builder _ = _
    rw [hs.builder]
    rfl
  rw [if_neg h3] at hc
  by_cases h4 : name = "ck_guard_nonnull"
  · rw [if_pos h4] at hc
    subst h4
    cases h0 : A.eval_at body args 0 with
    | none => simp [h0] at hc
    | some c =>
      simp only [h0, Option.map_some', Option.some.injEq] at hc
      subst hc
      obtain ⟨a1, a2, e, a3, a4⟩ := eval_at_spec body heap p q s m A vals hs args 0 c h0
      refine ⟨ck_guard_nonnull e, by simp [exec_call, a3], by simp [Call.wf, a1], ?_, _, rfl, ?_⟩
      · show (m.eval_arg p q args 0).map _ = _
        rw [a4]; rfl
      · show s.emit i s.builder _ = _
        rw [hs.builder, a2]
        rfl
  rw [if_neg h4] at hc
  by_cases h5 : name = "ck_guard_eq"
  · rw [if_pos h5] at hc
    subst h5
    cases h0 : A.eval_at body args 0 with
    | none => simp [h0] at hc
    | some c =>
      cases h0b : A.eval_at body args 2 with
      | none => simp [h0, h0b] at hc
      | some d =>
        simp only [h0, h0b, Option.some_bind, Option.map_some', Option.some.injEq] at hc
        subst hc
        obtain ⟨a1, a2, e, a3, a4⟩ := eval_at_spec body heap p q s m A vals hs args 0 c h0
        obtain ⟨b1, b2, f, b3, b4⟩ := eval_at_spec body heap p q s m A vals hs args 2 d h0b
        refine ⟨ck_guard_eq e f, by simp [exec_call, a3, b3], by simp [Call.wf, a1, b1], ?_,
          _, rfl, ?_⟩
        · show (m.eval_arg p q args 0).bind _ = _
          rw [a4, Option.some_bind, b4]; rfl
        · show s.emit i s.builder _ = _
          rw [hs.builder, a2, b2]
          rfl
  rw [if_neg h5] at hc
  by_cases h6 : name = "ck_load_ptr"
  · rw [if_pos h6] at hc
    subst h6
    cases h0 : A.eval_at body args 1 with
    | none => simp [h0] at hc
    | some c =>
      simp only [h0, Option.map_some', Option.some.injEq] at hc
      subst hc
      obtain ⟨a1, a2, e, a3, a4⟩ := eval_at_spec body heap p q s m A vals hs args 1 c h0
      refine ⟨ck_load_ptr heap e, by simp [exec_call, a3], by simp [Call.wf, a1], ?_, _, rfl, ?_⟩
      · show (m.eval_arg p q args 1).map _ = _
        rw [a4]; rfl
      · show s.emit i (addGuardedPtr s.builder _).1 _ = _
        rw [hs.builder, a2]
        rfl
  rw [if_neg h6] at hc
  by_cases h7 : name = "ck_load_int"
  · rw [if_pos h7] at hc
    subst h7
    cases h0 : A.eval_at body args 1 with
    | none => simp [h0] at hc
    | some c =>
      simp only [h0, Option.map_some', Option.some.injEq] at hc
      subst hc
      obtain ⟨a1, a2, e, a3, a4⟩ := eval_at_spec body heap p q s m A vals hs args 1 c h0
      refine ⟨ck_load_int heap e, by simp [exec_call, a3], by simp [Call.wf, a1], ?_, _, rfl, ?_⟩
      · show (m.eval_arg p q args 1).map _ = _
        rw [a4]; rfl
      · show s.emit i (addGuardedPtr s.builder _).1 _ = _
        rw [hs.builder, a2]
        rfl
  rw [if_neg h7] at hc
  by_cases h8 : name = "ck_getfield"
  · rw [if_pos h8] at hc
    subst h8
    cases h0 : A.eval_at body args 1 with
    | none => simp [h0] at hc
    | some c =>
      cases h0b : const_at args 3 with
      | none => simp [h0, h0b] at hc
      | some fld =>
        simp only [h0, h0b, Option.some_bind, Option.map_some', Option.some.injEq] at hc
        subst hc
        obtain ⟨a1, a2, e, a3, a4⟩ := eval_at_spec body heap p q s m A vals hs args 1 c h0
        obtain ⟨b1, b2⟩ := const_at_spec p q m args 3 fld h0b
        refine ⟨ck_getfield heap e fld, by simp [exec_call, a3], by simp [Call.wf, a1], ?_,
          _, rfl, ?_⟩
        · show (m.eval_arg p q args 1).bind _ = _
          rw [a4, Option.some_bind, b2]; rfl
        · show s.emit i (addGuardedPtr s.builder _).1 _ = _
          rw [hs.builder, a2, b1]
          rfl
  rw [if_neg h8] at hc
  by_cases h9 : name = "ck_getfield_int"
  · rw [if_pos h9] at hc
    subst h9
    cases h0 : A.eval_at body args 1 with
    | none => simp [h0] at hc
    | some c =>
      cases h0b : const_at args 3 with
      | none => simp [h0, h0b] at hc
      | some fld =>
        simp only [h0, h0b, Option.some_bind, Option.map_some', Option.some.injEq] at hc
        subst hc
        obtain ⟨a1, a2, e, a3, a4⟩ := eval_at_spec body heap p q s m A vals hs args 1 c h0
        obtain ⟨b1, b2⟩ := const_at_spec p q m args 3 fld h0b
        refine ⟨ck_getfield_int heap e fld, by simp [exec_call, a3], by simp [Call.wf, a1], ?_,
          _, rfl, ?_⟩
        · show (m.eval_arg p q args 1).bind _ = _
          rw [a4, Option.some_bind, b2]; rfl
        · show s.emit i (addGuardedPtr s.builder _).1 _ = _
          rw [hs.builder, a2, b1]
          rfl
  rw [if_neg h9] at hc
  by_cases h10 : name = "ck_select"
  · rw [if_pos h10] at hc
    subst h10
    cases h0 : A.eval_at body args 0 with
    | none => simp [h0] at hc
    | some c =>
      cases h0b : A.eval_at body args 2 with
      | none => simp [h0, h0b] at hc
      | some d =>
        cases h0c : A.eval_at body args 4 with
        | none => simp [h0, h0b, h0c] at hc
        | some g =>
          simp only [h0, h0b, h0c, Option.some_bind, Option.map_some', Option.some.injEq] at hc
          subst hc
          obtain ⟨a1, a2, e, a3, a4⟩ := eval_at_spec body heap p q s m A vals hs args 0 c h0
          obtain ⟨b1, b2, f, b3, b4⟩ := eval_at_spec body heap p q s m A vals hs args 2 d h0b
          obtain ⟨c1, c2, k, c3, c4⟩ := eval_at_spec body heap p q s m A vals hs args 4 g h0c
          refine ⟨ck_select e f k, by simp [exec_call, a3, b3, c3],
            by simp [Call.wf, a1, b1, c1], ?_, _, rfl, ?_⟩
          · show (m.eval_arg p q args 0).bind _ = _
            rw [a4, Option.some_bind, b4, Option.some_bind, c4]; rfl
          · show s.emit i s.builder _ = _
            rw [hs.builder, a2, b2, c2]
            rfl
  rw [if_neg h10] at hc
  by_cases h11 : name = "ck_add"
  · rw [if_pos h11] at hc
    subst h11
    cases h0 : A.eval_at body args 0 with
    | none => simp [h0] at hc
    | some c =>
      cases h0b : A.eval_at body args 2 with
      | none => simp [h0, h0b] at hc
      | some d =>
        simp only [h0, h0b, Option.some_bind, Option.map_some', Option.some.injEq] at hc
        subst hc
        obtain ⟨a1, a2, e, a3, a4⟩ := eval_at_spec body heap p q s m A vals hs args 0 c h0
        obtain ⟨b1, b2, f, b3, b4⟩ := eval_at_spec body heap p q s m A vals hs args 2 d h0b
        refine ⟨ck_add e f, by simp [exec_call, a3, b3], by simp [Call.wf, a1, b1], ?_,
          _, rfl, ?_⟩
        · show (m.eval_arg p q args 0).bind _ = _
          rw [a4, Option.some_bind, b4]; rfl
        · show s.emit i s.builder _ = _
          rw [hs.builder, a2, b2]
          rfl
  rw [if_neg h11] at hc
  cases hc

theorem getElem?_snoc_old {α : Type} (l : List α) (x y : α) (i : Nat)
    (h : (l ++ [x])[i]? = some y) (hne : i ≠ l.length) : l[i]? = some y ∧ i < l.length := by
  by_cases hlt : i < l.length
  · rw [List.getElem?_append_left hlt] at h
    exact ⟨h, hlt⟩
  · rw [List.getElem?_eq_none (by simp only [List.length_append, List.length_singleton]; omega)]
      at h
    cases h

theorem getElem?_snoc_new {α : Type} (l : List α) (x : α) : (l ++ [x])[l.length]? = some x := by
  simp

theorem getElem?_lt {α : Type} (l : List α) (i : Nat) (x : α) (h : l[i]? = some x) :
    i < l.length := by
  by_contra hge
  rw [List.getElem?_eq_none (by omega)] at h
  cases h

theorem getElem?_snoc_keep {α : Type} (l : List α) (x y : α) (i : Nat) (h : l[i]? = some y) :
    (l ++ [x])[i]? = some y := by
  rw [List.getElem?_append_left (getElem?_lt l i y h)]
  exact h

/-- The invariant after a call instruction that stands for a checked-runtime call. -/
theorem sim_call (body : List Instr) (heap : Heap) (p q : Int) (s : RunState) (m : Machine)
    (A : Bindings) (vals : List Eval) (hs : Sim body heap p q s m A vals)
    (name : String) (args : List Operand) (call : Call)
    (hc : A.call_of body name args = some call) :
    ∃ m' vals', exec_instr heap p q m (.call (some name) args) = some m' ∧
      Sim body heap p q (run_instr body s A.results.length (.call (some name) args)) m'
        { A with results := A.results ++ [.call A.calls.length], calls := A.calls ++ [call] }
        vals' := by
  obtain ⟨r, hr, hwf, hex, id, hid, hrun⟩ :=
    call_step body heap p q s m A vals hs A.results.length name args call hc
  refine ⟨m.push (.eval r), vals ++ [r], hex, ?_⟩
  rw [hrun]
  have hfold : (A.calls ++ [call]).foldl lift_call {} =
      lift_call (A.calls.foldl lift_call {}) call := by
    rw [List.foldl_append]; rfl
  obtain ⟨st, stl⟩ := lift_call_struct (A.calls.foldl lift_call {}) call hs.struct
    (by rw [hs.vt_len]; exact wf_operands _ _ hwf)
  have hold : ∀ c, c < A.calls.length →
      ((A.calls.foldl lift_call {}).valueToNode ++ [id]).getD c 0 =
        (A.calls.foldl lift_call {}).valueToNode.getD c 0 :=
    fun c hlt => getD_snoc_lt _ id c (by rw [hs.vt_len]; exact hlt)
  have hvold : ∀ c e, vals[c]? = some e → (vals ++ [r])[c]? = some e :=
    fun c e h => getElem?_snoc_keep vals r e c h
  have hclt : ∀ c e, vals[c]? = some e → c < A.calls.length := by
    intro c e h
    rw [← hs.vals_len]
    exact getElem?_lt vals c e h
  constructor
  · show _ = ((A.calls ++ [call]).foldl lift_call {}).builder
    rw [hfold]
  · show StructInv ((A.calls ++ [call]).foldl lift_call {})
    rw [hfold]; exact st
  · show ((A.calls ++ [call]).foldl lift_call {}).valueToNode.length = (A.calls ++ [call]).length
    rw [hfold, stl, hs.vt_len]; simp
  · exact run_calls_snoc heap p q A.calls call vals r hs.run hr
  · show (vals ++ [r]).length = (A.calls ++ [call]).length
    simp [hs.vals_len]
  · exact calls_wf_snoc A.calls call hs.wf hwf
  · show (m.results ++ [Val.eval r]).length = (A.results ++ [AbsVal.call A.calls.length]).length
    simp [hs.len]
  · intro i c h
    have h' : (A.results ++ [AbsVal.call A.calls.length])[i]? = some (AbsVal.call c) := h
    show ∃ e, (vals ++ [r])[c]? = some e ∧ (m.results ++ [Val.eval r])[i]? = some (Val.eval e)
    by_cases hi : i = A.results.length
    · subst hi
      rw [getElem?_snoc_new] at h'
      simp only [Option.some.injEq, AbsVal.call.injEq] at h'
      subst h'
      refine ⟨r, ?_, ?_⟩
      · rw [← hs.vals_len]; exact getElem?_snoc_new vals r
      · rw [← hs.len]; exact getElem?_snoc_new m.results _
    · obtain ⟨h1, -⟩ := getElem?_snoc_old _ _ _ _ h' hi
      obtain ⟨e, he, hm⟩ := hs.res_call i c h1
      exact ⟨e, hvold c e he, getElem?_snoc_keep _ _ _ _ hm⟩
  · intro i x h
    have h' : (A.results ++ [AbsVal.call A.calls.length])[i]? = some (AbsVal.param x) := h
    show (m.results ++ [Val.eval r])[i]? = _
    by_cases hi : i = A.results.length
    · subst hi
      rw [getElem?_snoc_new] at h'
      cases h'
    · obtain ⟨h1, -⟩ := getElem?_snoc_old _ _ _ _ h' hi
      exact getElem?_snoc_keep _ _ _ _ (hs.res_param i x h1)
  · intro i c callee args' hb h
    have h' : (A.results ++ [AbsVal.call A.calls.length])[i]? = some (AbsVal.call c) := h
    show List.lookup i ((A.results.length, id) :: s.valueToNode) =
      some (((A.calls ++ [call]).foldl lift_call {}).valueToNode.getD c 0)
    rw [hfold, hid]
    by_cases hi : i = A.results.length
    · subst hi
      rw [getElem?_snoc_new] at h'
      simp only [Option.some.injEq, AbsVal.call.injEq] at h'
      subst h'
      rw [← hs.vt_len, getD_snoc_eq]
      simp [List.lookup_cons]
    · obtain ⟨h1, -⟩ := getElem?_snoc_old _ _ _ _ h' hi
      obtain ⟨e, he, -⟩ := hs.res_call i c h1
      rw [hold c (hclt c e he)]
      have hne : (i == A.results.length) = false := by simpa using hi
      rw [List.lookup_cons, hne]
      exact hs.value_map i c callee args' hb h1
  · intro a c h
    have h' : A.cells.lookup a = some (AbsVal.call c) := h
    obtain ⟨h1, e, he, hm⟩ := hs.cell_call a c h'
    show List.lookup a s.allocaToNode =
        some (((A.calls ++ [call]).foldl lift_call {}).valueToNode.getD c 0) ∧
      ∃ e, (vals ++ [r])[c]? = some e ∧ m.memory.lookup (a, 0) = some (Val.eval e)
    rw [hfold, hid, hold c (hclt c e he)]
    exact ⟨h1, e, hvold c e he, hm⟩
  · intro a x h
    exact hs.cell_param a x h

/-- The invariant after an instruction that emits no node: the builder, valueToNode and the
calls are unchanged, one result is added, and the bindings are as the instruction leaves
them. -/
theorem sim_frame (body : List Instr) (heap : Heap) (p q : Int) (s s' : RunState)
    (m m' : Machine) (A A' : Bindings) (vals : List Eval)
    (hs : Sim body heap p q s m A vals)
    (hb : s'.builder = s.builder) (hv : s'.valueToNode = s.valueToNode)
    (hcalls : A'.calls = A.calls) (av : AbsVal) (mv : Val)
    (hres : A'.results = A.results ++ [av]) (hmres : m'.results = m.results ++ [mv])
    (hnew_call : ∀ c : Nat, av = AbsVal.call c →
      (∀ callee args, body[A.results.length]? ≠ some (Instr.call callee args)) ∧
      ∃ e, vals[c]? = some e ∧ mv = Val.eval e)
    (hnew_param : ∀ x : Param, av = AbsVal.param x → mv = Val.int (param_value p q x))
    (hcell_call : ∀ (a c : Nat), A'.cells.lookup a = some (AbsVal.call c) →
      s'.allocaToNode.lookup a = some ((A.calls.foldl lift_call {}).valueToNode.getD c 0) ∧
      ∃ e, vals[c]? = some e ∧ m'.memory.lookup (a, 0) = some (Val.eval e))
    (hcell_param : ∀ (a : Nat) (x : Param), A'.cells.lookup a = some (AbsVal.param x) →
      m'.memory.lookup (a, 0) = some (Val.int (param_value p q x))) :
    Sim body heap p q s' m' A' vals := by
  constructor
  · rw [hb, hcalls]; exact hs.builder
  · rw [hcalls]; exact hs.struct
  · rw [hcalls]; exact hs.vt_len
  · rw [hcalls]; exact hs.run
  · rw [hcalls]; exact hs.vals_len
  · rw [hcalls]; exact hs.wf
  · rw [hres, hmres]; simp [hs.len]
  · intro i c h
    rw [hres] at h
    rw [hmres]
    by_cases hi : i = A.results.length
    · subst hi
      rw [getElem?_snoc_new] at h
      simp only [Option.some.injEq] at h
      obtain ⟨-, e, he, hm⟩ := hnew_call c h
      refine ⟨e, he, ?_⟩
      rw [← hs.len, getElem?_snoc_new, hm]
    · obtain ⟨h1, -⟩ := getElem?_snoc_old _ _ _ _ h hi
      obtain ⟨e, he, hm⟩ := hs.res_call i c h1
      exact ⟨e, he, getElem?_snoc_keep _ _ _ _ hm⟩
  · intro i x h
    rw [hres] at h
    rw [hmres]
    by_cases hi : i = A.results.length
    · subst hi
      rw [getElem?_snoc_new] at h
      simp only [Option.some.injEq] at h
      rw [← hs.len, getElem?_snoc_new, hnew_param x h]
    · obtain ⟨h1, -⟩ := getElem?_snoc_old _ _ _ _ h hi
      exact getElem?_snoc_keep _ _ _ _ (hs.res_param i x h1)
  · intro i c callee args hbi h
    rw [hres] at h
    rw [hv, hcalls]
    by_cases hi : i = A.results.length
    · subst hi
      rw [getElem?_snoc_new] at h
      simp only [Option.some.injEq] at h
      exact absurd hbi ((hnew_call c h).1 callee args)
    · obtain ⟨h1, -⟩ := getElem?_snoc_old _ _ _ _ h hi
      exact hs.value_map i c callee args hbi h1
  · intro a c h
    rw [hcalls]
    exact hcell_call a c h
  · exact hcell_param

theorem lookup_getD_call (cells : List (Nat × AbsVal)) (a c : Nat)
    (h : (cells.lookup a).getD AbsVal.unknown = AbsVal.call c) :
    cells.lookup a = some (AbsVal.call c) := by
  cases hl : cells.lookup a with
  | none => rw [hl] at h; cases h
  | some v => rw [hl] at h; simp only [Option.getD_some] at h; rw [h]

theorem lookup_getD_param (cells : List (Nat × AbsVal)) (a : Nat) (x : Param)
    (h : (cells.lookup a).getD AbsVal.unknown = AbsVal.param x) :
    cells.lookup a = some (AbsVal.param x) := by
  cases hl : cells.lookup a with
  | none => rw [hl] at h; cases h
  | some v => rw [hl] at h; simp only [Option.getD_some] at h; rw [h]

theorem sim_load (body : List Instr) (heap : Heap) (p q : Int) (s : RunState) (m : Machine)
    (A : Bindings) (vals : List Eval) (hs : Sim body heap p q s m A vals) (ptr : Pointer)
    (hbody : body[A.results.length]? = some (.load ptr)) :
    Sim body heap p q s
      (m.push (match ptr.cell with
        | some c => (m.memory.lookup c).getD .unset
        | none => .unset))
      { A with results := A.results ++ [match ptr.binding with
        | some a => (A.cells.lookup a).getD .unknown
        | none => .unknown] } vals := by
  refine sim_frame body heap p q s s m _ A _ vals hs rfl rfl rfl _ _ rfl rfl ?_ ?_ ?_ ?_
  · intro c hav
    refine ⟨fun callee args hc => ?_, ?_⟩
    · rw [hbody] at hc
      cases hc
    · cases hbind : ptr.binding with
      | none => rw [hbind] at hav; cases hav
      | some a =>
        rw [hbind] at hav
        obtain ⟨-, e, he, hm⟩ := hs.cell_call a c (lookup_getD_call _ _ _ hav)
        refine ⟨e, he, ?_⟩
        rw [(binding_alloca ptr a hbind).2]
        simp only [hm, Option.getD_some]
  · intro x hav
    cases hbind : ptr.binding with
    | none => rw [hbind] at hav; cases hav
    | some a =>
      rw [hbind] at hav
      have hm := hs.cell_param a x (lookup_getD_param _ _ _ hav)
      rw [(binding_alloca ptr a hbind).2]
      simp only [hm, Option.getD_some]
  · exact hs.cell_call
  · exact hs.cell_param

theorem lookup_cons_ne {β : Type} (l : List (Nat × β)) (a b : Nat) (v : β) (h : a ≠ b) :
    List.lookup a ((b, v) :: l) = List.lookup a l := by
  have : (a == b) = false := by simpa using h
  rw [List.lookup_cons, this]

theorem lookup_cons_self {β : Type} (l : List (Nat × β)) (a : Nat) (v : β) :
    List.lookup a ((a, v) :: l) = some v := by
  simp [List.lookup_cons]

theorem memory_cons_ne (l : List ((Nat × Nat) × Val)) (a b : Nat) (v : Val) (h : a ≠ b) :
    List.lookup (a, 0) (((b, 0), v) :: l) = List.lookup (a, 0) l := by
  have : ((a, 0) == (b, 0)) = false := by simpa using h
  rw [List.lookup_cons, this]

theorem memory_cons_self (l : List ((Nat × Nat) × Val)) (a : Nat) (v : Val) :
    List.lookup (a, 0) (((a, 0), v) :: l) = some v := by
  simp [List.lookup_cons]

theorem node_of_call_ne_zero (L : LiftState) (hL : StructInv L) (c : Nat)
    (h : c < L.valueToNode.length) : L.valueToNode.getD c 0 ≠ 0 := by
  have := resolveNode_bound L.valueToNode _ hL.2.2 c h
  unfold resolveNode at this
  omega

theorem sim_store (body : List Instr) (heap : Heap) (p q : Int) (s : RunState) (m : Machine)
    (A : Bindings) (vals : List Eval) (hs : Sim body heap p q s m A vals) (val : Operand)
    (a : Nat) (huse : ∀ c, A.value val = AbsVal.call c → A.eval_use body val = some c) :
    Sim body heap p q (run_instr body s A.results.length (.store val (.alloca a)))
      { results := m.results ++ [.unset], memory := ((a, 0), m.value p q val) :: m.memory }
      { A with results := A.results ++ [.unknown], cells := (a, A.value val) :: A.cells }
      vals := by
  have hrun : run_instr body s A.results.length (.store val (.alloca a)) =
      if s.resolveNode body val ≠ 0 then
        { s with allocaToNode := (a, s.resolveNode body val) :: s.allocaToNode }
      else s := rfl
  have hmap : ∀ b, b ≠ a →
      (run_instr body s A.results.length (.store val (.alloca a))).allocaToNode.lookup b =
        s.allocaToNode.lookup b := by
    intro b hb
    rw [hrun]
    by_cases h0 : s.resolveNode body val ≠ 0
    · rw [if_pos h0]
      exact lookup_cons_ne _ _ _ _ hb
    · rw [if_neg h0]
  refine sim_frame body heap p q s _ m _ A _ vals hs ?_ ?_ rfl .unknown .unset rfl rfl ?_ ?_ ?_ ?_
  · rw [hrun]; split_ifs <;> rfl
  · rw [hrun]; split_ifs <;> rfl
  · intro c h; cases h
  · intro x h; cases h
  · intro b c h
    have h' : List.lookup b ((a, A.value val) :: A.cells) = some (AbsVal.call c) := h
    show _ ∧ ∃ e, vals[c]? = some e ∧
      List.lookup (b, 0) (((a, 0), m.value p q val) :: m.memory) = some (Val.eval e)
    by_cases hba : b = a
    · subst hba
      rw [lookup_cons_self] at h'
      simp only [Option.some.injEq] at h'
      obtain ⟨h1, h2, e, h3, h4⟩ := use_spec body heap p q s m A vals hs val c (huse c h')
      have hne : s.resolveNode body val ≠ 0 := by
        rw [h2]
        exact node_of_call_ne_zero _ hs.struct c (by rw [hs.vt_len]; exact h1)
      refine ⟨?_, e, h3, ?_⟩
      · rw [hrun, if_pos hne]
        show List.lookup b ((b, s.resolveNode body val) :: s.allocaToNode) = _
        rw [lookup_cons_self, h2]
        rfl
      · rw [memory_cons_self, h4]
    · rw [lookup_cons_ne _ _ _ _ hba] at h'
      obtain ⟨h1, e, h2, h3⟩ := hs.cell_call b c h'
      refine ⟨?_, e, h2, ?_⟩
      · rw [hmap b hba]; exact h1
      · rw [memory_cons_ne _ _ _ _ hba]; exact h3
  · intro b x h
    have h' : List.lookup b ((a, A.value val) :: A.cells) = some (AbsVal.param x) := h
    show List.lookup (b, 0) (((a, 0), m.value p q val) :: m.memory) = _
    by_cases hba : b = a
    · subst hba
      rw [lookup_cons_self] at h'
      simp only [Option.some.injEq] at h'
      rw [memory_cons_self, value_param body heap p q s m A vals hs val x h']
    · rw [lookup_cons_ne _ _ _ _ hba] at h'
      rw [memory_cons_ne _ _ _ _ hba]
      exact hs.cell_param b x h'

theorem memcpy_name (name : String) (h : "llvm.memcpy".toList.isPrefixOf name.toList = true) :
    name ≠ "ck_input" ∧ name ≠ "ck_const_int" ∧ name ≠ "ck_const_null" ∧
    name ≠ "ck_guard_nonnull" ∧ name ≠ "ck_guard_eq" ∧ name ≠ "ck_load_ptr" ∧
    name ≠ "ck_load_int" ∧ name ≠ "ck_getfield" ∧ name ≠ "ck_getfield_int" ∧
    name ≠ "ck_select" ∧ name ≠ "ck_add" := by
  refine ⟨?_, ?_, ?_, ?_, ?_, ?_, ?_, ?_, ?_, ?_, ?_⟩ <;>
    (intro e; subst e; exact absurd h (by decide))

theorem run_instr_memcpy (body : List Instr) (s : RunState) (i : Nat) (name : String)
    (args : List Operand) (h : "llvm.memcpy".toList.isPrefixOf name.toList = true) :
    run_instr body s i (.call (some name) args) =
      match arg_alloca args 0, arg_alloca args 1 with
      | some dst, some src =>
        match s.allocaToNode.lookup src with
        | some id => { s with allocaToNode := (dst, id) :: s.allocaToNode }
        | none => s
      | _, _ => s := by
  obtain ⟨n1, n2, n3, n4, n5, n6, n7, n8, n9, n10, n11⟩ := memcpy_name name h
  unfold run_instr
  dsimp only
  rw [if_neg n1, if_neg n2, if_neg n3, if_neg n4, if_neg n5, if_neg n6, if_neg n7, if_neg n8,
    if_neg n9, if_neg n10, if_neg n11, if_pos h]

theorem exec_instr_memcpy (heap : Heap) (p q : Int) (m : Machine) (name : String)
    (args : List Operand) (h : "llvm.memcpy".toList.isPrefixOf name.toList = true) :
    exec_instr heap p q m (.call (some name) args) =
      (m.cell_arg p q args 0).bind fun dst => (m.cell_arg p q args 1).map fun src =>
      { results := m.results ++ [.unset],
        memory := (dst, (m.memory.lookup src).getD .unset) :: m.memory } := by
  obtain ⟨n1, n2, n3, n4, n5, n6, n7, n8, n9, n10, n11⟩ := memcpy_name name h
  unfold exec_instr
  dsimp only
  rw [if_neg n1, if_neg n2, if_neg n3, if_neg n4, if_neg n5, if_neg n6, if_neg n7, if_neg n8,
    if_neg n9, if_neg n10, if_neg n11, if_pos h]

theorem binding_at_spec (p q : Int) (m : Machine) (args : List Operand) (idx a : Nat)
    (h : binding_at args idx = some a) :
    arg_alloca args idx = some a ∧ m.cell_arg p q args idx = some (a, 0) := by
  unfold binding_at at h
  cases ha : args[idx]? with
  | none => simp [ha] at h
  | some o =>
    cases o with
    | pointer ptr =>
      simp only [ha] at h
      obtain ⟨h1, h2⟩ := binding_alloca ptr a h
      refine ⟨?_, ?_⟩
      · unfold arg_alloca
        rw [ha]
        exact h1
      · unfold Machine.cell_arg Machine.value
        rw [ha]
        simp only [h2]
    | inst i => simp [ha] at h
    | const_int v => simp [ha] at h
    | const_string s => simp [ha] at h
    | param x => simp [ha] at h
    | other => simp [ha] at h

theorem sim_memcpy (body : List Instr) (heap : Heap) (p q : Int) (s : RunState) (m : Machine)
    (A : Bindings) (vals : List Eval) (hs : Sim body heap p q s m A vals) (name : String)
    (args : List Operand) (h : "llvm.memcpy".toList.isPrefixOf name.toList = true)
    (dst src : Nat) (hd : binding_at args 0 = some dst) (hsr : binding_at args 1 = some src) :
    ∃ m', exec_instr heap p q m (.call (some name) args) = some m' ∧
      Sim body heap p q (run_instr body s A.results.length (.call (some name) args)) m'
        { A with results := A.results ++ [.unknown],
                 cells := (dst, (A.cells.lookup src).getD .unknown) :: A.cells } vals := by
  obtain ⟨d1, d2⟩ := binding_at_spec p q m args 0 dst hd
  obtain ⟨s1, s2⟩ := binding_at_spec p q m args 1 src hsr
  have hrun : run_instr body s A.results.length (.call (some name) args) =
      match s.allocaToNode.lookup src with
      | some id => { s with allocaToNode := (dst, id) :: s.allocaToNode }
      | none => s := by
    rw [run_instr_memcpy body s _ name args h, d1, s1]
  have hmap : ∀ b, b ≠ dst →
      (run_instr body s A.results.length (.call (some name) args)).allocaToNode.lookup b =
        s.allocaToNode.lookup b := by
    intro b hb
    rw [hrun]
    cases s.allocaToNode.lookup src with
    | none => rfl
    | some id => exact lookup_cons_ne _ _ _ _ hb
  refine ⟨{ results := m.results ++ [.unset],
            memory := ((dst, 0), (m.memory.lookup (src, 0)).getD .unset) :: m.memory }, ?_, ?_⟩
  · rw [exec_instr_memcpy heap p q m name args h, d2, s2]
    rfl
  refine sim_frame body heap p q s _ m _ A _ vals hs ?_ ?_ rfl .unknown .unset rfl rfl ?_ ?_ ?_ ?_
  · rw [hrun]; cases s.allocaToNode.lookup src <;> rfl
  · rw [hrun]; cases s.allocaToNode.lookup src <;> rfl
  · intro c h; cases h
  · intro x h; cases h
  · intro b c hl
    have h' : List.lookup b ((dst, (A.cells.lookup src).getD .unknown) :: A.cells) =
        some (AbsVal.call c) := hl
    show _ ∧ ∃ e, vals[c]? = some e ∧
      List.lookup (b, 0) (((dst, 0), (m.memory.lookup (src, 0)).getD .unset) :: m.memory) =
        some (Val.eval e)
    by_cases hbd : b = dst
    · subst hbd
      rw [lookup_cons_self] at h'
      simp only [Option.some.injEq] at h'
      obtain ⟨h1, e, h2, h3⟩ := hs.cell_call src c (lookup_getD_call _ _ _ h')
      refine ⟨?_, e, h2, ?_⟩
      · rw [hrun, h1]
        exact lookup_cons_self _ _ _
      · rw [memory_cons_self, h3]
        rfl
    · rw [lookup_cons_ne _ _ _ _ hbd] at h'
      obtain ⟨h1, e, h2, h3⟩ := hs.cell_call b c h'
      refine ⟨?_, e, h2, ?_⟩
      · rw [hmap b hbd]; exact h1
      · rw [memory_cons_ne _ _ _ _ hbd]; exact h3
  · intro b x hl
    have h' : List.lookup b ((dst, (A.cells.lookup src).getD .unknown) :: A.cells) =
        some (AbsVal.param x) := hl
    show List.lookup (b, 0)
      (((dst, 0), (m.memory.lookup (src, 0)).getD .unset) :: m.memory) = _
    by_cases hbd : b = dst
    · subst hbd
      rw [lookup_cons_self] at h'
      simp only [Option.some.injEq] at h'
      rw [memory_cons_self, hs.cell_param src x (lookup_getD_param _ _ _ h')]
      rfl
    · rw [lookup_cons_ne _ _ _ _ hbd] at h'
      rw [memory_cons_ne _ _ _ _ hbd]
      exact hs.cell_param b x h'

/-- One instruction: the analysis accepts it, so it executes, and the invariant holds after
it. -/
theorem sim_step (body : List Instr) (heap : Heap) (p q : Int) (s : RunState) (m : Machine)
    (A A1 : Bindings) (vals : List Eval) (hs : Sim body heap p q s m A vals) (instr : Instr)
    (hbody : body[A.results.length]? = some instr)
    (hbind : bind_instr body A instr = some A1) :
    ∃ m1 vals1, exec_instr heap p q m instr = some m1 ∧
      Sim body heap p q (run_instr body s A.results.length instr) m1 A1 vals1 ∧
      A1.results.length = A.results.length + 1 := by
  cases instr with
  | call callee args =>
    cases callee with
    | none => cases hbind
    | some name =>
      unfold bind_instr at hbind
      dsimp only at hbind
      by_cases hp : "llvm.memcpy".toList.isPrefixOf name.toList = true
      · rw [if_pos hp] at hbind
        cases hd : binding_at args 0 with
        | none => simp [hd] at hbind
        | some dst =>
          cases hsr : binding_at args 1 with
          | none => simp [hd, hsr] at hbind
          | some src =>
            simp only [hd, hsr, Option.some_bind, Option.map_some', Option.some.injEq] at hbind
            subst hbind
            obtain ⟨m', h1, h2⟩ := sim_memcpy body heap p q s m A vals hs name args hp dst src
              hd hsr
            exact ⟨m', vals, h1, h2, by simp⟩
      · rw [if_neg hp] at hbind
        cases hc : A.call_of body name args with
        | none => simp [hc] at hbind
        | some call =>
          simp only [hc, Option.map_some', Option.some.injEq] at hbind
          subst hbind
          obtain ⟨m', vals', h1, h2⟩ := sim_call body heap p q s m A vals hs name args call hc
          exact ⟨m', vals', h1, h2, by simp⟩
  | load ptr =>
    simp only [bind_instr, Option.some.injEq] at hbind
    subst hbind
    exact ⟨_, vals, rfl, sim_load body heap p q s m A vals hs ptr hbody, by simp⟩
  | store val ptr =>
    cases ptr with
    | alloca a =>
      have hA : A1 = { A with results := A.results ++ [.unknown],
                              cells := (a, A.value val) :: A.cells } ∧
          ∀ c, A.value val = AbsVal.call c → A.eval_use body val = some c := by
        unfold bind_instr at hbind
        dsimp only at hbind
        cases hv : A.value val with
        | call c =>
          simp only [hv] at hbind
          by_cases hu : A.eval_use body val = some c
          · rw [if_pos hu] at hbind
            simp only [Option.some.injEq] at hbind
            refine ⟨hbind.symm, ?_⟩
            intro c' hc'
            cases hc'
            exact hu
          · rw [if_neg hu] at hbind
            cases hbind
        | param x =>
          simp only [hv, Option.some.injEq] at hbind
          exact ⟨hbind.symm, fun c' hc' => by cases hc'⟩
        | unknown =>
          simp only [hv, Option.some.injEq] at hbind
          exact ⟨hbind.symm, fun c' hc' => by cases hc'⟩
      obtain ⟨hA1, huse⟩ := hA
      subst hA1
      exact ⟨_, vals, rfl, sim_store body heap p q s m A vals hs val a huse, by simp⟩
    | gep a index => cases hbind
    | other => cases hbind
  | other =>
    simp only [bind_instr, Option.some.injEq] at hbind
    subst hbind
    refine ⟨m.push .unset, vals, rfl, ?_, by simp⟩
    exact sim_frame body heap p q s s m _ A _ vals hs rfl rfl rfl .unknown .unset rfl rfl
      (fun c h => by cases h) (fun x h => by cases h) hs.cell_call hs.cell_param

theorem bind_instr_length (body : List Instr) (heap : Heap) (p q : Int) (s : RunState)
    (m : Machine) (A A1 : Bindings) (vals : List Eval) (hs : Sim body heap p q s m A vals)
    (instr : Instr) (hbody : body[A.results.length]? = some instr)
    (hbind : bind_instr body A instr = some A1) :
    A1.results.length = A.results.length + 1 := by
  obtain ⟨_, _, _, _, h⟩ := sim_step body heap p q s m A A1 vals hs instr hbody hbind
  exact h

end Deref
